import Mathlib

/-!
The tsMuxer Matroska muxer: EBML primitives, AV1 LEB128 / OBU reformat, muxer core.

A shallow embedding of `src/tsMuxer/matroskaMuxer.cpp` and `src/tsMuxer/av1.cpp`.
Byte buffers are `List Nat` (every element below 256), `uint64_t` values are `Nat`,
`int64_t` values are `Int`.
-/

namespace TsMuxer

/-! ## EBML writing utilities (matroskaMuxer.cpp, lines 37-173) -/

/-- The loop `for (int i = n - 1; i >= 0; --i) dst[n - 1 - i] = (value >> (i * 8)) & 0xFF`
shared by all EBML writers: the `n` low bytes of `value`, most significant first. -/
def writeBE (value : Nat) : Nat → List Nat
  | 0 => []
  | i + 1 => ((value >>> (i * 8)) &&& 0xFF) :: writeBE value i

/-- Function `ebml_id_size`. -/
def ebml_id_size (id : Nat) : Nat :=
  if id < 0x80 then 0
  else if id ≤ 0xFF then 1
  else if id ≤ 0xFFFF then 2
  else if id ≤ 0xFFFFFF then 3
  else 4

/-- Function `ebml_write_id`: the bytes written to `dst`; the return value is their count. -/
def ebml_write_id (id : Nat) : List Nat :=
  writeBE id (ebml_id_size id)

/-- Function `ebml_size_size`. -/
def ebml_size_size (size : Nat) : Nat :=
  if size < 0x7F then 1
  else if size < 0x3FFF then 2
  else if size < 0x1FFFFF then 3
  else if size < 0x0FFFFFFF then 4
  else if size < 0x07FFFFFFFF then 5
  else if size < 0x03FFFFFFFFFF then 6
  else if size < 0x01FFFFFFFFFFFF then 7
  else 8

/-- Function `ebml_write_size_fixed`: the big-endian bytes of `size`, then
`dst[0] |= static_cast<uint8_t>(1 << (8 - bytes))`. The return value is `bytes`. -/
def ebml_write_size_fixed (size : Nat) (bytes : Nat) : List Nat :=
  match writeBE size bytes with
  | [] => []
  | b :: rest => (b ||| ((1 <<< (8 - bytes)) % 256)) :: rest

/-- Function `ebml_write_size`. -/
def ebml_write_size (size : Nat) : List Nat :=
  ebml_write_size_fixed size (ebml_size_size size)

/-- Function `ebml_write_unknown_size`: first byte `0xFF >> (bytes - 1)`, then `0xFF` bytes. -/
def ebml_write_unknown_size (bytes : Nat) : List Nat :=
  match bytes with
  | 0 => []
  | k + 1 => (0xFF >>> k) :: List.replicate k 0xFF

/-! ### Reading a data-size VINT back (the reader the round-trip claims refer to) -/

/-- One plus the number of leading zero bits of an 8-bit byte (9 for the byte 0). -/
def vintWidth (b0 : Nat) : Nat :=
  if 0x80 ≤ b0 then 1
  else if 0x40 ≤ b0 then 2
  else if 0x20 ≤ b0 then 3
  else if 0x10 ≤ b0 then 4
  else if 0x08 ≤ b0 then 5
  else if 0x04 ≤ b0 then 6
  else if 0x02 ≤ b0 then 7
  else if 0x01 ≤ b0 then 8
  else 9

/-- Big-endian value of a byte string. -/
def beValue (bytes : List Nat) : Nat :=
  bytes.foldl (fun acc b => acc * 256 + b) 0

/-- EBML data-size VINT reader: the width `k` is one plus the number of leading zero
bits of the first byte, the value is the `k` bytes read big-endian with the marker
bit (bit `8 - k` of the first byte, which is set) cleared. Returns `(k, value)`. -/
def vintDecode (bytes : List Nat) : Option (Nat × Nat) :=
  match bytes with
  | [] => none
  | b0 :: rest =>
    let k := vintWidth b0
    if k ≤ 8 ∧ k - 1 ≤ rest.length then
      some (k, beValue ((b0 - 2 ^ (8 - k)) :: rest.take (k - 1)))
    else none

/-! ## LEB128 (av1.cpp lines 13-46) -/

/-- Loop of `encodeLeb128` (a do-while): `fuel` bounds the number of iterations. -/
def encodeLeb128Loop : Nat → Nat → List Nat
  | 0, _ => []
  | fuel + 1, value =>
    let byte := value &&& 0x7F
    let value' := value >>> 7
    if value' > 0 then (byte ||| 0x80) :: encodeLeb128Loop fuel value'
    else [byte]

/-- Function `encodeLeb128`: the bytes written; the return value is their count.
The argument is a `uint64_t`, which ten iterations of the loop always exhaust. -/
def encodeLeb128 (value : Nat) : List Nat :=
  encodeLeb128Loop 10 value

/-- Loop of `decodeLeb128`, `for (int i = 0; i < 8; i++)`; `rem` is the number of
iterations left, `buf[i]? = none` is `buf + i >= end`. Returns `(result, bytesRead)`. -/
def decodeLeb128Loop : Nat → Nat → Nat → List Nat → Int × Nat
  | 0, i, _, _ => (-1, i)
  | rem + 1, i, value, buf =>
    match buf[i]? with
    | none => (-1, i)
    | some byte =>
      let value' := value ||| ((byte &&& 0x7f) <<< (i * 7))
      if byte &&& 0x80 = 0 then ((value' : Int), i + 1)
      else decodeLeb128Loop rem (i + 1) value' buf

/-- Function `decodeLeb128`: returns the value (or `-1`) and `bytesRead`. -/
def decodeLeb128 (buf : List Nat) : Int × Nat :=
  decodeLeb128Loop 8 0 0 buf

/-! ## AV1 OBU header (av1.h, av1.cpp lines 52-88) -/

/-- Value `Av1ObuType::SEQUENCE_HEADER`. -/
def SEQUENCE_HEADER : Nat := 1
/-- Value `Av1ObuType::TEMPORAL_DELIMITER`. -/
def TEMPORAL_DELIMITER : Nat := 2
/-- Value `Av1ObuType::FRAME_HEADER`. -/
def FRAME_HEADER : Nat := 3
/-- Value `Av1ObuType::FRAME`. -/
def FRAME : Nat := 6

/-- Struct `Av1ObuHeader`; `obu_type` is the 4-bit type code. -/
structure Av1ObuHeader where
  obu_type : Nat
  obu_extension_flag : Bool
  obu_has_size_field : Bool
  temporal_id : Nat
  spatial_id : Nat
deriving DecidableEq, Repr

/-- Method `Av1ObuHeader::parse(buf, end)` on the bytes `buf .. end`: the parsed header
and the number of header bytes, or `none` where the source returns `-1`. -/
def Av1ObuHeader.parse (buf : List Nat) : Option (Av1ObuHeader × Nat) :=
  match buf with
  | [] => none
  | b0 :: rest =>
    if b0 &&& 0x80 ≠ 0 then none
    else if b0 &&& 0x01 ≠ 0 then none
    else
      let obu_type := (b0 >>> 3) &&& 0x0f
      let obu_extension_flag := decide ((b0 >>> 2) &&& 1 ≠ 0)
      let obu_has_size_field := decide ((b0 >>> 1) &&& 1 ≠ 0)
      if obu_extension_flag then
        match rest with
        | [] => none
        | b1 :: _ =>
          some ({ obu_type := obu_type, obu_extension_flag := obu_extension_flag,
                  obu_has_size_field := obu_has_size_field,
                  temporal_id := (b1 >>> 5) &&& 0x07, spatial_id := (b1 >>> 3) &&& 0x03 }, 2)
      else
        some ({ obu_type := obu_type, obu_extension_flag := obu_extension_flag,
                obu_has_size_field := obu_has_size_field,
                temporal_id := 0, spatial_id := 0 }, 1)

/-! ## Start-code scanning and emulation prevention (`NALUnit`, not part of the sources) -/

/-- Offset, from the head of the list, of the first start code `00 00 01`; the length
of the list when there is none. -/
def startCodeOffset : List Nat → Nat
  | [] => 0
  | b :: rest =>
    if ([0, 0, 1] : List Nat).isPrefixOf (b :: rest) then 0 else 1 + startCodeOffset rest

/-- Modelled from the spec: `NALUnit::findNextNAL(buffer, end)` (nalUnits.cpp is missing
from the sources). The spec describes OBUs and NAL units as start-code-prefixed: the
result is the position just after the first start code `00 00 01` that lies at or
after `pos`, or the end of the data when there is none. -/
def findNextNAL (data : List Nat) (pos : Nat) : Nat :=
  min (pos + startCodeOffset (data.drop pos) + 3) data.length

/-- Modelled from the spec: `NALUnit::findNALWithStartCode(buffer, end, longCodesAllowed)`
(nalUnits.cpp is missing from the sources): the position at which the first start code
at or after `pos` begins, or the end of the data when there is none. With
`longCodesAllowed` one zero byte before `00 00 01` (not before `pos`) belongs to the
start code. -/
def findNALWithStartCode (data : List Nat) (pos : Nat) (longCodesAllowed : Bool) : Nat :=
  let p := pos + startCodeOffset (data.drop pos)
  if p < data.length then
    if longCodesAllowed ∧ pos + 1 ≤ p ∧ data[p - 1]? = some 0 then p - 1 else p
  else data.length

/-- Removal of emulation prevention bytes; `zeros` counts the zero bytes just before. -/
def removeEmulationPrevention : Nat → List Nat → List Nat
  | _, [] => []
  | zeros, b :: rest =>
    if 2 ≤ zeros ∧ b = 3 then removeEmulationPrevention 0 rest
    else b :: removeEmulationPrevention (if b = 0 then zeros + 1 else 0) rest

/-- Modelled from the spec: `NALUnit::decodeNAL(src, srcEnd, dst, dstSize)` (nalUnits.cpp
is missing from the sources): "reverse by dropping every `03` that follows two zeros".
The decoded bytes, or `none` (the source's `-1`) when they do not fit in `dstSize`. -/
def NALUnit_decodeNAL (src : List Nat) (dstSize : Nat) : Option (List Nat) :=
  let out := removeEmulationPrevention 0 src
  if out.length ≤ dstSize then some out else none

/-- Function `av1_remove_emulation_prevention` (av1.cpp line 596). -/
def av1_remove_emulation_prevention (src : List Nat) (dstSize : Nat) : Option (List Nat) :=
  NALUnit_decodeNAL src dstSize

/-! ## AV1 start-code format to low-overhead format (matroskaMuxer.cpp lines 907-1029) -/

/-- Local struct `ConvertedObu`: the OBU type and its low-overhead bytes
(header, LEB128 size, raw payload). -/
structure ConvertedObu where
  type : Nat
  bytes : List Nat
deriving DecidableEq, Repr

/-- Pass 1, lines 946-952: the payload of the OBU at `curObu`, still with emulation
prevention bytes: from `curObu + hdrLen` to `nextStartCode`, trailing zero bytes
trimmed (empty when `nextStartCode <= curObu + hdrLen`). -/
def obuPayloadWithEP (data : List Nat) (curObu hdrLen nextStartCode : Nat) : List Nat :=
  ((data.drop (curObu + hdrLen)).take (nextStartCode - (curObu + hdrLen))).rdropWhile
    (fun b => b == 0)

/-- Pass 1, lines 954-966: the first `rawPayloadLen` bytes of `rawBuf` (whose size is
`size`): the payload without emulation prevention bytes, or the payload as it is
when the removal fails. -/
def obuRawPayload (size : Nat) (payloadWithEP : List Nat) : List Nat :=
  if payloadWithEP.length > 0 then
    match av1_remove_emulation_prevention payloadWithEP size with
    | some raw => raw
    | none => payloadWithEP
  else []

/-- Pass 1, lines 971-987: the `ConvertedObu` built for the OBU at `curObu`. -/
def lowOverheadObu (data : List Nat) (curObu : Nat) (obuHdr : Av1ObuHeader)
    (rawPayload : List Nat) : ConvertedObu :=
  { type := obuHdr.obu_type,
    bytes := [(data.getD curObu 0) ||| 0x02]
      ++ (if obuHdr.obu_extension_flag then [data.getD (curObu + 1) 0] else [])
      ++ encodeLeb128 rawPayload.length
      ++ rawPayload }

/-- Pass 1 of `convertAV1ToLowOverhead`, the `while (curObu < dataEnd)` loop; `fuel`
bounds the number of iterations, `curObu` is an index into `data`. -/
def convertPass1 (data : List Nat) : Nat → Nat → List ConvertedObu → List ConvertedObu
  | 0, _, obus => obus
  | fuel + 1, curObu, obus =>
    if curObu < data.length then
      match Av1ObuHeader.parse (data.drop curObu) with
      | none => obus
      | some (obuHdr, hdrLen) =>
        let nextStartCode := findNALWithStartCode data curObu true
        let rawPayload :=
          obuRawPayload data.length (obuPayloadWithEP data curObu hdrLen nextStartCode)
        let obus' :=
          if obuHdr.obu_type ≠ TEMPORAL_DELIMITER then
            obus ++ [lowOverheadObu data curObu obuHdr rawPayload]
          else obus
        if nextStartCode < data.length then
          convertPass1 data fuel (findNextNAL data nextStartCode) obus'
        else obus'
    else obus

/-- Pass 2 of `convertAV1ToLowOverhead`: the loop computing `lastShIdx` and
`firstFrameIdx`, from index `i` on. Returns `(lastShIdx, firstFrameIdx)`. -/
def dedupScan : List ConvertedObu → Nat → Int → Nat → Int × Nat
  | [], _, lastShIdx, firstFrameIdx => (lastShIdx, firstFrameIdx)
  | obu :: rest, i, lastShIdx, firstFrameIdx =>
    let lastShIdx' := if obu.type = SEQUENCE_HEADER then (i : Int) else lastShIdx
    if obu.type = FRAME ∨ obu.type = FRAME_HEADER then (lastShIdx', i)
    else dedupScan rest (i + 1) lastShIdx' firstFrameIdx

/-- Pass 3 of `convertAV1ToLowOverhead`: the OBUs that are not skipped, from index `i`. -/
def emitKept (lastShIdx : Int) (firstFrameIdx : Nat) : List ConvertedObu → Nat → List ConvertedObu
  | [], _ => []
  | obu :: rest, i =>
    if obu.type = SEQUENCE_HEADER ∧ i < firstFrameIdx ∧ (i : Int) ≠ lastShIdx then
      emitKept lastShIdx firstFrameIdx rest (i + 1)
    else obu :: emitKept lastShIdx firstFrameIdx rest (i + 1)

/-- Passes 2 and 3 of `convertAV1ToLowOverhead` on the OBU list of pass 1: the OBUs
whose bytes are appended to `result`, in order. -/
def dedupSequenceHeaders (obus : List ConvertedObu) : List ConvertedObu :=
  let r := dedupScan obus 0 (-1) obus.length
  emitKept r.1 r.2 obus 0

/-- Function `MatroskaMuxer::convertAV1ToLowOverhead(data, size)`. -/
def convertAV1ToLowOverhead (data : List Nat) : List Nat :=
  let obus := convertPass1 data (data.length + 1) (findNextNAL data 0) []
  ((dedupSequenceHeaders obus).map (fun obu => obu.bytes)).flatten

/-- An OBU of type `SEQUENCE_HEADER`. -/
def ConvertedObu.isSequenceHeader (obu : ConvertedObu) : Bool :=
  obu.type == SEQUENCE_HEADER

/-- An OBU that is neither `FRAME` nor `FRAME_HEADER`. -/
def ConvertedObu.notFrame (obu : ConvertedObu) : Bool :=
  !(obu.type == FRAME || obu.type == FRAME_HEADER)

/-- Reading a buffer as a sequence of low-overhead OBUs (header with
`obu_has_size_field` set, LEB128 payload size, payload), with the steps of the reading
loop of `av1_extract_priv_data` (av1.cpp lines 522-582): the `(obu_type, payload)` of
every OBU, or `none` when the buffer is not wholly such a sequence. `fuel` bounds the
number of OBUs read. -/
def readLowOverheadObus : Nat → List Nat → Option (List (Nat × List Nat))
  | 0, _ => none
  | fuel + 1, buf =>
    if buf = [] then some []
    else
      match Av1ObuHeader.parse buf with
      | none => none
      | some (hdr, hdrLen) =>
        if hdr.obu_has_size_field then
          let r := decodeLeb128 (buf.drop hdrLen)
          if r.1 < 0 then none
          else
            let totalObuBytes := hdrLen + r.2 + r.1.toNat
            if totalObuBytes > buf.length then none
            else
              (readLowOverheadObus fuel (buf.drop totalObuBytes)).map
                (fun tl => (hdr.obu_type, (buf.drop (hdrLen + r.2)).take r.1.toNat) :: tl)
        else none

/-- The bytes pass 1 builds for one OBU: first header byte `b0` with bit `0x02` set,
the extension byte when the extension flag of `b0` is set, LEB128 size, payload. -/
def LowOverheadForm (obu : ConvertedObu) : Prop :=
  ∃ (b0 : Nat) (ext payload : List Nat),
    b0 < 256 ∧ b0 &&& 0x80 = 0 ∧ b0 &&& 0x01 = 0 ∧
    obu.type = (b0 >>> 3) &&& 0x0f ∧ obu.type ≠ TEMPORAL_DELIMITER ∧
    ext.length = (if (b0 >>> 2) &&& 1 ≠ 0 then 1 else 0) ∧
    payload.length < 2 ^ 56 ∧
    obu.bytes = [b0 ||| 0x02] ++ ext ++ encodeLeb128 payload.length ++ payload

/-! ## Typed EBML element writers (matroskaMuxer.cpp lines 96-173) -/

/-- Loop of `uint_size`: `while (value > 0) { value >>= 8; bytes++; }`; a `uint64_t`
is exhausted after eight iterations. -/
def uint_size_loop : Nat → Nat → Nat → Nat
  | 0, _, bytes => bytes
  | fuel + 1, value, bytes =>
    if value > 0 then uint_size_loop fuel (value >>> 8) (bytes + 1) else bytes

/-- Function `uint_size`. -/
def uint_size (value : Nat) : Nat :=
  if value = 0 then 1 else uint_size_loop 8 value 0

/-- Function `ebml_write_uint`; `value` is a `uint64_t`. -/
def ebml_write_uint (id : Nat) (value : Nat) : List Nat :=
  ebml_write_id id ++ ebml_write_size (uint_size value) ++ writeBE value (uint_size value)

/-- Function `ebml_write_float`; `bits` is the IEEE-754 bit pattern of the `double`
(the `memcpy(&bits, &value, 8)` of the source). -/
def ebml_write_float (id : Nat) (bits : Nat) : List Nat :=
  ebml_write_id id ++ ebml_write_size 8 ++ writeBE bits 8

/-- Function `ebml_write_string`; the string is given by its bytes. -/
def ebml_write_string (id : Nat) (value : List Nat) : List Nat :=
  ebml_write_id id ++ ebml_write_size value.length ++ value

/-- Function `ebml_write_binary`. -/
def ebml_write_binary (id : Nat) (data : List Nat) : List Nat :=
  ebml_write_id id ++ ebml_write_size data.length ++ data

/-- Function `ebml_write_master_open`. -/
def ebml_write_master_open (id : Nat) (contentSize : Nat) : List Nat :=
  ebml_write_id id ++ ebml_write_size contentSize

/-- Bytes of a string literal. -/
def strBytes (s : String) : List Nat :=
  s.toList.map Char.toNat

/-! ## Element IDs

Modelled from the spec: the `EBML_ID_*` / `MATROSKA_ID_*` constants of matroskaParser.h,
which is missing from the sources; the values are those listed in the spec's wire
format section. -/

def EBML_ID_HEADER : Nat := 0x1A45DFA3
def EBML_ID_EBMLVERSION : Nat := 0x4286
def EBML_ID_EBMLREADVERSION : Nat := 0x42F7
def EBML_ID_EBMLMAXIDLENGTH : Nat := 0x42F2
def EBML_ID_EBMLMAXSIZELENGTH : Nat := 0x42F3
def EBML_ID_DOCTYPE : Nat := 0x4282
def EBML_ID_DOCTYPEVERSION : Nat := 0x4287
def EBML_ID_DOCTYPEREADVERSION : Nat := 0x4285
def MATROSKA_ID_SEGMENT : Nat := 0x18538067
def MATROSKA_ID_SEEKHEAD : Nat := 0x114D9B74
def MATROSKA_ID_SEEKENTRY : Nat := 0x4DBB
def MATROSKA_ID_SEEKID : Nat := 0x53AB
def MATROSKA_ID_SEEKPOSITION : Nat := 0x53AC
def MATROSKA_ID_INFO : Nat := 0x1549A966
def MATROSKA_ID_TIMECODESCALE : Nat := 0x2AD7B1
def MATROSKA_ID_DURATION : Nat := 0x4489
def MATROSKA_ID_MUXINGAPP : Nat := 0x4D80
def MATROSKA_ID_WRITINGAPP : Nat := 0x5741
def MATROSKA_ID_TRACKS : Nat := 0x1654AE6B
def MATROSKA_ID_TRACKENTRY : Nat := 0xAE
def MATROSKA_ID_TRACKNUMBER : Nat := 0xD7
def MATROSKA_ID_TRACKUID : Nat := 0x73C5
def MATROSKA_ID_TRACKTYPE : Nat := 0x83
def MATROSKA_ID_TRACKFLAGLACING : Nat := 0x9C
def MATROSKA_ID_CODECID : Nat := 0x86
def MATROSKA_ID_CODECPRIVATE : Nat := 0x63A2
def MATROSKA_ID_TRACKDEFAULTDURATION : Nat := 0x23E383
def MATROSKA_ID_TRACKVIDEO : Nat := 0xE0
def MATROSKA_ID_VIDEOPIXELWIDTH : Nat := 0xB0
def MATROSKA_ID_VIDEOPIXELHEIGHT : Nat := 0xBA
def MATROSKA_ID_VIDEODISPLAYWIDTH : Nat := 0x54B0
def MATROSKA_ID_VIDEODISPLAYHEIGHT : Nat := 0x54BA
def MATROSKA_ID_VIDEOFLAGINTERLACED : Nat := 0x9A
def MATROSKA_ID_TRACKAUDIO : Nat := 0xE1
def MATROSKA_ID_AUDIOSAMPLINGFREQ : Nat := 0xB5
def MATROSKA_ID_AUDIOCHANNELS : Nat := 0x9F
def MATROSKA_ID_AUDIOBITDEPTH : Nat := 0x6264
def MATROSKA_ID_CLUSTER : Nat := 0x1F43B675
def MATROSKA_ID_CLUSTERTIMECODE : Nat := 0xE7
def MATROSKA_ID_SIMPLEBLOCK : Nat := 0xA3
def MATROSKA_ID_CUES : Nat := 0x1C53BB6B
def MATROSKA_ID_POINTENTRY : Nat := 0xBB
def MATROSKA_ID_CUETIME : Nat := 0xB3
def MATROSKA_ID_CUETRACKPOSITION : Nat := 0xB7
def MATROSKA_ID_CUETRACK : Nat := 0xF7
def MATROSKA_ID_CUECLUSTERPOSITION : Nat := 0xF1

/-! ## Muxer core: data model (matroskaMuxer.h) -/

/-- Constant `INTERNAL_PTS_PER_MS` (matroskaMuxer.cpp line 33): `INTERNAL_PTS_FREQ / 1000`,
5292000 by the comment on that line. -/
def INTERNAL_PTS_PER_MS : Int := 5292000

/-- Constant `CLUSTER_MAX_DURATION_MS`. -/
def CLUSTER_MAX_DURATION_MS : Int := 5000

/-- Constant `CLUSTER_MAX_SIZE`. -/
def CLUSTER_MAX_SIZE : Int := 5 * 1024 * 1024

/-- Enum `VideoAspectRatio` (not part of the sources), the values the muxer names. -/
inductive VideoAspectRatio where
  | AR_KEEP_DEFAULT
  | AR_VGA
  | AR_3_4
  | AR_16_9
  | AR_221_100
deriving DecidableEq, Repr

/-- What the muxer reads from a codec reader (`AbstractStreamReader*`): the codec tag,
the metrics behind each successful `dynamic_cast`, and the codec-private record the
matching builder makes of the reader's parameter sets. `double`s are bit patterns. -/
structure StreamReader where
  codecID : Int
  /-- As `MPEGStreamReader`: width, height, fps, interlaced, aspect ratio. -/
  mpeg : Option (Nat × Nat × Nat × Bool × VideoAspectRatio)
  /-- As `SimplePacketizerReader`: sample rate, channels. -/
  simple : Option (Int × Int)
  /-- As `LPCMStreamReader`: `m_bitsPerSample`. -/
  lpcm : Option Int
  /-- Result of the codec-private builder for this reader. -/
  codecPrivate : List Nat
deriving DecidableEq, Repr

/-- Constants and operations the muxer takes from files that are not part of the
sources: the `AVPacket::IS_IFRAME` flag mask (avPacket.h), the `CODEC_*` tags
(avCodecs.h), and the `double` arithmetic it performs, on IEEE-754 bit patterns. -/
structure Env where
  IS_IFRAME : Nat
  CODEC_V_AV1 : Int
  CODEC_V_MPEG4_H264 : Int
  CODEC_V_MPEG4_H265 : Int
  CODEC_V_MPEG4_H266 : Int
  CODEC_A_AAC : Int
  CODEC_A_EAC3 : Int
  CODEC_A_HDAC3 : Int
  /-- Test `fps > 0` on a `double`. -/
  f64_pos : Nat → Bool
  /-- Value `static_cast<uint64_t>(1000000000.0 / fps)`. -/
  f64_defaultDurationNs : Nat → Nat
  /-- Bit pattern of `static_cast<double>(i)`. -/
  f64_ofInt : Int → Nat
  /-- Bit pattern of `static_cast<double>(lastMs) + frameDurationMs`, where
  `frameDurationMs` is `1000.0 / fps` for `some fps` and `0.0` for `none`. -/
  f64_duration : Int → Option Nat → Nat
  /-- State of the codec reader of a stream when the deferred header is written. -/
  codecReader : Int → StreamReader

/-- Struct `AVPacket` (avPacket.h), the fields the muxer reads: `data = none` is the
null pointer, `size` is the length of `data`. -/
structure AVPacket where
  stream_index : Int
  pts : Int
  flags : Nat
  data : Option (List Nat)
deriving DecidableEq, Repr

/-- The bytes `data .. data + size` of a packet. -/
def AVPacket.bytes (p : AVPacket) : List Nat :=
  p.data.getD []

/-- Struct `BufferedPacket`. -/
structure BufferedPacket where
  stream_index : Int
  pts : Int
  flags : Nat
  data : List Nat
deriving DecidableEq, Repr

/-- Struct `MkvTrackInfo`; `codecReader` is the reader's state when it is consulted. -/
structure MkvTrackInfo where
  streamIndex : Int := 0
  trackNumber : Nat := 0
  trackUID : Nat := 0
  matroskaCodecID : List Nat := []
  codecID : Int := 0
  trackType : Nat := 0
  width : Nat := 0
  height : Nat := 0
  fps : Nat := 0
  interlaced : Bool := false
  streamAR : VideoAspectRatio := VideoAspectRatio.AR_KEEP_DEFAULT
  sampleRate : Int := 0
  channels : Int := 0
  bitDepth : Int := 0
  codecPrivate : List Nat := []
  pendingFrameData : List Nat := []
  pendingPts : Int := 0
  pendingFlags : Nat := 0
  hasPendingFrame : Bool := false
deriving DecidableEq, Repr

/-- Struct `CueEntry`. -/
structure CueEntry where
  timecodeMs : Int
  trackNumber : Nat
  clusterOffset : Int
deriving DecidableEq, Repr

/-- Modelled from the spec: the `File` class (fs/file.h is missing from the sources),
"open-for-write, sequential write, absolute seek": the bytes of the file and the
current position. -/
structure File where
  data : List Nat := []
  pos : Nat := 0
deriving DecidableEq, Repr

/-- Method `File::write`: the bytes replace what is at the current position (the file
grows as needed, a gap is zero-filled) and the position advances. -/
def File.write (f : File) (bytes : List Nat) : File :=
  { data := (f.data ++ List.replicate (f.pos - f.data.length) 0).take f.pos ++ bytes ++
      f.data.drop (f.pos + bytes.length),
    pos := f.pos + bytes.length }

/-- Method `File::seek` to an absolute position. -/
def File.seek (f : File) (pos : Nat) : File :=
  { f with pos := pos }

/-- One SimpleBlock as `flushPendingFrame` writes it (observation record): the track,
`relMs`, `m_clusterTimecodeMs` after the new-cluster decision, the 16-bit pattern of
the `int16_t relTimeMs` whose two bytes are written, the flags byte and the payload. -/
structure SimpleBlock where
  streamIndex : Int
  trackNumber : Nat
  relMs : Int
  clusterTimecodeMs : Int
  relTimeMs : Nat
  flags : Nat
  frameData : List Nat
deriving DecidableEq, Repr

/-- One cluster as `flushCluster` writes it (observation record): the file position at
which the write begins, `m_clusterTimecodeMs` and `m_clusterStartFilePos` at that
moment, the header and content bytes written, and the blocks appended to the cluster
buffer since the cluster was started. -/
structure ClusterRecord where
  filePos : Nat
  timecodeMs : Int
  startFilePos : Int
  header : List Nat
  content : List Nat
  blocks : List SimpleBlock
deriving DecidableEq, Repr

/-- Class `MatroskaMuxer`: its data members. `m_tracks` is the `std::map` as the list
of its values in key (`streamIndex`) order, `m_seenStreams` the `std::set` as a
duplicate-free list. The last three fields are not members of the class: `blockLog`
records, in order, every SimpleBlock appended to `m_clusterBuf`, `clusterBlocks` those
appended since the last `startCluster`, and `clusterLog` every cluster written by
`flushCluster`. -/
structure MatroskaMuxer where
  m_file : File := {}
  m_tracks : List MkvTrackInfo := []
  m_nextTrackNumber : Nat := 1
  m_segmentStartPos : Int := 0
  m_segmentSizePos : Int := 0
  m_clusterBuf : List Nat := []
  m_clusterTimecodeMs : Int := 0
  m_clusterStartFilePos : Int := 0
  m_clusterOpen : Bool := false
  m_clusterDataSize : Int := 0
  m_cueEntries : List CueEntry := []
  m_segmentInfoPos : Int := 0
  m_tracksPos : Int := 0
  m_cuesPos : Int := 0
  m_firstTimecode : Int := 0
  m_firstTimecodeSet : Bool := false
  m_lastTimecodeMs : Int := 0
  m_durationValueFilePos : Int := 0
  m_headerWritten : Bool := false
  m_seenStreams : List Int := []
  m_preHeaderPackets : List BufferedPacket := []
  blockLog : List SimpleBlock := []
  clusterBlocks : List SimpleBlock := []
  clusterLog : List ClusterRecord := []
deriving DecidableEq, Repr

/-! ## Muxer core: operations (matroskaMuxer.cpp lines 177-1421) -/

/-- Lookup `m_tracks.find(streamIndex)`. -/
def findTrack (tracks : List MkvTrackInfo) (streamIndex : Int) : Option MkvTrackInfo :=
  tracks.find? (fun t => t.streamIndex == streamIndex)

/-- Write through the reference `it->second`: the entry with the key of `track`
becomes `track`. -/
def setTrack (tracks : List MkvTrackInfo) (track : MkvTrackInfo) : List MkvTrackInfo :=
  tracks.map (fun t => if t.streamIndex == track.streamIndex then track else t)

/-- Assignment `m_tracks[streamIndex] = track` on the key-ordered map. -/
def insertTrack : List MkvTrackInfo → MkvTrackInfo → List MkvTrackInfo
  | [], track => [track]
  | t :: rest, track =>
    if track.streamIndex < t.streamIndex then track :: t :: rest
    else if track.streamIndex = t.streamIndex then track :: rest
    else t :: insertTrack rest track

/-- Method `writeToFile` (both overloads): nothing is written for an empty buffer. -/
def MatroskaMuxer.writeToFile (s : MatroskaMuxer) (data : List Nat) : MatroskaMuxer :=
  if data.length > 0 then { s with m_file := s.m_file.write data } else s

/-- Conversion `static_cast<uint64_t>` of an `int64_t`. -/
def toUInt64 (v : Int) : Nat :=
  (v % 2 ^ 64).toNat

/-- Method `MatroskaMuxer::flushCluster`. -/
def MatroskaMuxer.flushCluster (s : MatroskaMuxer) : MatroskaMuxer :=
  if !s.m_clusterOpen || s.m_clusterBuf.isEmpty then s
  else
    let header := ebml_write_id MATROSKA_ID_CLUSTER ++ ebml_write_size s.m_clusterBuf.length
    let s1 := (s.writeToFile header).writeToFile s.m_clusterBuf
    { s1 with
      m_clusterBuf := [], m_clusterOpen := false, m_clusterDataSize := 0,
      clusterBlocks := [],
      clusterLog := s.clusterLog ++
        [{ filePos := s.m_file.pos, timecodeMs := s.m_clusterTimecodeMs,
           startFilePos := s.m_clusterStartFilePos, header := header,
           content := s.m_clusterBuf, blocks := s.clusterBlocks }] }

/-- Method `MatroskaMuxer::startCluster`. -/
def MatroskaMuxer.startCluster (s : MatroskaMuxer) (timecodeMs : Int) : MatroskaMuxer :=
  let s1 := if s.m_clusterOpen then s.flushCluster else s
  let buf := ebml_write_uint MATROSKA_ID_CLUSTERTIMECODE (toUInt64 timecodeMs)
  { s1 with
    m_clusterTimecodeMs := timecodeMs,
    m_clusterOpen := true,
    m_clusterStartFilePos := (s1.m_file.pos : Int) - s1.m_segmentStartPos,
    m_clusterBuf := buf,
    m_clusterDataSize := buf.length,
    clusterBlocks := [] }

/-- Loop of `convertAnnexBToLengthPrefixed`, `while (curPos < end)`; `fuel` bounds the
number of iterations, `curPos` is an index into `data`. -/
def annexBLoop (data : List Nat) : Nat → Nat → List Nat → List Nat
  | 0, _, result => result
  | fuel + 1, curPos, result =>
    if curPos < data.length then
      let nextNal := findNALWithStartCode data curPos true
      let upToNext := (data.drop curPos).take (nextNal - curPos)
      let nalu :=
        if nextNal < data.length then upToNext.rdropWhile (fun b => b == 0) else upToNext
      let result' :=
        if nalu.length > 0 then result ++ writeBE nalu.length 4 ++ nalu else result
      annexBLoop data fuel (findNextNAL data nextNal) result'
    else result

/-- Function `MatroskaMuxer::convertAnnexBToLengthPrefixed(data, size)`. -/
def convertAnnexBToLengthPrefixed (data : List Nat) : List Nat :=
  annexBLoop data (data.length + 1) (findNextNAL data 0) []

/-- The format conversion of `flushPendingFrame` (lines 1102-1125): the bytes
`frameData .. frameData + frameSize` that go into the SimpleBlock. The converted
data replace the accumulated data only when they are not empty. -/
def convertFrameData (env : Env) (codecID : Int) (pendingFrameData : List Nat) : List Nat :=
  let convertedData :=
    if codecID = env.CODEC_V_AV1 then convertAV1ToLowOverhead pendingFrameData
    else if codecID = env.CODEC_V_MPEG4_H264 ∨ codecID = env.CODEC_V_MPEG4_H265 ∨
        codecID = env.CODEC_V_MPEG4_H266 then
      convertAnnexBToLengthPrefixed pendingFrameData
    else []
  if !convertedData.isEmpty then convertedData else pendingFrameData

/-- The flags byte of a SimpleBlock (lines 1169-1172 of `flushPendingFrame`). -/
def flagsByte (env : Env) (pendingFlags : Nat) : Nat :=
  if pendingFlags &&& env.IS_IFRAME ≠ 0 then 0x80 else 0

/-- Lines 1130-1151 of `flushPendingFrame`, for a frame at `relMs`: the maximum
timecode, the decision to start a new cluster, the cue entry of a video keyframe. -/
def MatroskaMuxer.scheduleFrame (env : Env) (s : MatroskaMuxer) (track : MkvTrackInfo)
    (relMs : Int) : MatroskaMuxer :=
  let s1 := if relMs > s.m_lastTimecodeMs then { s with m_lastTimecodeMs := relMs } else s
  let isKey : Bool := track.pendingFlags &&& env.IS_IFRAME ≠ 0
  let needNewCluster : Bool :=
    !s1.m_clusterOpen || decide (relMs - s1.m_clusterTimecodeMs ≥ CLUSTER_MAX_DURATION_MS) ||
    decide (s1.m_clusterDataSize ≥ CLUSTER_MAX_SIZE) ||
    (track.trackType == 1 && isKey && s1.m_clusterOpen &&
      decide (relMs - s1.m_clusterTimecodeMs ≥ 1000))
  let s2 := if needNewCluster then s1.startCluster relMs else s1
  if track.trackType == 1 && isKey then
    { s2 with m_cueEntries := s2.m_cueEntries ++
        [{ timecodeMs := relMs, trackNumber := track.trackNumber,
           clusterOffset := s2.m_clusterStartFilePos }] }
  else s2

/-- Method `MatroskaMuxer::flushPendingFrame(track)`: the muxer and the track after
the call. -/
def MatroskaMuxer.flushPendingFrame (env : Env) (s : MatroskaMuxer) (track : MkvTrackInfo) :
    MatroskaMuxer × MkvTrackInfo :=
  if !track.hasPendingFrame || track.pendingFrameData.isEmpty then
    (s, { track with hasPendingFrame := false, pendingFrameData := [] })
  else
    let frameData := convertFrameData env track.codecID track.pendingFrameData
    let relMs := Int.tdiv (track.pendingPts - s.m_firstTimecode) INTERNAL_PTS_PER_MS
    let s3 := s.scheduleFrame env track relMs
    -- `static_cast<int16_t>(relMs - m_clusterTimecodeMs)`, as its 16-bit pattern
    let relTimeMs : Nat := ((relMs - s3.m_clusterTimecodeMs) % 65536).toNat
    let trackNumBuf := ebml_write_size track.trackNumber
    let blockPayloadSize := trackNumBuf.length + 2 + 1 + frameData.length
    let header := ebml_write_id MATROSKA_ID_SIMPLEBLOCK ++ ebml_write_size blockPayloadSize
    let flags : Nat := flagsByte env track.pendingFlags
    let block : SimpleBlock :=
      { streamIndex := track.streamIndex, trackNumber := track.trackNumber,
        relMs := relMs, clusterTimecodeMs := s3.m_clusterTimecodeMs,
        relTimeMs := relTimeMs, flags := flags, frameData := frameData }
    let s4 :=
      { s3 with
        m_clusterBuf := s3.m_clusterBuf ++ header ++ trackNumBuf ++
          [(relTimeMs >>> 8) &&& 0xFF, relTimeMs &&& 0xFF] ++ [flags] ++ frameData,
        m_clusterDataSize := s3.m_clusterDataSize + ((header.length + blockPayloadSize : Nat) : Int),
        blockLog := s3.blockLog ++ [block],
        clusterBlocks := s3.clusterBlocks ++ [block] }
    (s4, { track with pendingFrameData := [], hasPendingFrame := false })

/-- Lines 1238-1250 of `muxPacketInternal`: the packet is accumulated into the
pending frame of its track. -/
def accumulatePacket (env : Env) (track : MkvTrackInfo) (avPacket : AVPacket) : MkvTrackInfo :=
  let track1 :=
    if !track.hasPendingFrame then
      { track with pendingPts := avPacket.pts, pendingFlags := avPacket.flags % 256,
                   hasPendingFrame := true }
    else
      { track with
        pendingFlags := (track.pendingFlags ||| (avPacket.flags &&& env.IS_IFRAME)) % 256 }
  { track1 with pendingFrameData := track1.pendingFrameData ++ avPacket.bytes }

/-- Method `MatroskaMuxer::muxPacketInternal` (returns `true`). -/
def MatroskaMuxer.muxPacketInternal (env : Env) (s : MatroskaMuxer) (avPacket : AVPacket) :
    MatroskaMuxer :=
  match findTrack s.m_tracks avPacket.stream_index with
  | none => s
  | some track =>
    let r :=
      if track.hasPendingFrame && decide (avPacket.pts ≠ track.pendingPts) then
        s.flushPendingFrame env track
      else (s, track)
    { r.1 with m_tracks := setTrack r.1.m_tracks (accumulatePacket env r.2 avPacket) }

/-- The loop `for (auto& [streamIdx, track] : m_tracks) flushPendingFrame(track)` over
the tracks still to visit: the muxer and those tracks after the loop. -/
def flushTracks (env : Env) : MatroskaMuxer → List MkvTrackInfo → MatroskaMuxer × List MkvTrackInfo
  | s, [] => (s, [])
  | s, track :: rest =>
    let r := s.flushPendingFrame env track
    let r' := flushTracks env r.1 rest
    (r'.1, r.2 :: r'.2)

/-- The loop `for (auto& [streamIdx, track] : m_tracks) flushPendingFrame(track)`. -/
def MatroskaMuxer.flushAllPendingFrames (env : Env) (s : MatroskaMuxer) : MatroskaMuxer :=
  let r := flushTracks env s s.m_tracks
  { r.1 with m_tracks := r.2 }

/-- Method `MatroskaMuxer::doFlush` (returns `true`). -/
def MatroskaMuxer.doFlush (env : Env) (s : MatroskaMuxer) : MatroskaMuxer :=
  (s.flushAllPendingFrames env).flushCluster

/-- Modelled from the spec: the `MATROSKA_CODEC_ID_*` strings (matroskaParser.h is
missing from the sources), and `MatroskaMuxer::codecNameToMatroskaID`. -/
def codecNameToMatroskaID (env : Env) (codecName : String) (codecID : Int) : String :=
  if codecName = "V_MPEG4/ISO/AVC" then "V_MPEG4/ISO/AVC"
  else if codecName = "V_MPEGH/ISO/HEVC" then "V_MPEGH/ISO/HEVC"
  else if codecName = "V_MPEGI/ISO/VVC" then "V_MPEGI/ISO/VVC"
  else if codecName = "V_AV1" then "V_AV1"
  else if codecName = "V_MS/VFW/WVC1" then "V_MS/VFW/FOURCC"
  else if codecName = "V_MPEG-2" then "V_MPEG2"
  else if codecName = "A_AC3" then
    if codecID = env.CODEC_A_EAC3 then "A_EAC3"
    else if codecID = env.CODEC_A_HDAC3 then "A_TRUEHD"
    else "A_AC3"
  else if codecName = "A_AAC" then "A_AAC"
  else if codecName = "A_DTS" then "A_DTS"
  else if codecName = "A_LPCM" then "A_PCM/INT/LIT"
  else if codecName = "A_MLP" then "A_TRUEHD"
  else if codecName = "A_MP3" then "A_MPEG/L3"
  else if codecName = "S_TEXT/UTF8" then "S_TEXT/UTF8"
  else if codecName = "S_HDMV/PGS" then "S_HDMV/PGS"
  else if codecName = "S_SUP" then "S_HDMV/PGS"
  else codecName

/-- Method `MatroskaMuxer::intAddStream`; `trackUID` is the value drawn from the random
generator, `codecReader` the reader's state at registration. -/
def MatroskaMuxer.intAddStream (env : Env) (s : MatroskaMuxer) (codecName : String)
    (streamIndex : Int) (codecReader : StreamReader) (trackUID : Nat) : MatroskaMuxer :=
  let track : MkvTrackInfo :=
    { streamIndex := streamIndex,
      trackNumber := s.m_nextTrackNumber,
      codecID := codecReader.codecID,
      matroskaCodecID := strBytes (codecNameToMatroskaID env codecName codecReader.codecID),
      trackUID := trackUID }
  let track1 : MkvTrackInfo :=
    match codecName.toList.head? with
    | some 'V' =>
      match codecReader.mpeg with
      | some (w, h, fps, interlaced, _) =>
        { track with trackType := 1, width := w, height := h, fps := fps,
                     interlaced := interlaced }
      | none => { track with trackType := 1 }
    | some 'A' =>
      let t1 : MkvTrackInfo :=
        match codecReader.simple with
        | some (freq, channels) =>
          { track with trackType := 2, sampleRate := freq, channels := channels }
        | none => { track with trackType := 2 }
      match codecReader.lpcm with
      | some bits => { t1 with bitDepth := bits }
      | none => t1
    | some 'S' => { track with trackType := 17 }
    | _ => track
  { s with m_nextTrackNumber := s.m_nextTrackNumber + 1,
           m_tracks := insertTrack s.m_tracks track1 }

/-- Method `MatroskaMuxer::writeEBMLHeader`. -/
def MatroskaMuxer.writeEBMLHeader (s : MatroskaMuxer) : MatroskaMuxer :=
  let buf :=
    ebml_write_uint EBML_ID_EBMLVERSION 1 ++
    ebml_write_uint EBML_ID_EBMLREADVERSION 1 ++
    ebml_write_uint EBML_ID_EBMLMAXIDLENGTH 4 ++
    ebml_write_uint EBML_ID_EBMLMAXSIZELENGTH 8 ++
    ebml_write_string EBML_ID_DOCTYPE (strBytes "matroska") ++
    ebml_write_uint EBML_ID_DOCTYPEVERSION 4 ++
    ebml_write_uint EBML_ID_DOCTYPEREADVERSION 2
  let header := ebml_write_id EBML_ID_HEADER ++ ebml_write_size buf.length
  (s.writeToFile header).writeToFile buf

/-- Method `MatroskaMuxer::openDstFile` on a file that could be created. -/
def MatroskaMuxer.openDstFile (s : MatroskaMuxer) : MatroskaMuxer :=
  let s0 : MatroskaMuxer := { s with m_file := {} }
  let s1 := s0.writeEBMLHeader
  let s2 := s1.writeToFile (ebml_write_id MATROSKA_ID_SEGMENT)
  let s3 : MatroskaMuxer := { s2 with m_segmentSizePos := s2.m_file.pos }
  let s4 := s3.writeToFile (ebml_write_unknown_size 8)
  { s4 with m_segmentStartPos := s4.m_file.pos, m_headerWritten := false }

/-- Method `MatroskaMuxer::refreshTrackProperties`, for one track. -/
def refreshTrack (env : Env) (track : MkvTrackInfo) : MkvTrackInfo :=
  let reader := env.codecReader track.streamIndex
  if track.trackType = 1 then
    match reader.mpeg with
    | some (w, h, fps, interlaced, ar) =>
      { track with width := w, height := h, fps := fps, interlaced := interlaced,
                   streamAR := ar }
    | none => track
  else if track.trackType = 2 then
    let t1 : MkvTrackInfo :=
      match reader.simple with
      | some (freq, channels) => { track with sampleRate := freq, channels := channels }
      | none => track
    match reader.lpcm with
    | some bits => { t1 with bitDepth := bits }
    | none => t1
  else track

/-- Method `MatroskaMuxer::buildCodecPrivate`: the builder of the track's codec (each
reads the track's reader), nothing for the other codecs. -/
def buildCodecPrivate (env : Env) (track : MkvTrackInfo) : MkvTrackInfo :=
  if track.codecID = env.CODEC_V_MPEG4_H264 ∨ track.codecID = env.CODEC_V_MPEG4_H265 ∨
      track.codecID = env.CODEC_V_MPEG4_H266 ∨ track.codecID = env.CODEC_V_AV1 ∨
      track.codecID = env.CODEC_A_AAC then
    { track with codecPrivate := (env.codecReader track.streamIndex).codecPrivate }
  else track

/-- Method `MatroskaMuxer::writeSegmentInfo`. -/
def MatroskaMuxer.writeSegmentInfo (s : MatroskaMuxer) : MatroskaMuxer :=
  let s1 : MatroskaMuxer :=
    { s with m_segmentInfoPos := (s.m_file.pos : Int) - s.m_segmentStartPos }
  let bufStart := ebml_write_uint MATROSKA_ID_TIMECODESCALE 1000000
  let durationElementStart := bufStart.length
  let buf := bufStart ++ ebml_write_float MATROSKA_ID_DURATION 0 ++
    ebml_write_string MATROSKA_ID_MUXINGAPP (strBytes "tsMuxeR") ++
    ebml_write_string MATROSKA_ID_WRITINGAPP (strBytes "tsMuxeR")
  let header := ebml_write_id MATROSKA_ID_INFO ++ ebml_write_size buf.length
  let s2 := s1.writeToFile header
  let s3 : MatroskaMuxer :=
    { s2 with m_durationValueFilePos := (s2.m_file.pos : Int) + durationElementStart + 3 }
  s3.writeToFile buf

/-- Method `MatroskaMuxer::buildTrackEntry`; `unsigned` arithmetic is modulo `2^32`. -/
def buildTrackEntry (env : Env) (track : MkvTrackInfo) : List Nat :=
  let base :=
    ebml_write_uint MATROSKA_ID_TRACKNUMBER track.trackNumber ++
    ebml_write_uint MATROSKA_ID_TRACKUID track.trackUID ++
    ebml_write_uint MATROSKA_ID_TRACKTYPE track.trackType ++
    ebml_write_uint MATROSKA_ID_TRACKFLAGLACING 0 ++
    ebml_write_string MATROSKA_ID_CODECID track.matroskaCodecID
  let priv :=
    if !track.codecPrivate.isEmpty then
      ebml_write_binary MATROSKA_ID_CODECPRIVATE track.codecPrivate
    else []
  let dur :=
    if env.f64_pos track.fps then
      ebml_write_uint MATROSKA_ID_TRACKDEFAULTDURATION (env.f64_defaultDurationNs track.fps)
    else []
  let video :=
    if track.trackType = 1 ∧ track.width > 0 ∧ track.height > 0 then
      let displayWidth : Nat :=
        match track.streamAR with
        | VideoAspectRatio.AR_3_4 => ((track.height * 4 + 1) % 2 ^ 32) / 3
        | VideoAspectRatio.AR_16_9 => ((track.height * 16 + 4) % 2 ^ 32) / 9
        | VideoAspectRatio.AR_221_100 => ((track.height * 221 + 50) % 2 ^ 32) / 100
        | _ => track.width
      let displayHeight : Nat := track.height
      let videoBuf :=
        ebml_write_uint MATROSKA_ID_VIDEOPIXELWIDTH track.width ++
        ebml_write_uint MATROSKA_ID_VIDEOPIXELHEIGHT track.height ++
        (if track.interlaced then ebml_write_uint MATROSKA_ID_VIDEOFLAGINTERLACED 1 else []) ++
        (if track.streamAR ≠ VideoAspectRatio.AR_KEEP_DEFAULT ∧
            track.streamAR ≠ VideoAspectRatio.AR_VGA ∧
            (displayWidth ≠ track.width ∨ displayHeight ≠ track.height) then
          ebml_write_uint MATROSKA_ID_VIDEODISPLAYWIDTH displayWidth ++
          ebml_write_uint MATROSKA_ID_VIDEODISPLAYHEIGHT displayHeight
        else [])
      ebml_write_master_open MATROSKA_ID_TRACKVIDEO videoBuf.length ++ videoBuf
    else []
  let audio :=
    if track.trackType = 2 ∧ track.sampleRate > 0 then
      let audioBuf :=
        ebml_write_float MATROSKA_ID_AUDIOSAMPLINGFREQ (env.f64_ofInt track.sampleRate) ++
        ebml_write_uint MATROSKA_ID_AUDIOCHANNELS (toUInt64 track.channels) ++
        (if track.bitDepth > 0 then
          ebml_write_uint MATROSKA_ID_AUDIOBITDEPTH (toUInt64 track.bitDepth) else [])
      ebml_write_master_open MATROSKA_ID_TRACKAUDIO audioBuf.length ++ audioBuf
    else []
  base ++ priv ++ dur ++ video ++ audio

/-- Method `MatroskaMuxer::writeTracks`. -/
def MatroskaMuxer.writeTracks (env : Env) (s : MatroskaMuxer) : MatroskaMuxer :=
  let s1 : MatroskaMuxer :=
    { s with m_tracksPos := (s.m_file.pos : Int) - s.m_segmentStartPos }
  let allEntries := (s1.m_tracks.map (fun track =>
    let entryContent := buildTrackEntry env track
    ebml_write_id MATROSKA_ID_TRACKENTRY ++ ebml_write_size entryContent.length ++
      entryContent)).flatten
  let header := ebml_write_id MATROSKA_ID_TRACKS ++ ebml_write_size allEntries.length
  (s1.writeToFile header).writeToFile allEntries

/-- Method `MatroskaMuxer::writeDeferredHeader`. -/
def MatroskaMuxer.writeDeferredHeader (env : Env) (s : MatroskaMuxer) : MatroskaMuxer :=
  let s1 : MatroskaMuxer := { s with m_tracks := s.m_tracks.map (refreshTrack env) }
  let s2 : MatroskaMuxer := { s1 with m_tracks := s1.m_tracks.map (buildCodecPrivate env) }
  let s3 := s2.writeSegmentInfo
  let s4 := s3.writeTracks env
  { s4 with m_headerWritten := true }

/-- The `tmpPacket` that `replayBufferedPackets` builds from a buffered packet. -/
def BufferedPacket.toPacket (pkt : BufferedPacket) : AVPacket :=
  { stream_index := pkt.stream_index, pts := pkt.pts, flags := pkt.flags,
    data := some pkt.data }

/-- Method `MatroskaMuxer::replayBufferedPackets`. -/
def MatroskaMuxer.replayBufferedPackets (env : Env) (s : MatroskaMuxer) : MatroskaMuxer :=
  match s.m_preHeaderPackets with
  | [] => s
  | first :: rest =>
    let minPts := (first :: rest).foldl (fun m pkt => min m pkt.pts) first.pts
    let s1 : MatroskaMuxer := { s with m_firstTimecode := minPts, m_firstTimecodeSet := true }
    let s2 := (first :: rest).foldl (fun acc pkt => acc.muxPacketInternal env pkt.toPacket) s1
    { s2 with m_preHeaderPackets := [] }

/-- Insertion `m_seenStreams.insert(streamIndex)`. -/
def insertSeen (seen : List Int) (streamIndex : Int) : List Int :=
  if streamIndex ∈ seen then seen else seen ++ [streamIndex]

/-- The copy `bp` that `muxPacket` makes of a packet for the pre-header buffer. -/
def AVPacket.toBuffered (p : AVPacket) : BufferedPacket :=
  { stream_index := p.stream_index, pts := p.pts, flags := p.flags, data := p.bytes }

/-- Lines 1196-1204 of `muxPacket`: the stream is recorded as seen and a copy of the
packet is appended to the pre-header buffer. -/
def MatroskaMuxer.bufferPacket (s : MatroskaMuxer) (avPacket : AVPacket) : MatroskaMuxer :=
  { s with
    m_seenStreams := insertSeen s.m_seenStreams avPacket.stream_index,
    m_preHeaderPackets := s.m_preHeaderPackets ++ [avPacket.toBuffered] }

/-- Method `MatroskaMuxer::muxPacket` (returns `true`). -/
def MatroskaMuxer.muxPacket (env : Env) (s : MatroskaMuxer) (avPacket : AVPacket) :
    MatroskaMuxer :=
  match avPacket.data with
  | none => s
  | some data =>
    if data.length = 0 then s
    else
      match findTrack s.m_tracks avPacket.stream_index with
      | none => s
      | some _ =>
        if !s.m_headerWritten then
          let s1 := s.bufferPacket avPacket
          if s1.m_seenStreams.length ≥ s1.m_tracks.length then
            (s1.writeDeferredHeader env).replayBufferedPackets env
          else s1
        else
          let s1 : MatroskaMuxer :=
            if !s.m_firstTimecodeSet then
              { s with m_firstTimecode := avPacket.pts, m_firstTimecodeSet := true }
            else s
          s1.muxPacketInternal env avPacket

/-- Method `MatroskaMuxer::writeCues`. -/
def MatroskaMuxer.writeCues (s : MatroskaMuxer) : MatroskaMuxer :=
  if s.m_cueEntries.isEmpty then s
  else
    let s1 : MatroskaMuxer := { s with m_cuesPos := (s.m_file.pos : Int) - s.m_segmentStartPos }
    let allPoints := (s1.m_cueEntries.map (fun cue =>
      let ctpBuf :=
        ebml_write_uint MATROSKA_ID_CUETRACK cue.trackNumber ++
        ebml_write_uint MATROSKA_ID_CUECLUSTERPOSITION (toUInt64 cue.clusterOffset)
      let cpBuf :=
        ebml_write_uint MATROSKA_ID_CUETIME (toUInt64 cue.timecodeMs) ++
        ebml_write_master_open MATROSKA_ID_CUETRACKPOSITION ctpBuf.length ++ ctpBuf
      ebml_write_id MATROSKA_ID_POINTENTRY ++ ebml_write_size cpBuf.length ++ cpBuf)).flatten
    let header := ebml_write_id MATROSKA_ID_CUES ++ ebml_write_size allPoints.length
    (s1.writeToFile header).writeToFile allPoints

/-- Method `MatroskaMuxer::writeSeekHead`. -/
def MatroskaMuxer.writeSeekHead (s : MatroskaMuxer) : MatroskaMuxer :=
  let items : List (Nat × Int) :=
    [(MATROSKA_ID_INFO, s.m_segmentInfoPos), (MATROSKA_ID_TRACKS, s.m_tracksPos)] ++
    (if s.m_cuesPos > 0 then [(MATROSKA_ID_CUES, s.m_cuesPos)] else [])
  let allEntries := (items.map (fun item =>
    let entryBuf :=
      ebml_write_binary MATROSKA_ID_SEEKID (ebml_write_id item.1) ++
      ebml_write_uint MATROSKA_ID_SEEKPOSITION (toUInt64 item.2)
    ebml_write_id MATROSKA_ID_SEEKENTRY ++ ebml_write_size entryBuf.length ++ entryBuf)).flatten
  let header := ebml_write_id MATROSKA_ID_SEEKHEAD ++ ebml_write_size allEntries.length
  (s.writeToFile header).writeToFile allEntries

/-- Lines 1384-1390 of `close`: the Segment size is patched in place. -/
def MatroskaMuxer.patchSegmentSize (s : MatroskaMuxer) : MatroskaMuxer :=
  let segmentEnd : Int := s.m_file.pos
  let segmentSize := toUInt64 (segmentEnd - s.m_segmentStartPos)
  let sizeBuf := ebml_write_size_fixed segmentSize 8
  { s with m_file := (s.m_file.seek s.m_segmentSizePos.toNat).write sizeBuf }

/-- Lines 1392-1417 of `close`: the Duration value is patched in place. -/
def MatroskaMuxer.patchDuration (env : Env) (s : MatroskaMuxer) : MatroskaMuxer :=
  if s.m_durationValueFilePos > 0 ∧ s.m_lastTimecodeMs > 0 then
    let videoFps := (s.m_tracks.find?
      (fun track => track.trackType == 1 && env.f64_pos track.fps)).map (fun track => track.fps)
    let durationBuf := writeBE (env.f64_duration s.m_lastTimecodeMs videoFps) 8
    { s with m_file := (s.m_file.seek s.m_durationValueFilePos.toNat).write durationBuf }
  else s

/-- Method `MatroskaMuxer::close` (returns `true`). -/
def MatroskaMuxer.close (env : Env) (s : MatroskaMuxer) : MatroskaMuxer :=
  let s1 :=
    if !s.m_headerWritten && !s.m_tracks.isEmpty then
      (s.writeDeferredHeader env).replayBufferedPackets env
    else s
  let s2 := s1.flushAllPendingFrames env
  let s3 := s2.flushCluster
  let s4 := s3.writeCues
  let s5 := s4.writeSeekHead
  let s6 := s5.patchSegmentSize
  s6.patchDuration env

/-! ## Frames of a packet sequence (what the accumulation claims refer to) -/

/-- The maximal runs of consecutive packets with equal PTS, in order. -/
def ptsRuns : List AVPacket → List (List AVPacket)
  | [] => []
  | p :: ps =>
    match ptsRuns ps with
    | (q :: run) :: runs =>
      if p.pts = q.pts then (p :: q :: run) :: runs else [p] :: (q :: run) :: runs
    | _ => [[p]]

/-- The flags byte of a frame merged from `run`: `0x80` if some packet of the run
carries `IS_IFRAME`, else `0`. -/
def runFlags (env : Env) (run : List AVPacket) : Nat :=
  if run.any (fun p => decide (p.flags &&& env.IS_IFRAME ≠ 0)) then 0x80 else 0

/-- The payloads of the packets of `run`, concatenated in arrival order. -/
def runData (run : List AVPacket) : List Nat :=
  (run.map AVPacket.bytes).flatten

/-- A packet `muxPacket` accepts for stream `k`: non-null, non-empty data. -/
def AVPacket.acceptedFor (k : Int) (p : AVPacket) : Bool :=
  p.stream_index == k && (p.data.isSome && !p.bytes.isEmpty)

/-- The blocks of the log that belong to stream `k`. -/
def blocksOf (k : Int) (log : List SimpleBlock) : List SimpleBlock :=
  log.filter (fun b => b.streamIndex == k)

/-- The `pendingFlags` of a frame merged from `run` (lines 1242 and 1248 of
`muxPacketInternal`): the flags of the first packet as a `uint8_t`, then the
`IS_IFRAME` bits of the others or-ed in. -/
def mergedFlags (env : Env) : List AVPacket → Nat
  | [] => 0
  | p :: rest =>
    rest.foldl (fun F q => (F ||| (q.flags &&& env.IS_IFRAME)) % 256) (p.flags % 256)

/-- The SimpleBlock `flushPendingFrame` emits for a track with a pending frame. -/
def pendingBlock (env : Env) (s : MatroskaMuxer) (track : MkvTrackInfo) : SimpleBlock :=
  { streamIndex := track.streamIndex, trackNumber := track.trackNumber,
    relMs := Int.tdiv (track.pendingPts - s.m_firstTimecode) INTERNAL_PTS_PER_MS,
    clusterTimecodeMs := (s.scheduleFrame env track
      (Int.tdiv (track.pendingPts - s.m_firstTimecode) INTERNAL_PTS_PER_MS)).m_clusterTimecodeMs,
    relTimeMs := ((Int.tdiv (track.pendingPts - s.m_firstTimecode) INTERNAL_PTS_PER_MS -
      (s.scheduleFrame env track
        (Int.tdiv (track.pendingPts - s.m_firstTimecode) INTERNAL_PTS_PER_MS)).m_clusterTimecodeMs)
      % 65536).toNat,
    flags := flagsByte env track.pendingFlags,
    frameData := convertFrameData env track.codecID track.pendingFrameData }

/-- Accumulation invariant of stream `k` (whose track has codec tag `c`) after the
accepted packets `A` of that stream: the blocks logged for `k` are the frames of the
completed runs `done`, the pending frame is the run in progress `cur`, and `done`
followed by the runs of `cur` and of whatever comes next are the runs of `A` and of
what comes next. -/
def TrackInv (env : Env) (k : Int) (c : Int) (s : MatroskaMuxer) (A : List AVPacket) : Prop :=
  (s.m_tracks.map (fun t => t.streamIndex)).Nodup ∧
  ∃ (t : MkvTrackInfo) (done : List (List AVPacket)) (cur : List AVPacket),
    findTrack s.m_tracks k = some t ∧ t.codecID = c ∧
    (blocksOf k s.blockLog).map (fun b => (b.flags, b.frameData)) =
      done.map (fun run => (flagsByte env (mergedFlags env run),
        convertFrameData env c (runData run))) ∧
    (cur = [] → t.hasPendingFrame = false ∧ t.pendingFrameData = []) ∧
    (cur ≠ [] → t.hasPendingFrame = true ∧ (∀ p ∈ cur, p.pts = t.pendingPts) ∧
       t.pendingFrameData = runData cur ∧ t.pendingFrameData ≠ [] ∧
       t.pendingFlags = mergedFlags env cur) ∧
    ∀ B, done ++ ptsRuns (cur ++ B) = ptsRuns (A ++ B)

/-- A packet that `muxPacket` does not ignore: non-null, non-empty data, and a
registered stream index. -/
def AVPacket.accepted (tracks : List MkvTrackInfo) (p : AVPacket) : Bool :=
  (p.data.isSome && !p.bytes.isEmpty) && (findTrack tracks p.stream_index).isSome

/-- The stream indices of a packet sequence, as `m_seenStreams` collects them. -/
def seenOf (ps : List AVPacket) : List Int :=
  ps.foldl (fun seen p => insertSeen seen p.stream_index) []

/-- State `AWAITING_TRACK_DATA` at its start: tracks registered, file opened, no
packet received yet. -/
def AwaitingTrackData (s : MatroskaMuxer) : Prop :=
  s.m_headerWritten = false ∧ s.m_seenStreams = [] ∧ s.m_preHeaderPackets = [] ∧
  s.blockLog = [] ∧ s.m_tracks ≠ [] ∧ (s.m_tracks.map (fun t => t.streamIndex)).Nodup ∧
  ∀ t ∈ s.m_tracks, t.hasPendingFrame = false ∧ t.pendingFrameData = []

/-- Every registered track has an accepted packet in `ps`. -/
def AllTracksSeen (tracks : List MkvTrackInfo) (ps : List AVPacket) : Prop :=
  ∀ t ∈ tracks, ∃ p ∈ ps, p.accepted tracks = true ∧ p.stream_index = t.streamIndex

/-! ## A sample session

Two registered tracks (H.264 video as stream 0, AC-3 audio as stream 1), a video frame
that arrives as three packets with one PTS, then the first audio packet. -/

/-- The number of binary digits of `n` (at most `fuel`). -/
def bitLength : Nat → Nat → Nat
  | 0, _ => 0
  | fuel + 1, n => if n = 0 then 0 else bitLength fuel (n / 2) + 1

/-- The value of a positive normal IEEE-754 binary64 bit pattern as a fraction
`(numerator, denominator)`: the 53-bit significand times two to the unbiased exponent
minus 52. -/
def f64Value (bits : Nat) : Nat × Nat :=
  ((2 ^ 52 + bits % 2 ^ 52) * 2 ^ (bits / 2 ^ 52 % 2048 - 1075),
    2 ^ (1075 - bits / 2 ^ 52 % 2048))

/-- The IEEE-754 binary64 bit pattern of the `double` nearest to `num / den` (ties to
even), for a quotient that is zero or at least `2^-200` and in the normal range: how
the `double` operations of the source round. `x - 200` is the exponent of the
quotient, `q1` its significand rounded to 53 bits. -/
def f64Round (num den : Nat) : Nat :=
  if num = 0 ∨ den = 0 then 0
  else
    let x0 := bitLength 4096 num + 200 - bitLength 4096 den
    let x := if den * 2 ^ x0 ≤ num * 2 ^ 200 then x0 else x0 - 1
    let n := num * 2 ^ (252 - x)
    let d := den * 2 ^ (x - 252)
    let q := n / d
    let r := n % d
    let q1 := if 2 * r > d ∨ (2 * r = d ∧ q % 2 = 1) then q + 1 else q
    if q1 = 2 ^ 53 then (x + 823 + 1) * 2 ^ 52 else (x + 823) * 2 ^ 52 + (q1 - 2 ^ 52)

/-- Lines 1395-1404 of `close` on bit patterns, for `lastMs >= 0`:
`static_cast<double>(lastMs) + frameDurationMs` with `frameDurationMs = 1000.0 / fps`
for `some fps` and `0.0` for `none`. -/
def f64Duration (lastMs : Int) (fps : Option Nat) : Nat :=
  match fps with
  | none => f64Round lastMs.toNat 1
  | some f =>
    let d := f64Value (f64Round (1000 * (f64Value f).2) (f64Value f).1)
    f64Round (lastMs.toNat * d.2 + d.1) d.2

/-- Sample values for what `Env` stands for: flag mask, codec tags, `double`
operations (25 fps) and reader states of a session with one H.264 and one AC-3
stream. -/
def sampleEnv : Env :=
  { IS_IFRAME := 4,
    CODEC_V_AV1 := 1, CODEC_V_MPEG4_H264 := 2, CODEC_V_MPEG4_H265 := 3,
    CODEC_V_MPEG4_H266 := 4, CODEC_A_AAC := 5, CODEC_A_EAC3 := 6, CODEC_A_HDAC3 := 7,
    f64_pos := fun fps => decide (0 < fps ∧ fps < 2 ^ 63),
    f64_defaultDurationNs := fun _ => 40000000,
    f64_ofInt := fun _ => 0x40E7700000000000,
    f64_duration := f64Duration,
    codecReader := fun k =>
      if k = 0 then
        { codecID := 2, mpeg := some (1920, 1080, 0x4039000000000000, false,
            VideoAspectRatio.AR_KEEP_DEFAULT),
          simple := none, lpcm := none, codecPrivate := [1, 0x64, 0, 0x28] }
      else
        { codecID := 8, mpeg := none, simple := some (48000, 6), lpcm := none,
          codecPrivate := [] } }

/-- The sample muxer after both streams are registered and the file is opened. -/
def sampleMuxer : MatroskaMuxer :=
  ((({} : MatroskaMuxer).intAddStream sampleEnv "V_MPEG4/ISO/AVC" 0
      (sampleEnv.codecReader 0) 0x1111).intAddStream sampleEnv "A_AC3" 1
      (sampleEnv.codecReader 1) 0x2222).openDstFile

/-- The track registered for stream 0 of the sample muxer. -/
def sampleVideoTrack : MkvTrackInfo :=
  { streamIndex := 0, trackNumber := 1, trackUID := 0x1111,
    matroskaCodecID := strBytes "V_MPEG4/ISO/AVC", codecID := 2, trackType := 1,
    width := 1920, height := 1080, fps := 0x4039000000000000 }

/-- One video frame in three packets that share a PTS, the first one a keyframe. -/
def sampleVideoPackets : List AVPacket :=
  [{ stream_index := 0, pts := 211680000, flags := 4, data := some [0, 0, 1, 0x65, 0x88] },
   { stream_index := 0, pts := 211680000, flags := 0, data := some [0x84, 0x21] },
   { stream_index := 0, pts := 211680000, flags := 0, data := some [0xA0] }]

/-- The first packet of stream 1, with an earlier PTS. -/
def sampleAudioPacket : AVPacket :=
  { stream_index := 1, pts := 105840000, flags := 0, data := some [0x0B, 0x77, 0x12] }

/-- The sample muxer at the moment the deferred header has just been written: the four
packets are in the pre-header buffer. -/
def sampleCommitState : MatroskaMuxer :=
  ((sampleVideoPackets.foldl (fun acc p => acc.muxPacket sampleEnv p)
    sampleMuxer).bufferPacket sampleAudioPacket).writeDeferredHeader sampleEnv

/-! ## Cluster scheduling and cluster layout (what the cluster claims refer to) -/

/-- The new-cluster condition as the specification words it, for a frame of `track`
at `relMs`: no cluster is open; or `rel_ms - cluster_ms >= 5000`; or the accumulated
size of the open cluster is at least `5 * 1024 * 1024`; or the frame is a video
keyframe and `rel_ms - cluster_ms >= 1000`. -/
def NewClusterCondition (env : Env) (s : MatroskaMuxer) (track : MkvTrackInfo)
    (relMs : Int) : Prop :=
  s.m_clusterOpen = false ∨ relMs - s.m_clusterTimecodeMs ≥ 5000 ∨
  s.m_clusterDataSize ≥ 5 * 1024 * 1024 ∨
  (track.trackType = 1 ∧ track.pendingFlags &&& env.IS_IFRAME ≠ 0 ∧
    relMs - s.m_clusterTimecodeMs ≥ 1000)

instance (env : Env) (s : MatroskaMuxer) (track : MkvTrackInfo) (relMs : Int) :
    Decidable (NewClusterCondition env s track relMs) := by
  unfold NewClusterCondition
  infer_instance

/-- The SimpleBlock element as the specification words it: ID `A3`, a size VINT equal
to (track-number VINT length + 2 + 1 + payload length), VINT(track number), the 16-bit
big-endian relative time, the flags byte, the payload. -/
def SimpleBlock.bytes (b : SimpleBlock) : List Nat :=
  [0xA3] ++
  ebml_write_size ((ebml_write_size b.trackNumber).length + 2 + 1 + b.frameData.length) ++
  ebml_write_size b.trackNumber ++ writeBE b.relTimeMs 2 ++ [b.flags] ++ b.frameData

/-- Line 1128 of `flushPendingFrame`: the PTS of the pending frame relative to the
stream start, in milliseconds. The `int64_t` subtraction is taken on the integers: it is
the program's value while the two operands are less than `2^63` apart. -/
def MatroskaMuxer.frameRelMs (s : MatroskaMuxer) (track : MkvTrackInfo) : Int :=
  Int.tdiv (track.pendingPts - s.m_firstTimecode) INTERNAL_PTS_PER_MS

/-- The record `flushCluster` logs for the open cluster of `s`. -/
def MatroskaMuxer.clusterRecord (s : MatroskaMuxer) : ClusterRecord :=
  { filePos := s.m_file.pos, timecodeMs := s.m_clusterTimecodeMs,
    startFilePos := s.m_clusterStartFilePos,
    header := ebml_write_id MATROSKA_ID_CLUSTER ++ ebml_write_size s.m_clusterBuf.length,
    content := s.m_clusterBuf, blocks := s.clusterBlocks }

/-- The cue entries `flushPendingFrame` adds for a frame of `track` at `relMs` in a
cluster at `clusterOffset`: one for a video keyframe, none otherwise. -/
def cueOf (env : Env) (track : MkvTrackInfo) (relMs clusterOffset : Int) : List CueEntry :=
  if track.trackType = 1 ∧ track.pendingFlags &&& env.IS_IFRAME ≠ 0 then
    [{ timecodeMs := relMs, trackNumber := track.trackNumber, clusterOffset := clusterOffset }]
  else []

/-! ## A sample clip: one video track, 30 fps, keyframes at frames 0 and 60 -/

/-- Sample values for a session with one AV1 stream at 30 fps. -/
def clipEnv : Env :=
  { sampleEnv with
    codecReader := fun _ =>
      { codecID := 1, mpeg := some (1920, 1080, 0x403E000000000000, false,
          VideoAspectRatio.AR_KEEP_DEFAULT),
        simple := none, lpcm := none, codecPrivate := [0x81, 0x08, 0x0C, 0x00] },
    f64_defaultDurationNs := fun _ => 33333333 }

/-- The muxer after the stream is registered and the file is opened. -/
def clipMuxer : MatroskaMuxer :=
  (({} : MatroskaMuxer).intAddStream clipEnv "V_AV1" 0 (clipEnv.codecReader 0)
    0x3333).openDstFile

/-- Frame `i` of the clip, one packet holding one FRAME OBU. -/
def clipFrame (i : Nat) : AVPacket :=
  { stream_index := 0, pts := (i : Int) * 176400000,
    flags := if i = 0 ∨ i = 60 then 4 else 0,
    data := some [0, 0, 1, 0x32, 0x80 + i] }

/-- The muxer after frames 0 to 60 have been passed to `muxPacket`: frame 60 is the
pending frame. -/
def clipState : MatroskaMuxer :=
  ((List.range 61).map clipFrame).foldl (fun acc p => acc.muxPacket clipEnv p) clipMuxer

/-- The track of the clip with frame 60 pending. -/
def clipTrack : MkvTrackInfo :=
  (findTrack clipState.m_tracks 0).getD {}

/-! ## A sample session in which an audio frame is flushed late -/

/-- A session of the sample muxer: one video and one audio packet at PTS 0, video
keyframes at 40 s and 80 s, then the second audio packet (PTS 1 ms), which flushes
the first audio frame into the cluster that began at 80 s minus 40 s. -/
def lateAudioPackets : List AVPacket :=
  [{ stream_index := 0, pts := 0, flags := 4, data := some [0, 0, 1, 0x65, 0x88] },
   { stream_index := 1, pts := 0, flags := 0, data := some [0x0B, 0x77, 0x01] },
   { stream_index := 0, pts := 211680000000, flags := 4, data := some [0, 0, 1, 0x65, 0x89] },
   { stream_index := 0, pts := 423360000000, flags := 4, data := some [0, 0, 1, 0x65, 0x8A] },
   { stream_index := 1, pts := 5292000, flags := 0, data := some [0x0B, 0x77, 0x02] }]

/-- The low-overhead form of an OBU of `data` as the specification words it: `obu` is
built from the OBU whose header starts at some index `curObu` of `data` (a header that
passes validation, not a temporal delimiter): the original first header byte with
`obu_has_size_field` (bit `0x02`) set, the extension byte when `obu_extension_flag` is
set, the LEB128 encoding of the payload length, then the payload, which is the bytes
from the end of the header to the next start code, trailing zero bytes trimmed,
emulation-prevention bytes removed. -/
def LowOverheadObuOf (data : List Nat) (obu : ConvertedObu) (payload : List Nat) : Prop :=
  ∃ (curObu : Nat) (hdr : Av1ObuHeader) (hdrLen : Nat),
    curObu < data.length ∧
    Av1ObuHeader.parse (data.drop curObu) = some (hdr, hdrLen) ∧
    hdr.obu_type ≠ TEMPORAL_DELIMITER ∧ obu.type = hdr.obu_type ∧
    payload = removeEmulationPrevention 0
      (obuPayloadWithEP data curObu hdrLen (findNALWithStartCode data curObu true)) ∧
    obu.bytes = [data.getD curObu 0 ||| 0x02] ++
      (if hdr.obu_extension_flag then [data.getD (curObu + 1) 0] else []) ++
      encodeLeb128 payload.length ++ payload

/-- A packet of the sample clip that holds nothing but a temporal delimiter OBU. -/
def delimiterOnlyPacket : AVPacket :=
  { stream_index := 0, pts := 0, flags := 4, data := some [0, 0, 1, 0x12, 0x00] }

/-! ## NAL units of an Annex B buffer (what the length-prefix claim refers to) -/

/-- The NAL units found in `d`, the bytes that follow a start code, as the
specification words them: a unit runs to the next start code `00 00 01` and excludes
the zero bytes just before that start code; the last unit runs to the end of the
buffer. `fuel` bounds the number of units. -/
def nalUnitsAux : Nat → List Nat → List (List Nat)
  | 0, _ => []
  | fuel + 1, d =>
    if d = [] then []
    else if startCodeOffset d < d.length then
      (d.take (startCodeOffset d)).rdropWhile (fun b => b == 0) ::
        nalUnitsAux fuel (d.drop (startCodeOffset d + 3))
    else [d]

/-- The non-empty NAL units of an Annex B buffer, in input order: those found after
the first start code of the buffer. -/
def nalUnits (data : List Nat) : List (List Nat) :=
  (nalUnitsAux (data.length + 1) (data.drop (startCodeOffset data + 3))).filter
    (fun n => !n.isEmpty)

/-- Walking a buffer by its 4-byte big-endian length prefixes: the units read, or
`none` when a prefix or a unit is cut short. `fuel` bounds the number of units. -/
def readLengthPrefixed : Nat → List Nat → Option (List (List Nat))
  | 0, _ => none
  | fuel + 1, buf =>
    if buf = [] then some []
    else if buf.length < 4 then none
    else
      let n := beValue (buf.take 4)
      if buf.length < 4 + n then none
      else (readLengthPrefixed fuel (buf.drop (4 + n))).map (fun tl => (buf.drop 4).take n :: tl)

/-- The tokenizing pass as the specification words it, on the bytes `d` that follow
a start code: parse the OBU header (an OBU whose header fails validation ends the
scan); the payload runs from the end of the header to the next start code, without
the zero bytes before that start code, and its emulation-prevention bytes are
removed; temporal delimiters are dropped; the scan goes on after the next start
code. `fuel` bounds the number of OBUs. -/
def obuTokens : Nat → List Nat → List ConvertedObu
  | 0, _ => []
  | fuel + 1, d =>
    if d = [] then []
    else
      match Av1ObuHeader.parse d with
      | none => []
      | some (hdr, hdrLen) =>
        let payload := removeEmulationPrevention 0
          (((d.drop hdrLen).take (startCodeOffset d - hdrLen)).rdropWhile (fun b => b == 0))
        (if hdr.obu_type ≠ TEMPORAL_DELIMITER then
          [{ type := hdr.obu_type,
             bytes := [d.getD 0 0 ||| 0x02] ++
               (if hdr.obu_extension_flag then [d.getD 1 0] else []) ++
               encodeLeb128 payload.length ++ payload }]
         else []) ++
        (if startCodeOffset d < d.length then obuTokens fuel (d.drop (startCodeOffset d + 3))
         else [])

/-! ## Session invariants of the file, the clusters and the cue entries -/

/-- The part of the muxer state that the cluster, cue and file-patching claims are
about. -/
structure ClusterView where
  file : File
  segSize : Int
  segStart : Int
  durPos : Int
  isOpen : Bool
  buf : List Nat
  cts : Int
  startPos : Int
  blocks : List SimpleBlock
  log : List ClusterRecord
  blockLog : List SimpleBlock
  cues : List CueEntry

/-- The view of a muxer state. -/
def MatroskaMuxer.view (s : MatroskaMuxer) : ClusterView :=
  { file := s.m_file, segSize := s.m_segmentSizePos, segStart := s.m_segmentStartPos,
    durPos := s.m_durationValueFilePos, isOpen := s.m_clusterOpen, buf := s.m_clusterBuf,
    cts := s.m_clusterTimecodeMs, startPos := s.m_clusterStartFilePos,
    blocks := s.clusterBlocks, log := s.clusterLog, blockLog := s.blockLog,
    cues := s.m_cueEntries }

/-- The bytes of a cluster with timecode `ts` holding `blocks`, as the specification
words them: one Timecode uint element, then the SimpleBlock elements in order. -/
def clusterContent (ts : Int) (blocks : List SimpleBlock) : List Nat :=
  ebml_write_uint MATROSKA_ID_CLUSTERTIMECODE (toUInt64 ts) ++
    (blocks.map SimpleBlock.bytes).flatten

/-- A written cluster is well formed and lies in the file: its header is the ID
`1F 43 B6 75` and the size VINT of the content length, its content is the Timecode
element and its blocks, it was started at the offset recorded for it, and the file
holds header and content at the position where it was written (which is after the
Duration value). -/
def ClusterRecord.Ok (file : File) (segStart durPos : Int) (r : ClusterRecord) : Prop :=
  r.header = [0x1F, 0x43, 0xB6, 0x75] ++ ebml_write_size r.content.length ∧
  r.content = clusterContent r.timecodeMs r.blocks ∧
  (∀ b ∈ r.blocks, b.clusterTimecodeMs = r.timecodeMs) ∧
  r.startFilePos = (r.filePos : Int) - segStart ∧
  durPos + 8 ≤ (r.filePos : Int) ∧
  (file.data.drop r.filePos).take (r.header.length + r.content.length) =
    r.header ++ r.content

/-- A block that answers a cue entry: a keyframe block of the cue's track at the cue's
time. -/
def CueBlock (cue : CueEntry) (b : SimpleBlock) : Prop :=
  b.trackNumber = cue.trackNumber ∧ b.relMs = cue.timecodeMs ∧ b.flags = 0x80

/-- The invariant of a session after the header is written. -/
structure ViewOk (v : ClusterView) : Prop where
  file_seq : v.file.pos = v.file.data.length
  seg : 0 ≤ v.segSize ∧ v.segSize + 8 = v.segStart
  dur : v.segStart + 3 ≤ v.durPos ∧ v.durPos + 8 ≤ (v.file.pos : Int) ∧
    (v.file.data.drop v.durPos.toNat).take 8 = writeBE 0 8 ∧
    (v.file.data.drop (v.durPos.toNat - 3)).take 3 = [0x44, 0x89, 0x88]
  open_buf : v.isOpen = true →
    v.buf = clusterContent v.cts v.blocks ∧
    v.startPos = (v.file.pos : Int) - v.segStart ∧
    ∀ b ∈ v.blocks, b.clusterTimecodeMs = v.cts
  closed_blocks : v.isOpen = false → v.blocks = []
  log_ok : ∀ r ∈ v.log, r.Ok v.file v.segStart v.durPos
  block_log : v.blockLog = (v.log.map (fun r => r.blocks)).flatten ++ v.blocks
  rel_time : ∀ b ∈ v.blockLog,
    b.relTimeMs = ((b.relMs - b.clusterTimecodeMs) % 65536).toNat
  cues_ok : ∀ cue ∈ v.cues,
    (∃ r ∈ v.log, r.startFilePos = cue.clusterOffset ∧ ∃ b ∈ r.blocks, CueBlock cue b) ∨
    (v.isOpen = true ∧ v.startPos = cue.clusterOffset ∧ ∃ b ∈ v.blocks, CueBlock cue b)

/-- The state in which a session starts: `AWAITING_TRACK_DATA` on a freshly
constructed muxer whose tracks are registered, right after `openDstFile`: no cluster,
no cue entry, nothing flushed, the file position at the end of the file, which is the
segment data start, eight bytes after the segment size field. -/
def SessionStart (s : MatroskaMuxer) : Prop :=
  AwaitingTrackData s ∧ s.m_clusterOpen = false ∧ s.clusterBlocks = [] ∧
  s.clusterLog = [] ∧ s.m_cueEntries = [] ∧ s.m_lastTimecodeMs = 0 ∧
  s.m_file.pos = s.m_file.data.length ∧ 0 ≤ s.m_segmentSizePos ∧
  s.m_segmentSizePos + 8 = s.m_segmentStartPos ∧
  s.m_segmentStartPos = (s.m_file.pos : Int)

/-- The file after `writeToFile`. -/
def MatroskaMuxer.fileAfterWrite (s : MatroskaMuxer) (data : List Nat) : File :=
  if data.length > 0 then s.m_file.write data else s.m_file

/-- The content of the SegmentInfo element as `writeSegmentInfo` builds it. -/
def segmentInfoContent : List Nat :=
  ebml_write_uint MATROSKA_ID_TIMECODESCALE 1000000 ++ ebml_write_float MATROSKA_ID_DURATION 0 ++
    ebml_write_string MATROSKA_ID_MUXINGAPP (strBytes "tsMuxeR") ++
    ebml_write_string MATROSKA_ID_WRITINGAPP (strBytes "tsMuxeR")

/-- The header of the SegmentInfo element as `writeSegmentInfo` builds it. -/
def segmentInfoHeader : List Nat :=
  ebml_write_id MATROSKA_ID_INFO ++ ebml_write_size segmentInfoContent.length

/-- A state before the header is written, as the session start leaves it: no cluster,
no block, no cue entry, the file position at the end of the file and not before the
segment data start. -/
def PreHeaderOk (s : MatroskaMuxer) : Prop :=
  s.m_clusterOpen = false ∧ s.clusterBlocks = [] ∧ s.clusterLog = [] ∧ s.blockLog = [] ∧
  s.m_cueEntries = [] ∧ s.m_lastTimecodeMs = 0 ∧
  s.m_file.pos = s.m_file.data.length ∧ 0 ≤ s.m_segmentSizePos ∧
  s.m_segmentSizePos + 8 = s.m_segmentStartPos ∧
  s.m_segmentStartPos ≤ (s.m_file.pos : Int)

/-- The maximum of `0` and the `rel_ms` of the blocks flushed so far. -/
def maxRelMs (blocks : List SimpleBlock) : Int :=
  (blocks.map (fun b => b.relMs)).foldl max 0

/-- The session invariant after the header is written: the invariant of the view, and
`m_lastTimecodeMs` is the maximum `rel_ms` over all flushed frames (`0` when none is
positive). -/
def SessionOk (s : MatroskaMuxer) : Prop :=
  ViewOk s.view ∧ s.m_lastTimecodeMs = maxRelMs s.blockLog

/-- The state of `close` before the two in-place patches: pending frames and the open
cluster flushed, Cues and SeekHead written. -/
def MatroskaMuxer.beforePatch (env : Env) (s : MatroskaMuxer) : MatroskaMuxer :=
  (((s.flushAllPendingFrames env).flushCluster).writeCues).writeSeekHead

/-- The state `close` starts flushing from: the header is written first if it was not
(lines 1366-1372). -/
def MatroskaMuxer.headerForced (env : Env) (s : MatroskaMuxer) : MatroskaMuxer :=
  if !s.m_headerWritten && !s.m_tracks.isEmpty then
    (s.writeDeferredHeader env).replayBufferedPackets env
  else s

/-- The frame rate `close` takes for the frame duration: `fps` of the first track in
`m_tracks` with `trackType == 1 && fps > 0`, if there is one. -/
def MatroskaMuxer.videoFps (env : Env) (s : MatroskaMuxer) : Option Nat :=
  (s.m_tracks.find? (fun track => track.trackType == 1 && env.f64_pos track.fps)).map
    (fun track => track.fps)

/-! ## Whole sessions (what the cue, cluster-layout and file-patching claims refer to) -/

/-- A mux session: the packets are passed to `muxPacket` in order, then `close()` is
called. -/
def muxSession (env : Env) (s : MatroskaMuxer) (ps : List AVPacket) : MatroskaMuxer :=
  (ps.foldl (fun acc p => acc.muxPacket env p) s).close env

/-- The value of the `int16_t` whose 16-bit pattern is `bits`. -/
def int16OfBits (bits : Nat) : Int :=
  if bits < 32768 then (bits : Int) else (bits : Int) - 65536

/-- The size a SimpleBlock element declares, as the specification words it:
track-number VINT length + 2 + 1 + payload length. -/
def SimpleBlock.declaredSize (b : SimpleBlock) : Nat :=
  (ebml_write_size b.trackNumber).length + 2 + 1 + b.frameData.length

/-- A session of the sample muxer in which a video keyframe at 4990 ms is still
pending when the audio frame at 5000 ms is flushed and begins a cluster. -/
def earlyKeyPackets : List AVPacket :=
  [{ stream_index := 0, pts := 0, flags := 4, data := some [0, 0, 1, 0x65, 0x88] },
   { stream_index := 1, pts := 0, flags := 0, data := some [0x0B, 0x77, 0x01] },
   { stream_index := 0, pts := 4990 * 5292000, flags := 4,
     data := some [0, 0, 1, 0x65, 0x89] },
   { stream_index := 1, pts := 5000 * 5292000, flags := 0, data := some [0x0B, 0x77, 0x02] },
   { stream_index := 1, pts := 5032 * 5292000, flags := 0, data := some [0x0B, 0x77, 0x03] },
   { stream_index := 0, pts := 5030 * 5292000, flags := 0,
     data := some [0, 0, 1, 0x41, 0x9A] }]

/-- A session of the sample muxer with one video keyframe and one audio frame, both at
the same PTS. -/
def instantPackets : List AVPacket :=
  [{ stream_index := 0, pts := 0, flags := 4, data := some [0, 0, 1, 0x65, 0x88] },
   { stream_index := 1, pts := 0, flags := 0, data := some [0x0B, 0x77, 0x01] }]

/-! ## Element IDs and typed writers (what the ID and integer-writer claims refer to) -/

/-- A valid EBML ID of `k` bytes, as the specification words it: 1 to 4 bytes with the
marker bit at position `8 - k` of its leading byte (counting from the most significant
bit, the first one set): `2^(7k) <= id < 2^(7k+1)`. -/
def ValidEbmlId (id k : Nat) : Prop :=
  1 ≤ k ∧ k ≤ 4 ∧ 2 ^ (7 * k) ≤ id ∧ id < 2 ^ (7 * k + 1)

/-- The element IDs of the specification's wire-format table. -/
def wireFormatIds : List Nat :=
  [EBML_ID_HEADER, EBML_ID_EBMLVERSION, EBML_ID_EBMLREADVERSION, EBML_ID_EBMLMAXIDLENGTH,
   EBML_ID_EBMLMAXSIZELENGTH, EBML_ID_DOCTYPE, EBML_ID_DOCTYPEVERSION,
   EBML_ID_DOCTYPEREADVERSION, MATROSKA_ID_SEGMENT, MATROSKA_ID_SEEKHEAD,
   MATROSKA_ID_SEEKENTRY, MATROSKA_ID_SEEKID, MATROSKA_ID_SEEKPOSITION, MATROSKA_ID_INFO,
   MATROSKA_ID_TIMECODESCALE, MATROSKA_ID_DURATION, MATROSKA_ID_MUXINGAPP,
   MATROSKA_ID_WRITINGAPP, MATROSKA_ID_TRACKS, MATROSKA_ID_TRACKENTRY,
   MATROSKA_ID_TRACKNUMBER, MATROSKA_ID_TRACKUID, MATROSKA_ID_TRACKTYPE,
   MATROSKA_ID_TRACKFLAGLACING, MATROSKA_ID_CODECID, MATROSKA_ID_CODECPRIVATE,
   MATROSKA_ID_TRACKDEFAULTDURATION, MATROSKA_ID_TRACKVIDEO, MATROSKA_ID_VIDEOPIXELWIDTH,
   MATROSKA_ID_VIDEOPIXELHEIGHT, MATROSKA_ID_VIDEODISPLAYWIDTH,
   MATROSKA_ID_VIDEODISPLAYHEIGHT, MATROSKA_ID_VIDEOFLAGINTERLACED, MATROSKA_ID_TRACKAUDIO,
   MATROSKA_ID_AUDIOSAMPLINGFREQ, MATROSKA_ID_AUDIOCHANNELS, MATROSKA_ID_AUDIOBITDEPTH,
   MATROSKA_ID_CLUSTER, MATROSKA_ID_CLUSTERTIMECODE, MATROSKA_ID_SIMPLEBLOCK,
   MATROSKA_ID_CUES, MATROSKA_ID_POINTENTRY, MATROSKA_ID_CUETIME,
   MATROSKA_ID_CUETRACKPOSITION, MATROSKA_ID_CUETRACK, MATROSKA_ID_CUECLUSTERPOSITION]

/-- Function `sint_size`. -/
def sint_size (value : Int) : Nat :=
  if value ≥ -128 ∧ value ≤ 127 then 1
  else if value ≥ -32768 ∧ value ≤ 32767 then 2
  else if value ≥ -8388608 ∧ value ≤ 8388607 then 3
  else if value ≥ -2147483648 ∧ value ≤ 2147483647 then 4
  else 8

/-- The loop `for (int i = valSize - 1; i >= 0; --i) dst[pos++] =
static_cast<uint8_t>((value >> (i * 8)) & 0xFF)` of `ebml_write_sint`, on an `int64_t`
(the shift is arithmetic, `& 0xFF` is the remainder modulo 256). -/
def writeBESigned (value : Int) : Nat → List Nat
  | 0 => []
  | i + 1 => ((value >>> (i * 8)) % 256).toNat :: writeBESigned value i

/-- Function `ebml_write_sint`; `value` is an `int64_t`. -/
def ebml_write_sint (id : Nat) (value : Int) : List Nat :=
  ebml_write_id id ++ ebml_write_size (sint_size value) ++
    writeBESigned value (sint_size value)

/-- The value of a big-endian two's-complement byte string: the unsigned value, minus
`2^(8 * length)` when the top bit is set (sign extension). -/
def sintValue (bytes : List Nat) : Int :=
  if beValue bytes < 2 ^ (8 * bytes.length - 1) then (beValue bytes : Int)
  else (beValue bytes : Int) - 2 ^ (8 * bytes.length)

/-! ## Insertion of emulation prevention bytes (`NALUnit::encodeNAL`, not part of the sources) -/

/-- Insertion of emulation prevention bytes as in H.264 Annex-B: a byte `00`, `01`, `02`
or `03` that follows two zero bytes of the output is preceded by an inserted `03`;
`zeros` counts the zero bytes just before in the output. -/
def addEmulationPrevention : Nat → List Nat → List Nat
  | _, [] => []
  | zeros, b :: rest =>
    if 2 ≤ zeros ∧ b ≤ 3 then 3 :: b :: addEmulationPrevention (if b = 0 then 1 else 0) rest
    else b :: addEmulationPrevention (if b = 0 then zeros + 1 else 0) rest

/-- Modelled from the spec: `NALUnit::encodeNAL(src, srcEnd, dst, dstSize)` (nalUnits.cpp
is missing from the sources): "Same algorithm as Annex-B (escape any `00 00 00`,
`00 00 01`, `00 00 02` by inserting `03`; ...)". Annex-B escapes `00 00 03` in the same
way, which is what lets every inserted `03` be told from a `03` of the data. The encoded
bytes, or `none` (the source's `-1`) when they do not fit in `dstSize`. -/
def NALUnit_encodeNAL (src : List Nat) (dstSize : Nat) : Option (List Nat) :=
  let out := addEmulationPrevention 0 src
  if out.length ≤ dstSize then some out else none

/-- Function `av1_add_emulation_prevention` (av1.cpp line 591). -/
def av1_add_emulation_prevention (src : List Nat) (dstSize : Nat) : Option (List Nat) :=
  NALUnit_encodeNAL src dstSize

/-! ## AV1 sequence header (av1.h, av1.cpp lines 94-434) -/

/-- Constant `AV1_CP_BT_709` (av1.h). -/
def AV1_CP_BT_709 : Nat := 1
/-- Constant `AV1_TC_SRGB` (av1.h). -/
def AV1_TC_SRGB : Nat := 13
/-- Constant `AV1_MC_IDENTITY` (av1.h). -/
def AV1_MC_IDENTITY : Nat := 0

/-- Modelled from the spec: class `BitStreamReader` (bitStream.h is missing from the
sources): a reader of the bits of the byte buffer `data` (set once, by `setBuffer`),
most significant bit first, as the AV1 specification reads its fields; `pos` is the
number of bits consumed. -/
structure BitStreamReader (data : List Nat) where
  pos : Nat
deriving DecidableEq, Repr

/-- Method `BitStreamReader::setBuffer(data, data + dataLen)`. -/
def BitStreamReader.setBuffer (data : List Nat) : BitStreamReader data :=
  { pos := 0 }

/-- The bit at bit position `p` of a byte buffer. -/
def bitAt (data : List Nat) (p : Nat) : Nat :=
  (data.getD (p / 8) 0 >>> (7 - p % 8)) &&& 1

/-- The value of the `n` bits from bit position `p` on, most significant first. -/
def bitsValue (data : List Nat) (p : Nat) : Nat → Nat
  | 0 => 0
  | n + 1 => bitsValue data p n * 2 + bitAt data (p + n)

/-- Modelled from the spec: method `BitStreamReader::getBits(n)`: the value of the next
`n` bits and the reader after them; `none` where the source throws
`BitStreamException` because fewer than `n` bits are left. -/
def BitStreamReader.getBits {data : List Nat} (r : BitStreamReader data) (n : Nat) :
    Option (Nat × BitStreamReader data) :=
  if r.pos + n ≤ 8 * data.length then some (bitsValue data r.pos n, { pos := r.pos + n })
  else none

/-- Modelled from the spec: method `BitStreamReader::getBit()`, one bit as `0` or `1`. -/
def BitStreamReader.getBit {data : List Nat} (r : BitStreamReader data) :
    Option (Nat × BitStreamReader data) :=
  r.getBits 1

/-- A bit read into a `bool`, as in `high_bitdepth = reader.getBit()`. -/
def BitStreamReader.getFlag {data : List Nat} (r : BitStreamReader data) :
    Option (Bool × BitStreamReader data) :=
  match r.getBit with
  | none => none
  | some (b, r') => some (decide (b ≠ 0), r')

/-- Modelled from the spec: methods `BitStreamReader::skipBits(n)` and `skipBit()`:
the reader after the next `n` bits; `none` where the source throws
`BitStreamException`. -/
def BitStreamReader.skipBits {data : List Nat} (r : BitStreamReader data) (n : Nat) :
    Option (BitStreamReader data) :=
  if r.pos + n ≤ 8 * data.length then some { pos := r.pos + n } else none

/-- Struct `Av1SequenceHeader` with the values its constructor sets (av1.cpp lines
94-120). -/
structure Av1SequenceHeader where
  seq_profile : Nat := 0
  still_picture : Bool := false
  reduced_still_picture_header : Bool := false
  seq_level_idx_0 : Nat := 0
  seq_tier_0 : Nat := 0
  timing_info_present_flag : Bool := false
  num_units_in_display_tick : Nat := 0
  time_scale : Nat := 0
  equal_picture_interval : Bool := false
  num_ticks_per_picture_minus_1 : Nat := 0
  max_frame_width : Nat := 0
  max_frame_height : Nat := 0
  high_bitdepth : Bool := false
  twelve_bit : Bool := false
  mono_chrome : Bool := false
  color_primaries : Nat := 2
  transfer_characteristics : Nat := 2
  matrix_coefficients : Nat := 2
  color_range : Bool := false
  chroma_subsampling_x : Nat := 0
  chroma_subsampling_y : Nat := 0
  chroma_sample_position : Nat := 0
  separate_uv_delta_q : Bool := false
  frame_id_numbers_present_flag : Bool := false
deriving DecidableEq, Repr

/-- Method `Av1SequenceHeader::getBitDepth`. -/
def Av1SequenceHeader.getBitDepth (h : Av1SequenceHeader) : Nat :=
  if h.seq_profile = 2 ∧ h.high_bitdepth = true then (if h.twelve_bit then 12 else 10)
  else if h.high_bitdepth then 10
  else 8

/-- A conditional read, `if (c) x = read; else x = otherwise` with the reader left as
it is in the second case. -/
def readIf {α β : Type} (c : Bool) (read : Option (α × β)) (otherwise : α × β) :
    Option (α × β) :=
  if c then read else some otherwise

/-- A conditional skip, `if (c) skip;`. -/
def skipIf {β : Type} (c : Bool) (skip : Option β) (reader : β) : Option β :=
  if c then skip else some reader

/-- The loop `while (leadingZeros < 32 && reader.getBit() == 0) leadingZeros++` of
`parseUvlc`; `fuel` is `32 - leadingZeros`. Returns `leadingZeros` and the reader. -/
def uvlcLeadingZeros {data : List Nat} :
    Nat → Nat → BitStreamReader data → Option (Nat × BitStreamReader data)
  | 0, leadingZeros, reader => some (leadingZeros, reader)
  | fuel + 1, leadingZeros, reader =>
    match reader.getBit with
    | none => none
    | some (b, reader) =>
      if b = 0 then uvlcLeadingZeros fuel (leadingZeros + 1) reader
      else some (leadingZeros, reader)

/-- Method `Av1SequenceHeader::parseUvlc`; the result is a `uint32_t`. -/
def parseUvlc {data : List Nat} (reader : BitStreamReader data) :
    Option (Nat × BitStreamReader data) :=
  match uvlcLeadingZeros 32 0 reader with
  | none => none
  | some (leadingZeros, reader) =>
    if leadingZeros ≥ 32 then some (4294967295, reader)
    else
      match reader.getBits leadingZeros with
      | none => none
      | some (value, reader) =>
        some ((value + (1 <<< leadingZeros) % 2 ^ 32 + (2 ^ 32 - 1)) % 2 ^ 32, reader)

/-- Method `Av1SequenceHeader::parseTimingInfo`: the header and the reader when it
returns `true`, `none` when it returns `false` (a `BitStreamException` was caught). -/
def Av1SequenceHeader.parseTimingInfo {data : List Nat} (h : Av1SequenceHeader)
    (reader : BitStreamReader data) : Option (Av1SequenceHeader × BitStreamReader data) :=
  match reader.getBits 32 with
  | none => none
  | some (num_units_in_display_tick, reader) =>
    match reader.getBits 32 with
    | none => none
    | some (time_scale, reader) =>
      match reader.getFlag with
      | none => none
      | some (equal_picture_interval, reader) =>
        match readIf equal_picture_interval (parseUvlc reader) (0, reader) with
        | none => none
        | some (num_ticks_per_picture_minus_1, reader) =>
          some ({ h with
            num_units_in_display_tick := num_units_in_display_tick, time_scale := time_scale,
            equal_picture_interval := equal_picture_interval,
            num_ticks_per_picture_minus_1 := num_ticks_per_picture_minus_1 }, reader)

/-- Lines 191-193 of `parseColorConfig`: the colour description, 8 bits each. -/
def readColorDescription {data : List Nat} (reader : BitStreamReader data) :
    Option ((Nat × Nat × Nat) × BitStreamReader data) :=
  match reader.getBits 8 with
  | none => none
  | some (color_primaries, reader) =>
    match reader.getBits 8 with
    | none => none
    | some (transfer_characteristics, reader) =>
      match reader.getBits 8 with
      | none => none
      | some (matrix_coefficients, reader) =>
        some ((color_primaries, transfer_characteristics, matrix_coefficients), reader)

/-- Lines 238-242 of `parseColorConfig`: `chroma_subsampling_x` is read, and
`chroma_subsampling_y` is read when `chroma_subsampling_x` is set, else it is `0`. -/
def readExplicitSubsampling {data : List Nat} (reader : BitStreamReader data) :
    Option ((Nat × Nat) × BitStreamReader data) :=
  match reader.getBit with
  | none => none
  | some (chroma_subsampling_x, reader) =>
    match readIf (decide (chroma_subsampling_x ≠ 0)) reader.getBit (0, reader) with
    | none => none
    | some (chroma_subsampling_y, reader) =>
      some ((chroma_subsampling_x, chroma_subsampling_y), reader)

/-- Lines 223-249 of `parseColorConfig`: `(chroma_subsampling_x, chroma_subsampling_y)`
by profile. -/
def Av1SequenceHeader.readSubsampling {data : List Nat} (h : Av1SequenceHeader)
    (reader : BitStreamReader data) : Option ((Nat × Nat) × BitStreamReader data) :=
  if h.seq_profile = 0 then some ((1, 1), reader)
  else if h.seq_profile = 1 then some ((0, 0), reader)
  else if h.getBitDepth = 12 then readExplicitSubsampling reader
  else some ((1, 0), reader)

/-- Lines 220-252 of `parseColorConfig`, the branch outside the sRGB special case:
`color_range` is read, the chroma subsampling is derived from the profile, and
`chroma_sample_position` is read when both subsampling flags are set. -/
def Av1SequenceHeader.parseChromaSubsampling {data : List Nat} (h : Av1SequenceHeader)
    (reader : BitStreamReader data) : Option (Av1SequenceHeader × BitStreamReader data) :=
  match reader.getFlag with
  | none => none
  | some (color_range, reader) =>
    let h := { h with color_range := color_range }
    match h.readSubsampling reader with
    | none => none
    | some (xy, reader) =>
      let h := { h with chroma_subsampling_x := xy.1, chroma_subsampling_y := xy.2 }
      if h.chroma_subsampling_x ≠ 0 ∧ h.chroma_subsampling_y ≠ 0 then
        match reader.getBits 2 with
        | none => none
        | some (chroma_sample_position, reader) =>
          some ({ h with chroma_sample_position := chroma_sample_position }, reader)
      else some (h, reader)

/-- Lines 212-252 of `parseColorConfig`: the sRGB special case, or else
`parseChromaSubsampling`. -/
def Av1SequenceHeader.parseColorRange {data : List Nat} (h : Av1SequenceHeader)
    (reader : BitStreamReader data) : Option (Av1SequenceHeader × BitStreamReader data) :=
  if h.color_primaries = AV1_CP_BT_709 ∧ h.transfer_characteristics = AV1_TC_SRGB ∧
      h.matrix_coefficients = AV1_MC_IDENTITY then
    some ({ h with color_range := true, chroma_subsampling_x := 0, chroma_subsampling_y := 0 },
      reader)
  else h.parseChromaSubsampling reader

/-- Method `Av1SequenceHeader::parseColorConfig`: the header and the reader when it
returns `true`, `none` when it returns `false` (a `BitStreamException` was caught). -/
def Av1SequenceHeader.parseColorConfig {data : List Nat} (h : Av1SequenceHeader)
    (reader : BitStreamReader data) : Option (Av1SequenceHeader × BitStreamReader data) :=
  match reader.getFlag with
  | none => none
  | some (high_bitdepth, reader) =>
    let h := { h with high_bitdepth := high_bitdepth }
    match readIf (decide (h.seq_profile = 2) && h.high_bitdepth) reader.getFlag
        (false, reader) with
    | none => none
    | some (twelve_bit, reader) =>
      let h := { h with twelve_bit := twelve_bit }
      match readIf (decide (h.seq_profile ≠ 1)) reader.getFlag (false, reader) with
      | none => none
      | some (mono_chrome, reader) =>
        let h := { h with mono_chrome := mono_chrome }
        match reader.getFlag with
        | none => none
        | some (color_description_present_flag, reader) =>
          match readIf color_description_present_flag (readColorDescription reader)
              ((2, 2, 2), reader) with
          | none => none
          | some (desc, reader) =>
            let h := { h with
              color_primaries := desc.1, transfer_characteristics := desc.2.1,
              matrix_coefficients := desc.2.2 }
            if h.mono_chrome then
              match reader.getFlag with
              | none => none
              | some (color_range, reader) =>
                some ({ h with
                  color_range := color_range, chroma_subsampling_x := 1,
                  chroma_subsampling_y := 1, chroma_sample_position := 0,
                  separate_uv_delta_q := false }, reader)
            else
              match h.parseColorRange reader with
              | none => none
              | some (h, reader) =>
                match reader.getFlag with
                | none => none
                | some (separate_uv_delta_q, reader) =>
                  some ({ h with separate_uv_delta_q := separate_uv_delta_q }, reader)

/-- Lines 331-338 of `deserialize`: `operating_parameters_info()` is skipped when
`decoder_model_present` is set. -/
def skipOperatingParameters {data : List Nat} (reader : BitStreamReader data) :
    Option (BitStreamReader data) :=
  match reader.getFlag with
  | none => none
  | some (decoder_model_present, reader) =>
    match skipIf decoder_model_present (reader.skipBits (5 + 1)) reader with
    | none => none
    | some reader => skipIf decoder_model_present (reader.skipBits 10) reader

/-- Lines 342-344 of `deserialize`: `initial_display_delay_minus_1` is skipped when
present. -/
def skipInitialDisplayDelay {data : List Nat} (reader : BitStreamReader data) :
    Option (BitStreamReader data) :=
  match reader.getFlag with
  | none => none
  | some (present, reader) => skipIf present (reader.skipBits 4) reader

/-- The loop over the operating points of `deserialize` (lines 316-346), from index
`i` on, with `count` iterations left. -/
def Av1SequenceHeader.parseOperatingPoints {data : List Nat}
    (decoder_model_info_present_flag initial_display_delay_present_flag : Bool) :
    Nat → Nat → Av1SequenceHeader → BitStreamReader data →
      Option (Av1SequenceHeader × BitStreamReader data)
  | 0, _, h, reader => some (h, reader)
  | count + 1, i, h, reader =>
    match reader.skipBits 12 with
    | none => none
    | some reader =>
      match reader.getBits 5 with
      | none => none
      | some (level, reader) =>
        match readIf (decide (level > 7)) reader.getBit (0, reader) with
        | none => none
        | some (tier, reader) =>
          let h := if i = 0 then { h with seq_level_idx_0 := level, seq_tier_0 := tier } else h
          match skipIf decoder_model_info_present_flag (skipOperatingParameters reader)
              reader with
          | none => none
          | some reader =>
            match skipIf initial_display_delay_present_flag (skipInitialDisplayDelay reader)
                reader with
            | none => none
            | some reader =>
              Av1SequenceHeader.parseOperatingPoints decoder_model_info_present_flag
                initial_display_delay_present_flag count (i + 1) h reader

/-- Lines 306-309 of `deserialize`: the fields of `decoder_model_info()` are skipped. -/
def skipDecoderModelInfo {data : List Nat} (reader : BitStreamReader data) :
    Option (BitStreamReader data) :=
  match reader.skipBits 5 with
  | none => none
  | some reader =>
    match reader.skipBits 32 with
    | none => none
    | some reader =>
      match reader.skipBits 5 with
      | none => none
      | some reader => reader.skipBits 5

/-- Lines 300-310 of `deserialize`: the timing info and the decoder model info, read
when `timing_info_present_flag` is set. Returns the header,
`decoder_model_info_present_flag` and the reader. -/
def Av1SequenceHeader.parseTimingAndDecoderModel {data : List Nat} (h : Av1SequenceHeader)
    (reader : BitStreamReader data) :
    Option (Av1SequenceHeader × Bool × BitStreamReader data) :=
  match h.parseTimingInfo reader with
  | none => none
  | some (h, reader) =>
    match reader.getFlag with
    | none => none
    | some (decoder_model_info_present_flag, reader) =>
      match skipIf decoder_model_info_present_flag (skipDecoderModelInfo reader) reader with
      | none => none
      | some reader => some (h, decoder_model_info_present_flag, reader)

/-- Lines 288-347 of `deserialize`: the fields between `reduced_still_picture_header`
and the frame size. -/
def Av1SequenceHeader.parseOperatingInfo {data : List Nat} (h : Av1SequenceHeader)
    (reader : BitStreamReader data) : Option (Av1SequenceHeader × BitStreamReader data) :=
  if h.reduced_still_picture_header then
    match reader.getBits 5 with
    | none => none
    | some (level, reader) =>
      some ({ h with
        timing_info_present_flag := false, seq_level_idx_0 := level, seq_tier_0 := 0 }, reader)
  else
    match reader.getFlag with
    | none => none
    | some (timing_info_present_flag, reader) =>
      let h := { h with timing_info_present_flag := timing_info_present_flag }
      match readIf h.timing_info_present_flag (h.parseTimingAndDecoderModel reader)
          (h, false, reader) with
      | none => none
      | some (h, decoder_model_info_present_flag, reader) =>
        match reader.getFlag with
        | none => none
        | some (initial_display_delay_present_flag, reader) =>
          match reader.getBits 5 with
          | none => none
          | some (operating_points_cnt_minus_1, reader) =>
            Av1SequenceHeader.parseOperatingPoints decoder_model_info_present_flag
              initial_display_delay_present_flag (operating_points_cnt_minus_1 + 1) 0 h reader

/-- Lines 349-353 of `deserialize`: the frame size. -/
def Av1SequenceHeader.parseFrameSize {data : List Nat} (h : Av1SequenceHeader)
    (reader : BitStreamReader data) : Option (Av1SequenceHeader × BitStreamReader data) :=
  match reader.getBits 4 with
  | none => none
  | some (frame_width_bits_minus_1, reader) =>
    match reader.getBits 4 with
    | none => none
    | some (frame_height_bits_minus_1, reader) =>
      match reader.getBits (frame_width_bits_minus_1 + 1) with
      | none => none
      | some (max_frame_width_minus_1, reader) =>
        match reader.getBits (frame_height_bits_minus_1 + 1) with
        | none => none
        | some (max_frame_height_minus_1, reader) =>
          some ({ h with
            max_frame_width := max_frame_width_minus_1 + 1,
            max_frame_height := max_frame_height_minus_1 + 1 }, reader)

/-- Lines 366-370 of `deserialize`: the frame id lengths are skipped. -/
def skipFrameIdLengths {data : List Nat} (reader : BitStreamReader data) :
    Option (BitStreamReader data) :=
  match reader.skipBits 4 with
  | none => none
  | some reader => reader.skipBits 3

/-- Lines 381-411 of `deserialize`: the tool flags that are there when
`reduced_still_picture_header` is not set. -/
def skipInterTools {data : List Nat} (reader : BitStreamReader data) :
    Option (BitStreamReader data) :=
  match reader.skipBits 1 with
  | none => none
  | some reader =>
    match reader.skipBits 1 with
    | none => none
    | some reader =>
      match reader.skipBits 1 with
      | none => none
      | some reader =>
        match reader.skipBits 1 with
        | none => none
        | some reader =>
          match reader.getFlag with
          | none => none
          | some (enable_order_hint, reader) =>
            match skipIf enable_order_hint (reader.skipBits 1) reader with
            | none => none
            | some reader =>
              match skipIf enable_order_hint (reader.skipBits 1) reader with
              | none => none
              | some reader =>
                match reader.getFlag with
                | none => none
                | some (seq_choose_screen_content_tools, reader) =>
                  match skipIf (!seq_choose_screen_content_tools) (reader.skipBits 1)
                      reader with
                  | none => none
                  | some reader =>
                    match reader.getFlag with
                    | none => none
                    | some (seq_choose_integer_mv, reader) =>
                      match skipIf (!seq_choose_integer_mv) (reader.skipBits 1) reader with
                      | none => none
                      | some reader => skipIf enable_order_hint (reader.skipBits 3) reader

/-- Lines 372-419 of `deserialize`: the capability bits before `color_config`. -/
def skipToolFlags {data : List Nat} (reduced_still_picture_header : Bool)
    (reader : BitStreamReader data) : Option (BitStreamReader data) :=
  match reader.skipBits 1 with
  | none => none
  | some reader =>
    match reader.skipBits 1 with
    | none => none
    | some reader =>
      match reader.skipBits 1 with
      | none => none
      | some reader =>
        match skipIf (!reduced_still_picture_header) (skipInterTools reader) reader with
        | none => none
        | some reader =>
          match reader.skipBits 1 with
          | none => none
          | some reader =>
            match reader.skipBits 1 with
            | none => none
            | some reader => reader.skipBits 1

/-- Lines 361-419 of `deserialize`: the fields between the frame size and
`color_config`. -/
def Av1SequenceHeader.parseTools {data : List Nat} (h : Av1SequenceHeader)
    (reader : BitStreamReader data) : Option (Av1SequenceHeader × BitStreamReader data) :=
  match readIf (!h.reduced_still_picture_header) reader.getFlag (false, reader) with
  | none => none
  | some (frame_id_numbers_present_flag, reader) =>
    let h := { h with frame_id_numbers_present_flag := frame_id_numbers_present_flag }
    match skipIf h.frame_id_numbers_present_flag (skipFrameIdLengths reader) reader with
    | none => none
    | some reader =>
      match skipToolFlags h.reduced_still_picture_header reader with
      | none => none
      | some reader => some (h, reader)

/-- Lines 269-273 of `deserialize`: the bytes that are parsed: the input without
emulation prevention bytes when `av1_remove_emulation_prevention` returns a positive
length, else the input as it is. -/
def sequenceHeaderData (buf : List Nat) : List Nat :=
  match av1_remove_emulation_prevention buf buf.length with
  | some decoded => if decoded.length > 0 then decoded else buf
  | none => buf

/-- Method `Av1SequenceHeader::deserialize(buf, size)` on the object `h`: `some` of the
object's state and the reader where it returns `0`, `none` where it returns `-1` (the
state of the object is then not modelled). No exception leaves the source function:
every `BitStreamException` is caught and gives `-1`. -/
def Av1SequenceHeader.deserialize (h : Av1SequenceHeader) (buf : List Nat) :
    Option (Av1SequenceHeader × BitStreamReader (sequenceHeaderData buf)) :=
  if buf.length < 3 then none
  else
    match (BitStreamReader.setBuffer (sequenceHeaderData buf)).getBits 3 with
    | none => none
    | some (seq_profile, reader) =>
      let h := { h with seq_profile := seq_profile }
      if h.seq_profile > 2 then none
      else
        match reader.getFlag with
        | none => none
        | some (still_picture, reader) =>
          match reader.getFlag with
          | none => none
          | some (reduced_still_picture_header, reader) =>
            let h := { h with
              still_picture := still_picture,
              reduced_still_picture_header := reduced_still_picture_header }
            match h.parseOperatingInfo reader with
            | none => none
            | some (h, reader) =>
              match h.parseFrameSize reader with
              | none => none
              | some (h, reader) =>
                if h.max_frame_width < 16 ∨ h.max_frame_height < 16 ∨
                    h.max_frame_width > 65536 ∨ h.max_frame_height > 65536 then none
                else
                  match h.parseTools reader with
                  | none => none
                  | some (h, reader) =>
                    match h.parseColorConfig reader with
                    | none => none
                    | some (h, reader) =>
                      match reader.skipBits 1 with
                      | none => none
                      | some reader => some (h, reader)

/-- A sequence header OBU payload with `reduced_still_picture_header = 1`, profile 0,
16x16, monochrome, and the colour description BT.709 / sRGB / identity. -/
def monochromeSrgbHeader : List Nat := [0x18, 0x0C, 0xFF, 0xC0, 0x60, 0x21, 0xA0, 0x00]

/-- The payload `monochromeSrgbHeader` with `max_frame_width_minus_1 = 14`. -/
def narrowHeader : List Nat := [0x18, 0x0C, 0xFB, 0xC0, 0x60, 0x21, 0xA0, 0x00]

/-- A `color_config` of profile 2 with 12 bits, 4:2:0 subsampling read from the stream
and `chroma_sample_position = 1`. -/
def explicitConfig : List Nat := [0xCE, 0x80]

/-- A `color_config` of profile 0, not monochrome, with the colour description
BT.709 / sRGB / identity. -/
def srgbConfig : List Nat := [0x20, 0x21, 0xA0, 0x00]

/-- The header that `parseColorConfig` makes of `srgbConfig`. -/
def srgbConfigHeader : Av1SequenceHeader :=
  { color_primaries := 1, transfer_characteristics := 13, matrix_coefficients := 0,
    color_range := true }

/-- The header that `parseColorConfig` makes of `explicitConfig`. -/
def explicitHeader : Av1SequenceHeader :=
  { seq_profile := 2, high_bitdepth := true, twelve_bit := true, color_range := true,
    chroma_subsampling_x := 1, chroma_subsampling_y := 1, chroma_sample_position := 1 }

/-- A header of profile 2, before `color_config` is parsed. -/
def profile2Header : Av1SequenceHeader := { seq_profile := 2 }

/-- The colour fields of a parse result. -/
def colorSummary {β : Type} (p : Option (Av1SequenceHeader × β)) :
    Option (Bool × (Nat × Nat × Nat) × Bool × Nat × Nat) :=
  p.map fun x => (x.1.mono_chrome,
    (x.1.color_primaries, x.1.transfer_characteristics, x.1.matrix_coefficients),
    x.1.color_range, x.1.chroma_subsampling_x, x.1.chroma_subsampling_y)

/-! ## The AV1 configuration record (matroskaMuxer.cpp lines 511-544) -/

/-- Class `AV1StreamReader`: the members that `MatroskaMuxer::buildAV1ConfigRecord` and
the AV1 video descriptor of `getTSDescriptor` read. -/
structure AV1StreamReader where
  m_seqHdr : Av1SequenceHeader := {}
  m_seqHdrFound : Bool := false
  m_hdrWcgIdc : Nat := 3
deriving DecidableEq, Repr

/-- Method `MatroskaMuxer::buildAV1ConfigRecord`; `reader` is the result of
`dynamic_cast<AV1StreamReader*>` (`none` for a null pointer). The `uint8_t` locals and
the `static_cast<uint8_t>` of each pushed byte are taken modulo 256. -/
def buildAV1ConfigRecord (reader : Option AV1StreamReader) : List Nat :=
  match reader with
  | none => []
  | some av1 =>
    if !av1.m_seqHdrFound then []
    else
      let hdr := av1.m_seqHdr
      let bitDepth := hdr.getBitDepth % 256
      let highBitdepth := if bitDepth > 8 then 1 else 0
      let twelveBit := if bitDepth = 12 then 1 else 0
      [0x81,
       (((hdr.seq_profile &&& 0x07) <<< 5) ||| (hdr.seq_level_idx_0 &&& 0x1F)) % 256,
       ((0 <<< 7) ||| (highBitdepth <<< 6) ||| (twelveBit <<< 5) |||
         (hdr.mono_chrome.toNat <<< 4) ||| (hdr.chroma_subsampling_x <<< 3) |||
         (hdr.chroma_subsampling_y <<< 2) ||| (hdr.chroma_sample_position &&& 0x03)) % 256,
       0x00]

/-- Lines 318-332 of `AV1StreamReader::getTSDescriptor`: the four bytes of the AV1 video
descriptor, which packs the same fields of `m_seqHdr`. -/
def AV1StreamReader.videoDescriptor (r : AV1StreamReader) : List Nat :=
  [0x81,
   ((r.m_seqHdr.seq_profile <<< 5) ||| (r.m_seqHdr.seq_level_idx_0 &&& 0x1F)) % 256,
   ((r.m_seqHdr.seq_tier_0 <<< 7) ||| (r.m_seqHdr.high_bitdepth.toNat <<< 6) |||
     (r.m_seqHdr.twelve_bit.toNat <<< 5) ||| (r.m_seqHdr.mono_chrome.toNat <<< 4) |||
     (r.m_seqHdr.chroma_subsampling_x <<< 3) ||| (r.m_seqHdr.chroma_subsampling_y <<< 2) |||
     (r.m_seqHdr.chroma_sample_position &&& 0x03)) % 256,
   ((r.m_hdrWcgIdc &&& 0x03) <<< 6) % 256]

/-- The AV1 config record as the specification words it: marker and version, profile
and level, then tier, high_bitdepth, twelve_bit, monochrome, the two subsampling flags
and the sample position, then `initial_presentation_delay_present = 0`. -/
def specAV1ConfigRecord (hdr : Av1SequenceHeader) : List Nat :=
  [0x81,
   (hdr.seq_profile <<< 5) ||| hdr.seq_level_idx_0,
   (hdr.seq_tier_0 <<< 7) ||| (hdr.high_bitdepth.toNat <<< 6) |||
     (hdr.twelve_bit.toNat <<< 5) ||| (hdr.mono_chrome.toNat <<< 4) |||
     (hdr.chroma_subsampling_x <<< 3) ||| (hdr.chroma_subsampling_y <<< 2) |||
     hdr.chroma_sample_position,
   0x00]

/-- The value ranges of the fields of a parsed sequence header that the config record
packs: `twelve_bit` is set only with profile 2 and `high_bitdepth`. -/
def Av1SequenceHeader.ConfigRanges (h : Av1SequenceHeader) : Prop :=
  h.seq_profile ≤ 2 ∧ h.seq_level_idx_0 < 32 ∧ h.seq_tier_0 ≤ 1 ∧
  h.chroma_subsampling_x ≤ 1 ∧ h.chroma_subsampling_y ≤ 1 ∧ h.chroma_sample_position ≤ 3 ∧
  (h.twelve_bit = true → h.seq_profile = 2 ∧ h.high_bitdepth = true)

/-- A sequence header OBU payload: profile 0, one operating point with
`seq_level_idx = 8` (level 4.0) and `seq_tier = 1` (High tier), 1920x1080, 8 bits,
4:2:0. -/
def highTierHeader : List Nat :=
  [0x02, 0x00, 0x00, 0x45, 0x55, 0xDF, 0xE1, 0xB8, 0x03, 0x00, 0x10]

/-- The reader after `highTierHeader` was parsed into a fresh `m_seqHdr`. -/
def highTierReader : Option AV1StreamReader :=
  (({} : Av1SequenceHeader).deserialize highTierHeader).map
    (fun x => { m_seqHdr := x.1, m_seqHdrFound := true })

/-! ## Codec-private builders for AAC and AV1 (matroskaMuxer.cpp lines 511-563) -/

/-- Class `AACStreamReader` (aac.h is missing from the sources), the members
`buildAACConfig` reads. -/
structure AACStreamReader where
  m_profile : Nat
  m_sample_rates_index : Nat
  m_channels_index : Nat
deriving DecidableEq, Repr

/-- Function `MatroskaMuxer::buildAACConfig`; `none` is a reader for which the
`dynamic_cast` to `AACStreamReader` gives a null pointer. The three locals and the two
bytes are `uint8_t`. -/
def buildAACConfig (reader : Option AACStreamReader) : List Nat :=
  match reader with
  | none => []
  | some aac =>
    let objectType := (aac.m_profile + 1) % 256
    let freqIndex := aac.m_sample_rates_index % 256
    let chanConfig := aac.m_channels_index % 256
    [((objectType <<< 3) ||| (freqIndex >>> 1)) % 256,
     (((freqIndex &&& 1) <<< 7) ||| (chanConfig <<< 3)) % 256]

/-- The 35 content bytes of the EBML header as the specification words them:
EBMLVersion 1, EBMLReadVersion 1, EBMLMaxIDLength 4, EBMLMaxSizeLength 8, DocType
"matroska", DocTypeVersion 4, DocTypeReadVersion 2, each as ID, one-byte size, value. -/
def ebmlHeaderContent : List Nat :=
  [0x42, 0x86, 0x81, 0x01] ++ [0x42, 0xF7, 0x81, 0x01] ++ [0x42, 0xF2, 0x81, 0x04] ++
  [0x42, 0xF3, 0x81, 0x08] ++
  [0x42, 0x82, 0x88, 0x6D, 0x61, 0x74, 0x72, 0x6F, 0x73, 0x6B, 0x61] ++
  [0x42, 0x87, 0x81, 0x04] ++ [0x42, 0x85, 0x81, 0x02]

/-! ## Track registration (what the track-number claim refers to) -/

/-- The arguments of one `intAddStream` call that the muxer reads, and the value its
random generator returns in the call. -/
structure AddStreamCall where
  codecName : String
  streamIndex : Int
  codecReader : StreamReader
  trackUID : Nat

/-- A sequence of `intAddStream` calls, in order. -/
def addStreams (env : Env) (s : MatroskaMuxer) (calls : List AddStreamCall) : MatroskaMuxer :=
  calls.foldl
    (fun acc c => acc.intAddStream env c.codecName c.streamIndex c.codecReader c.trackUID) s

/-- Three calls, the third one for the stream index of the first. -/
def sampleCalls : List AddStreamCall :=
  [{ codecName := "V_MPEG4/ISO/AVC", streamIndex := 7, codecReader := sampleEnv.codecReader 0,
     trackUID := 0x1111 },
   { codecName := "A_AC3", streamIndex := 3, codecReader := sampleEnv.codecReader 1,
     trackUID := 0x2222 },
   { codecName := "A_AC3", streamIndex := 7, codecReader := sampleEnv.codecReader 1,
     trackUID := 0x3333 }]

/-- The Video element of a TrackEntry as the specification words it, with the
DisplayWidth `displayWidth` when it differs from the pixel width: PixelWidth,
PixelHeight, FlagInterlaced when set, then DisplayWidth and DisplayHeight. -/
def videoElement (track : MkvTrackInfo) (displayWidth : Nat) : List Nat :=
  let videoBuf :=
    ebml_write_uint MATROSKA_ID_VIDEOPIXELWIDTH track.width ++
    ebml_write_uint MATROSKA_ID_VIDEOPIXELHEIGHT track.height ++
    (if track.interlaced then ebml_write_uint MATROSKA_ID_VIDEOFLAGINTERLACED 1 else []) ++
    (if displayWidth ≠ track.width then
      ebml_write_uint MATROSKA_ID_VIDEODISPLAYWIDTH displayWidth ++
      ebml_write_uint MATROSKA_ID_VIDEODISPLAYHEIGHT track.height
    else [])
  ebml_write_master_open MATROSKA_ID_TRACKVIDEO videoBuf.length ++ videoBuf

/-- A 1440x1080 video track tagged 16:9. -/
def anamorphicTrack : MkvTrackInfo :=
  { sampleVideoTrack with width := 1440, streamAR := VideoAspectRatio.AR_16_9 }

/-! ## The cluster buffer and its size counter (what the buffer claims refer to) -/

/-- The size invariant: `m_clusterDataSize` is the byte length of `m_clusterBuf`. -/
def ClusterSizeOk (s : MatroskaMuxer) : Prop :=
  s.m_clusterDataSize = (s.m_clusterBuf.length : Int)

/-- The bound that the split threshold gives: the cluster buffer holds fewer than
`CLUSTER_MAX_SIZE` bytes, or it did so before the SimpleBlock appended last. -/
def ClusterBufBounded (s : MatroskaMuxer) : Prop :=
  (s.m_clusterBuf.length : Int) < CLUSTER_MAX_SIZE ∨
  ∃ (pre : List Nat) (b : SimpleBlock), s.clusterBlocks.getLast? = some b ∧
    s.m_clusterBuf = pre ++ b.bytes ∧ (pre.length : Int) < CLUSTER_MAX_SIZE

/-- The cluster buffer, its size counter and the blocks appended to it. -/
def MatroskaMuxer.clusterBuffer (s : MatroskaMuxer) : List Nat × Int × List SimpleBlock :=
  (s.m_clusterBuf, s.m_clusterDataSize, s.clusterBlocks)

/-- Both invariants of the cluster buffer. -/
def ClusterBufOk (s : MatroskaMuxer) : Prop :=
  ClusterSizeOk s ∧ ClusterBufBounded s

/-! ## A session with one audio track and one large frame -/

/-- The muxer after one AC-3 stream is registered and the file is opened. -/
def audioMuxer : MatroskaMuxer :=
  (({} : MatroskaMuxer).intAddStream sampleEnv "A_AC3" 1 (sampleEnv.codecReader 1)
    0x2222).openDstFile

/-- The track of `audioMuxer` when the deferred header has been written. -/
def audioTrack : MkvTrackInfo :=
  { streamIndex := 1, trackNumber := 1, trackUID := 0x2222, matroskaCodecID := strBytes "A_AC3",
    codecID := 8, trackType := 2, sampleRate := 48000, channels := 6 }

/-- Two packets of stream 1: one frame with the payload `data` at PTS 0, and the
packet at PTS 1 ms whose arrival flushes that frame into the cluster buffer. -/
def largeFramePackets (data : List Nat) : List AVPacket :=
  [{ stream_index := 1, pts := 0, flags := 0, data := some data },
   { stream_index := 1, pts := 5292000, flags := 0, data := some [0x0B, 0x77, 0x02] }]

/-- The audio track of `audioMuxer` holding `data` as its pending frame at PTS 0. -/
def pendingAudioTrack (data : List Nat) : MkvTrackInfo :=
  { audioTrack with pendingPts := 0, pendingFlags := 0, hasPendingFrame := true,
                    pendingFrameData := data }

/-! ## Time values and their conversion to `uint64_t` -/

/-- A time value that `static_cast<uint64_t>` leaves unchanged: it is not negative (and
fits 64 bits). -/
def UInt64Ok (v : Int) : Prop :=
  0 ≤ v ∧ v < 2 ^ 64

/-- The time values of a muxer state: the blocks flushed, the cue entries, the clusters
written, and the open cluster with its timecode. -/
def MatroskaMuxer.timeView (s : MatroskaMuxer) :
    List SimpleBlock × List CueEntry × List ClusterRecord × Bool × Int :=
  (s.blockLog, s.m_cueEntries, s.clusterLog, s.m_clusterOpen, s.m_clusterTimecodeMs)

/-- Every `rel_ms`, every cue time and every cluster timecode recorded so far is
unchanged by the conversion to `uint64_t`. -/
def TimecodesOk (s : MatroskaMuxer) : Prop :=
  (∀ b ∈ s.blockLog, UInt64Ok b.relMs) ∧ (∀ c ∈ s.m_cueEntries, UInt64Ok c.timecodeMs) ∧
  (∀ r ∈ s.clusterLog, UInt64Ok r.timecodeMs) ∧
  (s.m_clusterOpen = true → UInt64Ok s.m_clusterTimecodeMs)

/-- No pending frame lies before the time origin, or `2^63` ticks or more after it: the
`int64_t` subtraction `pendingPts - m_firstTimecode` of line 1128 does not overflow. -/
def PendingOk (s : MatroskaMuxer) : Prop :=
  ∀ t ∈ s.m_tracks, t.hasPendingFrame = true →
    s.m_firstTimecode ≤ t.pendingPts ∧ t.pendingPts - s.m_firstTimecode < 2 ^ 63

/-- Any two PTS values of the packets are less than `2^63` ticks apart, so that the
difference of two of them is an `int64_t`. -/
def PtsSpanOk (ps : List AVPacket) : Prop :=
  ∀ p ∈ ps, ∀ q ∈ ps, q.pts - p.pts < 2 ^ 63

instance (ps : List AVPacket) : Decidable (PtsSpanOk ps) := by
  unfold PtsSpanOk
  infer_instance

/-- The packets of each stream arrive in non-decreasing PTS order. -/
def PtsMonotone (ps : List AVPacket) : Prop :=
  ps.Pairwise (fun p q => p.stream_index = q.stream_index → p.pts ≤ q.pts)

instance (ps : List AVPacket) : Decidable (PtsMonotone ps) := by
  unfold PtsMonotone
  infer_instance

/-! ## Theorems -/

theorem or_marker_eq_add : ∀ k < 8, ∀ a < 2 ^ k, a ||| 2 ^ k = a + 2 ^ k := by
  decide

theorem and_0xFF (x : Nat) : x &&& 0xFF = x % 256 :=
  Nat.and_pow_two_sub_one_eq_mod x 8

theorem first_byte_marker (k a : Nat) (hk : k < 8) (ha : a < 2 ^ k) :
    (a % 256) ||| 2 ^ k = a + 2 ^ k := by
  have h256 : a % 256 = a := by
    apply Nat.mod_eq_of_lt
    calc a < 2 ^ k := ha
      _ ≤ 2 ^ 8 := Nat.pow_le_pow_right (by decide) (by omega)
  rw [h256]
  exact or_marker_eq_add k hk a ha

theorem first_byte (size i k : Nat) (hk1 : 1 ≤ k) (hk8 : k ≤ 8)
    (h : size / 2 ^ (i * 8) < 2 ^ (8 - k)) :
    ((size >>> (i * 8)) % 256) ||| ((1 <<< (8 - k)) % 256) = size / 2 ^ (i * 8) + 2 ^ (8 - k) := by
  have hlt : 2 ^ (8 - k) < 256 := by
    calc 2 ^ (8 - k) < 2 ^ 8 := Nat.pow_lt_pow_right (by decide) (by omega)
      _ = 256 := by norm_num
  rw [Nat.shiftRight_eq_div_pow, Nat.one_shiftLeft, Nat.mod_eq_of_lt hlt]
  exact first_byte_marker (8 - k) _ (by omega) h

theorem vintWidth_marker (k a : Nat) (hk1 : 1 ≤ k) (hk8 : k ≤ 8) (h : a < 2 ^ (8 - k)) :
    vintWidth (a + 2 ^ (8 - k)) = k := by
  interval_cases k <;> norm_num at h <;> simp only [vintWidth] <;> norm_num <;>
    first
      | omega
      | (split_ifs <;> omega)

theorem vintDecode_ebml_write_size (n : Nat) (h : n < 2 ^ 56 - 1) :
    vintDecode (ebml_write_size n) = some (ebml_size_size n, n) ∧
    ebml_write_size n ≠ ebml_write_unknown_size (ebml_size_size n) := by
  have h' : n < 72057594037927935 := by norm_num at h; exact h
  unfold ebml_write_size ebml_write_size_fixed ebml_size_size
  split_ifs with h1 h2 h3 h4 h5 h6 h7
  · simp only [writeBE, and_0xFF]
    rw [first_byte n 0 1 (by omega) (by omega) (by norm_num; omega)]
    simp only [vintDecode, vintWidth_marker 1 (n / 2 ^ (0 * 8)) (by omega) (by omega)
      (by norm_num; omega), beValue, ebml_write_unknown_size, Nat.shiftRight_eq_div_pow]
    norm_num
    omega
  · simp only [writeBE, and_0xFF]
    rw [first_byte n 1 2 (by omega) (by omega) (by norm_num; omega)]
    simp only [vintDecode, vintWidth_marker 2 (n / 2 ^ (1 * 8)) (by omega) (by omega)
      (by norm_num; omega), beValue, ebml_write_unknown_size, Nat.shiftRight_eq_div_pow]
    norm_num
    omega
  · simp only [writeBE, and_0xFF]
    rw [first_byte n 2 3 (by omega) (by omega) (by norm_num; omega)]
    simp only [vintDecode, vintWidth_marker 3 (n / 2 ^ (2 * 8)) (by omega) (by omega)
      (by norm_num; omega), beValue, ebml_write_unknown_size, Nat.shiftRight_eq_div_pow]
    norm_num
    first
      | omega
      | (refine ⟨by omega, ?_⟩
         intro hh hh2
         try simp only [List.replicate, List.cons.injEq, and_true] at hh2
         omega)
  · simp only [writeBE, and_0xFF]
    rw [first_byte n 3 4 (by omega) (by omega) (by norm_num; omega)]
    simp only [vintDecode, vintWidth_marker 4 (n / 2 ^ (3 * 8)) (by omega) (by omega)
      (by norm_num; omega), beValue, ebml_write_unknown_size, Nat.shiftRight_eq_div_pow]
    norm_num
    first
      | omega
      | (refine ⟨by omega, ?_⟩
         intro hh hh2
         try simp only [List.replicate, List.cons.injEq, and_true] at hh2
         omega)
  · simp only [writeBE, and_0xFF]
    rw [first_byte n 4 5 (by omega) (by omega) (by norm_num; omega)]
    simp only [vintDecode, vintWidth_marker 5 (n / 2 ^ (4 * 8)) (by omega) (by omega)
      (by norm_num; omega), beValue, ebml_write_unknown_size, Nat.shiftRight_eq_div_pow]
    norm_num
    first
      | omega
      | (refine ⟨by omega, ?_⟩
         intro hh hh2
         try simp only [List.replicate, List.cons.injEq, and_true] at hh2
         omega)
  · simp only [writeBE, and_0xFF]
    rw [first_byte n 5 6 (by omega) (by omega) (by norm_num; omega)]
    simp only [vintDecode, vintWidth_marker 6 (n / 2 ^ (5 * 8)) (by omega) (by omega)
      (by norm_num; omega), beValue, ebml_write_unknown_size, Nat.shiftRight_eq_div_pow]
    norm_num
    first
      | omega
      | (refine ⟨by omega, ?_⟩
         intro hh hh2
         try simp only [List.replicate, List.cons.injEq, and_true] at hh2
         omega)
  · simp only [writeBE, and_0xFF]
    rw [first_byte n 6 7 (by omega) (by omega) (by norm_num; omega)]
    simp only [vintDecode, vintWidth_marker 7 (n / 2 ^ (6 * 8)) (by omega) (by omega)
      (by norm_num; omega), beValue, ebml_write_unknown_size, Nat.shiftRight_eq_div_pow]
    norm_num
    first
      | omega
      | (refine ⟨by omega, ?_⟩
         intro hh hh2
         try simp only [List.replicate, List.cons.injEq, and_true] at hh2
         omega)
  · simp only [writeBE, and_0xFF]
    rw [first_byte n 7 8 (by omega) (by omega) (by norm_num; omega)]
    simp only [vintDecode, vintWidth_marker 8 (n / 2 ^ (7 * 8)) (by omega) (by omega)
      (by norm_num; omega), beValue, ebml_write_unknown_size, Nat.shiftRight_eq_div_pow]
    norm_num
    first
      | omega
      | (refine ⟨by omega, ?_⟩
         intro hh hh2
         try simp only [List.replicate, List.cons.injEq, and_true] at hh2
         omega)

/-- C1: for every size `n < 2^56 - 1`, reading the bytes of `ebml_write_size n` back as a
data-size VINT gives width `ebml_size_size n` and value `n`, and those bytes are not
the all-ones unknown-size pattern of that width. -/
theorem ebml_write_size_roundtrip (n : Nat) (h : n < 2 ^ 56 - 1) :
    vintDecode (ebml_write_size n) = some (ebml_size_size n, n) ∧
    ebml_write_size n ≠ ebml_write_unknown_size (ebml_size_size n) :=
  vintDecode_ebml_write_size n h

theorem ebml_write_size_roundtrip_witness :
    300 < 2 ^ 56 - 1 ∧
    (vintDecode (ebml_write_size 300) = some (ebml_size_size 300, 300) ∧
     ebml_write_size 300 ≠ ebml_write_unknown_size (ebml_size_size 300)) :=
  ⟨by norm_num, ebml_write_size_roundtrip 300 (by norm_num)⟩

theorem writeBE_length (value n : Nat) : (writeBE value n).length = n := by
  induction n with
  | zero => rfl
  | succ i ih => simp [writeBE, ih]

theorem ebml_write_size_fixed_length (size bytes : Nat) :
    (ebml_write_size_fixed size bytes).length = bytes := by
  unfold ebml_write_size_fixed
  cases bytes with
  | zero => rfl
  | succ i => simp [writeBE, writeBE_length]

/-- C2: for every size `n < 2^56 - 1`, `ebml_size_size n` is the number of bytes
`ebml_write_size n` writes, and it is the smallest `k` in `1..8` with `n < 2^(7k) - 1`. -/
theorem ebml_size_size_minimal (n : Nat) (h : n < 2 ^ 56 - 1) :
    (ebml_write_size n).length = ebml_size_size n ∧
    1 ≤ ebml_size_size n ∧ ebml_size_size n ≤ 8 ∧
    n < 2 ^ (7 * ebml_size_size n) - 1 ∧
    ∀ j, 1 ≤ j → j ≤ 8 → n < 2 ^ (7 * j) - 1 → ebml_size_size n ≤ j := by
  refine ⟨ebml_write_size_fixed_length _ _, ?_⟩
  have h' : n < 72057594037927935 := by norm_num at h; exact h
  unfold ebml_size_size
  split_ifs with h1 h2 h3 h4 h5 h6 h7 <;>
    refine ⟨by omega, by omega, by norm_num; omega, ?_⟩ <;>
    intro j hj1 hj8 hj <;>
    interval_cases j <;> norm_num at hj <;> omega

theorem ebml_size_size_minimal_witness :
    16383 < 2 ^ 56 - 1 ∧
    ((ebml_write_size 16383).length = ebml_size_size 16383 ∧
     1 ≤ ebml_size_size 16383 ∧ ebml_size_size 16383 ≤ 8 ∧
     16383 < 2 ^ (7 * ebml_size_size 16383) - 1 ∧
     ∀ j, 1 ≤ j → j ≤ 8 → 16383 < 2 ^ (7 * j) - 1 → ebml_size_size 16383 ≤ j) :=
  ⟨by norm_num, ebml_size_size_minimal 16383 (by norm_num)⟩

/-- C3 (as stated, refuted): the four byte strings listed for sizes 127, 128, 16383 and
16384 are not all what `ebml_write_size` writes: size 127 does not give the single
byte `FF`, and size 16383 does not give `7F FF`. -/
theorem ebml_write_size_examples_refuted :
    ¬ (ebml_write_size 127 = [0xFF] ∧ ebml_write_size 128 = [0x40, 0x80] ∧
       ebml_write_size 16383 = [0x7F, 0xFF] ∧ ebml_write_size 16384 = [0x20, 0x40, 0x00]) := by
  decide

/-- C3 (amended): `ebml_write_size` writes `40 7F` (2 bytes) for size 127, `40 80`
(2 bytes) for 128, `20 3F FF` (3 bytes) for 16383 and `20 40 00` (3 bytes) for 16384,
and returns those byte counts. -/
theorem ebml_write_size_examples :
    ebml_write_size 127 = [0x40, 0x7F] ∧ ebml_size_size 127 = 2 ∧
    ebml_write_size 128 = [0x40, 0x80] ∧ ebml_size_size 128 = 2 ∧
    ebml_write_size 16383 = [0x20, 0x3F, 0xFF] ∧ ebml_size_size 16383 = 3 ∧
    ebml_write_size 16384 = [0x20, 0x40, 0x00] ∧ ebml_size_size 16384 = 3 := by
  decide

theorem and_0x7F (x : Nat) : x &&& 0x7F = x % 128 :=
  Nat.and_pow_two_sub_one_eq_mod x 7

theorem leb_byte_facts : ∀ b < 128, (b ||| 0x80) &&& 0x7f = b ∧ (b ||| 0x80) &&& 0x80 ≠ 0 ∧
    b &&& 0x80 = 0 ∧ b &&& 0x7f = b := by
  decide

theorem or_shift_eq_add (v b i : Nat) (hv : v < 2 ^ i) : v ||| (b <<< i) = v + b * 2 ^ i := by
  rw [Nat.shiftLeft_eq, Nat.mul_comm b, Nat.lor_comm, ← Nat.mul_add_lt_is_or hv, Nat.add_comm]

theorem decodeLeb128Loop_encode (rem : Nat) :
    ∀ (fuel n i v : Nat) (pre rest : List Nat), pre.length = i → n < 128 ^ rem → rem ≤ fuel →
      1 ≤ rem → v < 2 ^ (i * 7) →
      decodeLeb128Loop rem i v (pre ++ encodeLeb128Loop fuel n ++ rest) =
        (((v + n * 2 ^ (i * 7) : Nat) : Int), i + (encodeLeb128Loop fuel n).length) := by
  induction rem with
  | zero => intro fuel n i v pre rest _ _ _ h1; omega
  | succ r ih =>
    intro fuel n i v pre rest hlen hn hfuel _ hv
    obtain ⟨f, rfl⟩ : ∃ f, fuel = f + 1 := ⟨fuel - 1, by omega⟩
    have hb := leb_byte_facts (n % 128) (Nat.mod_lt _ (by decide))
    simp only [encodeLeb128Loop, and_0x7F, Nat.shiftRight_eq_div_pow]
    have hget : ∀ (b : Nat) (tl : List Nat), (pre ++ b :: tl)[i]? = some b := by
      intro b tl
      rw [← hlen, List.getElem?_append_right (le_refl _)]
      simp
    by_cases hbig : n / 2 ^ 7 > 0
    · rw [if_pos hbig]
      have hr : 1 ≤ r := by
        rcases Nat.eq_zero_or_pos r with h0 | h0
        · subst h0
          norm_num at hn hbig
          omega
        · exact h0
      have hq : n / 2 ^ 7 < 128 ^ r := by
        rw [Nat.div_lt_iff_lt_mul (by norm_num)]
        calc n < 128 ^ (r + 1) := hn
          _ = 128 ^ r * 2 ^ 7 := by rw [pow_succ]; norm_num
      have hv' : v + n % 128 * 2 ^ (i * 7) < 2 ^ ((i + 1) * 7) := by
        have hm : n % 128 < 128 := Nat.mod_lt _ (by decide)
        have : 2 ^ ((i + 1) * 7) = 128 * 2 ^ (i * 7) := by
          rw [Nat.add_mul, pow_add]; norm_num; ring
        rw [this]
        nlinarith
      have hstep := ih f (n / 2 ^ 7) (i + 1) (v + n % 128 * 2 ^ (i * 7))
        (pre ++ [n % 128 ||| 0x80]) rest (by simp [hlen]) hq (by omega) hr hv'
      simp only [List.append_assoc, List.singleton_append, List.cons_append,
        List.nil_append] at hstep ⊢
      rw [decodeLeb128Loop, hget]
      simp only [hb.1, hb.2.1, if_false, or_shift_eq_add v _ _ hv, hstep, List.length_cons]
      congr 1
      · have hsplit : n = n / 2 ^ 7 * 128 + n % 128 := by
          have := Nat.div_add_mod n 128
          norm_num
          omega
        have : 2 ^ ((i + 1) * 7) = 128 * 2 ^ (i * 7) := by
          rw [Nat.add_mul, pow_add]; norm_num; ring
        rw [this]
        push_cast
        conv_rhs => rw [hsplit]
        push_cast
        ring
      · omega
    · rw [if_neg hbig]
      simp only [List.append_assoc, List.singleton_append]
      rw [decodeLeb128Loop, hget]
      have hsmall : n % 128 = n := by
        apply Nat.mod_eq_of_lt
        norm_num at hbig
        omega
      rw [hsmall] at hb ⊢
      simp only [hb.2.2.1, hb.2.2.2, if_true, or_shift_eq_add v _ _ hv, List.length_singleton]

theorem encodeLeb128Loop_fuel (fuel : Nat) :
    ∀ (fuel' n : Nat), n < 128 ^ fuel → fuel ≤ fuel' → 1 ≤ fuel →
      encodeLeb128Loop fuel' n = encodeLeb128Loop fuel n := by
  induction fuel with
  | zero => intro fuel' n _ _ h1; omega
  | succ f ih =>
    intro fuel' n hn hle _
    obtain ⟨g, rfl⟩ : ∃ g, fuel' = g + 1 := ⟨fuel' - 1, by omega⟩
    simp only [encodeLeb128Loop]
    by_cases hbig : n >>> 7 > 0
    · rw [if_pos hbig, if_pos hbig]
      rw [Nat.shiftRight_eq_div_pow] at hbig ⊢
      have hf : 1 ≤ f := by
        rcases Nat.eq_zero_or_pos f with h0 | h0
        · subst h0
          norm_num at hn hbig
          omega
        · exact h0
      have hq : n / 2 ^ 7 < 128 ^ f := by
        rw [Nat.div_lt_iff_lt_mul (by norm_num)]
        calc n < 128 ^ (f + 1) := hn
          _ = 128 ^ f * 2 ^ 7 := by rw [pow_succ]; norm_num
      rw [ih g (n / 2 ^ 7) hq (by omega) hf]
    · rw [if_neg hbig, if_neg hbig]

theorem decodeLeb128_encodeLeb128 (n : Nat) (h : n < 2 ^ 56) (rest : List Nat) :
    decodeLeb128 (encodeLeb128 n ++ rest) = ((n : Int), (encodeLeb128 n).length) := by
  have h8 : n < 128 ^ 8 := by norm_num at h ⊢; exact h
  have := decodeLeb128Loop_encode 8 10 n 0 0 [] rest rfl h8 (by decide) (by decide) (by decide)
  simpa [decodeLeb128, encodeLeb128] using this

/-- C4: for every `n < 2^56`, `decodeLeb128` applied to the bytes written by
`encodeLeb128 n` (whatever bytes follow them in the buffer) returns `n`, and
`bytesRead` is the number of bytes `encodeLeb128` wrote. -/
theorem leb128_roundtrip (n : Nat) (h : n < 2 ^ 56) (rest : List Nat) :
    decodeLeb128 (encodeLeb128 n ++ rest) = ((n : Int), (encodeLeb128 n).length) :=
  decodeLeb128_encodeLeb128 n h rest

theorem leb128_roundtrip_witness :
    (624485 : Nat) < 2 ^ 56 ∧
    decodeLeb128 (encodeLeb128 624485 ++ []) = ((624485 : Int), (encodeLeb128 624485).length) :=
  ⟨by norm_num, leb128_roundtrip 624485 (by norm_num) []⟩

theorem emitKept_past_first_frame (lastShIdx : Int) (firstFrameIdx : Nat)
    (obus : List ConvertedObu) :
    ∀ i, firstFrameIdx ≤ i → emitKept lastShIdx firstFrameIdx obus i = obus := by
  induction obus with
  | nil => intro i _; rfl
  | cons o rest ih =>
    intro i hi
    have hnot : ¬ (o.type = SEQUENCE_HEADER ∧ i < firstFrameIdx ∧ (i : Int) ≠ lastShIdx) := by
      intro h; omega
    simp only [emitKept, if_neg hnot, ih (i + 1) (by omega)]

theorem dedupScan_spec (obus : List ConvertedObu) :
    ∀ (i : Nat) (last : Int) (ff : Nat), i + obus.length ≤ ff →
      (i + (obus.takeWhile ConvertedObu.notFrame).length ≤ (dedupScan obus i last ff).2) ∧
      (obus.dropWhile ConvertedObu.notFrame ≠ [] →
        (dedupScan obus i last ff).2 = i + (obus.takeWhile ConvertedObu.notFrame).length) ∧
      ((obus.takeWhile ConvertedObu.notFrame).filter ConvertedObu.isSequenceHeader = [] →
        (dedupScan obus i last ff).1 = last) ∧
      ((obus.takeWhile ConvertedObu.notFrame).filter ConvertedObu.isSequenceHeader ≠ [] →
        (i : Int) ≤ (dedupScan obus i last ff).1) := by
  induction obus with
  | nil =>
    intro i last ff h
    simp [dedupScan] at h ⊢
    exact h
  | cons o rest ih =>
    intro i last ff h
    simp only [List.length_cons] at h
    by_cases hf : o.type = FRAME ∨ o.type = FRAME_HEADER
    · have hnf : ConvertedObu.notFrame o = false := by
        rcases hf with hf | hf <;> simp [ConvertedObu.notFrame, hf]
      have hsh : o.type ≠ SEQUENCE_HEADER := by
        rcases hf with hf | hf <;> rw [hf] <;> decide
      simp [dedupScan, hf, hnf, hsh, List.takeWhile_cons, List.dropWhile_cons]
    · have hnf : ConvertedObu.notFrame o = true := by
        simpa [ConvertedObu.notFrame] using hf
      have IH := ih (i + 1) (if o.type = SEQUENCE_HEADER then (i : Int) else last) ff (by omega)
      simp only [dedupScan, if_neg hf, List.takeWhile_cons, hnf, if_true, List.dropWhile_cons,
        List.length_cons]
      obtain ⟨h1, h2, h3, h4⟩ := IH
      refine ⟨by omega, fun hp => by rw [h2 hp]; omega, ?_, ?_⟩
      · intro hnil
        by_cases hs : o.type = SEQUENCE_HEADER
        · simp [List.filter_cons, ConvertedObu.isSequenceHeader, hs] at hnil
        · have hs' : ConvertedObu.isSequenceHeader o = false := by
            simpa [ConvertedObu.isSequenceHeader] using hs
          rw [List.filter_cons, hs'] at hnil
          rw [h3 (by simpa using hnil), if_neg hs]
      · intro hne
        by_cases hrest :
            (rest.takeWhile ConvertedObu.notFrame).filter ConvertedObu.isSequenceHeader = []
        · by_cases hs : o.type = SEQUENCE_HEADER
          · rw [h3 hrest, if_pos hs]
          · have hs' : ConvertedObu.isSequenceHeader o = false := by
              simpa [ConvertedObu.isSequenceHeader] using hs
            rw [List.filter_cons, hs'] at hne
            exact absurd hrest (by simpa using hne)
        · have := h4 hrest
          push_cast at this
          omega

theorem emitKept_spec (obus : List ConvertedObu) :
    ∀ (i : Nat) (last : Int) (ff : Nat), i + obus.length ≤ ff → last < (i : Int) →
      ∃ kept : List ConvertedObu,
        emitKept (dedupScan obus i last ff).1 (dedupScan obus i last ff).2 obus i =
          kept ++ obus.dropWhile ConvertedObu.notFrame ∧
        kept.Sublist (obus.takeWhile ConvertedObu.notFrame) ∧
        kept.filter (fun o => !o.isSequenceHeader) =
          (obus.takeWhile ConvertedObu.notFrame).filter (fun o => !o.isSequenceHeader) ∧
        kept.filter ConvertedObu.isSequenceHeader =
          ((obus.takeWhile ConvertedObu.notFrame).filter
            ConvertedObu.isSequenceHeader).getLast?.toList := by
  induction obus with
  | nil =>
    intro i last ff _ _
    exact ⟨[], by simp [emitKept]⟩
  | cons o rest ih =>
    intro i last ff h hlast
    simp only [List.length_cons] at h
    by_cases hf : o.type = FRAME ∨ o.type = FRAME_HEADER
    · have hnf : ConvertedObu.notFrame o = false := by
        rcases hf with hf | hf <;> simp [ConvertedObu.notFrame, hf]
      have hsh : o.type ≠ SEQUENCE_HEADER := by
        rcases hf with hf | hf <;> rw [hf] <;> decide
      refine ⟨[], ?_⟩
      simp only [dedupScan, if_pos hf, emitKept, hsh, false_and, if_false,
        emitKept_past_first_frame _ i rest (i + 1) (by omega), List.takeWhile_cons,
        List.dropWhile_cons, hnf]
      simp
    · have hnf : ConvertedObu.notFrame o = true := by
        simpa [ConvertedObu.notFrame] using hf
      obtain ⟨kept, hk1, hk2, hk3, hk4⟩ :=
        ih (i + 1) (if o.type = SEQUENCE_HEADER then (i : Int) else last) ff (by omega)
          (by split_ifs <;> push_cast <;> omega)
      obtain ⟨s1, -, s3, s4⟩ :=
        dedupScan_spec rest (i + 1) (if o.type = SEQUENCE_HEADER then (i : Int) else last) ff
          (by omega)
      simp only [dedupScan, if_neg hf, List.takeWhile_cons, hnf, if_true, List.dropWhile_cons]
      by_cases hs : o.type = SEQUENCE_HEADER
      · have hs' : ConvertedObu.isSequenceHeader o = true := by
          simpa [ConvertedObu.isSequenceHeader] using hs
        rw [if_pos hs] at hk1 s1 s3 s4
        by_cases hrest :
            (rest.takeWhile ConvertedObu.notFrame).filter ConvertedObu.isSequenceHeader = []
        · -- `o` is the last sequence header before the first frame: kept
          refine ⟨o :: kept, ?_, hk2.cons₂ o, ?_, ?_⟩
          · rw [if_pos hs, emitKept]
            rw [if_neg (by rw [s3 hrest]; intro hh; exact hh.2.2 rfl)]
            rw [hk1, List.cons_append]
          · simp [List.filter_cons, hs', hk3]
          · rw [hrest] at hk4
            simp [List.filter_cons, hs', hk4, hrest]
        · -- a later sequence header exists before the first frame: `o` is skipped
          have hge := s4 hrest
          push_cast at hge
          refine ⟨kept, ?_, hk2.cons o, ?_, ?_⟩
          · rw [if_pos hs, emitKept]
            rw [if_pos ⟨hs, by omega, by omega⟩]
            exact hk1
          · simp [List.filter_cons, hs', hk3]
          · rw [hk4, List.filter_cons, hs']
            simp only [if_true]
            obtain ⟨b, l, hbl⟩ := List.exists_cons_of_ne_nil hrest
            rw [hbl, List.getLast?_cons_cons]
      · have hs' : ConvertedObu.isSequenceHeader o = false := by
          simpa [ConvertedObu.isSequenceHeader] using hs
        rw [if_neg hs] at hk1
        refine ⟨o :: kept, ?_, hk2.cons₂ o, ?_, ?_⟩
        · rw [if_neg hs, emitKept]
          rw [if_neg (by intro hh; exact hs hh.1)]
          rw [hk1, List.cons_append]
        · simp [List.filter_cons, hs', hk3]
        · simp [List.filter_cons, hs', hk4]

set_option maxRecDepth 100000 in
theorem obu_header_bit_facts : ∀ b < 256, b &&& 0x80 = 0 → b &&& 0x01 = 0 →
    ((b ||| 0x02) &&& 0x80 = 0 ∧ (b ||| 0x02) &&& 0x01 = 0 ∧
     ((b ||| 0x02) >>> 3) &&& 0x0f = (b >>> 3) &&& 0x0f ∧
     ((b ||| 0x02) >>> 2) &&& 1 = (b >>> 2) &&& 1 ∧
     ((b ||| 0x02) >>> 1) &&& 1 = 1) := by
  decide

/-- Reading one OBU written in low-overhead form gives back its type and payload and
leaves the bytes that follow it. -/
theorem readLowOverheadObus_bytes (b0 : Nat) (ext payload : List Nat) (hb : b0 < 256)
    (h80 : b0 &&& 0x80 = 0) (h01 : b0 &&& 0x01 = 0)
    (hext : ext.length = (if (b0 >>> 2) &&& 1 ≠ 0 then 1 else 0))
    (hlen : payload.length < 2 ^ 56) (fuel : Nat) (rest : List Nat) :
    readLowOverheadObus (fuel + 1)
        (([b0 ||| 0x02] ++ ext ++ encodeLeb128 payload.length ++ payload) ++ rest) =
      (readLowOverheadObus fuel rest).map
        (fun tl => ((b0 >>> 3) &&& 0x0f, payload) :: tl) := by
  obtain ⟨f1, f2, f3, f4, f5⟩ := obu_header_bit_facts b0 hb h80 h01
  have hleb := decodeLeb128_encodeLeb128 payload.length hlen (payload ++ rest)
  have hnn : ¬ ((payload.length : Int) < 0) := by omega
  rw [readLowOverheadObus]
  by_cases hflag : (b0 >>> 2) &&& 1 ≠ 0
  · rw [if_pos hflag] at hext
    obtain ⟨e, rfl⟩ : ∃ e, ext = [e] := by
      match ext, hext with
      | [e], _ => exact ⟨e, rfl⟩
    have hflag' : ((b0 ||| 0x02) >>> 2) &&& 1 ≠ 0 := by rw [f4]; exact hflag
    have hd1 : List.drop (2 + (encodeLeb128 payload.length).length)
        ((b0 ||| 2) :: e :: (encodeLeb128 payload.length ++ (payload ++ rest))) =
        payload ++ rest :=
      @List.drop_left' _ ((b0 ||| 2) :: e :: encodeLeb128 payload.length) (payload ++ rest) _
        (by simp; omega)
    have hd2 : List.drop (2 + (encodeLeb128 payload.length).length + payload.length)
        ((b0 ||| 2) :: e :: (encodeLeb128 payload.length ++ (payload ++ rest))) = rest := by
      have := @List.drop_left' _ ((b0 ||| 2) :: e :: (encodeLeb128 payload.length ++ payload))
        rest (2 + (encodeLeb128 payload.length).length + payload.length)
        (by simp; omega)
      simpa using this
    simp only [List.singleton_append, List.cons_append, List.append_assoc, List.nil_append,
      Av1ObuHeader.parse, f1, f2, f3, f5, hflag', ne_eq, not_true_eq_false, not_false_eq_true,
      decide_True, decide_False, if_true, if_false, List.drop_succ_cons, List.drop_zero, hleb,
      reduceCtorEq, hnn, Int.toNat_ofNat, hd1, hd2, List.take_left']
    rw [if_neg (by simp; omega)]
  · rw [if_neg hflag] at hext
    have hnil : ext = [] := List.length_eq_zero.mp hext
    subst hnil
    have hflag' : ¬ (((b0 ||| 0x02) >>> 2) &&& 1 ≠ 0) := by rw [f4]; exact hflag
    have hd1 : List.drop (1 + (encodeLeb128 payload.length).length)
        ((b0 ||| 2) :: (encodeLeb128 payload.length ++ (payload ++ rest))) =
        payload ++ rest :=
      @List.drop_left' _ ((b0 ||| 2) :: encodeLeb128 payload.length) (payload ++ rest) _
        (by simp; omega)
    have hd2 : List.drop (1 + (encodeLeb128 payload.length).length + payload.length)
        ((b0 ||| 2) :: (encodeLeb128 payload.length ++ (payload ++ rest))) = rest := by
      have := @List.drop_left' _ ((b0 ||| 2) :: (encodeLeb128 payload.length ++ payload))
        rest (1 + (encodeLeb128 payload.length).length + payload.length)
        (by simp; omega)
      simpa using this
    simp only [List.singleton_append, List.cons_append, List.append_assoc, List.nil_append,
      Av1ObuHeader.parse, f1, f2, f3, f5, hflag', ne_eq, not_true_eq_false, not_false_eq_true,
      decide_True, decide_False, if_true, if_false, List.drop_succ_cons, List.drop_zero, hleb,
      reduceCtorEq, hnn, Int.toNat_ofNat, hd1, hd2, List.take_left']
    rw [if_neg (by simp; omega)]

theorem readLowOverheadObus_cons (obu : ConvertedObu) (hobu : LowOverheadForm obu)
    (fuel : Nat) (rest : List Nat) :
    ∃ payload : List Nat,
      readLowOverheadObus (fuel + 1) (obu.bytes ++ rest) =
        (readLowOverheadObus fuel rest).map (fun tl => (obu.type, payload) :: tl) := by
  obtain ⟨b0, ext, payload, hb, h80, h01, hty, -, hext, hlen, hbytes⟩ := hobu
  refine ⟨payload, ?_⟩
  rw [hbytes, hty]
  exact readLowOverheadObus_bytes b0 ext payload hb h80 h01 hext hlen fuel rest

theorem lowOverheadForm_bytes_ne_nil (obu : ConvertedObu) (h : LowOverheadForm obu) :
    obu.bytes ≠ [] := by
  obtain ⟨b0, ext, payload, -, -, -, -, -, -, -, hbytes⟩ := h
  rw [hbytes]
  simp

theorem readLowOverheadObus_flatten (obus : List ConvertedObu)
    (h : ∀ o ∈ obus, LowOverheadForm o) :
    ∀ fuel, obus.length < fuel →
      ∃ r, readLowOverheadObus fuel ((obus.map (fun obu => obu.bytes)).flatten) = some r ∧
        r.map Prod.fst = obus.map (fun obu => obu.type) := by
  induction obus with
  | nil =>
    intro fuel hf
    obtain ⟨f, rfl⟩ : ∃ f, fuel = f + 1 := ⟨fuel - 1, by simp at hf; omega⟩
    exact ⟨[], by simp [readLowOverheadObus]⟩
  | cons o rest ih =>
    intro fuel hf
    obtain ⟨f, rfl⟩ : ∃ f, fuel = f + 1 := ⟨fuel - 1, by simp at hf; omega⟩
    obtain ⟨r, hr, hty⟩ := ih (fun x hx => h x (List.mem_cons_of_mem _ hx)) f
      (by simp at hf; omega)
    obtain ⟨payload, hp⟩ := readLowOverheadObus_cons o (h o (List.mem_cons_self _ _)) f
      ((rest.map (fun obu => obu.bytes)).flatten)
    refine ⟨(o.type, payload) :: r, ?_, by simp [hty]⟩
    simp only [List.map_cons, List.flatten_cons, hp, hr, Option.map_some']

theorem lowOverheadForm_length_le (obus : List ConvertedObu)
    (h : ∀ o ∈ obus, LowOverheadForm o) :
    obus.length ≤ ((obus.map (fun obu => obu.bytes)).flatten).length := by
  induction obus with
  | nil => simp
  | cons o rest ih =>
    have h1 := lowOverheadForm_bytes_ne_nil o (h o (List.mem_cons_self _ _))
    have h2 := ih (fun x hx => h x (List.mem_cons_of_mem _ hx))
    have h3 : 0 < o.bytes.length := List.length_pos.mpr h1
    simp only [List.map_cons, List.flatten_cons, List.length_append, List.length_cons]
    omega

theorem emitKept_sublist (lastShIdx : Int) (firstFrameIdx : Nat) (obus : List ConvertedObu) :
    ∀ i, (emitKept lastShIdx firstFrameIdx obus i).Sublist obus := by
  induction obus with
  | nil => intro i; simp [emitKept]
  | cons o rest ih =>
    intro i
    rw [emitKept]
    split_ifs
    · exact (ih (i + 1)).cons o
    · exact (ih (i + 1)).cons₂ o

theorem parse_some_inv (buf : List Nat) (hdr : Av1ObuHeader) (hdrLen : Nat)
    (h : Av1ObuHeader.parse buf = some (hdr, hdrLen)) :
    ∃ b0 rest, buf = b0 :: rest ∧ b0 &&& 0x80 = 0 ∧ b0 &&& 0x01 = 0 ∧
      hdr.obu_type = (b0 >>> 3) &&& 0x0f ∧
      hdr.obu_extension_flag = decide ((b0 >>> 2) &&& 1 ≠ 0) := by
  match buf, h with
  | b0 :: rest, h =>
    refine ⟨b0, rest, rfl, ?_⟩
    simp only [Av1ObuHeader.parse] at h
    split_ifs at h with h1 h2 h3
    · match rest, h with
      | b1 :: _, h =>
        simp only [Option.some.injEq, Prod.mk.injEq] at h
        obtain ⟨rfl, -⟩ := h
        exact ⟨by simpa using h1, by simpa using h2, rfl, rfl⟩
    · simp only [Option.some.injEq, Prod.mk.injEq] at h
      obtain ⟨rfl, -⟩ := h
      exact ⟨by simpa using h1, by simpa using h2, rfl, rfl⟩

theorem obuRawPayload_length_le (pw : List Nat) (n : Nat) (h : pw.length ≤ n) :
    (obuRawPayload n pw).length ≤ n := by
  unfold obuRawPayload
  split_ifs
  · unfold av1_remove_emulation_prevention NALUnit_decodeNAL
    simp only
    split_ifs with h2
    · exact h2
    · exact h
  · simp

theorem obuPayloadWithEP_length_le (data : List Nat) (curObu hdrLen nextStartCode : Nat) :
    (obuPayloadWithEP data curObu hdrLen nextStartCode).length ≤ data.length := by
  unfold obuPayloadWithEP
  refine le_trans (List.rdropWhile_prefix _ _).length_le ?_
  refine le_trans (List.take_prefix _ _).length_le ?_
  exact (List.drop_suffix _ _).length_le

theorem convertPass1_form (data : List Nat) (hbytes : ∀ b ∈ data, b < 256)
    (hlen : data.length < 2 ^ 31) :
    ∀ (fuel curObu : Nat) (obus : List ConvertedObu), (∀ o ∈ obus, LowOverheadForm o) →
      ∀ o ∈ convertPass1 data fuel curObu obus, LowOverheadForm o := by
  intro fuel
  induction fuel with
  | zero => intro curObu obus h; simpa [convertPass1] using h
  | succ f ih =>
    intro curObu obus h
    rw [convertPass1]
    split_ifs with hcur
    · split
      · exact h
      · rename_i obuHdr hdrLen hparse
        obtain ⟨b0, rest, hdrop, h80, h01, hty, hflag⟩ := parse_some_inv _ _ _ hparse
        have hget : data.getD curObu 0 = b0 := by
          rw [List.getD_eq_getElem?_getD, ← List.head?_drop, hdrop]
          rfl
        have hb0 : b0 < 256 := by
          apply hbytes
          have : b0 ∈ data.drop curObu := by rw [hdrop]; exact List.mem_cons_self _ _
          exact List.mem_of_mem_drop this
        have hnew : ∀ raw : List Nat, raw.length ≤ data.length →
            ∀ o ∈ (if obuHdr.obu_type ≠ TEMPORAL_DELIMITER then
              obus ++ [lowOverheadObu data curObu obuHdr raw] else obus),
            LowOverheadForm o := by
          intro raw hraw
          split_ifs with htd
          · intro o ho
            rcases List.mem_append.mp ho with ho | ho
            · exact h o ho
            · rw [List.mem_singleton] at ho
              subst ho
              refine ⟨b0, (if obuHdr.obu_extension_flag then [data.getD (curObu + 1) 0] else []),
                raw, hb0, h80, h01, hty, htd, ?_, ?_, ?_⟩
              · rw [hflag]
                by_cases hx : (b0 >>> 2) &&& 1 ≠ 0
                · rw [if_pos hx, decide_eq_true hx]
                  rfl
                · rw [if_neg hx, decide_eq_false hx]
                  rfl
              · calc raw.length ≤ data.length := hraw
                  _ < 2 ^ 31 := hlen
                  _ < 2 ^ 56 := by norm_num
              · simp only [lowOverheadObu, hget]
          · exact h
        have hraw := obuRawPayload_length_le _ _
          (obuPayloadWithEP_length_le data curObu hdrLen (findNALWithStartCode data curObu true))
        simp only
        split_ifs with hnext htd htd
        · exact ih _ _ (by simpa [htd] using hnew _ hraw)
        · exact ih _ _ h
        · simpa [htd] using hnew _ hraw
        · exact h
    · exact h

theorem findNALWithStartCode_ge (data : List Nat) (pos : Nat) (long : Bool) :
    pos < data.length → pos ≤ findNALWithStartCode data pos long := by
  intro h
  unfold findNALWithStartCode
  simp only
  split_ifs <;> omega

theorem findNextNAL_gt (data : List Nat) (pos : Nat) (h : pos < data.length) :
    pos < findNextNAL data pos := by
  unfold findNextNAL
  omega

theorem convertPass1_fuel (data : List Nat) :
    ∀ (fuel k curObu : Nat) (obus : List ConvertedObu), data.length ≤ fuel + curObu →
      convertPass1 data (fuel + k) curObu obus = convertPass1 data fuel curObu obus := by
  intro fuel
  induction fuel with
  | zero =>
    intro k curObu obus h
    cases k with
    | zero => rfl
    | succ k =>
      have : ¬ curObu < data.length := by omega
      simp only [Nat.zero_add, convertPass1, if_neg this]
  | succ f ih =>
    intro k curObu obus h
    have hk : f + 1 + k = (f + k) + 1 := by omega
    rw [hk, convertPass1, convertPass1]
    split_ifs with hcur
    · split
      · rfl
      · simp only
        by_cases hnext : findNALWithStartCode data curObu true < data.length
        · rw [if_pos hnext, if_pos hnext]
          apply ih
          have h1 := findNextNAL_gt data _ hnext
          have h2 := findNALWithStartCode_ge data curObu true hcur
          omega
        · rw [if_neg hnext, if_neg hnext]
    · rfl

/-- C5: passes 2 and 3 of `convertAV1ToLowOverhead` emit, for every OBU list, `kept`
followed by the OBUs from the first FRAME / FRAME_HEADER on, unchanged; `kept` is the
OBUs before that first frame OBU in their order, all the non-sequence-header ones and
of the sequence headers exactly the last one. On the input stream
`[SH1, SH2, FRAME, TD, SH3]` the function outputs `[SH2, FRAME, SH3]`. -/
theorem dedup_keeps_last_sequence_header :
    (∀ obus : List ConvertedObu, ∃ kept : List ConvertedObu,
      dedupSequenceHeaders obus = kept ++ obus.dropWhile ConvertedObu.notFrame ∧
      kept.Sublist (obus.takeWhile ConvertedObu.notFrame) ∧
      kept.filter (fun o => !o.isSequenceHeader) =
        (obus.takeWhile ConvertedObu.notFrame).filter (fun o => !o.isSequenceHeader) ∧
      kept.filter ConvertedObu.isSequenceHeader =
        ((obus.takeWhile ConvertedObu.notFrame).filter
          ConvertedObu.isSequenceHeader).getLast?.toList) ∧
    convertAV1ToLowOverhead
      [0, 0, 1, 0x08, 0x11,  0, 0, 1, 0x08, 0x22, 0x23,  0, 0, 1, 0x30, 0x55,
       0, 0, 1, 0x10,  0, 0, 1, 0x08, 0x33] =
      [0x0A, 2, 0x22, 0x23,  0x32, 1, 0x55,  0x0A, 1, 0x33] := by
  refine ⟨fun obus => ?_, by decide⟩
  exact emitKept_spec obus 0 (-1) obus.length (by omega) (by decide)

/-- C6: for every input buffer of bytes (of `int` length), the output of
`convertAV1ToLowOverhead` reads back as a sequence of low-overhead OBUs, none of
which has type TEMPORAL_DELIMITER. -/
theorem convertAV1ToLowOverhead_no_temporal_delimiter (data : List Nat)
    (hbytes : ∀ b ∈ data, b < 256) (hlen : data.length < 2 ^ 31) :
    ∃ obus : List (Nat × List Nat),
      readLowOverheadObus ((convertAV1ToLowOverhead data).length + 1)
        (convertAV1ToLowOverhead data) = some obus ∧
      ∀ o ∈ obus, o.1 ≠ TEMPORAL_DELIMITER := by
  have hpass1 := convertPass1_form data hbytes hlen (data.length + 1) (findNextNAL data 0) []
    (by simp)
  have hkept : ∀ o ∈ dedupSequenceHeaders
      (convertPass1 data (data.length + 1) (findNextNAL data 0) []), LowOverheadForm o :=
    fun o ho => hpass1 o ((emitKept_sublist _ _ _ 0).subset ho)
  obtain ⟨r, hr, hty⟩ := readLowOverheadObus_flatten _ hkept
    ((convertAV1ToLowOverhead data).length + 1)
    (Nat.lt_succ_of_le (lowOverheadForm_length_le _ hkept))
  refine ⟨r, hr, ?_⟩
  intro o ho
  have hmem : o.1 ∈ r.map Prod.fst := List.mem_map_of_mem _ ho
  rw [hty, List.mem_map] at hmem
  obtain ⟨obu, hobu, heq⟩ := hmem
  obtain ⟨_, _, _, _, _, _, _, htd, _⟩ := hkept obu hobu
  rw [← heq]
  exact htd

theorem convertAV1ToLowOverhead_no_temporal_delimiter_witness :
    (∀ b ∈ [0, 0, 1, 0x08, 0x11, 0, 0, 1, 0x10, 0, 0, 1, 0x30, 0x55], b < 256) ∧
    [0, 0, 1, 0x08, 0x11, 0, 0, 1, 0x10, 0, 0, 1, 0x30, 0x55].length < 2 ^ 31 ∧
    ∃ obus : List (Nat × List Nat),
      readLowOverheadObus ((convertAV1ToLowOverhead
        [0, 0, 1, 0x08, 0x11, 0, 0, 1, 0x10, 0, 0, 1, 0x30, 0x55]).length + 1)
        (convertAV1ToLowOverhead [0, 0, 1, 0x08, 0x11, 0, 0, 1, 0x10, 0, 0, 1, 0x30, 0x55]) =
          some obus ∧
      ∀ o ∈ obus, o.1 ≠ TEMPORAL_DELIMITER :=
  ⟨by decide, by decide, convertAV1ToLowOverhead_no_temporal_delimiter
    [0, 0, 1, 0x08, 0x11, 0, 0, 1, 0x10, 0, 0, 1, 0x30, 0x55] (by decide) (by decide)⟩

theorem ptsRuns_cons_head (p : AVPacket) (ps : List AVPacket) :
    ∃ run runs, ptsRuns (p :: ps) = (p :: run) :: runs := by
  rw [ptsRuns]
  split
  · split_ifs
    · exact ⟨_, _, rfl⟩
    · exact ⟨_, _, rfl⟩
  · exact ⟨_, _, rfl⟩

/-- A run in progress followed by a packet with another PTS is a complete run. -/
theorem ptsRuns_append_ne (cur : List AVPacket) (P : Int) (hne : cur ≠ [])
    (hcur : ∀ q ∈ cur, q.pts = P) (p : AVPacket) (hp : p.pts ≠ P) (ps : List AVPacket) :
    ptsRuns (cur ++ p :: ps) = cur :: ptsRuns (p :: ps) := by
  induction cur with
  | nil => exact absurd rfl hne
  | cons c rest ih =>
    have hc : c.pts = P := hcur c (List.mem_cons_self _ _)
    by_cases hrest : rest = []
    · subst hrest
      obtain ⟨run, runs, hr⟩ := ptsRuns_cons_head p ps
      simp only [List.cons_append, List.nil_append]
      rw [ptsRuns, hr]
      simp only
      rw [if_neg (by rw [hc]; exact fun h => hp h.symm)]
    · have ih' := ih hrest (fun q hq => hcur q (List.mem_cons_of_mem _ hq))
      obtain ⟨r0, rest', rfl⟩ := List.exists_cons_of_ne_nil hrest
      have hr0 : r0.pts = P := hcur r0 (by simp)
      simp only [List.cons_append] at ih' ⊢
      rw [ptsRuns, ih']
      simp only
      rw [if_pos (by rw [hc, hr0])]

/-- A run in progress with nothing after it is one run. -/
theorem ptsRuns_uniform (cur : List AVPacket) (P : Int) (hne : cur ≠ [])
    (hcur : ∀ q ∈ cur, q.pts = P) : ptsRuns cur = [cur] := by
  induction cur with
  | nil => exact absurd rfl hne
  | cons c rest ih =>
    by_cases hrest : rest = []
    · subst hrest
      rfl
    · have ih' := ih hrest (fun q hq => hcur q (List.mem_cons_of_mem _ hq))
      obtain ⟨r0, rest', rfl⟩ := List.exists_cons_of_ne_nil hrest
      have hc : c.pts = P := hcur c (List.mem_cons_self _ _)
      have hr0 : r0.pts = P := hcur r0 (by simp)
      rw [ptsRuns, ih']
      simp only
      rw [if_pos (by rw [hc, hr0])]

/-! ### Fields the cluster operations leave alone -/

theorem writeToFile_fields (s : MatroskaMuxer) (data : List Nat) :
    (s.writeToFile data).m_tracks = s.m_tracks ∧
    (s.writeToFile data).blockLog = s.blockLog ∧
    (s.writeToFile data).m_headerWritten = s.m_headerWritten ∧
    (s.writeToFile data).m_firstTimecode = s.m_firstTimecode ∧
    (s.writeToFile data).m_firstTimecodeSet = s.m_firstTimecodeSet ∧
    (s.writeToFile data).m_preHeaderPackets = s.m_preHeaderPackets ∧
    (s.writeToFile data).m_seenStreams = s.m_seenStreams := by
  unfold MatroskaMuxer.writeToFile
  split_ifs <;> simp

theorem flushCluster_fields (s : MatroskaMuxer) :
    s.flushCluster.m_tracks = s.m_tracks ∧
    s.flushCluster.blockLog = s.blockLog ∧
    s.flushCluster.m_headerWritten = s.m_headerWritten ∧
    s.flushCluster.m_firstTimecode = s.m_firstTimecode ∧
    s.flushCluster.m_firstTimecodeSet = s.m_firstTimecodeSet ∧
    s.flushCluster.m_preHeaderPackets = s.m_preHeaderPackets ∧
    s.flushCluster.m_seenStreams = s.m_seenStreams := by
  unfold MatroskaMuxer.flushCluster
  split_ifs
  · simp
  · simp only
    obtain ⟨a1, a2, a3, a4, a5, a6, a7⟩ := writeToFile_fields
      (s.writeToFile (ebml_write_id MATROSKA_ID_CLUSTER ++ ebml_write_size s.m_clusterBuf.length))
      s.m_clusterBuf
    obtain ⟨b1, b2, b3, b4, b5, b6, b7⟩ := writeToFile_fields s
      (ebml_write_id MATROSKA_ID_CLUSTER ++ ebml_write_size s.m_clusterBuf.length)
    exact ⟨a1.trans b1, a2.trans b2, a3.trans b3, a4.trans b4, a5.trans b5, a6.trans b6,
      a7.trans b7⟩

theorem startCluster_fields (s : MatroskaMuxer) (timecodeMs : Int) :
    (s.startCluster timecodeMs).m_tracks = s.m_tracks ∧
    (s.startCluster timecodeMs).blockLog = s.blockLog ∧
    (s.startCluster timecodeMs).m_headerWritten = s.m_headerWritten ∧
    (s.startCluster timecodeMs).m_firstTimecode = s.m_firstTimecode ∧
    (s.startCluster timecodeMs).m_firstTimecodeSet = s.m_firstTimecodeSet ∧
    (s.startCluster timecodeMs).m_preHeaderPackets = s.m_preHeaderPackets ∧
    (s.startCluster timecodeMs).m_seenStreams = s.m_seenStreams := by
  unfold MatroskaMuxer.startCluster
  simp only
  split_ifs
  · exact flushCluster_fields s
  · simp

theorem scheduleFrame_fields (env : Env) (s : MatroskaMuxer) (track : MkvTrackInfo)
    (relMs : Int) :
    (s.scheduleFrame env track relMs).m_tracks = s.m_tracks ∧
    (s.scheduleFrame env track relMs).blockLog = s.blockLog ∧
    (s.scheduleFrame env track relMs).m_headerWritten = s.m_headerWritten ∧
    (s.scheduleFrame env track relMs).m_firstTimecode = s.m_firstTimecode ∧
    (s.scheduleFrame env track relMs).m_firstTimecodeSet = s.m_firstTimecodeSet ∧
    (s.scheduleFrame env track relMs).m_preHeaderPackets = s.m_preHeaderPackets ∧
    (s.scheduleFrame env track relMs).m_seenStreams = s.m_seenStreams := by
  unfold MatroskaMuxer.scheduleFrame
  simp only
  split_ifs <;> simp [startCluster_fields]

/-- What `flushPendingFrame` does to the track, the track map and the block log. -/
theorem flushPendingFrame_spec (env : Env) (s : MatroskaMuxer) (track : MkvTrackInfo) :
    (s.flushPendingFrame env track).2 =
      { track with pendingFrameData := [], hasPendingFrame := false } ∧
    (s.flushPendingFrame env track).1.m_tracks = s.m_tracks ∧
    (s.flushPendingFrame env track).1.m_headerWritten = s.m_headerWritten ∧
    (s.flushPendingFrame env track).1.m_firstTimecode = s.m_firstTimecode ∧
    (s.flushPendingFrame env track).1.m_firstTimecodeSet = s.m_firstTimecodeSet ∧
    (s.flushPendingFrame env track).1.m_preHeaderPackets = s.m_preHeaderPackets ∧
    (s.flushPendingFrame env track).1.m_seenStreams = s.m_seenStreams ∧
    (s.flushPendingFrame env track).1.blockLog =
      (if track.hasPendingFrame = true ∧ track.pendingFrameData ≠ [] then
        s.blockLog ++ [pendingBlock env s track] else s.blockLog) := by
  by_cases hc : (!track.hasPendingFrame || track.pendingFrameData.isEmpty) = true
  · have hn : ¬ (track.hasPendingFrame = true ∧ track.pendingFrameData ≠ []) := by
      rintro ⟨h1, h2⟩
      simp [h1, List.isEmpty_iff, h2] at hc
    have hdef : s.flushPendingFrame env track =
        (s, { track with hasPendingFrame := false, pendingFrameData := [] }) := by
      unfold MatroskaMuxer.flushPendingFrame
      rw [if_pos hc]
    rw [hdef, if_neg hn]
    exact ⟨rfl, rfl, rfl, rfl, rfl, rfl, rfl, rfl⟩
  · have hp : track.hasPendingFrame = true ∧ track.pendingFrameData ≠ [] := by
      simp only [Bool.or_eq_true, Bool.not_eq_true', List.isEmpty_iff, not_or,
        Bool.not_eq_false] at hc
      exact hc
    obtain ⟨f1, f2, f3, f4, f5, f6, f7⟩ := scheduleFrame_fields env s track
      (Int.tdiv (track.pendingPts - s.m_firstTimecode) INTERNAL_PTS_PER_MS)
    unfold MatroskaMuxer.flushPendingFrame
    rw [if_neg hc, if_pos hp]
    simp only [pendingBlock, f2]
    exact ⟨trivial, f1, f3, f4, f5, f6, f7, trivial⟩

theorem lor_eq_zero_iff (a b : Nat) : a ||| b = 0 ↔ a = 0 ∧ b = 0 := by
  constructor
  · intro h
    have hbit : ∀ i, a.testBit i = false ∧ b.testBit i = false := by
      intro i
      have := congrArg (fun n => n.testBit i) h
      simpa [Nat.testBit_or] using this
    constructor
    · apply Nat.eq_of_testBit_eq
      intro i
      simp [(hbit i).1]
    · apply Nat.eq_of_testBit_eq
      intro i
      simp [(hbit i).2]
  · rintro ⟨rfl, rfl⟩
    rfl

set_option maxRecDepth 100000 in
theorem mask_low8 : ∀ m < 256, 255 &&& m = m := by
  decide

theorem mod256_and (f m : Nat) (hm : m < 256) : (f % 256) &&& m = f &&& m := by
  have h : f % 256 = f &&& 255 := (Nat.and_pow_two_sub_one_eq_mod f 8).symm
  rw [h, Nat.and_assoc, mask_low8 m hm]

theorem merged_flag (F f m : Nat) (hm : m < 256) :
    ((F ||| (f &&& m)) % 256) &&& m ≠ 0 ↔ (F &&& m ≠ 0 ∨ f &&& m ≠ 0) := by
  rw [mod256_and _ _ hm, Nat.and_distrib_right, Nat.and_assoc, Nat.and_self, Ne,
    lor_eq_zero_iff]
  tauto

/-! ### The track map -/

theorem findTrack_some (tracks : List MkvTrackInfo) (k : Int) (t : MkvTrackInfo)
    (h : findTrack tracks k = some t) : t ∈ tracks ∧ t.streamIndex = k := by
  unfold findTrack at h
  have h1 := List.mem_of_find?_eq_some h
  have h2 := List.find?_some h
  exact ⟨h1, by simpa using h2⟩

theorem setTrack_cons (a : MkvTrackInfo) (rest : List MkvTrackInfo) (t' : MkvTrackInfo) :
    setTrack (a :: rest) t' =
      (if a.streamIndex = t'.streamIndex then t' else a) :: setTrack rest t' := by
  unfold setTrack
  rw [List.map_cons]
  by_cases h : a.streamIndex = t'.streamIndex
  · simp [h]
  · simp [h]

theorem findTrack_cons (a : MkvTrackInfo) (rest : List MkvTrackInfo) (k : Int) :
    findTrack (a :: rest) k = if a.streamIndex = k then some a else findTrack rest k := by
  unfold findTrack
  rw [List.find?_cons]
  by_cases h : a.streamIndex = k
  · have hb : (a.streamIndex == k) = true := by simpa using h
    rw [hb, if_pos h]
  · have hb : (a.streamIndex == k) = false := by simpa using h
    rw [hb, if_neg h]

theorem setTrack_keys (tracks : List MkvTrackInfo) (t' : MkvTrackInfo) :
    (setTrack tracks t').map (fun t => t.streamIndex) = tracks.map (fun t => t.streamIndex) := by
  induction tracks with
  | nil => rfl
  | cons a rest ih =>
    rw [setTrack_cons, List.map_cons, List.map_cons, ih]
    by_cases h : a.streamIndex = t'.streamIndex
    · rw [if_pos h, h]
    · rw [if_neg h]

theorem findTrack_setTrack_same (tracks : List MkvTrackInfo) (t t' : MkvTrackInfo)
    (h : findTrack tracks t'.streamIndex = some t) :
    findTrack (setTrack tracks t') t'.streamIndex = some t' := by
  induction tracks with
  | nil => simp [findTrack] at h
  | cons a rest ih =>
    rw [findTrack_cons] at h
    rw [setTrack_cons, findTrack_cons]
    by_cases ha : a.streamIndex = t'.streamIndex
    · rw [if_pos ha, if_pos rfl]
    · rw [if_neg ha] at h
      rw [if_neg ha, if_neg ha]
      exact ih h

theorem findTrack_setTrack_other (tracks : List MkvTrackInfo) (t' : MkvTrackInfo) (k : Int)
    (hk : t'.streamIndex ≠ k) :
    findTrack (setTrack tracks t') k = findTrack tracks k := by
  induction tracks with
  | nil => rfl
  | cons a rest ih =>
    rw [setTrack_cons, findTrack_cons, findTrack_cons, ih]
    by_cases ha : a.streamIndex = t'.streamIndex
    · rw [if_pos ha, if_neg hk, if_neg (by rw [ha]; exact hk)]
    · rw [if_neg ha]

/-! ### One packet through `muxPacketInternal` -/

theorem accumulatePacket_static (env : Env) (t : MkvTrackInfo) (p : AVPacket) :
    (accumulatePacket env t p).streamIndex = t.streamIndex ∧
    (accumulatePacket env t p).codecID = t.codecID := by
  unfold accumulatePacket
  simp only
  split_ifs <;> exact ⟨rfl, rfl⟩

theorem accumulatePacket_fresh (env : Env) (t : MkvTrackInfo) (p : AVPacket)
    (h : t.hasPendingFrame = false) :
    accumulatePacket env t p =
      { t with pendingPts := p.pts, pendingFlags := p.flags % 256, hasPendingFrame := true,
               pendingFrameData := t.pendingFrameData ++ p.bytes } := by
  unfold accumulatePacket
  simp only [h, Bool.not_false, if_true]

theorem accumulatePacket_pending (env : Env) (t : MkvTrackInfo) (p : AVPacket)
    (h : t.hasPendingFrame = true) :
    accumulatePacket env t p =
      { t with pendingFlags := (t.pendingFlags ||| (p.flags &&& env.IS_IFRAME)) % 256,
               pendingFrameData := t.pendingFrameData ++ p.bytes } := by
  unfold accumulatePacket
  simp only [h, Bool.not_true]
  rfl

theorem muxPacketInternal_none (env : Env) (s : MatroskaMuxer) (p : AVPacket)
    (h : findTrack s.m_tracks p.stream_index = none) : s.muxPacketInternal env p = s := by
  unfold MatroskaMuxer.muxPacketInternal
  rw [h]

/-- The track as `muxPacketInternal` leaves it before accumulating: flushed when a
frame with another PTS is pending. -/
theorem muxPacketInternal_some (env : Env) (s : MatroskaMuxer) (p : AVPacket)
    (t : MkvTrackInfo) (h : findTrack s.m_tracks p.stream_index = some t) :
    (s.muxPacketInternal env p).m_tracks =
      setTrack s.m_tracks (accumulatePacket env
        (if t.hasPendingFrame = true ∧ p.pts ≠ t.pendingPts then
          { t with pendingFrameData := [], hasPendingFrame := false } else t) p) ∧
    (s.muxPacketInternal env p).blockLog =
      (if t.hasPendingFrame = true ∧ p.pts ≠ t.pendingPts ∧ t.pendingFrameData ≠ [] then
        s.blockLog ++ [pendingBlock env s t] else s.blockLog) ∧
    (s.muxPacketInternal env p).m_headerWritten = s.m_headerWritten ∧
    (s.muxPacketInternal env p).m_firstTimecode = s.m_firstTimecode ∧
    (s.muxPacketInternal env p).m_firstTimecodeSet = s.m_firstTimecodeSet ∧
    (s.muxPacketInternal env p).m_preHeaderPackets = s.m_preHeaderPackets ∧
    (s.muxPacketInternal env p).m_seenStreams = s.m_seenStreams := by
  obtain ⟨g1, g2, g3, g4, g5, g6, g7, g8⟩ := flushPendingFrame_spec env s t
  unfold MatroskaMuxer.muxPacketInternal
  rw [h]
  simp only
  by_cases hc : t.hasPendingFrame = true ∧ p.pts ≠ t.pendingPts
  · have hb : (t.hasPendingFrame && decide (p.pts ≠ t.pendingPts)) = true := by
      simp [hc.1, hc.2]
    rw [if_pos hb, if_pos hc, g1, g2, g8, g3, g4, g5, g6, g7]
    refine ⟨rfl, ?_, rfl, rfl, rfl, rfl, rfl⟩
    by_cases hd : t.pendingFrameData = []
    · rw [if_neg (fun hh => hh.2 hd), if_neg (fun hh => hh.2.2 hd)]
    · rw [if_pos ⟨hc.1, hd⟩, if_pos ⟨hc.1, hc.2, hd⟩]
  · have hb : ¬ (t.hasPendingFrame && decide (p.pts ≠ t.pendingPts)) = true := by
      intro hh
      simp only [Bool.and_eq_true, decide_eq_true_eq] at hh
      exact hc hh
    rw [if_neg hb, if_neg hc, if_neg (fun hh => hc ⟨hh.1, hh.2.1⟩)]
    exact ⟨rfl, rfl, rfl, rfl, rfl, rfl, rfl⟩

theorem muxPacketInternal_fields (env : Env) (s : MatroskaMuxer) (p : AVPacket) :
    (s.muxPacketInternal env p).m_tracks.map (fun t => t.streamIndex) =
      s.m_tracks.map (fun t => t.streamIndex) ∧
    (s.muxPacketInternal env p).m_headerWritten = s.m_headerWritten ∧
    (s.muxPacketInternal env p).m_firstTimecode = s.m_firstTimecode ∧
    (s.muxPacketInternal env p).m_firstTimecodeSet = s.m_firstTimecodeSet ∧
    (s.muxPacketInternal env p).m_preHeaderPackets = s.m_preHeaderPackets ∧
    (s.muxPacketInternal env p).m_seenStreams = s.m_seenStreams := by
  cases h : findTrack s.m_tracks p.stream_index with
  | none => rw [muxPacketInternal_none env s p h]; exact ⟨rfl, rfl, rfl, rfl, rfl, rfl⟩
  | some t =>
    obtain ⟨h1, -, h3, h4, h5, h6, h7⟩ := muxPacketInternal_some env s p t h
    exact ⟨by rw [h1, setTrack_keys], h3, h4, h5, h6, h7⟩

theorem blocksOf_append (k : Int) (log : List SimpleBlock) (b : SimpleBlock) :
    blocksOf k (log ++ [b]) =
      if b.streamIndex = k then blocksOf k log ++ [b] else blocksOf k log := by
  unfold blocksOf
  rw [List.filter_append]
  by_cases h : b.streamIndex = k
  · simp [h]
  · simp [h]

theorem runData_snoc (cur : List AVPacket) (p : AVPacket) :
    runData (cur ++ [p]) = runData cur ++ p.bytes := by
  simp [runData]

theorem mergedFlags_snoc (env : Env) (cur : List AVPacket) (p : AVPacket) (h : cur ≠ []) :
    mergedFlags env (cur ++ [p]) =
      (mergedFlags env cur ||| (p.flags &&& env.IS_IFRAME)) % 256 := by
  obtain ⟨c, rest, rfl⟩ := List.exists_cons_of_ne_nil h
  simp only [mergedFlags, List.cons_append, List.foldl_append, List.foldl_cons, List.foldl_nil]

/-- An accepted packet of stream `k` extends the accumulation invariant of `k`. -/
theorem trackInv_step_same (env : Env) (k c : Int)
    (s : MatroskaMuxer) (A : List AVPacket) (p : AVPacket)
    (hk : p.stream_index = k) (hbytes : p.bytes ≠ []) (h : TrackInv env k c s A) :
    TrackInv env k c (s.muxPacketInternal env p) (A ++ [p]) := by
  obtain ⟨hnd, t, done, cur, hfind, hc, hlog, hnp, hp, hruns⟩ := h
  have hfind' : findTrack s.m_tracks p.stream_index = some t := by rw [hk]; exact hfind
  obtain ⟨htk, hts⟩ := findTrack_some _ _ _ hfind
  obtain ⟨m1, m2, -⟩ := muxPacketInternal_some env s p t hfind'
  obtain ⟨f1, -⟩ := muxPacketInternal_fields env s p
  refine ⟨by rw [f1]; exact hnd, ?_⟩
  by_cases hcur : cur = []
  · -- no pending frame: the packet starts a run
    obtain ⟨hn1, hn2⟩ := hnp hcur
    subst hcur
    have hno : ¬ (t.hasPendingFrame = true ∧ p.pts ≠ t.pendingPts) := by
      rw [hn1]; simp
    rw [if_neg hno] at m1
    rw [if_neg (fun hh => hno ⟨hh.1, hh.2.1⟩)] at m2
    refine ⟨accumulatePacket env t p, done, [p], ?_, ?_, ?_, ?_, ?_, ?_⟩
    · rw [m1]
      have := findTrack_setTrack_same s.m_tracks t (accumulatePacket env t p)
        (by rw [(accumulatePacket_static env t p).1, hts]; exact hfind)
      rw [(accumulatePacket_static env t p).1, hts] at this
      exact this
    · rw [(accumulatePacket_static env t p).2, hc]
    · rw [m2]; exact hlog
    · intro hh; exact absurd hh (by simp)
    · intro _
      rw [accumulatePacket_fresh env t p hn1]
      refine ⟨rfl, ?_, ?_, ?_, ?_⟩
      · intro q hq
        rw [List.mem_singleton] at hq
        rw [hq]
      · show t.pendingFrameData ++ p.bytes = runData [p]
        rw [hn2]
        simp [runData]
      · show t.pendingFrameData ++ p.bytes ≠ []
        simp [hbytes]
      · rfl
    · intro B
      have := hruns (p :: B)
      simpa using this
  · obtain ⟨hp1, hp2, hp3, hp4, hp5⟩ := hp hcur
    by_cases hpts : p.pts = t.pendingPts
    · -- same PTS: the packet joins the run in progress
      have hno : ¬ (t.hasPendingFrame = true ∧ p.pts ≠ t.pendingPts) := fun hh => hh.2 hpts
      rw [if_neg hno] at m1
      rw [if_neg (fun hh => hno ⟨hh.1, hh.2.1⟩)] at m2
      refine ⟨accumulatePacket env t p, done, cur ++ [p], ?_, ?_, ?_, ?_, ?_, ?_⟩
      · rw [m1]
        have := findTrack_setTrack_same s.m_tracks t (accumulatePacket env t p)
          (by rw [(accumulatePacket_static env t p).1, hts]; exact hfind)
        rw [(accumulatePacket_static env t p).1, hts] at this
        exact this
      · rw [(accumulatePacket_static env t p).2, hc]
      · rw [m2]; exact hlog
      · intro hh; exact absurd hh (by simp)
      · intro _
        rw [accumulatePacket_pending env t p hp1]
        refine ⟨hp1, ?_, ?_, ?_, ?_⟩
        · intro q hq
          rcases List.mem_append.mp hq with hq | hq
          · exact hp2 q hq
          · rw [List.mem_singleton] at hq
            rw [hq, hpts]
        · show t.pendingFrameData ++ p.bytes = runData (cur ++ [p])
          rw [runData_snoc, hp3]
        · show t.pendingFrameData ++ p.bytes ≠ []
          simp [hbytes]
        · show (t.pendingFlags ||| (p.flags &&& env.IS_IFRAME)) % 256 = _
          rw [mergedFlags_snoc env cur p hcur, hp5]
      · intro B
        have := hruns (p :: B)
        simpa using this
    · -- another PTS: the pending frame is flushed, the packet starts a run
      have hyes : t.hasPendingFrame = true ∧ p.pts ≠ t.pendingPts := ⟨hp1, hpts⟩
      rw [if_pos hyes] at m1
      rw [if_pos ⟨hp1, hpts, hp4⟩] at m2
      refine ⟨accumulatePacket env
        { t with pendingFrameData := [], hasPendingFrame := false } p,
        done ++ [cur], [p], ?_, ?_, ?_, ?_, ?_, ?_⟩
      · rw [m1]
        have := findTrack_setTrack_same s.m_tracks t (accumulatePacket env
          { t with pendingFrameData := [], hasPendingFrame := false } p)
          (by rw [(accumulatePacket_static env _ p).1]; show findTrack _ t.streamIndex = _
              rw [hts]; exact hfind)
        rw [(accumulatePacket_static env _ p).1] at this
        rw [← hts]
        exact this
      · rw [(accumulatePacket_static env _ p).2]; exact hc
      · rw [m2, blocksOf_append]
        have hsi : (pendingBlock env s t).streamIndex = k := hts
        rw [if_pos hsi, List.map_append, List.map_append, hlog]
        congr 1
        simp only [List.map_cons, List.map_nil, pendingBlock]
        rw [hp5, hc, hp3]
      · intro hh; exact absurd hh (by simp)
      · intro _
        rw [accumulatePacket_fresh env _ p rfl]
        refine ⟨rfl, ?_, ?_, ?_, ?_⟩
        · intro q hq
          rw [List.mem_singleton] at hq
          rw [hq]
        · show [] ++ p.bytes = runData [p]
          simp [runData]
        · show [] ++ p.bytes ≠ []
          simp [hbytes]
        · rfl
      · intro B
        have h1 := hruns (p :: B)
        rw [ptsRuns_append_ne cur t.pendingPts hcur hp2 p hpts B] at h1
        simpa using h1

/-- A packet of another stream leaves the accumulation invariant of `k` alone. -/
theorem trackInv_step_other (env : Env) (k c : Int) (s : MatroskaMuxer) (A : List AVPacket)
    (p : AVPacket) (hk : p.stream_index ≠ k) (h : TrackInv env k c s A) :
    TrackInv env k c (s.muxPacketInternal env p) A := by
  cases hf : findTrack s.m_tracks p.stream_index with
  | none => rw [muxPacketInternal_none env s p hf]; exact h
  | some tj =>
    obtain ⟨hnd, t, done, cur, hfind, hc, hlog, hnp, hp, hruns⟩ := h
    obtain ⟨-, htj⟩ := findTrack_some _ _ _ hf
    obtain ⟨m1, m2, -⟩ := muxPacketInternal_some env s p tj hf
    obtain ⟨f1, -⟩ := muxPacketInternal_fields env s p
    refine ⟨by rw [f1]; exact hnd, t, done, cur, ?_, hc, ?_, hnp, hp, hruns⟩
    · rw [m1, findTrack_setTrack_other _ _ _
        (by rw [(accumulatePacket_static env _ p).1]
            split_ifs
            · show tj.streamIndex ≠ k
              rw [htj]; exact hk
            · rw [htj]; exact hk)]
      exact hfind
    · rw [m2]
      split_ifs
      · rw [blocksOf_append, if_neg (by show tj.streamIndex ≠ k; rw [htj]; exact hk)]
        exact hlog
      · exact hlog

/-- Any packets with non-empty data through `muxPacketInternal`: the invariant of `k`
advances by those of stream `k`. -/
theorem trackInv_foldl (env : Env) (k c : Int)
    (ps : List AVPacket) (hps : ∀ p ∈ ps, p.bytes ≠ []) :
    ∀ (s : MatroskaMuxer) (A : List AVPacket), TrackInv env k c s A →
      TrackInv env k c (ps.foldl (fun acc p => acc.muxPacketInternal env p) s)
        (A ++ ps.filter (fun p => p.stream_index == k)) := by
  induction ps with
  | nil => intro s A h; simpa using h
  | cons p rest ih =>
    intro s A h
    rw [List.foldl_cons]
    by_cases hk : p.stream_index = k
    · have h1 := trackInv_step_same env k c s A p hk (hps p (List.mem_cons_self _ _)) h
      have h2 := ih (fun q hq => hps q (List.mem_cons_of_mem _ hq)) _ _ h1
      rw [List.filter_cons, if_pos (by simpa using hk)]
      simpa using h2
    · have h1 := trackInv_step_other env k c s A p hk h
      have h2 := ih (fun q hq => hps q (List.mem_cons_of_mem _ hq)) _ _ h1
      rw [List.filter_cons, if_neg (by simpa using hk)]
      exact h2

/-! ### The flush loop of `doFlush` and `close` -/

theorem flushTracks_blocks (env : Env) (k : Int) (ts : List MkvTrackInfo) :
    ∀ s : MatroskaMuxer,
      (blocksOf k (flushTracks env s ts).1.blockLog).map (fun b => (b.flags, b.frameData)) =
        (blocksOf k s.blockLog).map (fun b => (b.flags, b.frameData)) ++
        ((ts.filter (fun t => t.streamIndex == k)).filter
          (fun t => t.hasPendingFrame && !t.pendingFrameData.isEmpty)).map
          (fun t => (flagsByte env t.pendingFlags,
            convertFrameData env t.codecID t.pendingFrameData)) := by
  induction ts with
  | nil => intro s; simp [flushTracks]
  | cons t rest ih =>
    intro s
    obtain ⟨-, -, -, -, -, -, -, g8⟩ := flushPendingFrame_spec env s t
    rw [flushTracks]
    simp only
    rw [ih, g8]
    by_cases hp : t.hasPendingFrame = true ∧ t.pendingFrameData ≠ []
    · have hb : (t.hasPendingFrame && !t.pendingFrameData.isEmpty) = true := by
        simp [hp.1, List.isEmpty_iff, hp.2]
      rw [if_pos hp, blocksOf_append]
      by_cases hk : t.streamIndex = k
      · have hk' : (pendingBlock env s t).streamIndex = k := hk
        rw [if_pos hk', List.filter_cons, if_pos (by simpa using hk), List.filter_cons,
          if_pos hb]
        simp [pendingBlock]
      · have hk' : ¬ (pendingBlock env s t).streamIndex = k := hk
        rw [if_neg hk', List.filter_cons, if_neg (by simpa using hk)]
    · have hb : ¬ (t.hasPendingFrame && !t.pendingFrameData.isEmpty) = true := by
        intro hh
        apply hp
        simpa [List.isEmpty_iff] using hh
      rw [if_neg hp]
      by_cases hk : t.streamIndex = k
      · rw [List.filter_cons, if_pos (by simpa using hk), List.filter_cons, if_neg hb]
      · rw [List.filter_cons, if_neg (by simpa using hk)]

theorem filter_key_eq_singleton (ts : List MkvTrackInfo) (k : Int) (t : MkvTrackInfo)
    (hnd : (ts.map (fun t => t.streamIndex)).Nodup) (hfind : findTrack ts k = some t) :
    ts.filter (fun t => t.streamIndex == k) = [t] := by
  induction ts with
  | nil => simp [findTrack] at hfind
  | cons a rest ih =>
    rw [List.map_cons, List.nodup_cons] at hnd
    rw [findTrack_cons] at hfind
    by_cases ha : a.streamIndex = k
    · rw [if_pos ha] at hfind
      have hat : a = t := Option.some.inj hfind
      have hrest : rest.filter (fun t => t.streamIndex == k) = [] := by
        rw [List.filter_eq_nil_iff]
        intro x hx hxk
        apply hnd.1
        rw [ha]
        have : x.streamIndex = k := by simpa using hxk
        rw [← this]
        exact List.mem_map_of_mem _ hx
      rw [List.filter_cons, if_pos (by simpa using ha), hrest, hat]
    · rw [if_neg ha] at hfind
      rw [List.filter_cons, if_neg (by simpa using ha)]
      exact ih hnd.2 hfind

/-- After the flush loop the blocks of stream `k` are the frames of all the runs of the
accepted packets of `k`. -/
theorem flushAllPendingFrames_blocks (env : Env) (k c : Int) (s : MatroskaMuxer)
    (A : List AVPacket) (h : TrackInv env k c s A) :
    (blocksOf k (s.flushAllPendingFrames env).blockLog).map (fun b => (b.flags, b.frameData)) =
      (ptsRuns A).map (fun run => (flagsByte env (mergedFlags env run),
        convertFrameData env c (runData run))) := by
  obtain ⟨hnd, t, done, cur, hfind, hc, hlog, hnp, hp, hruns⟩ := h
  have hlogeq : (s.flushAllPendingFrames env).blockLog =
      (flushTracks env s s.m_tracks).1.blockLog := rfl
  rw [hlogeq, flushTracks_blocks, filter_key_eq_singleton _ _ _ hnd hfind, hlog]
  have hA := hruns []
  simp only [List.append_nil] at hA
  rw [← hA]
  by_cases hcur : cur = []
  · obtain ⟨hn1, hn2⟩ := hnp hcur
    subst hcur
    simp [hn1, ptsRuns]
  · obtain ⟨hp1, hp2, hp3, hp4, hp5⟩ := hp hcur
    have hb : (t.hasPendingFrame && !t.pendingFrameData.isEmpty) = true := by
      simp [hp1, List.isEmpty_iff, hp4]
    rw [ptsRuns_uniform cur t.pendingPts hcur hp2, List.filter_cons, if_pos hb]
    simp only [List.filter_nil, List.map_cons, List.map_nil, List.map_append]
    rw [hp5, hc, hp3]

/-! ### The deferred header -/

theorem writeSegmentInfo_fields (s : MatroskaMuxer) :
    s.writeSegmentInfo.m_tracks = s.m_tracks ∧
    s.writeSegmentInfo.blockLog = s.blockLog ∧
    s.writeSegmentInfo.m_headerWritten = s.m_headerWritten ∧
    s.writeSegmentInfo.m_firstTimecode = s.m_firstTimecode ∧
    s.writeSegmentInfo.m_firstTimecodeSet = s.m_firstTimecodeSet ∧
    s.writeSegmentInfo.m_preHeaderPackets = s.m_preHeaderPackets ∧
    s.writeSegmentInfo.m_seenStreams = s.m_seenStreams := by
  unfold MatroskaMuxer.writeSegmentInfo
  simp only [writeToFile_fields]
  exact ⟨trivial, trivial, trivial, trivial, trivial, trivial, trivial⟩

theorem writeTracks_fields (env : Env) (s : MatroskaMuxer) :
    (s.writeTracks env).m_tracks = s.m_tracks ∧
    (s.writeTracks env).blockLog = s.blockLog ∧
    (s.writeTracks env).m_headerWritten = s.m_headerWritten ∧
    (s.writeTracks env).m_firstTimecode = s.m_firstTimecode ∧
    (s.writeTracks env).m_firstTimecodeSet = s.m_firstTimecodeSet ∧
    (s.writeTracks env).m_preHeaderPackets = s.m_preHeaderPackets ∧
    (s.writeTracks env).m_seenStreams = s.m_seenStreams := by
  unfold MatroskaMuxer.writeTracks
  simp only [writeToFile_fields]
  exact ⟨trivial, trivial, trivial, trivial, trivial, trivial, trivial⟩

theorem writeDeferredHeader_fields (env : Env) (s : MatroskaMuxer) :
    (s.writeDeferredHeader env).m_tracks =
      (s.m_tracks.map (refreshTrack env)).map (buildCodecPrivate env) ∧
    (s.writeDeferredHeader env).blockLog = s.blockLog ∧
    (s.writeDeferredHeader env).m_headerWritten = true ∧
    (s.writeDeferredHeader env).m_firstTimecode = s.m_firstTimecode ∧
    (s.writeDeferredHeader env).m_firstTimecodeSet = s.m_firstTimecodeSet ∧
    (s.writeDeferredHeader env).m_preHeaderPackets = s.m_preHeaderPackets ∧
    (s.writeDeferredHeader env).m_seenStreams = s.m_seenStreams := by
  unfold MatroskaMuxer.writeDeferredHeader
  simp only [writeTracks_fields, writeSegmentInfo_fields]
  exact ⟨trivial, trivial, trivial, trivial, trivial, trivial, trivial⟩

theorem headerTrack_static (env : Env) (t : MkvTrackInfo) :
    (buildCodecPrivate env (refreshTrack env t)).streamIndex = t.streamIndex ∧
    (buildCodecPrivate env (refreshTrack env t)).codecID = t.codecID ∧
    (buildCodecPrivate env (refreshTrack env t)).hasPendingFrame = t.hasPendingFrame ∧
    (buildCodecPrivate env (refreshTrack env t)).pendingFrameData = t.pendingFrameData := by
  have h1 : (refreshTrack env t).streamIndex = t.streamIndex ∧
      (refreshTrack env t).codecID = t.codecID ∧
      (refreshTrack env t).hasPendingFrame = t.hasPendingFrame ∧
      (refreshTrack env t).pendingFrameData = t.pendingFrameData := by
    unfold refreshTrack
    simp only
    split_ifs
    · split <;> exact ⟨rfl, rfl, rfl, rfl⟩
    · split <;> split <;> exact ⟨rfl, rfl, rfl, rfl⟩
    · exact ⟨rfl, rfl, rfl, rfl⟩
  have h2 : ∀ u : MkvTrackInfo, (buildCodecPrivate env u).streamIndex = u.streamIndex ∧
      (buildCodecPrivate env u).codecID = u.codecID ∧
      (buildCodecPrivate env u).hasPendingFrame = u.hasPendingFrame ∧
      (buildCodecPrivate env u).pendingFrameData = u.pendingFrameData := by
    intro u
    unfold buildCodecPrivate
    split_ifs <;> exact ⟨rfl, rfl, rfl, rfl⟩
  obtain ⟨a1, a2, a3, a4⟩ := h1
  obtain ⟨b1, b2, b3, b4⟩ := h2 (refreshTrack env t)
  exact ⟨b1.trans a1, b2.trans a2, b3.trans a3, b4.trans a4⟩

theorem findTrack_map (f : MkvTrackInfo → MkvTrackInfo)
    (hf : ∀ t, (f t).streamIndex = t.streamIndex) (tracks : List MkvTrackInfo) (k : Int) :
    findTrack (tracks.map f) k = (findTrack tracks k).map f := by
  induction tracks with
  | nil => rfl
  | cons a rest ih =>
    rw [List.map_cons, findTrack_cons, findTrack_cons, hf a, ih]
    split_ifs <;> rfl

theorem header_tracks (env : Env) (s : MatroskaMuxer) :
    (s.writeDeferredHeader env).m_tracks =
      s.m_tracks.map (fun t => buildCodecPrivate env (refreshTrack env t)) := by
  rw [(writeDeferredHeader_fields env s).1, List.map_map]
  rfl

/-! ### Replay of the buffered packets -/

theorem foldl_min_spec (l : List BufferedPacket) :
    ∀ init : Int,
      l.foldl (fun m pkt => min m pkt.pts) init ≤ init ∧
      (∀ pkt ∈ l, l.foldl (fun m pkt => min m pkt.pts) init ≤ pkt.pts) ∧
      (l.foldl (fun m pkt => min m pkt.pts) init = init ∨
        ∃ pkt ∈ l, pkt.pts = l.foldl (fun m pkt => min m pkt.pts) init) := by
  induction l with
  | nil => intro init; simp
  | cons a rest ih =>
    intro init
    obtain ⟨h1, h2, h3⟩ := ih (min init a.pts)
    rw [List.foldl_cons]
    refine ⟨le_trans h1 (min_le_left _ _), ?_, ?_⟩
    · intro pkt hpkt
      rcases List.mem_cons.mp hpkt with rfl | hmem
      · exact le_trans h1 (min_le_right _ _)
      · exact h2 pkt hmem
    · rcases h3 with h3 | ⟨pkt, hpkt, heq⟩
      · rw [h3]
        rcases min_choice init a.pts with hm | hm
        · exact Or.inl hm
        · exact Or.inr ⟨a, List.mem_cons_self _ _, hm.symm⟩
      · exact Or.inr ⟨pkt, List.mem_cons_of_mem _ hpkt, heq⟩

theorem foldl_muxPacketInternal_fields (env : Env) (ps : List AVPacket) :
    ∀ s : MatroskaMuxer,
      (ps.foldl (fun acc p => acc.muxPacketInternal env p) s).m_tracks.map
          (fun t => t.streamIndex) = s.m_tracks.map (fun t => t.streamIndex) ∧
      (ps.foldl (fun acc p => acc.muxPacketInternal env p) s).m_headerWritten =
        s.m_headerWritten ∧
      (ps.foldl (fun acc p => acc.muxPacketInternal env p) s).m_firstTimecode =
        s.m_firstTimecode ∧
      (ps.foldl (fun acc p => acc.muxPacketInternal env p) s).m_firstTimecodeSet =
        s.m_firstTimecodeSet ∧
      (ps.foldl (fun acc p => acc.muxPacketInternal env p) s).m_preHeaderPackets =
        s.m_preHeaderPackets ∧
      (ps.foldl (fun acc p => acc.muxPacketInternal env p) s).m_seenStreams =
        s.m_seenStreams := by
  induction ps with
  | nil => intro s; exact ⟨rfl, rfl, rfl, rfl, rfl, rfl⟩
  | cons p rest ih =>
    intro s
    rw [List.foldl_cons]
    obtain ⟨a1, a2, a3, a4, a5, a6⟩ := ih (s.muxPacketInternal env p)
    obtain ⟨b1, b2, b3, b4, b5, b6⟩ := muxPacketInternal_fields env s p
    exact ⟨a1.trans b1, a2.trans b2, a3.trans b3, a4.trans b4, a5.trans b5, a6.trans b6⟩

theorem replayBufferedPackets_nil (env : Env) (s : MatroskaMuxer)
    (h : s.m_preHeaderPackets = []) : s.replayBufferedPackets env = s := by
  unfold MatroskaMuxer.replayBufferedPackets
  rw [h]

theorem replayBufferedPackets_eq (env : Env) (s : MatroskaMuxer)
    (h : s.m_preHeaderPackets ≠ []) :
    s.replayBufferedPackets env =
      { (s.m_preHeaderPackets.foldl (fun (acc : MatroskaMuxer) (pkt : BufferedPacket) => acc.muxPacketInternal env pkt.toPacket)
          { s with
            m_firstTimecode := s.m_preHeaderPackets.foldl (fun (m : Int) (pkt : BufferedPacket) => min m pkt.pts)
              (s.m_preHeaderPackets.head h).pts,
            m_firstTimecodeSet := true }) with
        m_preHeaderPackets := [] } := by
  unfold MatroskaMuxer.replayBufferedPackets
  match hp : s.m_preHeaderPackets, h with
  | first :: rest, _ => rfl

theorem replayBufferedPackets_core (env : Env) (s : MatroskaMuxer)
    (h : s.m_preHeaderPackets ≠ []) :
    (s.replayBufferedPackets env).m_firstTimecodeSet = true ∧
    (∃ pkt ∈ s.m_preHeaderPackets, pkt.pts = (s.replayBufferedPackets env).m_firstTimecode) ∧
    (∀ pkt ∈ s.m_preHeaderPackets, (s.replayBufferedPackets env).m_firstTimecode ≤ pkt.pts) ∧
    s.replayBufferedPackets env =
      { (s.m_preHeaderPackets.foldl (fun (acc : MatroskaMuxer) (pkt : BufferedPacket) => acc.muxPacketInternal env pkt.toPacket)
          { s with m_firstTimecode := (s.replayBufferedPackets env).m_firstTimecode,
                   m_firstTimecodeSet := true }) with
        m_preHeaderPackets := [] } ∧
    (s.replayBufferedPackets env).m_preHeaderPackets = [] := by
  have heq := replayBufferedPackets_eq env s h
  have hfold := foldl_muxPacketInternal_fields env
    (s.m_preHeaderPackets.map BufferedPacket.toPacket)
    { s with
      m_firstTimecode := s.m_preHeaderPackets.foldl (fun (m : Int) (pkt : BufferedPacket) => min m pkt.pts)
        (s.m_preHeaderPackets.head h).pts,
      m_firstTimecodeSet := true }
  rw [List.foldl_map] at hfold
  obtain ⟨-, -, f3, f4, -, -⟩ := hfold
  have htc : (s.replayBufferedPackets env).m_firstTimecode =
      s.m_preHeaderPackets.foldl (fun (m : Int) (pkt : BufferedPacket) => min m pkt.pts)
        (s.m_preHeaderPackets.head h).pts :=
    (congrArg MatroskaMuxer.m_firstTimecode heq).trans f3
  have hset : (s.replayBufferedPackets env).m_firstTimecodeSet = true :=
    (congrArg MatroskaMuxer.m_firstTimecodeSet heq).trans f4
  have hpre : (s.replayBufferedPackets env).m_preHeaderPackets = [] :=
    congrArg MatroskaMuxer.m_preHeaderPackets heq
  obtain ⟨m1, m2, m3⟩ := foldl_min_spec s.m_preHeaderPackets (s.m_preHeaderPackets.head h).pts
  refine ⟨hset, ?_, ?_, ?_, hpre⟩
  · rw [htc]
    rcases m3 with m3 | m3
    · exact ⟨s.m_preHeaderPackets.head h, List.head_mem h, m3.symm⟩
    · exact m3
  · rw [htc]; exact m2
  · rw [htc]; exact heq

theorem replayBufferedPackets_fields (env : Env) (s : MatroskaMuxer) :
    (s.replayBufferedPackets env).m_tracks.map (fun t => t.streamIndex) =
      s.m_tracks.map (fun t => t.streamIndex) ∧
    (s.replayBufferedPackets env).m_headerWritten = s.m_headerWritten ∧
    (s.replayBufferedPackets env).m_seenStreams = s.m_seenStreams := by
  by_cases h : s.m_preHeaderPackets = []
  · rw [replayBufferedPackets_nil env s h]
    exact ⟨rfl, rfl, rfl⟩
  · have heq := replayBufferedPackets_eq env s h
    have hfold := foldl_muxPacketInternal_fields env
      (s.m_preHeaderPackets.map BufferedPacket.toPacket)
      { s with
        m_firstTimecode := s.m_preHeaderPackets.foldl
          (fun (m : Int) (pkt : BufferedPacket) => min m pkt.pts)
          (s.m_preHeaderPackets.head h).pts,
        m_firstTimecodeSet := true }
    rw [List.foldl_map] at hfold
    obtain ⟨f1, f2, -, -, -, f6⟩ := hfold
    exact ⟨(congrArg (fun x => x.m_tracks.map (fun t => t.streamIndex)) heq).trans f1,
      (congrArg MatroskaMuxer.m_headerWritten heq).trans f2,
      (congrArg MatroskaMuxer.m_seenStreams heq).trans f6⟩

/-! ### One packet through `muxPacket` -/

theorem accepted_iff (tracks : List MkvTrackInfo) (p : AVPacket) :
    p.accepted tracks = true ↔
      (∃ d, p.data = some d ∧ d ≠ []) ∧ ∃ t, findTrack tracks p.stream_index = some t := by
  unfold AVPacket.accepted AVPacket.bytes
  cases hd : p.data with
  | none => simp
  | some d =>
    cases hf : findTrack tracks p.stream_index with
    | none => simp
    | some t => simp [List.isEmpty_iff]

theorem muxPacket_not_accepted (env : Env) (s : MatroskaMuxer) (p : AVPacket)
    (h : p.accepted s.m_tracks = false) : s.muxPacket env p = s := by
  unfold MatroskaMuxer.muxPacket
  cases hd : p.data with
  | none => rfl
  | some d =>
    simp only
    by_cases hlen : d.length = 0
    · rw [if_pos hlen]
    · rw [if_neg hlen]
      cases hf : findTrack s.m_tracks p.stream_index with
      | none => rfl
      | some t =>
        exfalso
        have : p.accepted s.m_tracks = true := by
          rw [accepted_iff]
          exact ⟨⟨d, hd, fun h0 => hlen (by rw [h0]; rfl)⟩, t, hf⟩
        rw [h] at this
        exact Bool.false_ne_true this

theorem muxPacket_buffer (env : Env) (s : MatroskaMuxer) (p : AVPacket)
    (hacc : p.accepted s.m_tracks = true) (hw : s.m_headerWritten = false) :
    s.muxPacket env p =
      (if (s.bufferPacket p).m_seenStreams.length ≥ s.m_tracks.length then
        ((s.bufferPacket p).writeDeferredHeader env).replayBufferedPackets env
      else s.bufferPacket p) := by
  obtain ⟨⟨d, hd, hne⟩, t, hf⟩ := (accepted_iff _ _).mp hacc
  unfold MatroskaMuxer.muxPacket
  rw [hd]
  simp only
  rw [if_neg (by intro h0; exact hne (List.length_eq_zero.mp h0)), hf]
  simp only [hw, Bool.not_false, if_true]
  rfl

theorem muxPacket_written (env : Env) (s : MatroskaMuxer) (p : AVPacket)
    (hacc : p.accepted s.m_tracks = true) (hw : s.m_headerWritten = true)
    (hset : s.m_firstTimecodeSet = true) :
    s.muxPacket env p = s.muxPacketInternal env p := by
  obtain ⟨⟨d, hd, hne⟩, t, hf⟩ := (accepted_iff _ _).mp hacc
  unfold MatroskaMuxer.muxPacket
  rw [hd]
  simp only
  rw [if_neg (by intro h0; exact hne (List.length_eq_zero.mp h0)), hf]
  simp only [hw, hset, Bool.not_true, if_false]
  rfl

/-! ### The streams seen before the header -/

theorem seenOf_snoc (l : List AVPacket) (p : AVPacket) :
    seenOf (l ++ [p]) = insertSeen (seenOf l) p.stream_index := by
  unfold seenOf
  rw [List.foldl_append]
  rfl

theorem mem_insertSeen (seen : List Int) (x y : Int) :
    y ∈ insertSeen seen x ↔ y ∈ seen ∨ y = x := by
  unfold insertSeen
  split_ifs with h
  · constructor
    · exact Or.inl
    · rintro (h1 | rfl)
      · exact h1
      · exact h
  · simp

theorem insertSeen_nodup (seen : List Int) (x : Int) (h : seen.Nodup) :
    (insertSeen seen x).Nodup := by
  unfold insertSeen
  split_ifs with hx
  · exact h
  · rw [List.nodup_append]
    refine ⟨h, List.nodup_singleton x, ?_⟩
    intro a ha hb
    rw [List.mem_singleton] at hb
    exact hx (hb ▸ ha)

theorem seenOf_spec (l : List AVPacket) :
    (seenOf l).Nodup ∧ ∀ x, x ∈ seenOf l ↔ ∃ p ∈ l, p.stream_index = x := by
  induction l using List.reverseRecOn with
  | nil => simp [seenOf]
  | append_singleton l p ih =>
    rw [seenOf_snoc]
    refine ⟨insertSeen_nodup _ _ ih.1, ?_⟩
    intro x
    rw [mem_insertSeen, ih.2]
    constructor
    · rintro (⟨q, hq, hq2⟩ | rfl)
      · exact ⟨q, List.mem_append_left _ hq, hq2⟩
      · exact ⟨p, by simp, rfl⟩
    · rintro ⟨q, hq, hq2⟩
      rcases List.mem_append.mp hq with hq | hq
      · exact Or.inl ⟨q, hq, hq2⟩
      · rw [List.mem_singleton] at hq
        exact Or.inr (by rw [← hq2, hq])

theorem findTrack_isSome_iff (tracks : List MkvTrackInfo) (k : Int) :
    (∃ t, findTrack tracks k = some t) ↔ k ∈ tracks.map (fun t => t.streamIndex) := by
  induction tracks with
  | nil => simp [findTrack]
  | cons a rest ih =>
    rw [findTrack_cons, List.map_cons, List.mem_cons]
    by_cases ha : a.streamIndex = k
    · rw [if_pos ha]
      exact ⟨fun _ => Or.inl ha.symm, fun _ => ⟨a, rfl⟩⟩
    · rw [if_neg ha, ih]
      exact ⟨Or.inr, fun h => h.resolve_left (fun hh => ha hh.symm)⟩

theorem accepted_congr (tracks tracks' : List MkvTrackInfo) (p : AVPacket)
    (h : tracks'.map (fun t => t.streamIndex) = tracks.map (fun t => t.streamIndex)) :
    p.accepted tracks' = p.accepted tracks := by
  have h1 := accepted_iff tracks p
  have h2 := accepted_iff tracks' p
  rw [findTrack_isSome_iff] at h1 h2
  rw [h] at h2
  have : p.accepted tracks' = true ↔ p.accepted tracks = true := h2.trans h1.symm
  cases ha : p.accepted tracks' <;> cases hb : p.accepted tracks <;> simp_all

/-- The seen streams cover the track map exactly when every track was seen. -/
theorem seen_length_iff (tracks : List MkvTrackInfo)
    (hnd : (tracks.map (fun t => t.streamIndex)).Nodup) (acc : List AVPacket)
    (hacc : ∀ p ∈ acc, p.accepted tracks = true) :
    (seenOf acc).length ≥ tracks.length ↔
      ∀ t ∈ tracks, ∃ p ∈ acc, p.stream_index = t.streamIndex := by
  obtain ⟨hsn, hmem⟩ := seenOf_spec acc
  have hsub : seenOf acc ⊆ tracks.map (fun t => t.streamIndex) := by
    intro x hx
    obtain ⟨p, hp, rfl⟩ := (hmem x).mp hx
    obtain ⟨-, ht⟩ := (accepted_iff _ _).mp (hacc p hp)
    exact (findTrack_isSome_iff _ _).mp ht
  have hlen : (tracks.map (fun t => t.streamIndex)).length = tracks.length := List.length_map _ _
  constructor
  · intro hge t ht
    have hperm := (List.Nodup.subperm hsn hsub).perm_of_length_le (by rw [hlen]; exact hge)
    have : t.streamIndex ∈ seenOf acc :=
      hperm.symm.subset (List.mem_map_of_mem _ ht)
    exact (hmem _).mp this
  · intro hall
    have hsub' : tracks.map (fun t => t.streamIndex) ⊆ seenOf acc := by
      intro x hx
      obtain ⟨t, ht, rfl⟩ := List.mem_map.mp hx
      exact (hmem _).mpr (hall t ht)
    have := (List.Nodup.subperm hnd hsub').length_le
    rw [hlen] at this
    exact this

/-! ### The session before and after the header commit -/

theorem insertSeen_length_le (seen : List Int) (x : Int) :
    seen.length ≤ (insertSeen seen x).length := by
  unfold insertSeen
  split_ifs
  · exact le_refl _
  · simp

theorem awaiting_phase (env : Env) (s : MatroskaMuxer) (h : AwaitingTrackData s)
    (ps : List AVPacket) :
    (ps.foldl (fun acc p => acc.muxPacket env p) s).m_tracks.map (fun t => t.streamIndex) =
      s.m_tracks.map (fun t => t.streamIndex) ∧
    ((ps.foldl (fun acc p => acc.muxPacket env p) s).m_headerWritten = false →
      ps.foldl (fun acc p => acc.muxPacket env p) s =
        { s with
          m_seenStreams := seenOf (ps.filter (fun p => p.accepted s.m_tracks)),
          m_preHeaderPackets :=
            (ps.filter (fun p => p.accepted s.m_tracks)).map AVPacket.toBuffered } ∧
      (seenOf (ps.filter (fun p => p.accepted s.m_tracks))).length < s.m_tracks.length) ∧
    ((ps.foldl (fun acc p => acc.muxPacket env p) s).m_headerWritten = true →
      (ps.foldl (fun acc p => acc.muxPacket env p) s).m_firstTimecodeSet = true ∧
      (seenOf (ps.filter (fun p => p.accepted s.m_tracks))).length ≥ s.m_tracks.length) := by
  obtain ⟨a1, a2, a3, a4, a5, a6, a7⟩ := h
  induction ps using List.reverseRecOn with
  | nil =>
    refine ⟨rfl, fun _ => ⟨?_, ?_⟩, fun hw => ?_⟩
    · simp only [List.foldl_nil, List.filter_nil, List.map_nil, seenOf]
      rw [← a2, ← a3]
    · simp only [List.filter_nil, seenOf, List.foldl_nil, List.length_nil]
      exact List.length_pos.mpr a5
    · simp only [List.foldl_nil] at hw
      rw [a1] at hw
      exact absurd hw (by decide)
  | append_singleton l p ih =>
    obtain ⟨ih1, ih2, ih3⟩ := ih
    rw [List.foldl_append, List.foldl_cons, List.foldl_nil, List.filter_append]
    have hcongr := accepted_congr s.m_tracks _ p ih1
    by_cases hacc : p.accepted s.m_tracks = true
    · have hfil : List.filter (fun p => p.accepted s.m_tracks) [p] = [p] := by
        rw [List.filter_cons, if_pos hacc, List.filter_nil]
      rw [hfil, seenOf_snoc, List.map_append]
      cases hw : (l.foldl (fun acc p => acc.muxPacket env p) s).m_headerWritten with
      | false =>
        obtain ⟨heq, hlt⟩ := ih2 hw
        rw [muxPacket_buffer env _ p (by rw [hcongr]; exact hacc) hw]
        have hbuf : (l.foldl (fun acc p => acc.muxPacket env p) s).bufferPacket p =
            { s with
              m_seenStreams := insertSeen
                (seenOf (l.filter (fun p => p.accepted s.m_tracks))) p.stream_index,
              m_preHeaderPackets :=
                (l.filter (fun p => p.accepted s.m_tracks)).map AVPacket.toBuffered ++
                  [p.toBuffered] } := by
          rw [heq]
          rfl
        have htr : (l.foldl (fun acc p => acc.muxPacket env p) s).m_tracks = s.m_tracks := by
          rw [heq]
        rw [hbuf, htr]
        by_cases hge : (insertSeen (seenOf (l.filter (fun p => p.accepted s.m_tracks)))
            p.stream_index).length ≥ s.m_tracks.length
        · rw [if_pos hge]
          obtain ⟨r1, r2, -⟩ := replayBufferedPackets_fields env
            (MatroskaMuxer.writeDeferredHeader env
              { s with
                m_seenStreams := insertSeen
                  (seenOf (l.filter (fun p => p.accepted s.m_tracks))) p.stream_index,
                m_preHeaderPackets :=
                  (l.filter (fun p => p.accepted s.m_tracks)).map AVPacket.toBuffered ++
                    [p.toBuffered] })
          obtain ⟨w1, -, w3, -, -, w6, -⟩ := writeDeferredHeader_fields env
              { s with
                m_seenStreams := insertSeen
                  (seenOf (l.filter (fun p => p.accepted s.m_tracks))) p.stream_index,
                m_preHeaderPackets :=
                  (l.filter (fun p => p.accepted s.m_tracks)).map AVPacket.toBuffered ++
                    [p.toBuffered] }
          refine ⟨?_, fun hfalse => ?_, fun _ => ⟨?_, hge⟩⟩
          · rw [r1, header_tracks, List.map_map]
            apply List.map_congr_left
            intro t _
            exact (headerTrack_static env t).1
          · rw [r2, w3] at hfalse
            exact absurd hfalse (by decide)
          · exact (replayBufferedPackets_core env _ (by rw [w6]; simp)).1
        · rw [if_neg hge]
          exact ⟨rfl, fun _ => ⟨rfl, not_le.mp hge⟩, fun hh => absurd hh (by rw [a1]; decide)⟩
      | true =>
        obtain ⟨hset, hge⟩ := ih3 hw
        rw [muxPacket_written env _ p (by rw [hcongr]; exact hacc) hw hset]
        obtain ⟨m1, m2, -, m4, -, -⟩ := muxPacketInternal_fields env
          (l.foldl (fun acc p => acc.muxPacket env p) s) p
        refine ⟨m1.trans ih1, fun hfalse => ?_, fun _ => ⟨m4.trans hset, ?_⟩⟩
        · rw [m2, hw] at hfalse
          exact absurd hfalse (by decide)
        · exact le_trans hge (insertSeen_length_le _ _)
    · have hacc' : p.accepted s.m_tracks = false := by
        cases hv : p.accepted s.m_tracks
        · rfl
        · exact absurd hv hacc
      have hfil : List.filter (fun p => p.accepted s.m_tracks) [p] = [] := by
        rw [List.filter_cons, if_neg hacc, List.filter_nil]
      rw [hfil, List.append_nil, muxPacket_not_accepted env _ p (by rw [hcongr]; exact hacc')]
      exact ⟨ih1, ih2, ih3⟩

theorem allTracksSeen_iff (tracks : List MkvTrackInfo)
    (hnd : (tracks.map (fun t => t.streamIndex)).Nodup) (ps : List AVPacket) :
    AllTracksSeen tracks ps ↔
      (seenOf (ps.filter (fun p => p.accepted tracks))).length ≥ tracks.length := by
  rw [seen_length_iff tracks hnd _ (fun p hp => (List.mem_filter.mp hp).2)]
  unfold AllTracksSeen
  constructor
  · intro h t ht
    obtain ⟨p, hp, hacc, hidx⟩ := h t ht
    exact ⟨p, List.mem_filter.mpr ⟨hp, hacc⟩, hidx⟩
  · intro h t ht
    obtain ⟨p, hp, hidx⟩ := h t ht
    obtain ⟨hp1, hp2⟩ := List.mem_filter.mp hp
    exact ⟨p, hp1, hp2, hidx⟩

theorem headerWritten_iff (env : Env) (s : MatroskaMuxer) (h : AwaitingTrackData s)
    (ps : List AVPacket) :
    (ps.foldl (fun acc p => acc.muxPacket env p) s).m_headerWritten = true ↔
      AllTracksSeen s.m_tracks ps := by
  obtain ⟨-, h2, h3⟩ := awaiting_phase env s h ps
  rw [allTracksSeen_iff s.m_tracks h.2.2.2.2.2.1]
  constructor
  · intro hw
    exact (h3 hw).2
  · intro hge
    cases hw : (ps.foldl (fun acc p => acc.muxPacket env p) s).m_headerWritten with
    | true => rfl
    | false => exact absurd hge (not_le.mpr (h2 hw).2)

/-- C9: from the start of `AWAITING_TRACK_DATA`, after any packets the header is
written exactly when every registered track has had an accepted packet; until then
`muxPacket` has written nothing (file and cluster buffer are untouched, only the seen
set and the pre-header buffer changed) and the pre-header buffer holds the copies of
all accepted packets in arrival order; and the packet that completes the set of seen
tracks is the one on which `writeDeferredHeader` and the replay run. -/
theorem deferred_header_commit (env : Env) (s : MatroskaMuxer) (h : AwaitingTrackData s)
    (ps : List AVPacket) :
    ((ps.foldl (fun acc p => acc.muxPacket env p) s).m_headerWritten = true ↔
      AllTracksSeen s.m_tracks ps) ∧
    ((ps.foldl (fun acc p => acc.muxPacket env p) s).m_headerWritten = false →
      (ps.foldl (fun acc p => acc.muxPacket env p) s).m_file = s.m_file ∧
      (ps.foldl (fun acc p => acc.muxPacket env p) s).m_clusterBuf = s.m_clusterBuf ∧
      (ps.foldl (fun acc p => acc.muxPacket env p) s).m_preHeaderPackets =
        (ps.filter (fun p => p.accepted s.m_tracks)).map AVPacket.toBuffered ∧
      ps.foldl (fun acc p => acc.muxPacket env p) s =
        { s with
          m_seenStreams := seenOf (ps.filter (fun p => p.accepted s.m_tracks)),
          m_preHeaderPackets :=
            (ps.filter (fun p => p.accepted s.m_tracks)).map AVPacket.toBuffered }) ∧
    (∀ p : AVPacket,
      (ps.foldl (fun acc p => acc.muxPacket env p) s).m_headerWritten = false →
      AllTracksSeen s.m_tracks (ps ++ [p]) →
      (ps.foldl (fun acc p => acc.muxPacket env p) s).muxPacket env p =
        (((ps.foldl (fun acc p => acc.muxPacket env p) s).bufferPacket p).writeDeferredHeader
          env).replayBufferedPackets env) := by
  obtain ⟨h1, h2, h3⟩ := awaiting_phase env s h ps
  refine ⟨headerWritten_iff env s h ps, fun hw => ?_, fun p hw hall => ?_⟩
  · obtain ⟨heq, -⟩ := h2 hw
    refine ⟨?_, ?_, ?_, heq⟩
    · rw [heq]
    · rw [heq]
    · rw [heq]
  · obtain ⟨heq, hlt⟩ := h2 hw
    have hnd := h.2.2.2.2.2.1
    have hge := (allTracksSeen_iff s.m_tracks hnd (ps ++ [p])).mp hall
    have hacc : p.accepted s.m_tracks = true := by
      cases hv : p.accepted s.m_tracks
      · exfalso
        rw [List.filter_append, List.filter_cons, if_neg (by rw [hv]; decide), List.filter_nil,
          List.append_nil] at hge
        exact absurd hge (not_le.mpr hlt)
      · rfl
    rw [List.filter_append, List.filter_cons, if_pos hacc, List.filter_nil, seenOf_snoc] at hge
    have htr : (ps.foldl (fun acc p => acc.muxPacket env p) s).m_tracks = s.m_tracks := by
      rw [heq]
    rw [muxPacket_buffer env _ p (by rw [htr]; exact hacc) hw, if_pos]
    rw [htr]
    have hseen : ((ps.foldl (fun acc p => acc.muxPacket env p) s).bufferPacket p).m_seenStreams =
        insertSeen (seenOf (ps.filter (fun p => p.accepted s.m_tracks))) p.stream_index := by
      rw [heq]
      rfl
    rw [hseen]
    exact hge

/-! ### The frames of a whole session -/

theorem toPacket_toBuffered (p : AVPacket) (h : p.data.isSome = true) :
    p.toBuffered.toPacket = p := by
  obtain ⟨d, hd⟩ := Option.isSome_iff_exists.mp h
  cases p with
  | mk si pts fl data =>
    simp only at hd
    subst hd
    rfl

theorem trackInv_of_fresh (env : Env) (k : Int) (s : MatroskaMuxer) (t : MkvTrackInfo)
    (hnd : (s.m_tracks.map (fun t => t.streamIndex)).Nodup)
    (hfind : findTrack s.m_tracks k = some t) (hlog : s.blockLog = [])
    (hp : t.hasPendingFrame = false ∧ t.pendingFrameData = []) :
    TrackInv env k t.codecID s [] :=
  ⟨hnd, t, [], [], hfind, rfl, by rw [hlog]; rfl, fun _ => hp, fun h => absurd rfl h,
    fun _ => rfl⟩

/-- The header commit followed by the replay of the buffered packets `l`. -/
theorem commit_trackInv (env : Env) (k : Int) (s1 : MatroskaMuxer)
    (t : MkvTrackInfo) (l : List AVPacket)
    (hnd : (s1.m_tracks.map (fun t => t.streamIndex)).Nodup)
    (hfind : findTrack s1.m_tracks k = some t) (hlog : s1.blockLog = [])
    (hfresh : ∀ t ∈ s1.m_tracks, t.hasPendingFrame = false ∧ t.pendingFrameData = [])
    (hpre : s1.m_preHeaderPackets = l.map AVPacket.toBuffered)
    (hl : ∀ p ∈ l, p.data.isSome = true ∧ p.bytes ≠ []) :
    TrackInv env k t.codecID ((s1.writeDeferredHeader env).replayBufferedPackets env)
      (l.filter (fun p => p.stream_index == k)) := by
  obtain ⟨w1, w2, -, -, -, w6, -⟩ := writeDeferredHeader_fields env s1
  have htracks := header_tracks env s1
  obtain ⟨st1, st2, st3, st4⟩ := headerTrack_static env t
  have hkeys : (s1.writeDeferredHeader env).m_tracks.map (fun t => t.streamIndex) =
      s1.m_tracks.map (fun t => t.streamIndex) := by
    rw [htracks, List.map_map]
    apply List.map_congr_left
    intro u _
    exact (headerTrack_static env u).1
  have hfind' : findTrack (s1.writeDeferredHeader env).m_tracks k =
      some (buildCodecPrivate env (refreshTrack env t)) := by
    rw [htracks, findTrack_map _ (fun u => (headerTrack_static env u).1), hfind]
    rfl
  have htmem := hfresh t (findTrack_some _ _ _ hfind).1
  have h0 : TrackInv env k t.codecID (s1.writeDeferredHeader env) [] := by
    have := trackInv_of_fresh env k (s1.writeDeferredHeader env)
      (buildCodecPrivate env (refreshTrack env t)) (by rw [hkeys]; exact hnd) hfind'
      (by rw [w2]; exact hlog) ⟨by rw [st3]; exact htmem.1, by rw [st4]; exact htmem.2⟩
    rw [st2] at this
    exact this
  by_cases hnil : l = []
  · subst hnil
    rw [replayBufferedPackets_nil env _ (by rw [w6, hpre]; rfl)]
    exact h0
  · have hne : (s1.writeDeferredHeader env).m_preHeaderPackets ≠ [] := by
      rw [w6, hpre]
      simpa using hnil
    have heq := replayBufferedPackets_eq env _ hne
    have hfold := trackInv_foldl env k t.codecID l (fun p hp => (hl p hp).2)
      { s1.writeDeferredHeader env with
        m_firstTimecode := (s1.writeDeferredHeader env).m_preHeaderPackets.foldl
          (fun (m : Int) (pkt : BufferedPacket) => min m pkt.pts)
          ((s1.writeDeferredHeader env).m_preHeaderPackets.head hne).pts,
        m_firstTimecodeSet := true } [] h0
    have hmap : (s1.writeDeferredHeader env).m_preHeaderPackets.foldl
        (fun (acc : MatroskaMuxer) (pkt : BufferedPacket) =>
          acc.muxPacketInternal env pkt.toPacket)
        { s1.writeDeferredHeader env with
          m_firstTimecode := (s1.writeDeferredHeader env).m_preHeaderPackets.foldl
            (fun (m : Int) (pkt : BufferedPacket) => min m pkt.pts)
            ((s1.writeDeferredHeader env).m_preHeaderPackets.head hne).pts,
          m_firstTimecodeSet := true } =
        l.foldl (fun acc p => acc.muxPacketInternal env p)
        { s1.writeDeferredHeader env with
          m_firstTimecode := (s1.writeDeferredHeader env).m_preHeaderPackets.foldl
            (fun (m : Int) (pkt : BufferedPacket) => min m pkt.pts)
            ((s1.writeDeferredHeader env).m_preHeaderPackets.head hne).pts,
          m_firstTimecodeSet := true } := by
      have hpk : (s1.writeDeferredHeader env).m_preHeaderPackets.map BufferedPacket.toPacket = l := by
        rw [w6, hpre, List.map_map]
        conv_rhs => rw [← List.map_id l]
        apply List.map_congr_left
        intro p hp
        exact toPacket_toBuffered p (hl p hp).1
      conv_rhs => rw [← hpk]
      rw [List.foldl_map]
    rw [heq, hmap]
    simpa using hfold

theorem filter_accepted_for (tracks : List MkvTrackInfo) (k : Int) (t : MkvTrackInfo)
    (hfind : findTrack tracks k = some t) (ps : List AVPacket) :
    (ps.filter (fun p => p.accepted tracks)).filter (fun p => p.stream_index == k) =
      ps.filter (AVPacket.acceptedFor k) := by
  rw [List.filter_filter]
  apply List.filter_congr
  intro p _
  unfold AVPacket.accepted AVPacket.acceptedFor
  by_cases hk : p.stream_index = k
  · rw [hk, hfind]
    simp
  · have : (p.stream_index == k) = false := by simpa using hk
    rw [this]
    simp

theorem acceptedFor_iff (k : Int) (p : AVPacket) :
    p.acceptedFor k = true ↔ p.stream_index = k ∧ p.data.isSome = true ∧ p.bytes ≠ [] := by
  unfold AVPacket.acceptedFor
  simp [List.isEmpty_iff]

theorem accepted_data (tracks : List MkvTrackInfo) (p : AVPacket)
    (h : p.accepted tracks = true) : p.data.isSome = true ∧ p.bytes ≠ [] := by
  unfold AVPacket.accepted at h
  simp only [Bool.and_eq_true, Bool.not_eq_true', List.isEmpty_eq_false] at h
  exact ⟨h.1.1, by simpa [List.isEmpty_iff] using h.1.2⟩

/-- After the header commit every track satisfies the accumulation invariant for its
accepted packets so far. -/
theorem session_trackInv (env : Env) (s : MatroskaMuxer)
    (h : AwaitingTrackData s) (k : Int) (t : MkvTrackInfo)
    (hfind : findTrack s.m_tracks k = some t) (ps : List AVPacket) :
    (ps.foldl (fun acc p => acc.muxPacket env p) s).m_headerWritten = true →
      TrackInv env k t.codecID (ps.foldl (fun acc p => acc.muxPacket env p) s)
        (ps.filter (AVPacket.acceptedFor k)) := by
  induction ps using List.reverseRecOn with
  | nil =>
    intro hw
    simp only [List.foldl_nil] at hw
    rw [h.1] at hw
    exact absurd hw (by decide)
  | append_singleton l p ih =>
    obtain ⟨p1, p2, p3⟩ := awaiting_phase env s h l
    have hcongr := accepted_congr s.m_tracks _ p p1
    rw [List.foldl_append, List.foldl_cons, List.foldl_nil, List.filter_append]
    intro hw''
    cases hw : (l.foldl (fun acc p => acc.muxPacket env p) s).m_headerWritten with
    | true =>
      have hinv := ih hw
      obtain ⟨hset, -⟩ := p3 hw
      by_cases hacc : p.accepted s.m_tracks = true
      · rw [muxPacket_written env _ p (by rw [hcongr]; exact hacc) hw hset]
        obtain ⟨hd1, hd2⟩ := accepted_data _ _ hacc
        by_cases hk : p.stream_index = k
        · have hfor : p.acceptedFor k = true := (acceptedFor_iff k p).mpr ⟨hk, hd1, hd2⟩
          rw [List.filter_cons, if_pos hfor, List.filter_nil]
          exact trackInv_step_same env k t.codecID _ _ p hk hd2 hinv
        · have hfor : ¬ p.acceptedFor k = true := fun hh => hk ((acceptedFor_iff k p).mp hh).1
          rw [List.filter_cons, if_neg hfor, List.filter_nil, List.append_nil]
          exact trackInv_step_other env k t.codecID _ _ p hk hinv
      · have hacc' : p.accepted s.m_tracks = false := by
          cases hv : p.accepted s.m_tracks
          · rfl
          · exact absurd hv hacc
        have hfor : ¬ p.acceptedFor k = true := by
          intro hh
          obtain ⟨hk, hd1, hd2⟩ := (acceptedFor_iff k p).mp hh
          apply hacc
          rw [accepted_iff]
          obtain ⟨d, hd⟩ := Option.isSome_iff_exists.mp hd1
          refine ⟨⟨d, hd, ?_⟩, t, by rw [hk]; exact hfind⟩
          intro h0
          apply hd2
          unfold AVPacket.bytes
          rw [hd, h0]
          rfl
        rw [muxPacket_not_accepted env _ p (by rw [hcongr]; exact hacc'), List.filter_cons,
          if_neg hfor, List.filter_nil, List.append_nil]
        exact hinv
    | false =>
      obtain ⟨heq, hlt⟩ := p2 hw
      have hacc : p.accepted s.m_tracks = true := by
        cases hv : p.accepted s.m_tracks
        · exfalso
          rw [muxPacket_not_accepted env _ p (by rw [hcongr]; exact hv), hw] at hw''
          exact absurd hw'' (by decide)
        · rfl
      have htr : (l.foldl (fun acc p => acc.muxPacket env p) s).m_tracks = s.m_tracks := by
        rw [heq]
      rw [muxPacket_buffer env _ p (by rw [htr]; exact hacc) hw] at hw'' ⊢
      by_cases hge : ((l.foldl (fun acc p => acc.muxPacket env p) s).bufferPacket p).m_seenStreams.length
          ≥ (l.foldl (fun acc p => acc.muxPacket env p) s).m_tracks.length
      · rw [if_pos hge]
        have hfor : List.filter (AVPacket.acceptedFor k) l ++ List.filter (AVPacket.acceptedFor k) [p]
            = ((l ++ [p]).filter (fun p => p.accepted s.m_tracks)).filter
                (fun p => p.stream_index == k) := by
          rw [filter_accepted_for s.m_tracks k t hfind, List.filter_append]
        rw [hfor]
        apply commit_trackInv env k _ t
        · show ((l.foldl (fun acc p => acc.muxPacket env p) s).m_tracks.map _).Nodup
          rw [htr]; exact h.2.2.2.2.2.1
        · show findTrack (l.foldl (fun acc p => acc.muxPacket env p) s).m_tracks k = some t
          rw [htr]; exact hfind
        · show (l.foldl (fun acc p => acc.muxPacket env p) s).blockLog = []
          rw [heq]; exact h.2.2.2.1
        · show ∀ u ∈ (l.foldl (fun acc p => acc.muxPacket env p) s).m_tracks, _
          rw [htr]; exact h.2.2.2.2.2.2
        · show (l.foldl (fun acc p => acc.muxPacket env p) s).m_preHeaderPackets ++ [p.toBuffered] = _
          rw [heq, List.filter_append, List.filter_cons, if_pos hacc, List.filter_nil,
            List.map_append]
          rfl
        · intro q hq
          exact accepted_data _ _ (List.mem_filter.mp hq).2
      · rw [if_neg hge] at hw''
        have : ((l.foldl (fun acc p => acc.muxPacket env p) s).bufferPacket p).m_headerWritten =
            false := hw
        rw [this] at hw''
        exact absurd hw'' (by decide)

/-! ### `close` -/

theorem writeCues_blockLog (s : MatroskaMuxer) : s.writeCues.blockLog = s.blockLog := by
  unfold MatroskaMuxer.writeCues
  split_ifs
  · rfl
  · simp only [writeToFile_fields]

theorem writeSeekHead_blockLog (s : MatroskaMuxer) : s.writeSeekHead.blockLog = s.blockLog := by
  unfold MatroskaMuxer.writeSeekHead
  simp only [writeToFile_fields]

theorem patchSegmentSize_blockLog (s : MatroskaMuxer) :
    s.patchSegmentSize.blockLog = s.blockLog := rfl

theorem patchDuration_blockLog (env : Env) (s : MatroskaMuxer) :
    (s.patchDuration env).blockLog = s.blockLog := by
  unfold MatroskaMuxer.patchDuration
  split_ifs <;> rfl

theorem close_blockLog (env : Env) (s : MatroskaMuxer) :
    (s.close env).blockLog =
      ((if !s.m_headerWritten && !s.m_tracks.isEmpty then
          (s.writeDeferredHeader env).replayBufferedPackets env
        else s).flushAllPendingFrames env).blockLog := by
  unfold MatroskaMuxer.close
  rw [patchDuration_blockLog, patchSegmentSize_blockLog, writeSeekHead_blockLog,
    writeCues_blockLog, (flushCluster_fields _).2.1]

/-- The blocks of every stream after a whole session: one per run of its accepted
packets, with the merged flags and the converted concatenated payload. -/
theorem session_frames (env : Env) (s : MatroskaMuxer) (h : AwaitingTrackData s) (k : Int)
    (t : MkvTrackInfo) (hfind : findTrack s.m_tracks k = some t) (ps : List AVPacket) :
    (blocksOf k ((ps.foldl (fun acc p => acc.muxPacket env p) s).close env).blockLog).map
        (fun b => (b.flags, b.frameData)) =
      (ptsRuns (ps.filter (AVPacket.acceptedFor k))).map
        (fun run => (flagsByte env (mergedFlags env run),
          convertFrameData env t.codecID (runData run))) := by
  rw [close_blockLog]
  apply flushAllPendingFrames_blocks
  obtain ⟨p1, p2, p3⟩ := awaiting_phase env s h ps
  cases hw : (ps.foldl (fun acc p => acc.muxPacket env p) s).m_headerWritten with
  | true =>
    simp only [Bool.not_true, Bool.false_and, Bool.false_eq_true, if_false]
    exact session_trackInv env s h k t hfind ps hw
  | false =>
    obtain ⟨heq, -⟩ := p2 hw
    have htr : (ps.foldl (fun acc p => acc.muxPacket env p) s).m_tracks = s.m_tracks := by
      rw [heq]
    have hne : (ps.foldl (fun acc p => acc.muxPacket env p) s).m_tracks.isEmpty = false := by
      rw [htr]
      cases hx : s.m_tracks with
      | nil => exact absurd hx h.2.2.2.2.1
      | cons a rest => rfl
    simp only [hne, Bool.not_false, Bool.and_self, if_true]
    rw [← filter_accepted_for s.m_tracks k t hfind]
    apply commit_trackInv env k _ t
    · rw [htr]; exact h.2.2.2.2.2.1
    · rw [htr]; exact hfind
    · rw [heq]; exact h.2.2.2.1
    · rw [htr]; exact h.2.2.2.2.2.2
    · rw [heq]
    · intro q hq
      exact accepted_data _ _ (List.mem_filter.mp hq).2

theorem mergedFlags_keyframe (env : Env) (hI : env.IS_IFRAME < 256) (run : List AVPacket) :
    mergedFlags env run &&& env.IS_IFRAME ≠ 0 ↔
      ∃ p ∈ run, p.flags &&& env.IS_IFRAME ≠ 0 := by
  induction run using List.reverseRecOn with
  | nil => simp [mergedFlags]
  | append_singleton cur p ih =>
    by_cases hcur : cur = []
    · subst hcur
      simp only [List.nil_append, mergedFlags, List.foldl_nil, mod256_and _ _ hI]
      simp
    · rw [mergedFlags_snoc env cur p hcur, merged_flag _ _ _ hI, ih]
      constructor
      · rintro (⟨q, hq, hq2⟩ | h2)
        · exact ⟨q, List.mem_append_left _ hq, hq2⟩
        · exact ⟨p, by simp, h2⟩
      · rintro ⟨q, hq, hq2⟩
        rcases List.mem_append.mp hq with hq | hq
        · exact Or.inl ⟨q, hq, hq2⟩
        · rw [List.mem_singleton] at hq
          rw [hq] at hq2
          exact Or.inr hq2

theorem flagsByte_mergedFlags (env : Env) (hI : env.IS_IFRAME < 256) (run : List AVPacket) :
    flagsByte env (mergedFlags env run) = runFlags env run := by
  unfold flagsByte runFlags
  by_cases hk : mergedFlags env run &&& env.IS_IFRAME ≠ 0
  · rw [if_pos hk, if_pos]
    obtain ⟨q, hq, hq2⟩ := (mergedFlags_keyframe env hI run).mp hk
    exact List.any_eq_true.mpr ⟨q, hq, by simpa using hq2⟩
  · rw [if_neg hk, if_neg]
    intro hany
    obtain ⟨q, hq, hq2⟩ := List.any_eq_true.mp hany
    exact hk ((mergedFlags_keyframe env hI run).mpr ⟨q, hq, by simpa using hq2⟩)

/-- The runs of `ptsRuns` are the maximal runs of equal PTS: they concatenate back to
the sequence, none is empty, the packets of a run share one PTS, and a run and the
run after it differ in PTS. -/
theorem ptsRuns_maximal (ps : List AVPacket) :
    (ptsRuns ps).flatten = ps ∧
    (∀ run ∈ ptsRuns ps, run ≠ [] ∧ ∀ p ∈ run, ∀ q ∈ run, p.pts = q.pts) ∧
    List.Chain' (fun r1 r2 => ∀ p ∈ r1, ∀ q ∈ r2, p.pts ≠ q.pts) (ptsRuns ps) := by
  induction ps with
  | nil => exact ⟨rfl, fun run hrun => absurd hrun (List.not_mem_nil _), List.chain'_nil⟩
  | cons p ps ih =>
    obtain ⟨ih1, ih2, ih3⟩ := ih
    cases hr : ptsRuns ps with
    | nil =>
      rw [hr] at ih1
      have hps : ps = [] := ih1.symm
      subst hps
      refine ⟨rfl, ?_, ?_⟩
      · intro run hrun
        have : run = [p] := by simpa [ptsRuns] using hrun
        subst this
        refine ⟨by simp, ?_⟩
        intro a ha b hb
        rw [List.mem_singleton] at ha hb
        rw [ha, hb]
      · show List.Chain' _ [[p]]
        exact List.chain'_singleton _
    | cons r runs =>
      cases r with
      | nil => exact absurd rfl (ih2 [] (by rw [hr]; exact List.mem_cons_self _ _)).1
      | cons q run =>
        rw [hr] at ih1 ih2 ih3
        have hq := ih2 (q :: run) (List.mem_cons_self _ _)
        by_cases hpq : p.pts = q.pts
        · have hdef : ptsRuns (p :: ps) = (p :: q :: run) :: runs := by
            rw [ptsRuns, hr]
            simp only
            rw [if_pos hpq]
          rw [hdef]
          refine ⟨?_, ?_, ?_⟩
          · rw [← ih1]
            simp
          · intro x hx
            rcases List.mem_cons.mp hx with hx | hx
            · subst hx
              refine ⟨by simp, ?_⟩
              have hall : ∀ a ∈ p :: q :: run, a.pts = q.pts := by
                intro a ha
                rcases List.mem_cons.mp ha with ha | ha
                · rw [ha]; exact hpq
                · exact hq.2 a ha q (List.mem_cons_self _ _)
              intro a ha b hb
              rw [hall a ha, hall b hb]
            · exact ih2 x (List.mem_cons_of_mem _ hx)
          · cases runs with
            | nil => exact List.chain'_singleton _
            | cons r2 runs2 =>
              rw [List.chain'_cons] at ih3 ⊢
              refine ⟨?_, ih3.2⟩
              intro a ha b hb
              rcases List.mem_cons.mp ha with ha | ha
              · rw [ha, hpq]
                exact ih3.1 q (List.mem_cons_self _ _) b hb
              · exact ih3.1 a ha b hb
        · have hdef : ptsRuns (p :: ps) = [p] :: (q :: run) :: runs := by
            rw [ptsRuns, hr]
            simp only
            rw [if_neg hpq]
          rw [hdef]
          refine ⟨?_, ?_, ?_⟩
          · rw [← ih1]
            simp
          · intro x hx
            rcases List.mem_cons.mp hx with hx | hx
            · subst hx
              refine ⟨by simp, ?_⟩
              intro a ha b hb
              rw [List.mem_singleton] at ha hb
              rw [ha, hb]
            · exact ih2 x hx
          · rw [List.chain'_cons]
            refine ⟨?_, ih3⟩
            intro a ha b hb
            rw [List.mem_singleton] at ha
            rw [ha, hq.2 b hb q (List.mem_cons_self _ _)]
            exact hpq

/-- C7: for every stream `k` of a muxer at the start of its session and every packet
sequence followed by `close`, the SimpleBlocks emitted for `k` are, one for one and in
order, the maximal runs of consecutive equal-PTS packets among the non-empty packets of
`k`, and the payload of each block is the format conversion (for the codecs that have
one) of the concatenation of the payloads of its run in arrival order. In particular,
non-empty packets of `k` that all share one PTS yield exactly one SimpleBlock. -/
theorem simpleBlocks_are_pts_runs (env : Env) (s : MatroskaMuxer) (h : AwaitingTrackData s)
    (k : Int) (t : MkvTrackInfo) (hfind : findTrack s.m_tracks k = some t)
    (ps : List AVPacket) :
    (blocksOf k ((ps.foldl (fun acc p => acc.muxPacket env p) s).close env).blockLog).map
        (fun b => b.frameData) =
      (ptsRuns (ps.filter (AVPacket.acceptedFor k))).map
        (fun run => convertFrameData env t.codecID (runData run)) ∧
    (ps ≠ [] → (∀ p ∈ ps, p.acceptedFor k = true) → (∀ p ∈ ps, ∀ q ∈ ps, p.pts = q.pts) →
      (blocksOf k ((ps.foldl (fun acc p => acc.muxPacket env p) s).close env).blockLog).map
          (fun b => b.frameData) =
        [convertFrameData env t.codecID (runData ps)]) := by
  have hmain := congrArg (List.map Prod.snd) (session_frames env s h k t hfind ps)
  rw [List.map_map, List.map_map] at hmain
  have hmain2 : (blocksOf k ((ps.foldl (fun acc p => acc.muxPacket env p) s).close
      env).blockLog).map (fun b => b.frameData) =
      (ptsRuns (ps.filter (AVPacket.acceptedFor k))).map
        (fun run => convertFrameData env t.codecID (runData run)) := hmain
  refine ⟨hmain2, fun hne hacc hpts => ?_⟩
  rw [hmain2, List.filter_eq_self.mpr hacc]
  obtain ⟨p0, rest, rfl⟩ := List.exists_cons_of_ne_nil hne
  rw [ptsRuns_uniform (p0 :: rest) p0.pts hne
    (fun q hq => hpts q hq p0 (List.mem_cons_self _ _))]
  rfl

/-- C8: for every stream `k` of a muxer at the start of its session and every packet
sequence followed by `close`, the flags byte of each SimpleBlock emitted for `k` is
`0x80` when at least one packet of the run merged into that frame carries `IS_IFRAME`
and `0x00` otherwise (`IS_IFRAME` being a mask within the `uint8_t` that holds the
pending flags). -/
theorem simpleBlock_keyframe_flag (env : Env) (hI : env.IS_IFRAME < 256) (s : MatroskaMuxer)
    (h : AwaitingTrackData s) (k : Int) (t : MkvTrackInfo)
    (hfind : findTrack s.m_tracks k = some t) (ps : List AVPacket) :
    (blocksOf k ((ps.foldl (fun acc p => acc.muxPacket env p) s).close env).blockLog).map
        (fun b => b.flags) =
      (ptsRuns (ps.filter (AVPacket.acceptedFor k))).map
        (fun run => if run.any (fun p => decide (p.flags &&& env.IS_IFRAME ≠ 0))
          then 0x80 else 0x00) := by
  have hmain := congrArg (List.map Prod.fst) (session_frames env s h k t hfind ps)
  rw [List.map_map, List.map_map] at hmain
  have hfun : (Prod.fst ∘ fun (run : List AVPacket) => (flagsByte env (mergedFlags env run),
      convertFrameData env t.codecID (runData run))) =
      (fun run => if run.any (fun p => decide (p.flags &&& env.IS_IFRAME ≠ 0))
          then 0x80 else 0x00) := by
    funext run
    exact flagsByte_mergedFlags env hI run
  rw [hfun] at hmain
  exact hmain

/-- C10: on a state whose pre-header buffer is not empty, `replayBufferedPackets` sets
`m_firstTimecode` to the minimum PTS of the buffered packets (the PTS of one of them,
at most the PTS of each) and marks it set, then passes every buffered packet once, in
arrival order, to `muxPacketInternal`, and leaves the buffer empty. -/
theorem replayBufferedPackets_spec (env : Env) (s : MatroskaMuxer)
    (h : s.m_preHeaderPackets ≠ []) :
    (s.replayBufferedPackets env).m_firstTimecodeSet = true ∧
    (∃ pkt ∈ s.m_preHeaderPackets, pkt.pts = (s.replayBufferedPackets env).m_firstTimecode) ∧
    (∀ pkt ∈ s.m_preHeaderPackets, (s.replayBufferedPackets env).m_firstTimecode ≤ pkt.pts) ∧
    s.replayBufferedPackets env =
      { (s.m_preHeaderPackets.foldl
          (fun (acc : MatroskaMuxer) (pkt : BufferedPacket) =>
            acc.muxPacketInternal env pkt.toPacket)
          { s with m_firstTimecode := (s.replayBufferedPackets env).m_firstTimecode,
                   m_firstTimecodeSet := true }) with
        m_preHeaderPackets := [] } ∧
    (s.replayBufferedPackets env).m_preHeaderPackets = [] :=
  replayBufferedPackets_core env s h

/-! ### The sample session -/

theorem sampleMuxer_awaiting : AwaitingTrackData sampleMuxer := by
  unfold AwaitingTrackData
  decide

theorem sampleMuxer_video : findTrack sampleMuxer.m_tracks 0 = some sampleVideoTrack := by
  decide

theorem sampleMuxer_not_all_seen : ¬ AllTracksSeen sampleMuxer.m_tracks sampleVideoPackets := by
  unfold AllTracksSeen
  decide

theorem sampleMuxer_all_seen :
    AllTracksSeen sampleMuxer.m_tracks (sampleVideoPackets ++ [sampleAudioPacket]) := by
  unfold AllTracksSeen
  decide

set_option maxRecDepth 100000 in
theorem sampleCommitState_buffer : sampleCommitState.m_preHeaderPackets ≠ [] := by
  decide

theorem simpleBlocks_are_pts_runs_witness :
    AwaitingTrackData sampleMuxer ∧
    findTrack sampleMuxer.m_tracks 0 = some sampleVideoTrack ∧
    (blocksOf 0 (((sampleVideoPackets ++ [sampleAudioPacket]).foldl
        (fun acc p => acc.muxPacket sampleEnv p) sampleMuxer).close sampleEnv).blockLog).map
      (fun b => b.frameData) = [[0, 0, 0, 5, 0x65, 0x88, 0x84, 0x21, 0xA0]] :=
  ⟨sampleMuxer_awaiting, sampleMuxer_video,
    (simpleBlocks_are_pts_runs sampleEnv sampleMuxer sampleMuxer_awaiting 0 sampleVideoTrack
      sampleMuxer_video (sampleVideoPackets ++ [sampleAudioPacket])).1.trans (by decide)⟩

theorem simpleBlock_keyframe_flag_witness :
    sampleEnv.IS_IFRAME < 256 ∧
    AwaitingTrackData sampleMuxer ∧
    findTrack sampleMuxer.m_tracks 0 = some sampleVideoTrack ∧
    (blocksOf 0 (((sampleVideoPackets ++ [sampleAudioPacket]).foldl
        (fun acc p => acc.muxPacket sampleEnv p) sampleMuxer).close sampleEnv).blockLog).map
      (fun b => b.flags) = [0x80] :=
  ⟨by decide, sampleMuxer_awaiting, sampleMuxer_video,
    (simpleBlock_keyframe_flag sampleEnv (by decide) sampleMuxer sampleMuxer_awaiting 0
      sampleVideoTrack sampleMuxer_video (sampleVideoPackets ++ [sampleAudioPacket])).trans
      (by decide)⟩

theorem deferred_header_commit_witness :
    AwaitingTrackData sampleMuxer ∧
    (sampleVideoPackets.foldl (fun acc p => acc.muxPacket sampleEnv p)
      sampleMuxer).m_headerWritten = false ∧
    (sampleVideoPackets.foldl (fun acc p => acc.muxPacket sampleEnv p)
      sampleMuxer).m_file = sampleMuxer.m_file ∧
    (sampleVideoPackets.foldl (fun acc p => acc.muxPacket sampleEnv p)
      sampleMuxer).m_preHeaderPackets = sampleVideoPackets.map AVPacket.toBuffered ∧
    (sampleVideoPackets.foldl (fun acc p => acc.muxPacket sampleEnv p)
      sampleMuxer).muxPacket sampleEnv sampleAudioPacket =
        sampleCommitState.replayBufferedPackets sampleEnv ∧
    ((sampleVideoPackets ++ [sampleAudioPacket]).foldl (fun acc p => acc.muxPacket sampleEnv p)
      sampleMuxer).m_headerWritten = true :=
  have h3 := deferred_header_commit sampleEnv sampleMuxer sampleMuxer_awaiting sampleVideoPackets
  have hw : (sampleVideoPackets.foldl (fun acc p => acc.muxPacket sampleEnv p)
      sampleMuxer).m_headerWritten = false :=
    Bool.eq_false_iff.mpr (fun hw => sampleMuxer_not_all_seen (h3.1.mp hw))
  ⟨sampleMuxer_awaiting, hw, (h3.2.1 hw).1, (h3.2.1 hw).2.2.1.trans (by decide),
    h3.2.2 sampleAudioPacket hw sampleMuxer_all_seen,
    (deferred_header_commit sampleEnv sampleMuxer sampleMuxer_awaiting
      (sampleVideoPackets ++ [sampleAudioPacket])).1.mpr sampleMuxer_all_seen⟩

theorem replayBufferedPackets_spec_witness :
    sampleCommitState.m_preHeaderPackets ≠ [] ∧
    ((sampleCommitState.replayBufferedPackets sampleEnv).m_firstTimecodeSet = true ∧
     (∃ pkt ∈ sampleCommitState.m_preHeaderPackets,
        pkt.pts = (sampleCommitState.replayBufferedPackets sampleEnv).m_firstTimecode) ∧
     (∀ pkt ∈ sampleCommitState.m_preHeaderPackets,
        (sampleCommitState.replayBufferedPackets sampleEnv).m_firstTimecode ≤ pkt.pts) ∧
     sampleCommitState.replayBufferedPackets sampleEnv =
       { (sampleCommitState.m_preHeaderPackets.foldl
           (fun (acc : MatroskaMuxer) (pkt : BufferedPacket) =>
             acc.muxPacketInternal sampleEnv pkt.toPacket)
           { sampleCommitState with
             m_firstTimecode :=
               (sampleCommitState.replayBufferedPackets sampleEnv).m_firstTimecode,
             m_firstTimecodeSet := true }) with
         m_preHeaderPackets := [] } ∧
     (sampleCommitState.replayBufferedPackets sampleEnv).m_preHeaderPackets = []) :=
  ⟨sampleCommitState_buffer,
    replayBufferedPackets_spec sampleEnv sampleCommitState sampleCommitState_buffer⟩

/-! ### The cluster operations as state equations -/

theorem ebml_write_id_cluster : ebml_write_id MATROSKA_ID_CLUSTER = [0x1F, 0x43, 0xB6, 0x75] := by
  decide

theorem writeToFile_pos (s : MatroskaMuxer) (data : List Nat) (h : data.length > 0) :
    s.writeToFile data = { s with m_file := s.m_file.write data } := by
  unfold MatroskaMuxer.writeToFile
  rw [if_pos h]

theorem flushCluster_closed (s : MatroskaMuxer) (h : s.m_clusterOpen = false) :
    s.flushCluster = s := by
  unfold MatroskaMuxer.flushCluster
  rw [if_pos (by rw [h]; rfl)]

theorem flushCluster_open (s : MatroskaMuxer) (h : s.m_clusterOpen = true)
    (hbuf : s.m_clusterBuf ≠ []) :
    s.flushCluster =
      { s with
        m_file := (s.m_file.write s.clusterRecord.header).write s.m_clusterBuf,
        m_clusterBuf := [], m_clusterOpen := false, m_clusterDataSize := 0,
        clusterBlocks := [], clusterLog := s.clusterLog ++ [s.clusterRecord] } := by
  have hc : ¬ ((!s.m_clusterOpen || s.m_clusterBuf.isEmpty) = true) := by
    rw [h]
    cases hb : s.m_clusterBuf with
    | nil => exact absurd hb hbuf
    | cons a l => simp
  have hlen : s.m_clusterBuf.length > 0 := List.length_pos.mpr hbuf
  have hh : (ebml_write_id MATROSKA_ID_CLUSTER ++ ebml_write_size s.m_clusterBuf.length).length
      > 0 := by
    rw [ebml_write_id_cluster]
    simp
  unfold MatroskaMuxer.flushCluster
  rw [if_neg hc]
  simp only
  rw [writeToFile_pos _ _ hh, writeToFile_pos _ _ hlen]
  rfl

theorem startCluster_closed (s : MatroskaMuxer) (h : s.m_clusterOpen = false) (ts : Int) :
    s.startCluster ts =
      { s with
        m_clusterTimecodeMs := ts, m_clusterOpen := true,
        m_clusterStartFilePos := (s.m_file.pos : Int) - s.m_segmentStartPos,
        m_clusterBuf := ebml_write_uint MATROSKA_ID_CLUSTERTIMECODE (toUInt64 ts),
        m_clusterDataSize := (ebml_write_uint MATROSKA_ID_CLUSTERTIMECODE (toUInt64 ts)).length,
        clusterBlocks := [] } := by
  unfold MatroskaMuxer.startCluster
  rw [if_neg (by rw [h]; decide)]

theorem startCluster_open (s : MatroskaMuxer) (h : s.m_clusterOpen = true)
    (hbuf : s.m_clusterBuf ≠ []) (ts : Int) :
    s.startCluster ts =
      { s with
        m_file := (s.m_file.write s.clusterRecord.header).write s.m_clusterBuf,
        clusterLog := s.clusterLog ++ [s.clusterRecord],
        m_clusterTimecodeMs := ts, m_clusterOpen := true,
        m_clusterStartFilePos :=
          (((s.m_file.write s.clusterRecord.header).write s.m_clusterBuf).pos : Int) -
            s.m_segmentStartPos,
        m_clusterBuf := ebml_write_uint MATROSKA_ID_CLUSTERTIMECODE (toUInt64 ts),
        m_clusterDataSize := (ebml_write_uint MATROSKA_ID_CLUSTERTIMECODE (toUInt64 ts)).length,
        clusterBlocks := [] } := by
  unfold MatroskaMuxer.startCluster
  rw [if_pos h, flushCluster_open s h hbuf]

theorem needNewCluster_iff (env : Env) (s : MatroskaMuxer) (track : MkvTrackInfo)
    (relMs : Int) :
    (!s.m_clusterOpen || decide (relMs - s.m_clusterTimecodeMs ≥ CLUSTER_MAX_DURATION_MS) ||
      decide (s.m_clusterDataSize ≥ CLUSTER_MAX_SIZE) ||
      (track.trackType == 1 && decide (track.pendingFlags &&& env.IS_IFRAME ≠ 0) &&
        s.m_clusterOpen && decide (relMs - s.m_clusterTimecodeMs ≥ 1000))) = true ↔
      NewClusterCondition env s track relMs := by
  unfold NewClusterCondition CLUSTER_MAX_DURATION_MS CLUSTER_MAX_SIZE
  simp only [Bool.or_eq_true, Bool.and_eq_true, Bool.not_eq_true', decide_eq_true_eq,
    beq_iff_eq]
  cases s.m_clusterOpen
  · simp
  · simp only [Bool.true_eq_false, false_or, and_true]
    norm_num
    tauto

theorem scheduleFrame_eq (env : Env) (s : MatroskaMuxer) (track : MkvTrackInfo)
    (relMs : Int) (s2 : MatroskaMuxer)
    (h2 : s2 = if NewClusterCondition env s track relMs then
        ({ s with m_lastTimecodeMs := max s.m_lastTimecodeMs relMs } :
          MatroskaMuxer).startCluster relMs
      else { s with m_lastTimecodeMs := max s.m_lastTimecodeMs relMs }) :
    s.scheduleFrame env track relMs =
      { s2 with
        m_cueEntries := s2.m_cueEntries ++ cueOf env track relMs s2.m_clusterStartFilePos } := by
  have hs1 : (if relMs > s.m_lastTimecodeMs then { s with m_lastTimecodeMs := relMs } else s) =
      ({ s with m_lastTimecodeMs := max s.m_lastTimecodeMs relMs } : MatroskaMuxer) := by
    by_cases hgt : relMs > s.m_lastTimecodeMs
    · rw [if_pos hgt, max_eq_right (le_of_lt hgt)]
    · rw [if_neg hgt, max_eq_left (not_lt.mp hgt)]
  unfold MatroskaMuxer.scheduleFrame
  simp only
  rw [hs1]
  have hcond := needNewCluster_iff env
    ({ s with m_lastTimecodeMs := max s.m_lastTimecodeMs relMs } : MatroskaMuxer) track relMs
  have hsame : NewClusterCondition env
      ({ s with m_lastTimecodeMs := max s.m_lastTimecodeMs relMs } : MatroskaMuxer) track relMs ↔
      NewClusterCondition env s track relMs := Iff.rfl
  by_cases hc : NewClusterCondition env s track relMs
  · rw [if_pos (hcond.mpr (hsame.mpr hc))]
    rw [if_pos hc] at h2
    rw [← h2]
    unfold cueOf
    by_cases hk : track.trackType = 1 ∧ track.pendingFlags &&& env.IS_IFRAME ≠ 0
    · rw [if_pos hk, if_pos (by simpa using hk)]
    · rw [if_neg hk, if_neg (by simpa using hk), List.append_nil]
  · rw [if_neg (fun hh => hc (hsame.mp (hcond.mp hh)))]
    rw [if_neg hc] at h2
    rw [← h2]
    unfold cueOf
    by_cases hk : track.trackType = 1 ∧ track.pendingFlags &&& env.IS_IFRAME ≠ 0
    · rw [if_pos hk, if_pos (by simpa using hk)]
    · rw [if_neg hk, if_neg (by simpa using hk), List.append_nil]

theorem pendingBlock_bytes (env : Env) (s : MatroskaMuxer) (track : MkvTrackInfo) :
    (pendingBlock env s track).bytes =
      ebml_write_id MATROSKA_ID_SIMPLEBLOCK ++
      ebml_write_size ((ebml_write_size track.trackNumber).length + 2 + 1 +
        (convertFrameData env track.codecID track.pendingFrameData).length) ++
      ebml_write_size track.trackNumber ++
      [((pendingBlock env s track).relTimeMs >>> 8) &&& 0xFF,
        (pendingBlock env s track).relTimeMs &&& 0xFF] ++
      [flagsByte env track.pendingFlags] ++
      convertFrameData env track.codecID track.pendingFrameData := by
  have hid : ebml_write_id MATROSKA_ID_SIMPLEBLOCK = [0xA3] := by decide
  rw [hid]
  unfold SimpleBlock.bytes
  simp only [pendingBlock, writeBE, Nat.zero_mul, Nat.shiftRight_zero, Nat.one_mul]

theorem flushPendingFrame_pending (env : Env) (s : MatroskaMuxer) (track : MkvTrackInfo)
    (hp : track.hasPendingFrame = true) (hd : track.pendingFrameData ≠ [])
    (s3 : MatroskaMuxer) (h3 : s3 = s.scheduleFrame env track (s.frameRelMs track)) :
    (s.flushPendingFrame env track).1 =
      { s3 with
        m_clusterBuf := s3.m_clusterBuf ++ (pendingBlock env s track).bytes,
        m_clusterDataSize :=
          s3.m_clusterDataSize + (((pendingBlock env s track).bytes.length : Nat) : Int),
        blockLog := s3.blockLog ++ [pendingBlock env s track],
        clusterBlocks := s3.clusterBlocks ++ [pendingBlock env s track] } := by
  have hc : ¬ ((!track.hasPendingFrame || track.pendingFrameData.isEmpty) = true) := by
    rw [hp]
    cases hb : track.pendingFrameData with
    | nil => exact absurd hb hd
    | cons a l => simp
  have hlen : (pendingBlock env s track).bytes.length =
      (ebml_write_id MATROSKA_ID_SIMPLEBLOCK ++
        ebml_write_size ((ebml_write_size track.trackNumber).length + 2 + 1 +
          (convertFrameData env track.codecID track.pendingFrameData).length)).length +
      ((ebml_write_size track.trackNumber).length + 2 + 1 +
          (convertFrameData env track.codecID track.pendingFrameData).length) := by
    rw [pendingBlock_bytes]
    simp only [List.length_append, List.length_cons, List.length_nil]
    omega
  rw [hlen, pendingBlock_bytes, h3]
  unfold MatroskaMuxer.flushPendingFrame
  rw [if_neg hc]
  simp only [List.append_assoc]
  rfl

theorem flushCluster_noteTimecode (s : MatroskaMuxer) (x : Int) :
    (({ s with m_lastTimecodeMs := x } : MatroskaMuxer).flushCluster).m_file =
      s.flushCluster.m_file ∧
    (({ s with m_lastTimecodeMs := x } : MatroskaMuxer).flushCluster).clusterLog =
      s.flushCluster.clusterLog := by
  by_cases ho : s.m_clusterOpen = true
  · by_cases hb : s.m_clusterBuf = []
    · have h1 : s.flushCluster = s := by
        unfold MatroskaMuxer.flushCluster
        rw [if_pos (by rw [hb]; simp)]
      have h2 : ({ s with m_lastTimecodeMs := x } : MatroskaMuxer).flushCluster =
          { s with m_lastTimecodeMs := x } := by
        unfold MatroskaMuxer.flushCluster
        rw [if_pos (by simp [hb])]
      rw [h1, h2]
      exact ⟨rfl, rfl⟩
    · rw [flushCluster_open s ho hb,
        flushCluster_open ({ s with m_lastTimecodeMs := x } : MatroskaMuxer) ho hb]
      exact ⟨rfl, rfl⟩
  · have ho2 : s.m_clusterOpen = false := by simpa using ho
    rw [flushCluster_closed s ho2,
      flushCluster_closed ({ s with m_lastTimecodeMs := x } : MatroskaMuxer) ho2]
    exact ⟨rfl, rfl⟩

/-- C11: when a pending frame of `track` with relative time `rel_ms` is flushed, a new
cluster is started if and only if no cluster is open, or `rel_ms - cluster_ms >= 5000`,
or the accumulated size of the open cluster is at least `5 * 1024 * 1024`, or the frame
is a video keyframe and `rel_ms - cluster_ms >= 1000`. In that case the open cluster
(if any) is flushed to the file, the new cluster takes `rel_ms` as its timecode and the
frame is its first block; otherwise nothing is written and the frame is appended to
the open cluster. -/
theorem new_cluster_iff (env : Env) (s : MatroskaMuxer) (track : MkvTrackInfo)
    (hp : track.hasPendingFrame = true) (hd : track.pendingFrameData ≠ []) :
    (NewClusterCondition env s track (s.frameRelMs track) →
      (s.flushPendingFrame env track).1.m_clusterOpen = true ∧
      (s.flushPendingFrame env track).1.m_clusterTimecodeMs = s.frameRelMs track ∧
      (s.flushPendingFrame env track).1.clusterBlocks = [pendingBlock env s track] ∧
      (s.flushPendingFrame env track).1.m_clusterBuf =
        ebml_write_uint MATROSKA_ID_CLUSTERTIMECODE (toUInt64 (s.frameRelMs track)) ++
          (pendingBlock env s track).bytes ∧
      (s.flushPendingFrame env track).1.m_file =
        (if s.m_clusterOpen then s.flushCluster else s).m_file ∧
      (s.flushPendingFrame env track).1.clusterLog =
        (if s.m_clusterOpen then s.flushCluster else s).clusterLog) ∧
    (¬ NewClusterCondition env s track (s.frameRelMs track) →
      (s.flushPendingFrame env track).1.m_clusterOpen = true ∧
      (s.flushPendingFrame env track).1.m_clusterTimecodeMs = s.m_clusterTimecodeMs ∧
      (s.flushPendingFrame env track).1.clusterBlocks =
        s.clusterBlocks ++ [pendingBlock env s track] ∧
      (s.flushPendingFrame env track).1.m_clusterBuf =
        s.m_clusterBuf ++ (pendingBlock env s track).bytes ∧
      (s.flushPendingFrame env track).1.m_file = s.m_file ∧
      (s.flushPendingFrame env track).1.clusterLog = s.clusterLog) := by
  constructor
  · intro hc
    rw [flushPendingFrame_pending env s track hp hd _ rfl,
      scheduleFrame_eq env s track (s.frameRelMs track) _ rfl, if_pos hc]
    unfold MatroskaMuxer.startCluster
    refine ⟨rfl, rfl, rfl, rfl, ?_, ?_⟩
    · show (if s.m_clusterOpen = true then
          ({ s with m_lastTimecodeMs := max s.m_lastTimecodeMs (s.frameRelMs track) } :
            MatroskaMuxer).flushCluster
        else { s with m_lastTimecodeMs := max s.m_lastTimecodeMs (s.frameRelMs track) }).m_file
        = _
      split_ifs
      · exact (flushCluster_noteTimecode s _).1
      · rfl
    · show (if s.m_clusterOpen = true then
          ({ s with m_lastTimecodeMs := max s.m_lastTimecodeMs (s.frameRelMs track) } :
            MatroskaMuxer).flushCluster
        else { s with m_lastTimecodeMs := max s.m_lastTimecodeMs (s.frameRelMs track) }
          ).clusterLog = _
      split_ifs
      · exact (flushCluster_noteTimecode s _).2
      · rfl
  · intro hc
    have hopen : s.m_clusterOpen = true := by
      cases ho : s.m_clusterOpen with
      | true => rfl
      | false => exact absurd (Or.inl ho) hc
    rw [flushPendingFrame_pending env s track hp hd _ rfl,
      scheduleFrame_eq env s track (s.frameRelMs track) _ rfl, if_neg hc]
    exact ⟨hopen, rfl, rfl, rfl, rfl, rfl⟩

/-! ### The sample clip -/

set_option maxRecDepth 1000000 in
theorem clipState_pending :
    clipTrack.hasPendingFrame = true ∧ clipTrack.pendingFrameData ≠ [] ∧
    NewClusterCondition clipEnv clipState clipTrack (clipState.frameRelMs clipTrack) ∧
    clipState.frameRelMs clipTrack = 2000 ∧ clipState.m_clusterTimecodeMs = 0 ∧
    clipState.m_clusterOpen = true ∧ clipState.clusterBlocks.length = 60 := by
  decide

theorem new_cluster_iff_witness :
    clipTrack.hasPendingFrame = true ∧ clipTrack.pendingFrameData ≠ [] ∧
    NewClusterCondition clipEnv clipState clipTrack (clipState.frameRelMs clipTrack) ∧
    (clipState.flushPendingFrame clipEnv clipTrack).1.m_clusterTimecodeMs = 2000 ∧
    (clipState.flushPendingFrame clipEnv clipTrack).1.clusterBlocks =
      [pendingBlock clipEnv clipState clipTrack] :=
  ⟨clipState_pending.1, clipState_pending.2.1, clipState_pending.2.2.1,
    ((new_cluster_iff clipEnv clipState clipTrack clipState_pending.1
      clipState_pending.2.1).1 clipState_pending.2.2.1).2.1.trans clipState_pending.2.2.2.1,
    ((new_cluster_iff clipEnv clipState clipTrack clipState_pending.1
      clipState_pending.2.1).1 clipState_pending.2.2.1).2.2.1⟩

set_option maxRecDepth 100000 in
theorem lateAudio_blocks :
    (lateAudioPackets.foldl (fun acc p => acc.muxPacket sampleEnv p) sampleMuxer).blockLog.map
        (fun b => (b.streamIndex, b.relMs - b.clusterTimecodeMs, b.relTimeMs)) =
      [(0, 0, 0), (0, 0, 0), (1, -40000, 25536)] ∧
    ((lateAudioPackets.foldl (fun acc p => acc.muxPacket sampleEnv p)
        sampleMuxer).m_clusterBuf.drop 16) =
      [0xA3, 0x87, 0x82, 0x63, 0xC0, 0x00, 0x0B, 0x77, 0x01] := by
  decide

/-- C12 (failing input): in the session `lateAudioPackets` the audio frame with
`rel_ms = 0` is appended to the cluster whose timecode is 40000, so for that block
`rel_ms - cluster_ms = -40000` lies outside `[-32768, 32767]`; no new cluster is
started and the 16-bit value written is `0x63C0 = 25536`. -/
theorem relative_time_wraps :
    (lateAudioPackets.foldl (fun acc p => acc.muxPacket sampleEnv p) sampleMuxer).blockLog.map
        (fun b => (b.streamIndex, b.relMs - b.clusterTimecodeMs, b.relTimeMs)) =
      [(0, 0, 0), (0, 0, 0), (1, -40000, 25536)] ∧
    ((lateAudioPackets.foldl (fun acc p => acc.muxPacket sampleEnv p)
        sampleMuxer).m_clusterBuf.drop 16) =
      [0xA3, 0x87, 0x82, 0x63, 0xC0, 0x00, 0x0B, 0x77, 0x01] :=
  lateAudio_blocks

/-! ### The form of the OBUs written by `convertAV1ToLowOverhead` -/

theorem removeEmulationPrevention_length_le (src : List Nat) :
    ∀ zeros, (removeEmulationPrevention zeros src).length ≤ src.length := by
  induction src with
  | nil => intro zeros; simp [removeEmulationPrevention]
  | cons b rest ih =>
    intro zeros
    rw [removeEmulationPrevention]
    by_cases hc : 2 ≤ zeros ∧ b = 3
    · rw [if_pos hc]
      exact le_trans (ih 0) (Nat.le_succ _)
    · rw [if_neg hc]
      simp only [List.length_cons]
      exact Nat.succ_le_succ (ih _)

theorem obuRawPayload_eq (n : Nat) (pw : List Nat) (h : pw.length ≤ n) :
    obuRawPayload n pw = removeEmulationPrevention 0 pw := by
  unfold obuRawPayload
  split_ifs with hpos
  · unfold av1_remove_emulation_prevention NALUnit_decodeNAL
    simp only
    rw [if_pos (le_trans (removeEmulationPrevention_length_le pw 0) h)]
  · have : pw = [] := List.length_eq_zero.mp (by omega)
    subst this
    rfl

theorem convertPass1_obuOf (data : List Nat) :
    ∀ (fuel curObu : Nat) (obus : List ConvertedObu),
      (∀ o ∈ obus, ∃ payload, LowOverheadObuOf data o payload) →
      ∀ o ∈ convertPass1 data fuel curObu obus, ∃ payload, LowOverheadObuOf data o payload := by
  intro fuel
  induction fuel with
  | zero => intro curObu obus h; simpa [convertPass1] using h
  | succ f ih =>
    intro curObu obus h
    rw [convertPass1]
    split_ifs with hcur
    · split
      · exact h
      · rename_i obuHdr hdrLen hparse
        have hraw := obuRawPayload_eq data.length _
          (obuPayloadWithEP_length_le data curObu hdrLen (findNALWithStartCode data curObu true))
        have hnew : ∀ o ∈ (if obuHdr.obu_type ≠ TEMPORAL_DELIMITER then
              obus ++ [lowOverheadObu data curObu obuHdr (obuRawPayload data.length
                (obuPayloadWithEP data curObu hdrLen (findNALWithStartCode data curObu true)))]
              else obus),
            ∃ payload, LowOverheadObuOf data o payload := by
          split_ifs with htd
          · intro o ho
            rcases List.mem_append.mp ho with ho | ho
            · exact h o ho
            · rw [List.mem_singleton] at ho
              subst ho
              refine ⟨_, curObu, obuHdr, hdrLen, hcur, hparse, htd, rfl, rfl, ?_⟩
              rw [← hraw]
              rfl
          · exact h
        simp only
        split_ifs with hnext htd htd
        · exact ih _ _ (by simpa [htd] using hnew)
        · exact ih _ _ h
        · simpa [htd] using hnew
        · exact h
    · exact h

theorem lowOverheadObuOf_form (data : List Nat) (hbytes : ∀ b ∈ data, b < 256)
    (hlen : data.length < 2 ^ 31) (o : ConvertedObu) (payload : List Nat)
    (h : LowOverheadObuOf data o payload) :
    ∃ (b0 : Nat) (ext : List Nat),
      b0 < 256 ∧ b0 &&& 0x80 = 0 ∧ b0 &&& 0x01 = 0 ∧ o.type = (b0 >>> 3) &&& 0x0f ∧
      ext.length = (if (b0 >>> 2) &&& 1 ≠ 0 then 1 else 0) ∧ payload.length < 2 ^ 56 ∧
      o.bytes = [b0 ||| 0x02] ++ ext ++ encodeLeb128 payload.length ++ payload := by
  obtain ⟨curObu, hdr, hdrLen, hcur, hparse, -, hty, hpay, hb⟩ := h
  obtain ⟨b0, rest, hdrop, h80, h01, hty2, hflag⟩ := parse_some_inv _ _ _ hparse
  have hget : data.getD curObu 0 = b0 := by
    rw [List.getD_eq_getElem?_getD, ← List.head?_drop, hdrop]
    rfl
  have hb0 : b0 < 256 := by
    apply hbytes
    have : b0 ∈ data.drop curObu := by rw [hdrop]; exact List.mem_cons_self _ _
    exact List.mem_of_mem_drop this
  refine ⟨b0, (if hdr.obu_extension_flag then [data.getD (curObu + 1) 0] else []),
    hb0, h80, h01, hty.trans hty2, ?_, ?_, ?_⟩
  · rw [hflag]
    by_cases hx : (b0 >>> 2) &&& 1 ≠ 0
    · rw [if_pos hx, decide_eq_true hx]
      rfl
    · rw [if_neg hx, decide_eq_false hx]
      rfl
  · have h1 := removeEmulationPrevention_length_le
      (obuPayloadWithEP data curObu hdrLen (findNALWithStartCode data curObu true)) 0
    have h2 := obuPayloadWithEP_length_le data curObu hdrLen
      (findNALWithStartCode data curObu true)
    rw [← hpay] at h1
    calc payload.length ≤ data.length := le_trans h1 h2
      _ < 2 ^ 31 := hlen
      _ < 2 ^ 56 := by norm_num
  · rw [hb, hget]

theorem readLowOverheadObus_pairs (data : List Nat) (hbytes : ∀ b ∈ data, b < 256)
    (hlen : data.length < 2 ^ 31) (kept : List (ConvertedObu × List Nat))
    (h : ∀ k ∈ kept, LowOverheadObuOf data k.1 k.2) :
    ∀ fuel, kept.length < fuel →
      readLowOverheadObus fuel ((kept.map (fun k => k.1.bytes)).flatten) =
        some (kept.map (fun k => (k.1.type, k.2))) := by
  induction kept with
  | nil =>
    intro fuel hf
    obtain ⟨f, rfl⟩ : ∃ f, fuel = f + 1 := ⟨fuel - 1, by simp at hf; omega⟩
    simp [readLowOverheadObus]
  | cons k rest ih =>
    intro fuel hf
    obtain ⟨f, rfl⟩ : ∃ f, fuel = f + 1 := ⟨fuel - 1, by simp at hf; omega⟩
    have hr := ih (fun x hx => h x (List.mem_cons_of_mem _ hx)) f (by simp at hf; omega)
    obtain ⟨b0, ext, hb0, h80, h01, hty, hext, hpl, hb⟩ :=
      lowOverheadObuOf_form data hbytes hlen k.1 k.2 (h k (List.mem_cons_self _ _))
    simp only [List.map_cons, List.flatten_cons]
    rw [hb, readLowOverheadObus_bytes b0 ext k.2 hb0 h80 h01 hext hpl f, hr, hty]
    rfl

theorem exists_pairs {α β : Type} (P : α → β → Prop) (l : List α)
    (h : ∀ a ∈ l, ∃ b, P a b) :
    ∃ l2 : List (α × β), l2.map Prod.fst = l ∧ ∀ k ∈ l2, P k.1 k.2 := by
  induction l with
  | nil => exact ⟨[], rfl, fun k hk => absurd hk (List.not_mem_nil _)⟩
  | cons a rest ih =>
    obtain ⟨l2, h1, h2⟩ := ih (fun x hx => h x (List.mem_cons_of_mem _ hx))
    obtain ⟨b, hb⟩ := h a (List.mem_cons_self _ _)
    refine ⟨(a, b) :: l2, by simp [h1], ?_⟩
    intro k hk
    rcases List.mem_cons.mp hk with hk | hk
    · subst hk; exact hb
    · exact h2 k hk

theorem convertAV1ToLowOverhead_kept (data : List Nat) (hbytes : ∀ b ∈ data, b < 256)
    (hlen : data.length < 2 ^ 31) :
    ∃ kept : List (ConvertedObu × List Nat),
      convertAV1ToLowOverhead data = (kept.map (fun k => k.1.bytes)).flatten ∧
      (∀ k ∈ kept, LowOverheadObuOf data k.1 k.2) ∧
      readLowOverheadObus ((convertAV1ToLowOverhead data).length + 1)
        (convertAV1ToLowOverhead data) = some (kept.map (fun k => (k.1.type, k.2))) := by
  have hpass1 := convertPass1_obuOf data (data.length + 1) (findNextNAL data 0) []
    (fun o ho => absurd ho (List.not_mem_nil _))
  have hkept : ∀ o ∈ dedupSequenceHeaders
      (convertPass1 data (data.length + 1) (findNextNAL data 0) []),
      ∃ payload, LowOverheadObuOf data o payload :=
    fun o ho => hpass1 o ((emitKept_sublist _ _ _ 0).subset ho)
  obtain ⟨kept, hk1, hk2⟩ := exists_pairs (LowOverheadObuOf data) _ hkept
  have hout : convertAV1ToLowOverhead data = (kept.map (fun k => k.1.bytes)).flatten := by
    unfold convertAV1ToLowOverhead
    simp only
    rw [← hk1, List.map_map]
    rfl
  refine ⟨kept, hout, hk2, ?_⟩
  have hform : ∀ o ∈ kept.map Prod.fst, LowOverheadForm o := by
    intro o ho
    obtain ⟨k, hk, rfl⟩ := List.mem_map.mp ho
    obtain ⟨curObu, hdr, hdrLen, hcur, hparse, htd, hty, hpay, hb⟩ := hk2 k hk
    obtain ⟨b0, ext, hb0, h80, h01, hty2, hext, hpl, hb2⟩ :=
      lowOverheadObuOf_form data hbytes hlen k.1 k.2 (hk2 k hk)
    exact ⟨b0, ext, k.2, hb0, h80, h01, hty2, by rw [hty]; exact htd, hext, hpl, hb2⟩
  have hlen2 := lowOverheadForm_length_le _ hform
  rw [List.map_map] at hlen2
  rw [hout]
  apply readLowOverheadObus_pairs data hbytes hlen kept hk2
  have : (kept.map Prod.fst).length = kept.length := List.length_map _ _
  have hfl : ((kept.map ((fun obu => obu.bytes) ∘ Prod.fst)).flatten).length =
      ((kept.map (fun k => k.1.bytes)).flatten).length := rfl
  omega

/-- C16: for every input buffer of bytes (of `int` length), the output of
`convertAV1ToLowOverhead` is the concatenation of OBUs each of which has the form:
the original first header byte with `obu_has_size_field` (bit `0x02`) set, the
extension byte when `obu_extension_flag` is set, the LEB128 encoding of the payload
length, then exactly that many payload bytes (emulation-prevention bytes removed);
and walking the output with `Av1ObuHeader::parse` and `decodeLeb128` succeeds on every
OBU, returns the type and payload of each, and consumes the output exactly. -/
theorem convertAV1ToLowOverhead_obu_form (data : List Nat) (hbytes : ∀ b ∈ data, b < 256)
    (hlen : data.length < 2 ^ 31) :
    ∃ kept : List (ConvertedObu × List Nat),
      convertAV1ToLowOverhead data = (kept.map (fun k => k.1.bytes)).flatten ∧
      (∀ k ∈ kept, LowOverheadObuOf data k.1 k.2) ∧
      readLowOverheadObus ((convertAV1ToLowOverhead data).length + 1)
        (convertAV1ToLowOverhead data) = some (kept.map (fun k => (k.1.type, k.2))) :=
  convertAV1ToLowOverhead_kept data hbytes hlen

theorem convertAV1ToLowOverhead_obu_form_witness :
    (∀ b ∈ [0, 0, 1, 0x0C, 0x11, 0x22, 0, 0, 1, 0x10, 0, 0, 1, 0x30, 0, 0, 3, 1], b < 256) ∧
    [0, 0, 1, 0x0C, 0x11, 0x22, 0, 0, 1, 0x10, 0, 0, 1, 0x30, 0, 0, 3, 1].length < 2 ^ 31 ∧
    ∃ kept : List (ConvertedObu × List Nat),
      convertAV1ToLowOverhead
          [0, 0, 1, 0x0C, 0x11, 0x22, 0, 0, 1, 0x10, 0, 0, 1, 0x30, 0, 0, 3, 1] =
        (kept.map (fun k => k.1.bytes)).flatten ∧
      (∀ k ∈ kept, LowOverheadObuOf
        [0, 0, 1, 0x0C, 0x11, 0x22, 0, 0, 1, 0x10, 0, 0, 1, 0x30, 0, 0, 3, 1] k.1 k.2) ∧
      readLowOverheadObus ((convertAV1ToLowOverhead
          [0, 0, 1, 0x0C, 0x11, 0x22, 0, 0, 1, 0x10, 0, 0, 1, 0x30, 0, 0, 3, 1]).length + 1)
        (convertAV1ToLowOverhead
          [0, 0, 1, 0x0C, 0x11, 0x22, 0, 0, 1, 0x10, 0, 0, 1, 0x30, 0, 0, 3, 1]) =
        some (kept.map (fun k => (k.1.type, k.2))) :=
  ⟨by decide, by decide, convertAV1ToLowOverhead_obu_form
    [0, 0, 1, 0x0C, 0x11, 0x22, 0, 0, 1, 0x10, 0, 0, 1, 0x30, 0, 0, 3, 1]
    (by decide) (by decide)⟩

/-! ### Payloads of AV1 tracks -/

theorem clipMuxer_awaiting : AwaitingTrackData clipMuxer := by
  unfold AwaitingTrackData
  decide

theorem clipMuxer_video :
    findTrack clipMuxer.m_tracks 0 = some
      { streamIndex := 0, trackNumber := 1, trackUID := 0x3333,
        matroskaCodecID := strBytes "V_AV1", codecID := 1, trackType := 1,
        width := 1920, height := 1080, fps := 0x403E000000000000 } := by
  decide

set_option maxRecDepth 100000 in
theorem delimiterOnly_session :
    (clipMuxer.m_tracks.map (fun t => t.codecID)) = [clipEnv.CODEC_V_AV1] ∧
    convertAV1ToLowOverhead [0, 0, 1, 0x12, 0x00] = [] ∧
    (Av1ObuHeader.parse [0x12, 0x00]).map (fun r => r.1.obu_type) = some TEMPORAL_DELIMITER ∧
    ((([delimiterOnlyPacket].foldl (fun acc p => acc.muxPacket clipEnv p) clipMuxer).close
      clipEnv).blockLog.map (fun b => b.frameData)) = [[0, 0, 1, 0x12, 0x00]] := by
  decide

/-- C18 (as stated, refuted): on the AV1 track of the sample clip, a frame that holds
only a temporal delimiter OBU is written to its SimpleBlock as it arrived: the payload
is not the (empty) output of `convertAV1ToLowOverhead`, and it contains the temporal
delimiter. -/
theorem av1_payload_not_converted :
    (clipMuxer.m_tracks.map (fun t => t.codecID)) = [clipEnv.CODEC_V_AV1] ∧
    convertAV1ToLowOverhead [0, 0, 1, 0x12, 0x00] = [] ∧
    (Av1ObuHeader.parse [0x12, 0x00]).map (fun r => r.1.obu_type) = some TEMPORAL_DELIMITER ∧
    ((([delimiterOnlyPacket].foldl (fun acc p => acc.muxPacket clipEnv p) clipMuxer).close
      clipEnv).blockLog.map (fun b => b.frameData)) = [[0, 0, 1, 0x12, 0x00]] :=
  delimiterOnly_session

theorem convertFrameData_av1 (env : Env) (c : Int) (h : c = env.CODEC_V_AV1)
    (data : List Nat) :
    convertFrameData env c data =
      if convertAV1ToLowOverhead data = [] then data else convertAV1ToLowOverhead data := by
  unfold convertFrameData
  simp only
  rw [if_pos h]
  cases hc : convertAV1ToLowOverhead data with
  | nil => simp
  | cons a l => simp

/-- C18 (amended): for every stream `k` whose track is an AV1 track, the payload of
each SimpleBlock emitted for `k` is the output of `convertAV1ToLowOverhead` applied to
the accumulated frame bytes when that output is not empty, and the accumulated frame
bytes themselves when it is empty; a non-empty output (for frame bytes of `int`
length) reads back as a sequence of OBUs none of which is a temporal delimiter. -/
theorem av1_block_payloads (env : Env) (s : MatroskaMuxer) (h : AwaitingTrackData s)
    (k : Int) (t : MkvTrackInfo) (hfind : findTrack s.m_tracks k = some t)
    (hav1 : t.codecID = env.CODEC_V_AV1) (ps : List AVPacket) :
    (blocksOf k ((ps.foldl (fun acc p => acc.muxPacket env p) s).close env).blockLog).map
        (fun b => b.frameData) =
      (ptsRuns (ps.filter (AVPacket.acceptedFor k))).map
        (fun run => if convertAV1ToLowOverhead (runData run) = [] then runData run
          else convertAV1ToLowOverhead (runData run)) ∧
    (∀ run ∈ ptsRuns (ps.filter (AVPacket.acceptedFor k)),
      (∀ b ∈ runData run, b < 256) → (runData run).length < 2 ^ 31 →
      ∃ obus : List (Nat × List Nat),
        readLowOverheadObus ((convertAV1ToLowOverhead (runData run)).length + 1)
          (convertAV1ToLowOverhead (runData run)) = some obus ∧
        ∀ o ∈ obus, o.1 ≠ TEMPORAL_DELIMITER) := by
  constructor
  · have hmain := congrArg (List.map Prod.snd) (session_frames env s h k t hfind ps)
    rw [List.map_map, List.map_map] at hmain
    refine hmain.trans ?_
    apply List.map_congr_left
    intro run _
    exact convertFrameData_av1 env t.codecID hav1 (runData run)
  · intro run _ hb hl
    obtain ⟨kept, -, hk, hread⟩ := convertAV1ToLowOverhead_kept (runData run) hb hl
    refine ⟨_, hread, ?_⟩
    intro o ho
    obtain ⟨kk, hkk, rfl⟩ := List.mem_map.mp ho
    obtain ⟨curObu, hdr, hdrLen, -, -, htd, hty, -, -⟩ := hk kk hkk
    show kk.1.type ≠ TEMPORAL_DELIMITER
    rw [hty]
    exact htd

theorem av1_block_payloads_witness :
    AwaitingTrackData clipMuxer ∧
    findTrack clipMuxer.m_tracks 0 = some
      { streamIndex := 0, trackNumber := 1, trackUID := 0x3333,
        matroskaCodecID := strBytes "V_AV1", codecID := 1, trackType := 1,
        width := 1920, height := 1080, fps := 0x403E000000000000 } ∧
    (1 : Int) = clipEnv.CODEC_V_AV1 ∧
    (blocksOf 0 (([clipFrame 0, clipFrame 1].foldl (fun acc p => acc.muxPacket clipEnv p)
        clipMuxer).close clipEnv).blockLog).map (fun b => b.frameData) =
      [[0x32, 0x01, 0x80], [0x32, 0x01, 0x81]] :=
  ⟨clipMuxer_awaiting, clipMuxer_video, rfl,
    (av1_block_payloads clipEnv clipMuxer clipMuxer_awaiting 0 _ clipMuxer_video rfl
      [clipFrame 0, clipFrame 1]).1.trans (by decide)⟩

/-! ### Start-code scanning -/

theorem startCodeOffset_le (d : List Nat) : startCodeOffset d ≤ d.length := by
  induction d with
  | nil => simp [startCodeOffset]
  | cons b rest ih =>
    rw [startCodeOffset]
    split_ifs
    · exact Nat.zero_le _
    · simp only [List.length_cons]
      omega

theorem startCodeOffset_found (d : List Nat) (h : startCodeOffset d < d.length) :
    ∃ rest, d.drop (startCodeOffset d) = 0 :: 0 :: 1 :: rest := by
  induction d with
  | nil => simp at h
  | cons b rest ih =>
    rw [startCodeOffset] at h ⊢
    by_cases hp : ([0, 0, 1] : List Nat).isPrefixOf (b :: rest) = true
    · rw [if_pos hp]
      rw [List.isPrefixOf_iff_prefix] at hp
      obtain ⟨t, ht⟩ := hp
      exact ⟨t, by rw [List.drop_zero, ← ht]; rfl⟩
    · rw [if_neg hp] at h ⊢
      have h2 : startCodeOffset rest < rest.length := by
        simp only [List.length_cons] at h
        omega
      obtain ⟨t, ht⟩ := ih h2
      refine ⟨t, ?_⟩
      rw [Nat.add_comm, List.drop_succ_cons]
      exact ht

theorem startCodeOffset_head (rest : List Nat) : startCodeOffset (0 :: 0 :: 1 :: rest) = 0 := by
  rw [startCodeOffset, if_pos (by simp [List.isPrefixOf])]

theorem startCodeOffset_zero_head (rest : List Nat) :
    startCodeOffset (0 :: 0 :: 0 :: 1 :: rest) = 1 := by
  rw [startCodeOffset, if_neg (by simp [List.isPrefixOf]), startCodeOffset_head]

/-- One iteration of the loop of `convertAnnexBToLengthPrefixed` when a start code
follows `curPos`: the unit is the bytes up to that start code without trailing zero
bytes, and the next position is just after the start code. -/
theorem annexB_step_found (data : List Nat) (curPos : Nat)
    (hfound : startCodeOffset (data.drop curPos) < (data.drop curPos).length) :
    findNALWithStartCode data curPos true < data.length ∧
    ((data.drop curPos).take (findNALWithStartCode data curPos true - curPos)).rdropWhile
        (fun b => b == 0) =
      ((data.drop curPos).take (startCodeOffset (data.drop curPos))).rdropWhile
        (fun b => b == 0) ∧
    findNextNAL data (findNALWithStartCode data curPos true) =
      curPos + startCodeOffset (data.drop curPos) + 3 := by
  obtain ⟨rest, hrest⟩ := startCodeOffset_found _ hfound
  have hlen : (data.drop curPos).length = data.length - curPos := List.length_drop _ _
  have hp : curPos + startCodeOffset (data.drop curPos) < data.length := by omega
  have hdropp : data.drop (curPos + startCodeOffset (data.drop curPos)) = 0 :: 0 :: 1 :: rest := by
    rw [← List.drop_drop]
    exact hrest
  have hp3 : curPos + startCodeOffset (data.drop curPos) + 3 ≤ data.length := by
    have := congrArg List.length hdropp
    simp only [List.length_drop, List.length_cons] at this
    omega
  unfold findNALWithStartCode
  simp only
  rw [if_pos hp]
  by_cases hlong : (True ∧ curPos + 1 ≤ curPos + startCodeOffset (data.drop curPos) ∧
      data[curPos + startCodeOffset (data.drop curPos) - 1]? = some 0)
  · rw [if_pos hlong]
    obtain ⟨-, h1, h0⟩ := hlong
    obtain ⟨o, ho⟩ : ∃ o, startCodeOffset (data.drop curPos) = o + 1 :=
      ⟨startCodeOffset (data.drop curPos) - 1, by omega⟩
    rw [ho] at h0 hdropp hp ⊢
    have hidx : curPos + (o + 1) - 1 = curPos + o := by omega
    rw [hidx] at h0 ⊢
    have hdrop1 : data.drop (curPos + o) = 0 :: 0 :: 0 :: 1 :: rest := by
      have hlt : curPos + o < data.length := by omega
      rw [List.drop_eq_getElem_cons hlt]
      have hget : data[curPos + o] = 0 := by
        rw [List.getElem?_eq_getElem hlt] at h0
        exact Option.some.inj h0
      rw [hget]
      have : curPos + o + 1 = curPos + (o + 1) := by omega
      rw [this, hdropp]
    refine ⟨by omega, ?_, ?_⟩
    · have hsub : curPos + o - curPos = o := by omega
      rw [hsub]
      have htake : (data.drop curPos).take (o + 1) = (data.drop curPos).take o ++ [0] := by
        have hlt2 : o < (data.drop curPos).length := by omega
        rw [List.take_succ, List.getElem?_eq_getElem hlt2]
        have : (data.drop curPos)[o] = 0 := by
          rw [List.getElem_drop]
          have hlt : curPos + o < data.length := by omega
          rw [List.getElem?_eq_getElem hlt] at h0
          exact Option.some.inj h0
        rw [this]
        rfl
      rw [htake, List.rdropWhile_concat_pos _ _ _ (by rfl)]
    · unfold findNextNAL
      rw [hdrop1, startCodeOffset_zero_head]
      omega
  · rw [if_neg hlong]
    refine ⟨hp, ?_, ?_⟩
    · have hsub : curPos + startCodeOffset (data.drop curPos) - curPos =
          startCodeOffset (data.drop curPos) := by omega
      rw [hsub]
    · unfold findNextNAL
      rw [hdropp, startCodeOffset_head]
      omega

theorem annexB_step_end (data : List Nat) (curPos : Nat) (hcur : curPos < data.length)
    (hnot : ¬ startCodeOffset (data.drop curPos) < (data.drop curPos).length) :
    findNALWithStartCode data curPos true = data.length := by
  have hlen : (data.drop curPos).length = data.length - curPos := List.length_drop _ _
  have hle := startCodeOffset_le (data.drop curPos)
  unfold findNALWithStartCode
  simp only
  rw [if_neg (by omega)]

theorem annexBLoop_eq (data : List Nat) :
    ∀ (fuel curPos : Nat) (result : List Nat),
      annexBLoop data fuel curPos result =
        result ++ (((nalUnitsAux fuel (data.drop curPos)).filter (fun n => !n.isEmpty)).map
          (fun n => writeBE n.length 4 ++ n)).flatten := by
  intro fuel
  induction fuel with
  | zero => intro curPos result; simp [annexBLoop, nalUnitsAux]
  | succ f ih =>
    intro curPos result
    rw [annexBLoop, nalUnitsAux]
    by_cases hcur : curPos < data.length
    · have hd : data.drop curPos ≠ [] := by
        intro h
        have := congrArg List.length h
        simp only [List.length_drop, List.length_nil] at this
        omega
      rw [if_pos hcur, if_neg hd]
      by_cases hfound : startCodeOffset (data.drop curPos) < (data.drop curPos).length
      · obtain ⟨h1, h2, h3⟩ := annexB_step_found data curPos hfound
        simp only
        rw [if_pos h1, h2, h3, ih, if_pos hfound, List.drop_drop]
        have hadd : curPos + (startCodeOffset (data.drop curPos) + 3) =
            curPos + startCodeOffset (data.drop curPos) + 3 := by omega
        rw [hadd]
        by_cases hne : ((data.drop curPos).take (startCodeOffset (data.drop curPos))).rdropWhile
            (fun b => b == 0) = []
        · rw [hne]
          simp
        · have hpos : (((data.drop curPos).take (startCodeOffset (data.drop curPos))).rdropWhile
              (fun b => b == 0)).length > 0 := List.length_pos.mpr hne
          rw [if_pos hpos, List.filter_cons_of_pos (by simpa using hne)]
          simp
      · have hend := annexB_step_end data curPos hcur hfound
        simp only
        rw [hend, if_neg (lt_irrefl _), ih, if_neg hfound]
        have htake : (data.drop curPos).take (data.length - curPos) = data.drop curPos := by
          apply List.take_of_length_le
          simp
        rw [htake, if_pos (List.length_pos.mpr hd)]
        have hnext : data.drop (findNextNAL data data.length) = [] := by
          apply List.drop_of_length_le
          unfold findNextNAL
          simp only [List.drop_length, startCodeOffset]
          omega
        rw [hnext]
        have hnil : nalUnitsAux f [] = [] := by
          cases f with
          | zero => rfl
          | succ g => simp [nalUnitsAux]
        rw [hnil, List.filter_cons_of_pos (by simpa using hd)]
        simp
    · rw [if_neg hcur]
      have hd : data.drop curPos = [] := List.drop_of_length_le (by omega)
      rw [hd]
      simp

theorem nalUnitsAux_fuel :
    ∀ (fuel k : Nat) (d : List Nat), d.length < fuel →
      nalUnitsAux (fuel + k) d = nalUnitsAux fuel d := by
  intro fuel
  induction fuel with
  | zero => intro k d h; exact absurd h (Nat.not_lt_zero _)
  | succ f ih =>
    intro k d h
    have hk : f + 1 + k = (f + k) + 1 := by omega
    rw [hk, nalUnitsAux, nalUnitsAux]
    by_cases hd : d = []
    · rw [if_pos hd, if_pos hd]
    · rw [if_neg hd, if_neg hd]
      by_cases hfound : startCodeOffset d < d.length
      · rw [if_pos hfound, if_pos hfound, ih]
        simp only [List.length_drop]
        have := List.length_pos.mpr hd
        omega
      · rw [if_neg hfound, if_neg hfound]

theorem nalUnitsAux_length_le :
    ∀ (fuel : Nat) (d : List Nat), ∀ n ∈ nalUnitsAux fuel d, n.length ≤ d.length := by
  intro fuel
  induction fuel with
  | zero => intro d n hn; simp [nalUnitsAux] at hn
  | succ f ih =>
    intro d n hn
    rw [nalUnitsAux] at hn
    by_cases hd : d = []
    · rw [if_pos hd] at hn
      exact absurd hn (List.not_mem_nil _)
    · rw [if_neg hd] at hn
      by_cases hfound : startCodeOffset d < d.length
      · rw [if_pos hfound] at hn
        rcases List.mem_cons.mp hn with hn | hn
        · rw [hn]
          refine le_trans (List.rdropWhile_prefix _ _).length_le ?_
          exact (List.take_prefix _ _).length_le
        · have := ih _ n hn
          simp only [List.length_drop] at this
          omega
      · rw [if_neg hfound, List.mem_singleton] at hn
        rw [hn]

theorem beValue_writeBE4 (v : Nat) (h : v < 2 ^ 32) : beValue (writeBE v 4) = v := by
  simp only [writeBE, beValue, List.foldl_cons, List.foldl_nil, and_0xFF,
    Nat.shiftRight_eq_div_pow]
  omega

theorem readLengthPrefixed_cons (n rest : List Nat) (hn : n.length < 2 ^ 32) (fuel : Nat) :
    readLengthPrefixed (fuel + 1) ((writeBE n.length 4 ++ n) ++ rest) =
      (readLengthPrefixed fuel rest).map (fun tl => n :: tl) := by
  have hw : (writeBE n.length 4).length = 4 := writeBE_length _ _
  have hne : (writeBE n.length 4 ++ n) ++ rest ≠ [] := by
    intro h
    have := congrArg List.length h
    simp only [List.length_append, hw, List.length_nil] at this
    omega
  have htake : ((writeBE n.length 4 ++ n) ++ rest).take 4 = writeBE n.length 4 := by
    rw [List.append_assoc, List.take_left' hw]
  have hdrop4 : ((writeBE n.length 4 ++ n) ++ rest).drop 4 = n ++ rest := by
    rw [List.append_assoc, List.drop_left' hw]
  have hdrop : ((writeBE n.length 4 ++ n) ++ rest).drop (4 + n.length) = rest := by
    apply List.drop_left'
    simp only [List.length_append, hw]
  rw [readLengthPrefixed, if_neg hne, if_neg (by simp only [List.length_append, hw]; omega)]
  simp only
  rw [htake, beValue_writeBE4 _ hn, if_neg (by simp only [List.length_append, hw]; omega),
    hdrop, hdrop4, List.take_left' rfl]

theorem readLengthPrefixed_flatten (nals : List (List Nat))
    (h : ∀ n ∈ nals, n.length < 2 ^ 32) :
    ∀ fuel, nals.length < fuel →
      readLengthPrefixed fuel ((nals.map (fun n => writeBE n.length 4 ++ n)).flatten) =
        some nals := by
  induction nals with
  | nil =>
    intro fuel hf
    obtain ⟨f, rfl⟩ : ∃ f, fuel = f + 1 := ⟨fuel - 1, by simp at hf; omega⟩
    simp [readLengthPrefixed]
  | cons n rest ih =>
    intro fuel hf
    obtain ⟨f, rfl⟩ : ∃ f, fuel = f + 1 := ⟨fuel - 1, by simp at hf; omega⟩
    have hr := ih (fun x hx => h x (List.mem_cons_of_mem _ hx)) f (by simp at hf; omega)
    simp only [List.map_cons, List.flatten_cons]
    rw [readLengthPrefixed_cons n _ (h n (List.mem_cons_self _ _)) f, hr]
    rfl

theorem lengthPrefixed_count_le (nals : List (List Nat)) :
    nals.length ≤ ((nals.map (fun n => writeBE n.length 4 ++ n)).flatten).length := by
  induction nals with
  | nil => simp
  | cons n rest ih =>
    simp only [List.map_cons, List.flatten_cons, List.length_append, List.length_cons,
      writeBE_length]
    omega

theorem convertAnnexBToLengthPrefixed_eq (data : List Nat) :
    convertAnnexBToLengthPrefixed data =
      ((nalUnits data).map (fun n => writeBE n.length 4 ++ n)).flatten := by
  unfold convertAnnexBToLengthPrefixed nalUnits
  rw [annexBLoop_eq, List.nil_append]
  have hdrop : data.drop (findNextNAL data 0) = data.drop (startCodeOffset data + 3) := by
    unfold findNextNAL
    rw [List.drop_zero, Nat.zero_add]
    by_cases hle : startCodeOffset data + 3 ≤ data.length
    · rw [Nat.min_eq_left hle]
    · rw [Nat.min_eq_right (by omega), List.drop_length,
        List.drop_of_length_le (by omega)]
  rw [hdrop]

/-- C20: for every input buffer (of `int` length), the output of
`convertAnnexBToLengthPrefixed` is, for each non-empty NAL unit delimited by start codes
and in input order, a 4-byte big-endian length followed by exactly that many NAL bytes
(the zero bytes before the following start code excluded), and walking the output by
its length prefixes yields those units and consumes the output exactly. -/
theorem convertAnnexBToLengthPrefixed_spec (data : List Nat) (hlen : data.length < 2 ^ 31) :
    convertAnnexBToLengthPrefixed data =
      ((nalUnits data).map (fun n => writeBE n.length 4 ++ n)).flatten ∧
    (∀ n ∈ nalUnits data, n ≠ [] ∧ beValue (writeBE n.length 4) = n.length) ∧
    readLengthPrefixed ((convertAnnexBToLengthPrefixed data).length + 1)
      (convertAnnexBToLengthPrefixed data) = some (nalUnits data) := by
  have hlt : ∀ n ∈ nalUnits data, n.length < 2 ^ 32 := by
    intro n hn
    unfold nalUnits at hn
    have h1 := nalUnitsAux_length_le _ _ n (List.mem_filter.mp hn).1
    simp only [List.length_drop] at h1
    have : (2 : Nat) ^ 31 < 2 ^ 32 := by norm_num
    omega
  refine ⟨convertAnnexBToLengthPrefixed_eq data, ?_, ?_⟩
  · intro n hn
    refine ⟨?_, beValue_writeBE4 _ (hlt n hn)⟩
    unfold nalUnits at hn
    have := (List.mem_filter.mp hn).2
    intro h
    rw [h] at this
    simp at this
  · rw [convertAnnexBToLengthPrefixed_eq]
    exact readLengthPrefixed_flatten _ hlt _ (Nat.lt_succ_of_le (lengthPrefixed_count_le _))

theorem convertAnnexBToLengthPrefixed_spec_witness :
    [0, 0, 0, 1, 0x67, 0x42, 0, 0, 0, 1, 0x68, 0xCE, 0, 0, 1, 0x65, 0x88, 0].length < 2 ^ 31 ∧
    convertAnnexBToLengthPrefixed
        [0, 0, 0, 1, 0x67, 0x42, 0, 0, 0, 1, 0x68, 0xCE, 0, 0, 1, 0x65, 0x88, 0] =
      [0, 0, 0, 2, 0x67, 0x42, 0, 0, 0, 2, 0x68, 0xCE, 0, 0, 0, 3, 0x65, 0x88, 0] ∧
    readLengthPrefixed ((convertAnnexBToLengthPrefixed
        [0, 0, 0, 1, 0x67, 0x42, 0, 0, 0, 1, 0x68, 0xCE, 0, 0, 1, 0x65, 0x88, 0]).length + 1)
      (convertAnnexBToLengthPrefixed
        [0, 0, 0, 1, 0x67, 0x42, 0, 0, 0, 1, 0x68, 0xCE, 0, 0, 1, 0x65, 0x88, 0]) =
      some [[0x67, 0x42], [0x68, 0xCE], [0x65, 0x88, 0]] :=
  ⟨by decide,
    (convertAnnexBToLengthPrefixed_spec
      [0, 0, 0, 1, 0x67, 0x42, 0, 0, 0, 1, 0x68, 0xCE, 0, 0, 1, 0x65, 0x88, 0]
      (by decide)).1.trans (by decide),
    (convertAnnexBToLengthPrefixed_spec
      [0, 0, 0, 1, 0x67, 0x42, 0, 0, 0, 1, 0x68, 0xCE, 0, 0, 1, 0x65, 0x88, 0]
      (by decide)).2.2.trans (by decide)⟩

/-! ### Pass 1 of `convertAV1ToLowOverhead` as a scan of the buffer -/

theorem findNALWithStartCode_found (data : List Nat) (curPos : Nat)
    (hfound : startCodeOffset (data.drop curPos) < (data.drop curPos).length) :
    ∃ off, findNALWithStartCode data curPos true = curPos + off ∧
      (off = startCodeOffset (data.drop curPos) ∨
        (off + 1 = startCodeOffset (data.drop curPos) ∧ (data.drop curPos)[off]? = some 0)) := by
  have hlen : (data.drop curPos).length = data.length - curPos := List.length_drop _ _
  have hp : curPos + startCodeOffset (data.drop curPos) < data.length := by omega
  unfold findNALWithStartCode
  simp only
  rw [if_pos hp]
  by_cases hlong : (True ∧ curPos + 1 ≤ curPos + startCodeOffset (data.drop curPos) ∧
      data[curPos + startCodeOffset (data.drop curPos) - 1]? = some 0)
  · rw [if_pos hlong]
    obtain ⟨-, h1, h0⟩ := hlong
    refine ⟨startCodeOffset (data.drop curPos) - 1, by omega, Or.inr ⟨by omega, ?_⟩⟩
    rw [List.getElem?_drop]
    have : curPos + (startCodeOffset (data.drop curPos) - 1) =
        curPos + startCodeOffset (data.drop curPos) - 1 := by omega
    rw [this]
    exact h0
  · rw [if_neg hlong]
    exact ⟨_, rfl, Or.inl rfl⟩

theorem take_rdropWhile_zero (l : List Nat) (h off o : Nat)
    (hoff : off = o ∨ (off + 1 = o ∧ l[off]? = some 0)) :
    ((l.drop h).take (off - h)).rdropWhile (fun b => b == 0) =
      ((l.drop h).take (o - h)).rdropWhile (fun b => b == 0) := by
  rcases hoff with rfl | ⟨rfl, h0⟩
  · rfl
  · by_cases hle : h ≤ off
    · have hsub : off + 1 - h = (off - h) + 1 := by omega
      have hget : (l.drop h)[off - h]? = some 0 := by
        rw [List.getElem?_drop]
        have : h + (off - h) = off := by omega
        rw [this]
        exact h0
      rw [hsub, List.take_succ, hget]
      show _ = List.rdropWhile (fun b => b == 0) (List.take (off - h) (List.drop h l) ++ [0])
      rw [List.rdropWhile_concat_pos _ _ _ (by rfl)]
    · have h1 : off - h = 0 := by omega
      have h2 : off + 1 - h = 0 := by omega
      rw [h1, h2]

theorem convertPass1_eq (data : List Nat) :
    ∀ (fuel curObu : Nat) (obus : List ConvertedObu),
      convertPass1 data fuel curObu obus = obus ++ obuTokens fuel (data.drop curObu) := by
  intro fuel
  induction fuel with
  | zero => intro curObu obus; simp [convertPass1, obuTokens]
  | succ f ih =>
    intro curObu obus
    rw [convertPass1, obuTokens]
    by_cases hcur : curObu < data.length
    · have hd : data.drop curObu ≠ [] := by
        intro h
        have := congrArg List.length h
        simp only [List.length_drop, List.length_nil] at this
        omega
      rw [if_pos hcur, if_neg hd]
      cases hparse : Av1ObuHeader.parse (data.drop curObu) with
      | none => simp
      | some r =>
        obtain ⟨hdr, hdrLen⟩ := r
        simp only
        have hget0 : data.getD curObu 0 = (data.drop curObu).getD 0 0 := by
          rw [List.getD_eq_getElem?_getD, List.getD_eq_getElem?_getD, List.getElem?_drop]
          rfl
        have hget1 : data.getD (curObu + 1) 0 = (data.drop curObu).getD 1 0 := by
          rw [List.getD_eq_getElem?_getD, List.getD_eq_getElem?_getD, List.getElem?_drop]
        have hpay : obuRawPayload data.length (obuPayloadWithEP data curObu hdrLen
              (findNALWithStartCode data curObu true)) =
            removeEmulationPrevention 0 ((((data.drop curObu).drop hdrLen).take
              (startCodeOffset (data.drop curObu) - hdrLen)).rdropWhile (fun b => b == 0)) := by
          rw [obuRawPayload_eq _ _ (obuPayloadWithEP_length_le _ _ _ _)]
          congr 1
          unfold obuPayloadWithEP
          rw [← List.drop_drop]
          by_cases hfound : startCodeOffset (data.drop curObu) < (data.drop curObu).length
          · obtain ⟨off, hoff, hcase⟩ := findNALWithStartCode_found data curObu hfound
            rw [hoff]
            have : curObu + off - (curObu + hdrLen) = off - hdrLen := by omega
            rw [this]
            exact take_rdropWhile_zero _ _ _ _ hcase
          · rw [annexB_step_end data curObu hcur hfound]
            have hle := startCodeOffset_le (data.drop curObu)
            have hlen : (data.drop curObu).length = data.length - curObu := List.length_drop _ _
            have : data.length - (curObu + hdrLen) =
                startCodeOffset (data.drop curObu) - hdrLen := by omega
            rw [this]
        rw [hpay]
        unfold lowOverheadObu
        rw [hget0, hget1]
        by_cases hfound : startCodeOffset (data.drop curObu) < (data.drop curObu).length
        · obtain ⟨h1, -, h3⟩ := annexB_step_found data curObu hfound
          rw [if_pos h1, h3, ih, if_pos hfound]
          simp only [List.drop_drop, ← Nat.add_assoc]
          split_ifs <;> simp
        · rw [annexB_step_end data curObu hcur hfound, if_neg (lt_irrefl _), if_neg hfound]
          split_ifs <;> simp
    · rw [if_neg hcur]
      have hd : data.drop curObu = [] := List.drop_of_length_le (by omega)
      rw [hd]
      simp

/-! ### An OBU whose header fails validation ends the scan -/

theorem parse_invalid (b : Nat) (hb : b &&& 0x80 ≠ 0 ∨ b &&& 0x01 ≠ 0) (r : List Nat) :
    Av1ObuHeader.parse (b :: r) = none := by
  rcases hb with hb | hb
  · simp only [Av1ObuHeader.parse]
    rw [if_pos hb]
  · simp only [Av1ObuHeader.parse]
    by_cases h80 : b &&& 0x80 ≠ 0
    · rw [if_pos h80]
    · rw [if_neg h80, if_pos hb]

theorem obuTokens_invalid (b : Nat) (hb : b &&& 0x80 ≠ 0 ∨ b &&& 0x01 ≠ 0) (r : List Nat)
    (fuel : Nat) : obuTokens fuel (b :: r) = [] := by
  cases fuel with
  | zero => rfl
  | succ f =>
    rw [obuTokens, if_neg (List.cons_ne_nil _ _), parse_invalid b hb r]

theorem startCodeOffset_append (X Y Z : List Nat) :
    startCodeOffset (X ++ 0 :: 0 :: 1 :: Y) ≤ X.length ∧
    startCodeOffset (X ++ 0 :: 0 :: 1 :: Y) = startCodeOffset (X ++ 0 :: 0 :: 1 :: Z) := by
  induction X with
  | nil =>
    simp only [List.nil_append, startCodeOffset_head, List.length_nil, le_refl, and_self]
  | cons x X ih =>
    have hpre : ([0, 0, 1] : List Nat).isPrefixOf (x :: X ++ 0 :: 0 :: 1 :: Y) =
        ([0, 0, 1] : List Nat).isPrefixOf (x :: X ++ 0 :: 0 :: 1 :: Z) := by
      match X with
      | [] => simp [List.isPrefixOf]
      | [a] => simp [List.isPrefixOf]
      | a :: c :: X2 => simp [List.isPrefixOf]
    simp only [List.cons_append] at hpre ⊢
    rw [startCodeOffset, startCodeOffset, hpre]
    split_ifs
    · exact ⟨Nat.zero_le _, rfl⟩
    · simp only [List.length_cons]
      exact ⟨by omega, by rw [ih.2]⟩

theorem startCodeOffset_no_overlap (X Y : List Nat)
    (h : startCodeOffset (X ++ 0 :: 0 :: 1 :: Y) < X.length) :
    startCodeOffset (X ++ 0 :: 0 :: 1 :: Y) + 3 ≤ X.length := by
  by_contra hcon
  have hlen : startCodeOffset (X ++ 0 :: 0 :: 1 :: Y) < (X ++ 0 :: 0 :: 1 :: Y).length := by
    simp only [List.length_append, List.length_cons]
    omega
  obtain ⟨t, ht⟩ := startCodeOffset_found _ hlen
  have hget : (X ++ 0 :: 0 :: 1 :: Y)[startCodeOffset (X ++ 0 :: 0 :: 1 :: Y) + 2]? = some 1 := by
    rw [← List.getElem?_drop, ht]
    simp
  rw [List.getElem?_append_right (by omega)] at hget
  have hcase : startCodeOffset (X ++ 0 :: 0 :: 1 :: Y) + 2 - X.length = 0 ∨
      startCodeOffset (X ++ 0 :: 0 :: 1 :: Y) + 2 - X.length = 1 := by omega
  rcases hcase with hc | hc
  · rw [hc] at hget
    simp at hget
  · rw [hc] at hget
    simp at hget

theorem obuTokens_suffix (b : Nat) (hb : b &&& 0x80 ≠ 0 ∨ b &&& 0x01 ≠ 0) :
    ∀ (n : Nat) (X : List Nat), X.length ≤ n → ∀ (f1 f2 : Nat) (r1 r2 : List Nat),
      n + 2 ≤ f1 → n + 2 ≤ f2 →
      obuTokens f1 (X ++ 0 :: 0 :: 1 :: b :: r1) = obuTokens f2 (X ++ 0 :: 0 :: 1 :: b :: r2) := by
  intro n
  induction n using Nat.strong_induction_on with
  | _ n ih =>
    intro X hX f1 f2 r1 r2 hf1 hf2
    obtain ⟨g1, rfl⟩ : ∃ g, f1 = g + 1 := ⟨f1 - 1, by omega⟩
    obtain ⟨g2, rfl⟩ : ∃ g, f2 = g + 1 := ⟨f2 - 1, by omega⟩
    obtain ⟨hle, hsame⟩ := startCodeOffset_append X (b :: r1) (b :: r2)
    have hne : ∀ r : List Nat, X ++ 0 :: 0 :: 1 :: b :: r ≠ [] := by
      intro r h
      have := congrArg List.length h
      simp at this
    -- the first two bytes do not depend on what follows the offending OBU
    obtain ⟨x, y, P, hP⟩ : ∃ x y P, ∀ r : List Nat,
        X ++ 0 :: 0 :: 1 :: b :: r = x :: y :: (P ++ r) := by
      match X with
      | [] => exact ⟨0, 0, [1, b], fun r => rfl⟩
      | [a] => exact ⟨a, 0, [0, 1, b], fun r => rfl⟩
      | a :: c :: X2 => exact ⟨a, c, X2 ++ [0, 0, 1, b], fun r => by simp⟩
    have hparse : Av1ObuHeader.parse (X ++ 0 :: 0 :: 1 :: b :: r1) =
        Av1ObuHeader.parse (X ++ 0 :: 0 :: 1 :: b :: r2) := by
      rw [hP r1, hP r2]
      rfl
    have hg0 : (X ++ 0 :: 0 :: 1 :: b :: r1).getD 0 0 = (X ++ 0 :: 0 :: 1 :: b :: r2).getD 0 0 := by
      rw [hP r1, hP r2]
      rfl
    have hg1 : (X ++ 0 :: 0 :: 1 :: b :: r1).getD 1 0 = (X ++ 0 :: 0 :: 1 :: b :: r2).getD 1 0 := by
      rw [hP r1, hP r2]
      rfl
    have hpay : ∀ hdrLen : Nat,
        ((X ++ 0 :: 0 :: 1 :: b :: r1).drop hdrLen).take
          (startCodeOffset (X ++ 0 :: 0 :: 1 :: b :: r1) - hdrLen) =
        ((X ++ 0 :: 0 :: 1 :: b :: r2).drop hdrLen).take
          (startCodeOffset (X ++ 0 :: 0 :: 1 :: b :: r2) - hdrLen) := by
      intro hdrLen
      rw [← List.drop_take, ← List.drop_take, ← hsame, List.take_append_of_le_length hle,
        List.take_append_of_le_length hle]
    have hfound : ∀ r : List Nat, startCodeOffset (X ++ 0 :: 0 :: 1 :: b :: r1) <
        (X ++ 0 :: 0 :: 1 :: b :: r).length := by
      intro r
      simp only [List.length_append, List.length_cons]
      omega
    have hrest : obuTokens g1 ((X ++ 0 :: 0 :: 1 :: b :: r1).drop
          (startCodeOffset (X ++ 0 :: 0 :: 1 :: b :: r1) + 3)) =
        obuTokens g2 ((X ++ 0 :: 0 :: 1 :: b :: r2).drop
          (startCodeOffset (X ++ 0 :: 0 :: 1 :: b :: r1) + 3)) := by
      by_cases hlt : startCodeOffset (X ++ 0 :: 0 :: 1 :: b :: r1) < X.length
      · have h3 := startCodeOffset_no_overlap X (b :: r1) hlt
        rw [List.drop_append_of_le_length h3, List.drop_append_of_le_length h3]
        apply ih (n - 3) (by omega) _ (by simp only [List.length_drop]; omega) <;> omega
      · have heq : startCodeOffset (X ++ 0 :: 0 :: 1 :: b :: r1) = X.length := by omega
        have hd : ∀ r : List Nat, (X ++ 0 :: 0 :: 1 :: b :: r).drop (X.length + 3) = b :: r := by
          intro r
          rw [List.drop_append_eq_append_drop, List.drop_of_length_le (by omega)]
          simp
        rw [heq, hd r1, hd r2, obuTokens_invalid b hb, obuTokens_invalid b hb]
    rw [obuTokens, obuTokens, if_neg (hne r1), if_neg (hne r2), ← hparse]
    cases hp : Av1ObuHeader.parse (X ++ 0 :: 0 :: 1 :: b :: r1) with
    | none => rfl
    | some r =>
      obtain ⟨hdr, hdrLen⟩ := r
      simp only
      rw [← hsame, if_pos (hfound r1), if_pos (hfound r2), hrest, hg0, hg1]
      rw [← hsame] at hpay
      rw [hpay hdrLen]

theorem convertAV1ToLowOverhead_tokens (data : List Nat) :
    convertAV1ToLowOverhead data =
      ((dedupSequenceHeaders (obuTokens (data.length + 1)
        (data.drop (startCodeOffset data + 3)))).map (fun obu => obu.bytes)).flatten := by
  unfold convertAV1ToLowOverhead
  simp only
  rw [convertPass1_eq, List.nil_append]
  have hdrop : data.drop (findNextNAL data 0) = data.drop (startCodeOffset data + 3) := by
    unfold findNextNAL
    rw [List.drop_zero, Nat.zero_add]
    by_cases hle : startCodeOffset data + 3 ≤ data.length
    · rw [Nat.min_eq_left hle]
    · rw [Nat.min_eq_right (by omega), List.drop_length,
        List.drop_of_length_le (by omega)]
  rw [hdrop]

theorem obuTokens_after_invalid (pre : List Nat) (b : Nat)
    (hb : b &&& 0x80 ≠ 0 ∨ b &&& 0x01 ≠ 0) (r1 r2 : List Nat) :
    obuTokens ((pre ++ 0 :: 0 :: 1 :: b :: r1).length + 1)
        ((pre ++ 0 :: 0 :: 1 :: b :: r1).drop
          (startCodeOffset (pre ++ 0 :: 0 :: 1 :: b :: r1) + 3)) =
      obuTokens ((pre ++ 0 :: 0 :: 1 :: b :: r2).length + 1)
        ((pre ++ 0 :: 0 :: 1 :: b :: r2).drop
          (startCodeOffset (pre ++ 0 :: 0 :: 1 :: b :: r2) + 3)) := by
  obtain ⟨hle, hsame⟩ := startCodeOffset_append pre (b :: r1) (b :: r2)
  rw [← hsame]
  by_cases hlt : startCodeOffset (pre ++ 0 :: 0 :: 1 :: b :: r1) < pre.length
  · have h3 := startCodeOffset_no_overlap pre (b :: r1) hlt
    rw [List.drop_append_of_le_length h3, List.drop_append_of_le_length h3]
    apply obuTokens_suffix b hb pre.length _ (by simp only [List.length_drop]; omega)
    · simp only [List.length_append, List.length_cons]; omega
    · simp only [List.length_append, List.length_cons]; omega
  · have heq : startCodeOffset (pre ++ 0 :: 0 :: 1 :: b :: r1) = pre.length := by omega
    have hd : ∀ r : List Nat, (pre ++ 0 :: 0 :: 1 :: b :: r).drop (pre.length + 3) = b :: r := by
      intro r
      rw [List.drop_append_eq_append_drop, List.drop_of_length_le (by omega)]
      simp
    rw [heq, hd r1, hd r2, obuTokens_invalid b hb, obuTokens_invalid b hb]

/-- C17 (as stated, refuted): in the buffer `SH, X, FRAME` whose second OBU `X` has the
forbidden bit set, the FRAME OBU that follows `X` passes header validation and is not
a temporal delimiter, yet the output holds the sequence header only; without `X` the
FRAME is in the output. -/
theorem invalid_obu_drops_following :
    Av1ObuHeader.parse [0x81, 0x22, 0, 0, 1, 0x32, 0x33] = none ∧
    (Av1ObuHeader.parse [0x32, 0x33]).map (fun r => r.1.obu_type) = some FRAME ∧
    readLowOverheadObus 10 (convertAV1ToLowOverhead
      [0, 0, 1, 0x0A, 0x11, 0, 0, 1, 0x81, 0x22, 0, 0, 1, 0x32, 0x33]) =
        some [(SEQUENCE_HEADER, [0x11])] ∧
    readLowOverheadObus 10 (convertAV1ToLowOverhead
      [0, 0, 1, 0x0A, 0x11, 0, 0, 1, 0x32, 0x33]) =
        some [(SEQUENCE_HEADER, [0x11]), (FRAME, [0x33])] := by
  decide

/-- C17 (amended): when an OBU inside a frame buffer fails OBU-header validation
(forbidden bit or reserved bit set in the byte `b` that follows a start code),
`convertAV1ToLowOverhead` stops scanning at that OBU: the OBUs before it are emitted
as usual, and the offending OBU and everything that follows it in the buffer are
dropped, so the output is the same whatever follows the offending header byte. -/
theorem invalid_obu_ends_scan (pre : List Nat) (b : Nat)
    (hb : b &&& 0x80 ≠ 0 ∨ b &&& 0x01 ≠ 0) (rest : List Nat) :
    convertAV1ToLowOverhead (pre ++ 0 :: 0 :: 1 :: b :: rest) =
      convertAV1ToLowOverhead (pre ++ 0 :: 0 :: 1 :: b :: []) ∧
    ∀ (fuel curObu : Nat) (obus : List ConvertedObu),
      (pre ++ 0 :: 0 :: 1 :: b :: rest).drop curObu = b :: rest →
      convertPass1 (pre ++ 0 :: 0 :: 1 :: b :: rest) fuel curObu obus = obus := by
  constructor
  · rw [convertAV1ToLowOverhead_tokens, convertAV1ToLowOverhead_tokens,
      obuTokens_after_invalid pre b hb rest []]
  · intro fuel curObu obus hdrop
    rw [convertPass1_eq, hdrop, obuTokens_invalid b hb, List.append_nil]

theorem invalid_obu_ends_scan_witness :
    ((0x81 : Nat) &&& 0x80 ≠ 0 ∨ (0x81 : Nat) &&& 0x01 ≠ 0) ∧
    convertAV1ToLowOverhead
        ([0, 0, 1, 0x0A, 0x11] ++ 0 :: 0 :: 1 :: 0x81 :: [0x22, 0, 0, 1, 0x32, 0x33]) =
      [0x0A, 0x01, 0x11] :=
  ⟨by decide,
    (invalid_obu_ends_scan [0, 0, 1, 0x0A, 0x11] 0x81 (by decide)
      [0x22, 0, 0, 1, 0x32, 0x33]).1.trans (by decide)⟩

/-! ### Writing to the file -/

theorem File.write_append (f : File) (bs : List Nat) (h : f.pos = f.data.length) :
    (f.write bs).data = f.data ++ bs ∧ (f.write bs).pos = (f.write bs).data.length ∧
    (f.write bs).pos = f.pos + bs.length := by
  unfold File.write
  simp only [h, Nat.sub_self, List.replicate_zero, List.append_nil, List.take_length]
  refine ⟨?_, ?_, trivial⟩
  · rw [List.drop_of_length_le (by omega), List.append_nil]
  · rw [List.drop_of_length_le (by omega), List.append_nil, List.length_append]

theorem read_append (l x : List Nat) (p n : Nat) (h : p + n ≤ l.length) :
    ((l ++ x).drop p).take n = (l.drop p).take n := by
  rw [List.drop_append_of_le_length (by omega), List.take_append_of_le_length]
  simp only [List.length_drop]
  omega

theorem read_appended (l x : List Nat) : ((l ++ x).drop l.length).take x.length = x := by
  rw [List.drop_left, List.take_length]

/-- Overwriting `bs` in place at position `p` inside the file. -/
theorem File.patch (f : File) (p : Nat) (bs : List Nat) (h : p + bs.length ≤ f.data.length) :
    ((f.seek p).write bs).data = f.data.take p ++ bs ++ f.data.drop (p + bs.length) ∧
    ((f.seek p).write bs).data.length = f.data.length := by
  unfold File.write File.seek
  simp only
  have h1 : p - f.data.length = 0 := by omega
  rw [h1, List.replicate_zero, List.append_nil]
  refine ⟨rfl, ?_⟩
  simp only [List.length_append, List.length_take, List.length_drop]
  omega

theorem read_patch_same (l bs : List Nat) (p : Nat) (h : p + bs.length ≤ l.length) :
    ((l.take p ++ bs ++ l.drop (p + bs.length)).drop p).take bs.length = bs := by
  have hp : (l.take p).length = p := by
    rw [List.length_take]
    omega
  rw [List.append_assoc, List.drop_left' hp, List.take_left' rfl]

theorem read_patch_after (l bs : List Nat) (p q n : Nat) (h : p + bs.length ≤ l.length)
    (hq : p + bs.length ≤ q) :
    ((l.take p ++ bs ++ l.drop (p + bs.length)).drop q).take n = (l.drop q).take n := by
  have hlen : (l.take p ++ bs).length = p + bs.length := by
    rw [List.length_append, List.length_take]
    omega
  obtain ⟨k, rfl⟩ : ∃ k, q = (p + bs.length) + k := ⟨q - (p + bs.length), by omega⟩
  have h1 : (l.take p ++ bs ++ l.drop (p + bs.length)).drop (p + bs.length + k) =
      (l.drop (p + bs.length)).drop k := by
    rw [← List.drop_drop, List.drop_left' hlen]
  rw [h1, List.drop_drop]

/-! ### The invariant is kept by the cluster operations -/

theorem clusterRecord_ok_append (f g : File) (segStart durPos : Int) (r : ClusterRecord)
    (x : List Nat) (hg : g.data = f.data ++ x) (h : r.Ok f segStart durPos) :
    r.Ok g segStart durPos := by
  obtain ⟨h1, h2, h3, h4, h5, h6⟩ := h
  refine ⟨h1, h2, h3, h4, h5, ?_⟩
  have hlen := congrArg List.length h6
  have hpos : 0 < r.header.length := by
    rw [h1]
    simp
  simp only [List.length_take, List.length_drop, List.length_append] at hlen
  rw [hg, read_append _ _ _ _ (by omega)]
  exact h6

theorem clusterContent_ne_nil (ts : Int) (blocks : List SimpleBlock) :
    clusterContent ts blocks ≠ [] := by
  unfold clusterContent ebml_write_uint
  have : ebml_write_id MATROSKA_ID_CLUSTERTIMECODE = [0xE7] := by decide
  rw [this]
  simp

theorem viewOk_flushCluster (s : MatroskaMuxer) (h : ViewOk s.view) :
    ViewOk s.flushCluster.view ∧ s.flushCluster.m_clusterOpen = false := by
  cases hopen : s.m_clusterOpen with
  | false =>
    rw [flushCluster_closed s hopen]
    exact ⟨h, hopen⟩
  | true =>
    obtain ⟨hbuf, hstart, hcts⟩ := h.open_buf hopen
    have hne : s.m_clusterBuf ≠ [] := by
      have : s.m_clusterBuf = clusterContent s.m_clusterTimecodeMs s.clusterBlocks := hbuf
      rw [this]
      exact clusterContent_ne_nil _ _
    rw [flushCluster_open s hopen hne]
    refine ⟨?_, rfl⟩
    have hseq : s.m_file.pos = s.m_file.data.length := h.file_seq
    obtain ⟨w1, w2, w3⟩ := File.write_append s.m_file s.clusterRecord.header hseq
    obtain ⟨x1, x2, x3⟩ := File.write_append (s.m_file.write s.clusterRecord.header)
      s.m_clusterBuf w2
    have hdata : ((s.m_file.write s.clusterRecord.header).write s.m_clusterBuf).data =
        s.m_file.data ++ (s.clusterRecord.header ++ s.m_clusterBuf) := by
      rw [x1, w1, List.append_assoc]
    have hdur := h.dur
    constructor
    · exact x2
    · exact h.seg
    · refine ⟨hdur.1, ?_, ?_⟩
      · show s.m_durationValueFilePos + 8 ≤
          (((s.m_file.write s.clusterRecord.header).write s.m_clusterBuf).pos : Int)
        have := hdur.2.1
        have h0 : s.view.durPos = s.m_durationValueFilePos := rfl
        have h1 : s.view.file.pos = s.m_file.pos := rfl
        rw [h0, h1] at this
        rw [x3, w3]
        push_cast
        omega
      · have hd8 : s.m_durationValueFilePos + 8 ≤ (s.m_file.pos : Int) := hdur.2.1
        have hd0 : s.m_segmentStartPos + 3 ≤ s.m_durationValueFilePos := hdur.1
        have hsg : s.m_segmentSizePos + 8 = s.m_segmentStartPos := h.seg.2
        have hs0 : 0 ≤ s.m_segmentSizePos := h.seg.1
        constructor
        · show (((s.m_file.write s.clusterRecord.header).write s.m_clusterBuf).data.drop
            s.m_durationValueFilePos.toNat).take 8 = writeBE 0 8
          rw [hdata, read_append _ _ _ _ (by omega)]
          exact hdur.2.2.1
        · show (((s.m_file.write s.clusterRecord.header).write s.m_clusterBuf).data.drop
            (s.m_durationValueFilePos.toNat - 3)).take 3 = _
          rw [hdata, read_append _ _ _ _ (by omega)]
          exact hdur.2.2.2
    · intro hc
      exact absurd hc Bool.false_ne_true
    · intro _
      rfl
    · intro r hr
      rcases List.mem_append.mp hr with hr | hr
      · exact clusterRecord_ok_append s.m_file _ _ _ r _ hdata (h.log_ok r hr)
      · rw [List.mem_singleton] at hr
        subst hr
        refine ⟨?_, hbuf, hcts, hstart, ?_, ?_⟩
        · show ebml_write_id MATROSKA_ID_CLUSTER ++ ebml_write_size s.m_clusterBuf.length = _
          rw [ebml_write_id_cluster]
          rfl
        · exact hdur.2.1
        · show (((s.m_file.write s.clusterRecord.header).write s.m_clusterBuf).data.drop
              s.m_file.pos).take (s.clusterRecord.header.length + s.m_clusterBuf.length) = _
          rw [hdata, hseq, ← List.length_append]
          exact read_appended _ _
    · show s.blockLog = ((s.clusterLog ++ [s.clusterRecord]).map (fun r => r.blocks)).flatten ++ []
      have := h.block_log
      rw [List.map_append, List.flatten_append, List.append_nil]
      simpa using this
    · exact h.rel_time
    · intro cue hcue
      rcases h.cues_ok cue hcue with ⟨r, hr, h1, h2⟩ | ⟨-, h1, h2⟩
      · exact Or.inl ⟨r, List.mem_append_left _ hr, h1, h2⟩
      · exact Or.inl ⟨s.clusterRecord, List.mem_append_right _ (List.mem_singleton_self _),
          h1, h2⟩

theorem viewOk_startCluster (s : MatroskaMuxer) (ts : Int) (h : ViewOk s.view) :
    ViewOk (s.startCluster ts).view ∧ (s.startCluster ts).m_clusterOpen = true ∧
    (s.startCluster ts).m_clusterTimecodeMs = ts := by
  have key : ∀ s1 : MatroskaMuxer, ViewOk s1.view → s1.m_clusterOpen = false →
      ViewOk ({ s1 with
        m_clusterTimecodeMs := ts, m_clusterOpen := true,
        m_clusterStartFilePos := (s1.m_file.pos : Int) - s1.m_segmentStartPos,
        m_clusterBuf := ebml_write_uint MATROSKA_ID_CLUSTERTIMECODE (toUInt64 ts),
        m_clusterDataSize := (ebml_write_uint MATROSKA_ID_CLUSTERTIMECODE (toUInt64 ts)).length,
        clusterBlocks := [] } : MatroskaMuxer).view := by
    intro s1 h1 hc
    constructor
    · exact h1.file_seq
    · exact h1.seg
    · exact h1.dur
    · intro _
      refine ⟨?_, rfl, fun b hb => absurd hb (List.not_mem_nil _)⟩
      show ebml_write_uint MATROSKA_ID_CLUSTERTIMECODE (toUInt64 ts) = clusterContent ts []
      unfold clusterContent
      simp
    · intro _
      rfl
    · exact h1.log_ok
    · have := h1.block_log
      have hb : s1.view.blocks = [] := h1.closed_blocks hc
      rw [hb] at this
      exact this
    · exact h1.rel_time
    · intro cue hcue
      rcases h1.cues_ok cue hcue with hl | ⟨ho, -, -⟩
      · exact Or.inl hl
      · have : s1.m_clusterOpen = true := ho
        rw [hc] at this
        exact absurd this Bool.false_ne_true
  cases hopen : s.m_clusterOpen with
  | false =>
    rw [startCluster_closed s hopen]
    exact ⟨key s h hopen, rfl, rfl⟩
  | true =>
    obtain ⟨hf, hcl⟩ := viewOk_flushCluster s h
    have hdef : s.startCluster ts =
        { s.flushCluster with
          m_clusterTimecodeMs := ts, m_clusterOpen := true,
          m_clusterStartFilePos := (s.flushCluster.m_file.pos : Int) -
            s.flushCluster.m_segmentStartPos,
          m_clusterBuf := ebml_write_uint MATROSKA_ID_CLUSTERTIMECODE (toUInt64 ts),
          m_clusterDataSize := (ebml_write_uint MATROSKA_ID_CLUSTERTIMECODE (toUInt64 ts)).length,
          clusterBlocks := [] } := by
      unfold MatroskaMuxer.startCluster
      rw [if_pos hopen]
    rw [hdef]
    exact ⟨key _ hf hcl, rfl, rfl⟩

/-- Appending a block (and the cue entries that point to it) to the open cluster. -/
theorem viewOk_append (v : ClusterView) (h : ViewOk v) (hopen : v.isOpen = true)
    (b : SimpleBlock) (hcts : b.clusterTimecodeMs = v.cts)
    (hrel : b.relTimeMs = ((b.relMs - b.clusterTimecodeMs) % 65536).toNat)
    (cues : List CueEntry)
    (hcues : ∀ cue ∈ cues, cue.clusterOffset = v.startPos ∧ CueBlock cue b) :
    ViewOk { v with
      buf := v.buf ++ b.bytes, blocks := v.blocks ++ [b], blockLog := v.blockLog ++ [b],
      cues := v.cues ++ cues } := by
  obtain ⟨hbuf, hstart, hall⟩ := h.open_buf hopen
  constructor
  · exact h.file_seq
  · exact h.seg
  · exact h.dur
  · intro _
    refine ⟨?_, hstart, ?_⟩
    · show v.buf ++ b.bytes = clusterContent v.cts (v.blocks ++ [b])
      rw [hbuf]
      unfold clusterContent
      simp
    · intro x hx
      rcases List.mem_append.mp hx with hx | hx
      · exact hall x hx
      · rw [List.mem_singleton] at hx
        rw [hx]
        exact hcts
  · intro hc
    have : v.isOpen = false := hc
    rw [hopen] at this
    exact absurd this.symm Bool.false_ne_true
  · exact h.log_ok
  · show v.blockLog ++ [b] = (v.log.map (fun r => r.blocks)).flatten ++ (v.blocks ++ [b])
    rw [h.block_log, List.append_assoc]
  · intro x hx
    rcases List.mem_append.mp hx with hx | hx
    · exact h.rel_time x hx
    · rw [List.mem_singleton] at hx
      rw [hx]
      exact hrel
  · intro cue hcue
    rcases List.mem_append.mp hcue with hcue | hcue
    · rcases h.cues_ok cue hcue with hl | ⟨ho, h1, x, hx, h2⟩
      · exact Or.inl hl
      · exact Or.inr ⟨ho, h1, x, List.mem_append_left _ hx, h2⟩
    · obtain ⟨h1, h2⟩ := hcues cue hcue
      exact Or.inr ⟨hopen, h1.symm, b, List.mem_append_right _ (List.mem_singleton_self _), h2⟩

theorem flagsByte_key (env : Env) (flags : Nat) (h : flags &&& env.IS_IFRAME ≠ 0) :
    flagsByte env flags = 0x80 := by
  unfold flagsByte
  rw [if_pos h]

theorem viewOk_flushPendingFrame (env : Env) (s : MatroskaMuxer) (track : MkvTrackInfo)
    (h : ViewOk s.view) : ViewOk (s.flushPendingFrame env track).1.view := by
  by_cases hp : track.hasPendingFrame = true ∧ track.pendingFrameData ≠ []
  · obtain ⟨hp1, hp2⟩ := hp
    -- the state after the new-cluster decision
    obtain ⟨s2, hs2⟩ : ∃ s2 : MatroskaMuxer, s2 =
        if NewClusterCondition env s track (s.frameRelMs track) then
          ({ s with m_lastTimecodeMs := max s.m_lastTimecodeMs (s.frameRelMs track) } :
            MatroskaMuxer).startCluster (s.frameRelMs track)
        else { s with m_lastTimecodeMs := max s.m_lastTimecodeMs (s.frameRelMs track) } :=
      ⟨_, rfl⟩
    have hsch := scheduleFrame_eq env s track (s.frameRelMs track) s2 hs2
    have h1 : ViewOk ({ s with m_lastTimecodeMs := max s.m_lastTimecodeMs (s.frameRelMs track) } :
        MatroskaMuxer).view := h
    have h2 : ViewOk s2.view ∧ s2.m_clusterOpen = true := by
      rw [hs2]
      by_cases hc : NewClusterCondition env s track (s.frameRelMs track)
      · rw [if_pos hc]
        exact ⟨(viewOk_startCluster _ _ h1).1, (viewOk_startCluster _ _ h1).2.1⟩
      · rw [if_neg hc]
        refine ⟨h1, ?_⟩
        cases ho : s.m_clusterOpen with
        | true => rfl
        | false => exact absurd (Or.inl ho) hc
    have hcts : (pendingBlock env s track).clusterTimecodeMs = s2.m_clusterTimecodeMs := by
      show (s.scheduleFrame env track (s.frameRelMs track)).m_clusterTimecodeMs = _
      rw [hsch]
    rw [flushPendingFrame_pending env s track hp1 hp2 _ rfl, hsch]
    refine viewOk_append _ h2.1 h2.2 (pendingBlock env s track) hcts rfl _ ?_
    intro cue hcue
    unfold cueOf at hcue
    split_ifs at hcue with hk
    · rw [List.mem_singleton] at hcue
      subst hcue
      exact ⟨rfl, rfl, rfl, flagsByte_key env _ hk.2⟩
    · exact absurd hcue (List.not_mem_nil _)
  · have hc : (!track.hasPendingFrame || track.pendingFrameData.isEmpty) = true := by
      by_contra hcon
      apply hp
      simp only [Bool.or_eq_true, Bool.not_eq_true', List.isEmpty_iff, not_or,
        Bool.not_eq_false] at hcon
      exact hcon
    have hdef : s.flushPendingFrame env track =
        (s, { track with hasPendingFrame := false, pendingFrameData := [] }) := by
      unfold MatroskaMuxer.flushPendingFrame
      rw [if_pos hc]
    rw [hdef]
    exact h

theorem viewOk_muxPacketInternal (env : Env) (s : MatroskaMuxer) (p : AVPacket)
    (h : ViewOk s.view) : ViewOk (s.muxPacketInternal env p).view := by
  unfold MatroskaMuxer.muxPacketInternal
  cases hf : findTrack s.m_tracks p.stream_index with
  | none => exact h
  | some track =>
    simp only
    split_ifs
    · exact viewOk_flushPendingFrame env s track h
    · exact h

theorem viewOk_foldl_internal (env : Env) (ps : List AVPacket) :
    ∀ s : MatroskaMuxer, ViewOk s.view →
      ViewOk (ps.foldl (fun acc p => acc.muxPacketInternal env p) s).view := by
  induction ps with
  | nil => intro s h; exact h
  | cons p rest ih =>
    intro s h
    rw [List.foldl_cons]
    exact ih _ (viewOk_muxPacketInternal env s p h)

theorem viewOk_flushTracks (env : Env) (ts : List MkvTrackInfo) :
    ∀ s : MatroskaMuxer, ViewOk s.view → ViewOk (flushTracks env s ts).1.view := by
  induction ts with
  | nil => intro s h; exact h
  | cons t rest ih =>
    intro s h
    rw [flushTracks]
    exact ih _ (viewOk_flushPendingFrame env s t h)

/-! ### The invariant holds once the header is written -/

theorem writeToFile_eq (s : MatroskaMuxer) (data : List Nat) :
    s.writeToFile data = { s with m_file := s.fileAfterWrite data } := by
  unfold MatroskaMuxer.writeToFile MatroskaMuxer.fileAfterWrite
  split_ifs <;> rfl

theorem fileAfterWrite_data (s : MatroskaMuxer) (data : List Nat)
    (h : s.m_file.pos = s.m_file.data.length) :
    (s.fileAfterWrite data).data = s.m_file.data ++ data ∧
    (s.fileAfterWrite data).pos = (s.fileAfterWrite data).data.length := by
  unfold MatroskaMuxer.fileAfterWrite
  split_ifs with hlen
  · exact ⟨(File.write_append _ _ h).1, (File.write_append _ _ h).2.1⟩
  · have : data = [] := List.length_eq_zero.mp (by omega)
    subst this
    exact ⟨by simp, h⟩

/-- Two writes in a row, as `writeSegmentInfo`, `writeTracks`, `writeCues` and
`writeSeekHead` do them. -/
theorem writeToFile_twice (s : MatroskaMuxer) (a b : List Nat)
    (h : s.m_file.pos = s.m_file.data.length) :
    ∃ f : File, (s.writeToFile a).writeToFile b = { s with m_file := f } ∧
      f.data = s.m_file.data ++ (a ++ b) ∧ f.pos = f.data.length := by
  obtain ⟨h1, h2⟩ := fileAfterWrite_data s a h
  have hs1 : (s.writeToFile a).m_file.pos = (s.writeToFile a).m_file.data.length := by
    rw [writeToFile_eq]
    exact h2
  obtain ⟨h3, h4⟩ := fileAfterWrite_data (s.writeToFile a) b hs1
  refine ⟨(s.writeToFile a).fileAfterWrite b, ?_, ?_, h4⟩
  · rw [writeToFile_eq (s.writeToFile a) b, writeToFile_eq s a]
  · rw [h3, writeToFile_eq, ← List.append_assoc]
    show (s.fileAfterWrite a).data ++ b = _
    rw [h1]

/-- Appending to the file while no cluster is open keeps the invariant. -/
theorem viewOk_append_file (s : MatroskaMuxer) (f : File) (x : List Nat)
    (h : ViewOk s.view) (hc : s.m_clusterOpen = false)
    (hd : f.data = s.m_file.data ++ x) (hp : f.pos = f.data.length) :
    ViewOk ({ s with m_file := f } : MatroskaMuxer).view := by
  have hdur := h.dur
  have hseq : s.m_file.pos = s.m_file.data.length := h.file_seq
  have hpos : (s.m_file.pos : Int) ≤ (f.pos : Int) := by
    rw [hp, hd, hseq, List.length_append]
    push_cast
    omega
  constructor
  · exact hp
  · exact h.seg
  · have hd8 : s.m_durationValueFilePos + 8 ≤ (s.m_file.pos : Int) := hdur.2.1
    have hd0 : s.m_segmentStartPos + 3 ≤ s.m_durationValueFilePos := hdur.1
    have hsg : s.m_segmentSizePos + 8 = s.m_segmentStartPos := h.seg.2
    have hs0 : 0 ≤ s.m_segmentSizePos := h.seg.1
    refine ⟨hdur.1, le_trans hdur.2.1 hpos, ?_, ?_⟩
    · show (f.data.drop s.m_durationValueFilePos.toNat).take 8 = writeBE 0 8
      rw [hd, read_append _ _ _ _ (by omega)]
      exact hdur.2.2.1
    · show (f.data.drop (s.m_durationValueFilePos.toNat - 3)).take 3 = _
      rw [hd, read_append _ _ _ _ (by omega)]
      exact hdur.2.2.2
  · intro ho
    have : s.m_clusterOpen = true := ho
    rw [hc] at this
    exact absurd this Bool.false_ne_true
  · exact h.closed_blocks
  · intro r hr
    exact clusterRecord_ok_append s.m_file f _ _ r x hd (h.log_ok r hr)
  · exact h.block_log
  · exact h.rel_time
  · intro cue hcue
    rcases h.cues_ok cue hcue with hl | ⟨ho, -, -⟩
    · exact Or.inl hl
    · have : s.m_clusterOpen = true := ho
      rw [hc] at this
      exact absurd this Bool.false_ne_true

theorem read_nested (a h c x : List Nat) (k n : Nat) (hk : k + n ≤ c.length) :
    (((a ++ (h ++ c)) ++ x).drop (a.length + (h.length + k))).take n = (c.drop k).take n := by
  have e : (a ++ (h ++ c)) ++ x = a ++ (h ++ (c ++ x)) := by simp
  rw [e, List.drop_append, List.drop_append, read_append _ _ _ _ hk]

theorem segmentInfo_layout :
    segmentInfoHeader.length = 5 ∧ segmentInfoContent.length = 38 ∧
    (ebml_write_uint MATROSKA_ID_TIMECODESCALE 1000000).length = 7 ∧
    (segmentInfoContent.drop 7).take 3 = [0x44, 0x89, 0x88] ∧
    (segmentInfoContent.drop 10).take 8 = writeBE 0 8 := by
  decide

theorem writeSegmentInfo_eq (s : MatroskaMuxer) (h : s.m_file.pos = s.m_file.data.length) :
    ∃ f : File,
      s.writeSegmentInfo =
        { s with
          m_segmentInfoPos := (s.m_file.pos : Int) - s.m_segmentStartPos,
          m_durationValueFilePos := (s.m_file.data.length : Int) + 15,
          m_file := f } ∧
      f.data = s.m_file.data ++ (segmentInfoHeader ++ segmentInfoContent) ∧
      f.pos = f.data.length := by
  obtain ⟨l1, l2, l3, -, -⟩ := segmentInfo_layout
  obtain ⟨h1, h2⟩ := fileAfterWrite_data s segmentInfoHeader h
  have hs2 : ∀ x : Int, (({ s with m_segmentInfoPos := x } : MatroskaMuxer).writeToFile
      segmentInfoHeader).m_file = s.fileAfterWrite segmentInfoHeader := by
    intro x
    rw [writeToFile_eq]
    rfl
  refine ⟨({ ({ s with m_segmentInfoPos := (s.m_file.pos : Int) - s.m_segmentStartPos } :
        MatroskaMuxer).writeToFile segmentInfoHeader with
      m_durationValueFilePos := (s.m_file.data.length : Int) + 15 } :
        MatroskaMuxer).fileAfterWrite segmentInfoContent, ?_, ?_, ?_⟩
  · unfold MatroskaMuxer.writeSegmentInfo
    simp only
    have hpos : ((({ s with m_segmentInfoPos := (s.m_file.pos : Int) - s.m_segmentStartPos } :
        MatroskaMuxer).writeToFile segmentInfoHeader).m_file.pos : Int) +
        ((ebml_write_uint MATROSKA_ID_TIMECODESCALE 1000000).length : Int) + 3 =
        (s.m_file.data.length : Int) + 15 := by
      rw [hs2, h2, h1, List.length_append, l1, l3]
      push_cast
      omega
    show (({ ({ s with m_segmentInfoPos := (s.m_file.pos : Int) - s.m_segmentStartPos } :
        MatroskaMuxer).writeToFile segmentInfoHeader with
      m_durationValueFilePos :=
        ((({ s with m_segmentInfoPos := (s.m_file.pos : Int) - s.m_segmentStartPos } :
          MatroskaMuxer).writeToFile segmentInfoHeader).m_file.pos : Int) +
          ((ebml_write_uint MATROSKA_ID_TIMECODESCALE 1000000).length : Int) + 3 } :
        MatroskaMuxer).writeToFile segmentInfoContent) = _
    rw [hpos, writeToFile_eq, writeToFile_eq]
  · have hseq2 : (({ ({ s with m_segmentInfoPos := (s.m_file.pos : Int) - s.m_segmentStartPos } :
        MatroskaMuxer).writeToFile segmentInfoHeader with
      m_durationValueFilePos := (s.m_file.data.length : Int) + 15 } :
        MatroskaMuxer)).m_file.pos = _ := (hs2 _).symm ▸ h2
    rw [(fileAfterWrite_data _ segmentInfoContent hseq2).1]
    show (({ s with m_segmentInfoPos := (s.m_file.pos : Int) - s.m_segmentStartPos } :
        MatroskaMuxer).writeToFile segmentInfoHeader).m_file.data ++ segmentInfoContent = _
    rw [hs2, h1, List.append_assoc]
  · have hseq2 : (({ ({ s with m_segmentInfoPos := (s.m_file.pos : Int) - s.m_segmentStartPos } :
        MatroskaMuxer).writeToFile segmentInfoHeader with
      m_durationValueFilePos := (s.m_file.data.length : Int) + 15 } :
        MatroskaMuxer)).m_file.pos = _ := (hs2 _).symm ▸ h2
    exact (fileAfterWrite_data _ segmentInfoContent hseq2).2

theorem viewOk_writeDeferredHeader (env : Env) (s : MatroskaMuxer) (h : PreHeaderOk s) :
    ViewOk (s.writeDeferredHeader env).view ∧
    (s.writeDeferredHeader env).m_lastTimecodeMs = 0 := by
  obtain ⟨p1, p2, p3, p4, p5, p6, p7, p8, p9, p10⟩ := h
  obtain ⟨l1, l2, l3, l4, l5⟩ := segmentInfo_layout
  obtain ⟨f1, e1, d1, q1⟩ := writeSegmentInfo_eq
    ({ ({ s with m_tracks := s.m_tracks.map (refreshTrack env) } : MatroskaMuxer) with
      m_tracks := (s.m_tracks.map (refreshTrack env)).map (buildCodecPrivate env) }) p7
  have d1' : f1.data = s.m_file.data ++ (segmentInfoHeader ++ segmentInfoContent) := d1
  unfold MatroskaMuxer.writeDeferredHeader
  simp only
  rw [e1]
  unfold MatroskaMuxer.writeTracks
  simp only
  obtain ⟨f2, e2, d2, q2⟩ := writeToFile_twice
    ({ ({ ({ ({ s with m_tracks := s.m_tracks.map (refreshTrack env) } : MatroskaMuxer) with
        m_tracks := (s.m_tracks.map (refreshTrack env)).map (buildCodecPrivate env) } :
          MatroskaMuxer) with
        m_segmentInfoPos := (s.m_file.pos : Int) - s.m_segmentStartPos,
        m_durationValueFilePos := (s.m_file.data.length : Int) + 15,
        m_file := f1 } : MatroskaMuxer) with
      m_tracksPos := (f1.pos : Int) - s.m_segmentStartPos })
    (ebml_write_id MATROSKA_ID_TRACKS ++ ebml_write_size
      ((((s.m_tracks.map (refreshTrack env)).map (buildCodecPrivate env)).map (fun track =>
        ebml_write_id MATROSKA_ID_TRACKENTRY ++ ebml_write_size (buildTrackEntry env track).length
          ++ buildTrackEntry env track)).flatten).length)
    ((((s.m_tracks.map (refreshTrack env)).map (buildCodecPrivate env)).map (fun track =>
        ebml_write_id MATROSKA_ID_TRACKENTRY ++ ebml_write_size (buildTrackEntry env track).length
          ++ buildTrackEntry env track)).flatten) q1
  have d2' : ∃ x, f2.data = s.m_file.data ++ (segmentInfoHeader ++ segmentInfoContent) ++ x :=
    ⟨_, by rw [d2]; show f1.data ++ _ = _; rw [d1']⟩
  obtain ⟨x, hx⟩ := d2'
  have e2' := e2
  refine ⟨?_, ?_⟩
  · rw [e2']
    constructor
    · exact q2
    · exact ⟨p8, p9⟩
    · refine ⟨?_, ?_, ?_, ?_⟩
      · show s.m_segmentStartPos + 3 ≤ (s.m_file.data.length : Int) + 15
        rw [p7] at p10
        omega
      · show (s.m_file.data.length : Int) + 15 + 8 ≤ (f2.pos : Int)
        rw [q2, hx]
        simp only [List.length_append, l1, l2]
        push_cast
        omega
      · show (f2.data.drop ((s.m_file.data.length : Int) + 15).toNat).take 8 = writeBE 0 8
        have hnat : ((s.m_file.data.length : Int) + 15).toNat = s.m_file.data.length + 15 := by
          omega
        have h5 : s.m_file.data.length + 15 =
            s.m_file.data.length + (segmentInfoHeader.length + 10) := by rw [l1]
        rw [hnat, hx, h5, read_nested _ _ _ _ _ _ (by rw [l2]; decide)]
        exact l5
      · show (f2.data.drop (((s.m_file.data.length : Int) + 15).toNat - 3)).take 3 = _
        have hnat : ((s.m_file.data.length : Int) + 15).toNat - 3 =
            s.m_file.data.length + (segmentInfoHeader.length + 7) := by
          rw [l1]
          omega
        rw [hnat, hx, read_nested _ _ _ _ _ _ (by rw [l2]; decide)]
        exact l4
    · intro ho
      have : s.m_clusterOpen = true := ho
      rw [p1] at this
      exact absurd this Bool.false_ne_true
    · intro _
      exact p2
    · intro r hr
      have : r ∈ s.clusterLog := hr
      rw [p3] at this
      exact absurd this (List.not_mem_nil _)
    · show s.blockLog = (s.clusterLog.map (fun r => r.blocks)).flatten ++ s.clusterBlocks
      rw [p4, p3, p2]
      rfl
    · intro b hb
      have : b ∈ s.blockLog := hb
      rw [p4] at this
      exact absurd this (List.not_mem_nil _)
    · intro cue hcue
      have : cue ∈ s.m_cueEntries := hcue
      rw [p5] at this
      exact absurd this (List.not_mem_nil _)
  · rw [e2']
    exact p6

/-! ### The invariant along a session -/

theorem maxRelMs_snoc (blocks : List SimpleBlock) (b : SimpleBlock) :
    maxRelMs (blocks ++ [b]) = max (maxRelMs blocks) b.relMs := by
  unfold maxRelMs
  rw [List.map_append, List.foldl_append]
  rfl

theorem flushCluster_last (s : MatroskaMuxer) :
    s.flushCluster.m_lastTimecodeMs = s.m_lastTimecodeMs := by
  unfold MatroskaMuxer.flushCluster
  split_ifs
  · rfl
  · simp only
    rw [writeToFile_eq, writeToFile_eq]

theorem startCluster_last (s : MatroskaMuxer) (ts : Int) :
    (s.startCluster ts).m_lastTimecodeMs = s.m_lastTimecodeMs := by
  unfold MatroskaMuxer.startCluster
  simp only
  split_ifs
  · exact flushCluster_last s
  · rfl

theorem flushPendingFrame_last (env : Env) (s : MatroskaMuxer) (track : MkvTrackInfo)
    (h : s.m_lastTimecodeMs = maxRelMs s.blockLog) :
    (s.flushPendingFrame env track).1.m_lastTimecodeMs =
      maxRelMs (s.flushPendingFrame env track).1.blockLog := by
  obtain ⟨-, -, -, -, -, -, -, g8⟩ := flushPendingFrame_spec env s track
  rw [g8]
  by_cases hp : track.hasPendingFrame = true ∧ track.pendingFrameData ≠ []
  · rw [if_pos hp, maxRelMs_snoc, ← h,
      flushPendingFrame_pending env s track hp.1 hp.2 _ rfl,
      scheduleFrame_eq env s track (s.frameRelMs track) _ rfl]
    show (if NewClusterCondition env s track (s.frameRelMs track) then
          ({ s with m_lastTimecodeMs := max s.m_lastTimecodeMs (s.frameRelMs track) } :
            MatroskaMuxer).startCluster (s.frameRelMs track)
        else { s with m_lastTimecodeMs := max s.m_lastTimecodeMs (s.frameRelMs track) }
          ).m_lastTimecodeMs = max s.m_lastTimecodeMs (s.frameRelMs track)
    split_ifs
    · rw [startCluster_last]
    · rfl
  · rw [if_neg hp]
    have hc : (!track.hasPendingFrame || track.pendingFrameData.isEmpty) = true := by
      by_contra hcon
      apply hp
      simp only [Bool.or_eq_true, Bool.not_eq_true', List.isEmpty_iff, not_or,
        Bool.not_eq_false] at hcon
      exact hcon
    have hdef : s.flushPendingFrame env track =
        (s, { track with hasPendingFrame := false, pendingFrameData := [] }) := by
      unfold MatroskaMuxer.flushPendingFrame
      rw [if_pos hc]
    rw [hdef]
    exact h

theorem sessionOk_flushPendingFrame (env : Env) (s : MatroskaMuxer) (track : MkvTrackInfo)
    (h : SessionOk s) : SessionOk (s.flushPendingFrame env track).1 :=
  ⟨viewOk_flushPendingFrame env s track h.1, flushPendingFrame_last env s track h.2⟩

theorem sessionOk_muxPacketInternal (env : Env) (s : MatroskaMuxer) (p : AVPacket)
    (h : SessionOk s) : SessionOk (s.muxPacketInternal env p) := by
  unfold MatroskaMuxer.muxPacketInternal
  cases hf : findTrack s.m_tracks p.stream_index with
  | none => exact h
  | some track =>
    simp only
    split_ifs
    · exact sessionOk_flushPendingFrame env s track h
    · exact h

theorem sessionOk_foldl_internal (env : Env) (ps : List AVPacket) :
    ∀ s : MatroskaMuxer, SessionOk s →
      SessionOk (ps.foldl (fun acc p => acc.muxPacketInternal env p) s) := by
  induction ps with
  | nil => intro s h; exact h
  | cons p rest ih =>
    intro s h
    rw [List.foldl_cons]
    exact ih _ (sessionOk_muxPacketInternal env s p h)

theorem sessionOk_flushAllPendingFrames (env : Env) (s : MatroskaMuxer) (h : SessionOk s) :
    SessionOk (s.flushAllPendingFrames env) := by
  have key : ∀ (ts : List MkvTrackInfo) (s : MatroskaMuxer), SessionOk s →
      SessionOk (flushTracks env s ts).1 := by
    intro ts
    induction ts with
    | nil => intro s h; exact h
    | cons t rest ih =>
      intro s h
      rw [flushTracks]
      exact ih _ (sessionOk_flushPendingFrame env s t h)
  exact key s.m_tracks s h

theorem sessionOk_replay (env : Env) (s : MatroskaMuxer) (h : SessionOk s) :
    SessionOk (s.replayBufferedPackets env) := by
  by_cases hp : s.m_preHeaderPackets = []
  · rw [replayBufferedPackets_nil env s hp]
    exact h
  · rw [replayBufferedPackets_eq env s hp, ← List.foldl_map]
    exact sessionOk_foldl_internal env _ _ h

theorem sessionOk_header (env : Env) (s : MatroskaMuxer) (h : PreHeaderOk s) :
    SessionOk (s.writeDeferredHeader env) := by
  obtain ⟨h1, h2⟩ := viewOk_writeDeferredHeader env s h
  refine ⟨h1, ?_⟩
  rw [h2, (writeDeferredHeader_fields env s).2.1, h.2.2.2.1]
  rfl

theorem preHeaderOk_of_start (s : MatroskaMuxer) (h : SessionStart s)
    (seen : List Int) (pre : List BufferedPacket) :
    PreHeaderOk { s with m_seenStreams := seen, m_preHeaderPackets := pre } := by
  obtain ⟨a, c1, c2, c3, c4, c5, c6, c7, c8, c9⟩ := h
  exact ⟨c1, c2, c3, a.2.2.2.1, c4, c5, c6, c7, c8, le_of_eq c9⟩

/-- After the header commit the session invariant holds, whatever packets follow. -/
theorem session_ok (env : Env) (s : MatroskaMuxer) (h : SessionStart s)
    (ps : List AVPacket) :
    (ps.foldl (fun acc p => acc.muxPacket env p) s).m_headerWritten = true →
      SessionOk (ps.foldl (fun acc p => acc.muxPacket env p) s) := by
  induction ps using List.reverseRecOn with
  | nil =>
    intro hw
    simp only [List.foldl_nil] at hw
    rw [h.1.1] at hw
    exact absurd hw (by decide)
  | append_singleton l p ih =>
    obtain ⟨p1, p2, p3⟩ := awaiting_phase env s h.1 l
    have hcongr := accepted_congr s.m_tracks _ p p1
    rw [List.foldl_append, List.foldl_cons, List.foldl_nil]
    intro hw''
    cases hw : (l.foldl (fun acc p => acc.muxPacket env p) s).m_headerWritten with
    | true =>
      have hinv := ih hw
      obtain ⟨hset, -⟩ := p3 hw
      by_cases hacc : p.accepted s.m_tracks = true
      · rw [muxPacket_written env _ p (by rw [hcongr]; exact hacc) hw hset]
        exact sessionOk_muxPacketInternal env _ p hinv
      · have hacc' : p.accepted s.m_tracks = false := by
          cases hv : p.accepted s.m_tracks
          · rfl
          · exact absurd hv hacc
        rw [muxPacket_not_accepted env _ p (by rw [hcongr]; exact hacc')]
        exact hinv
    | false =>
      obtain ⟨heq, hlt⟩ := p2 hw
      have hacc : p.accepted s.m_tracks = true := by
        cases hv : p.accepted s.m_tracks
        · exfalso
          rw [muxPacket_not_accepted env _ p (by rw [hcongr]; exact hv), hw] at hw''
          exact absurd hw'' (by decide)
        · rfl
      have htr : (l.foldl (fun acc p => acc.muxPacket env p) s).m_tracks = s.m_tracks := by
        rw [heq]
      rw [muxPacket_buffer env _ p (by rw [htr]; exact hacc) hw] at hw'' ⊢
      by_cases hge : ((l.foldl (fun acc p => acc.muxPacket env p) s).bufferPacket p).m_seenStreams.length
          ≥ (l.foldl (fun acc p => acc.muxPacket env p) s).m_tracks.length
      · rw [if_pos hge]
        apply sessionOk_replay
        apply sessionOk_header
        rw [heq]
        exact preHeaderOk_of_start s h _ _
      · rw [if_neg hge] at hw''
        have : ((l.foldl (fun acc p => acc.muxPacket env p) s).bufferPacket p).m_headerWritten =
            false := hw
        rw [this] at hw''
        exact absurd hw'' (by decide)

/-- At `close` the header is written if it was not, and the session invariant holds
for the state whose pending frames `close` goes on to flush. -/
theorem session_ok_at_close (env : Env) (s : MatroskaMuxer) (h : SessionStart s)
    (ps : List AVPacket) :
    SessionOk (if !(ps.foldl (fun acc p => acc.muxPacket env p) s).m_headerWritten &&
        !(ps.foldl (fun acc p => acc.muxPacket env p) s).m_tracks.isEmpty then
      ((ps.foldl (fun acc p => acc.muxPacket env p) s).writeDeferredHeader
        env).replayBufferedPackets env
      else ps.foldl (fun acc p => acc.muxPacket env p) s) := by
  obtain ⟨p1, p2, p3⟩ := awaiting_phase env s h.1 ps
  cases hw : (ps.foldl (fun acc p => acc.muxPacket env p) s).m_headerWritten with
  | true =>
    simp only [Bool.not_true, Bool.false_and, Bool.false_eq_true, if_false]
    exact session_ok env s h ps hw
  | false =>
    obtain ⟨heq, -⟩ := p2 hw
    have htr : (ps.foldl (fun acc p => acc.muxPacket env p) s).m_tracks = s.m_tracks := by
      rw [heq]
    have hne : (ps.foldl (fun acc p => acc.muxPacket env p) s).m_tracks.isEmpty = false := by
      rw [htr]
      cases hx : s.m_tracks with
      | nil => exact absurd hx h.1.2.2.2.2.1
      | cons a rest => rfl
    simp only [hne, Bool.not_false, Bool.and_self, if_true]
    apply sessionOk_replay
    apply sessionOk_header
    rw [heq]
    exact preHeaderOk_of_start s h _ _

/-! ### The file after `close` -/

theorem read_patch_before (l bs : List Nat) (p q n : Nat) (h : p + bs.length ≤ l.length)
    (hq : q + n ≤ p) :
    ((l.take p ++ bs ++ l.drop (p + bs.length)).drop q).take n = (l.drop q).take n := by
  have hp : (l.take p).length = p := by
    rw [List.length_take]
    omega
  rw [List.append_assoc, List.drop_append_of_le_length (by omega),
    List.take_append_of_le_length (by rw [List.length_drop]; omega), List.drop_take,
    List.take_take, min_eq_left (by omega)]

theorem close_eq (env : Env) (s : MatroskaMuxer) :
    s.close env = (((s.headerForced env).beforePatch env).patchSegmentSize).patchDuration env :=
  rfl

theorem writeCues_shape (s : MatroskaMuxer) (h : s.m_cueEntries.isEmpty = false) :
    ∃ a b : List Nat, s.writeCues =
      (({ s with m_cuesPos := (s.m_file.pos : Int) - s.m_segmentStartPos } :
        MatroskaMuxer).writeToFile a).writeToFile b := by
  unfold MatroskaMuxer.writeCues
  rw [if_neg (by rw [h]; exact Bool.false_ne_true)]
  exact ⟨_, _, rfl⟩

theorem writeCues_eq (s : MatroskaMuxer) (h : s.m_file.pos = s.m_file.data.length) :
    ∃ (c : Int) (f : File) (x : List Nat),
      s.writeCues = { s with m_cuesPos := c, m_file := f } ∧
      f.data = s.m_file.data ++ x ∧ f.pos = f.data.length := by
  cases he : s.m_cueEntries.isEmpty with
  | true =>
    refine ⟨s.m_cuesPos, s.m_file, [], ?_, by simp, h⟩
    unfold MatroskaMuxer.writeCues
    rw [if_pos he]
  | false =>
    obtain ⟨a, b, hab⟩ := writeCues_shape s he
    obtain ⟨f, hf, hd, hp⟩ := writeToFile_twice
      ({ s with m_cuesPos := (s.m_file.pos : Int) - s.m_segmentStartPos } : MatroskaMuxer) a b h
    exact ⟨_, f, a ++ b, by rw [hab, hf], hd, hp⟩

theorem writeSeekHead_eq (s : MatroskaMuxer) (h : s.m_file.pos = s.m_file.data.length) :
    ∃ (f : File) (x : List Nat),
      s.writeSeekHead = { s with m_file := f } ∧
      f.data = s.m_file.data ++ x ∧ f.pos = f.data.length := by
  have hshape : ∃ a b : List Nat, s.writeSeekHead = (s.writeToFile a).writeToFile b :=
    ⟨_, _, rfl⟩
  obtain ⟨a, b, hab⟩ := hshape
  obtain ⟨f, hf, hd, hp⟩ := writeToFile_twice s a b h
  exact ⟨f, a ++ b, by rw [hab, hf], hd, hp⟩

theorem flushCluster_blockLog (s : MatroskaMuxer) : s.flushCluster.blockLog = s.blockLog :=
  (flushCluster_fields s).2.1

/-- Before the two in-place patches of `close` the invariant holds, no cluster is
open, and Cues and SeekHead changed neither the tracks nor what was flushed. -/
theorem beforePatch_ok (env : Env) (s : MatroskaMuxer) (h : SessionOk s) :
    SessionOk (s.beforePatch env) ∧ (s.beforePatch env).m_clusterOpen = false ∧
    (s.beforePatch env).m_tracks = ((s.flushAllPendingFrames env).flushCluster).m_tracks := by
  have h2 := sessionOk_flushAllPendingFrames env s h
  obtain ⟨h3, hc3⟩ := viewOk_flushCluster _ h2.1
  have hl3 : ((s.flushAllPendingFrames env).flushCluster).m_lastTimecodeMs =
      maxRelMs ((s.flushAllPendingFrames env).flushCluster).blockLog := by
    rw [flushCluster_last, flushCluster_blockLog]
    exact h2.2
  obtain ⟨c, f, x, hs4, hd4, hp4⟩ :=
    writeCues_eq ((s.flushAllPendingFrames env).flushCluster) h3.file_seq
  have h4 : ViewOk (((s.flushAllPendingFrames env).flushCluster).writeCues).view := by
    rw [hs4]
    exact viewOk_append_file
      ({ (s.flushAllPendingFrames env).flushCluster with m_cuesPos := c } : MatroskaMuxer)
      f x h3 hc3 hd4 hp4
  obtain ⟨g, y, hs5, hd5, hp5⟩ :=
    writeSeekHead_eq (((s.flushAllPendingFrames env).flushCluster).writeCues) h4.file_seq
  have hc4 : (((s.flushAllPendingFrames env).flushCluster).writeCues).m_clusterOpen = false := by
    rw [hs4]
    exact hc3
  have h5 : ViewOk (s.beforePatch env).view := by
    unfold MatroskaMuxer.beforePatch
    rw [hs5]
    exact viewOk_append_file _ g y h4 hc4 hd5 hp5
  refine ⟨⟨h5, ?_⟩, ?_, ?_⟩
  · unfold MatroskaMuxer.beforePatch
    rw [hs5, hs4]
    exact hl3
  · unfold MatroskaMuxer.beforePatch
    rw [hs5]
    exact hc4
  · unfold MatroskaMuxer.beforePatch
    rw [hs5, hs4]

/-- Two in-place patches of eight bytes at `p` and at `d`, as `close` makes them. -/
theorem patched_reads (f : File) (p d : Nat) (a b : List Nat) (ha : a.length = 8)
    (hb : b.length = 8) (h1 : p + 8 + 3 ≤ d) (h2 : d + 8 ≤ f.data.length) :
    ((((f.seek p).write a).seek d).write b).data.length = f.data.length ∧
    (((((f.seek p).write a).seek d).write b).data.drop p).take 8 = a ∧
    (((((f.seek p).write a).seek d).write b).data.drop d).take 8 = b ∧
    (((((f.seek p).write a).seek d).write b).data.drop (d - 3)).take 3 =
      (f.data.drop (d - 3)).take 3 ∧
    ∀ q n, d + 8 ≤ q →
      (((((f.seek p).write a).seek d).write b).data.drop q).take n = (f.data.drop q).take n := by
  obtain ⟨e1, l1⟩ := File.patch f p a (by omega)
  obtain ⟨e2, l2⟩ := File.patch ((f.seek p).write a) d b (by omega)
  have hpa : p + a.length ≤ f.data.length := by omega
  have hdb : d + b.length ≤ ((f.seek p).write a).data.length := by omega
  refine ⟨by rw [l2, l1], ?_, ?_, ?_, ?_⟩
  · rw [e2, read_patch_before _ _ _ _ _ hdb (by omega), e1, ← ha]
    exact read_patch_same _ _ _ hpa
  · rw [e2, ← hb]
    exact read_patch_same _ _ _ hdb
  · rw [e2, read_patch_before _ _ _ _ _ hdb (by omega), e1,
      read_patch_after _ _ _ _ _ hpa (by omega)]
  · intro q n hq
    rw [e2, read_patch_after _ _ _ _ _ hdb (by omega), e1,
      read_patch_after _ _ _ _ _ hpa (by omega)]

/-- One in-place patch of eight bytes at `p`. -/
theorem patched_once (f : File) (p : Nat) (a : List Nat) (ha : a.length = 8)
    (h2 : p + 8 ≤ f.data.length) :
    ((f.seek p).write a).data.length = f.data.length ∧
    (((f.seek p).write a).data.drop p).take 8 = a ∧
    ∀ q n, p + 8 ≤ q →
      (((f.seek p).write a).data.drop q).take n = (f.data.drop q).take n := by
  obtain ⟨e1, l1⟩ := File.patch f p a (by omega)
  have hpa : p + a.length ≤ f.data.length := by omega
  refine ⟨l1, ?_, ?_⟩
  · rw [e1, ← ha]
    exact read_patch_same _ _ _ hpa
  · intro q n hq
    rw [e1, read_patch_after _ _ _ _ _ hpa (by omega)]

/-- The two in-place patches of `close` on a state in which the invariant holds: only
the file changes, its length stays, the segment size and the Duration value are as
patched, and nothing after the Duration value changes. -/
theorem patches_spec (env : Env) (b : MatroskaMuxer) (h : SessionOk b) :
    ∃ f : File, (b.patchSegmentSize).patchDuration env = { b with m_file := f } ∧
      f.data.length = b.m_file.data.length ∧
      (f.data.drop b.m_segmentSizePos.toNat).take 8 =
        ebml_write_size_fixed
          (toUInt64 ((b.m_file.data.length : Int) - b.m_segmentStartPos)) 8 ∧
      (f.data.drop b.m_durationValueFilePos.toNat).take 8 =
        (if 0 < b.m_lastTimecodeMs then
          writeBE (env.f64_duration b.m_lastTimecodeMs (b.videoFps env)) 8
         else writeBE 0 8) ∧
      (f.data.drop (b.m_durationValueFilePos.toNat - 3)).take 3 = [0x44, 0x89, 0x88] ∧
      ∀ q n, b.m_durationValueFilePos.toNat + 8 ≤ q →
        (f.data.drop q).take n = (b.m_file.data.drop q).take n := by
  have hseq : b.m_file.pos = b.m_file.data.length := h.1.file_seq
  have hs0 : 0 ≤ b.m_segmentSizePos := h.1.seg.1
  have hsg : b.m_segmentSizePos + 8 = b.m_segmentStartPos := h.1.seg.2
  have hd0 : b.m_segmentStartPos + 3 ≤ b.m_durationValueFilePos := h.1.dur.1
  have hd8 : b.m_durationValueFilePos + 8 ≤ (b.m_file.pos : Int) := h.1.dur.2.1
  have hz : (b.m_file.data.drop b.m_durationValueFilePos.toNat).take 8 = writeBE 0 8 :=
    h.1.dur.2.2.1
  have hid : (b.m_file.data.drop (b.m_durationValueFilePos.toNat - 3)).take 3 =
      [0x44, 0x89, 0x88] := h.1.dur.2.2.2
  have hp : b.m_segmentSizePos.toNat + 8 + 3 ≤ b.m_durationValueFilePos.toNat := by omega
  have hd : b.m_durationValueFilePos.toNat + 8 ≤ b.m_file.data.length := by omega
  have hpos : b.m_durationValueFilePos > 0 := by omega
  have hsize : b.patchSegmentSize = ({ b with m_file :=
      ((b.m_file.seek b.m_segmentSizePos.toNat).write (ebml_write_size_fixed
        (toUInt64 ((b.m_file.data.length : Int) - b.m_segmentStartPos)) 8)) } :
      MatroskaMuxer) := by
    unfold MatroskaMuxer.patchSegmentSize
    simp only [hseq]
  by_cases hl : 0 < b.m_lastTimecodeMs
  · obtain ⟨g1, g2, g3, g4, g5⟩ := patched_reads b.m_file b.m_segmentSizePos.toNat
      b.m_durationValueFilePos.toNat
      (ebml_write_size_fixed (toUInt64 ((b.m_file.data.length : Int) - b.m_segmentStartPos)) 8)
      (writeBE (env.f64_duration b.m_lastTimecodeMs (b.videoFps env)) 8)
      (ebml_write_size_fixed_length _ _) (writeBE_length _ _) hp hd
    refine ⟨_, ?_, g1, g2, ?_, ?_, g5⟩
    · rw [hsize]
      unfold MatroskaMuxer.patchDuration
      rw [if_pos ⟨hpos, hl⟩]
      rfl
    · rw [if_pos hl]
      exact g3
    · rw [g4]
      exact hid
  · obtain ⟨g1, g2, g3⟩ := patched_once b.m_file b.m_segmentSizePos.toNat
      (ebml_write_size_fixed (toUInt64 ((b.m_file.data.length : Int) - b.m_segmentStartPos)) 8)
      (ebml_write_size_fixed_length _ _) (by omega)
    refine ⟨_, ?_, g1, g2, ?_, ?_, ?_⟩
    · rw [hsize]
      unfold MatroskaMuxer.patchDuration
      rw [if_neg (fun hc => hl hc.2)]
    · rw [if_neg hl, g3 _ _ (by omega)]
      exact hz
    · rw [g3 _ _ (by omega)]
      exact hid
    · intro q n hq
      exact g3 q n (by omega)

/-- A whole session, from the start to the end of `close`: the state before the two
patches satisfies the invariant with no cluster open, and `close` changes only the
file of that state, as `patches_spec` says. -/
theorem close_spec (env : Env) (s : MatroskaMuxer) (h : SessionStart s) (ps : List AVPacket) :
    SessionOk (((ps.foldl (fun acc p => acc.muxPacket env p) s).headerForced env).beforePatch env) ∧
    (((ps.foldl (fun acc p => acc.muxPacket env p) s).headerForced env).beforePatch
      env).m_clusterOpen = false ∧
    (ps.foldl (fun acc p => acc.muxPacket env p) s).close env =
      ((((ps.foldl (fun acc p => acc.muxPacket env p) s).headerForced env).beforePatch
        env).patchSegmentSize).patchDuration env := by
  have h1 : SessionOk ((ps.foldl (fun acc p => acc.muxPacket env p) s).headerForced env) :=
    session_ok_at_close env s h ps
  obtain ⟨h2, h3, -⟩ := beforePatch_ok env _ h1
  exact ⟨h2, h3, rfl⟩

/-! ### Whole sessions -/

theorem sampleMuxer_start : SessionStart sampleMuxer := by
  unfold SessionStart AwaitingTrackData
  decide

theorem clipMuxer_start : SessionStart clipMuxer := by
  unfold SessionStart AwaitingTrackData
  decide

/-- A whole session from a session start: `close` returns a state that differs only in
the file from a state in which the invariant holds with no cluster open; the file has
the same length, holds the patched segment size and Duration value, and is unchanged
after the Duration value. -/
theorem session_close (env : Env) (s : MatroskaMuxer) (h : SessionStart s)
    (ps : List AVPacket) :
    ∃ (b : MatroskaMuxer) (f : File), SessionOk b ∧ b.m_clusterOpen = false ∧
      muxSession env s ps = { b with m_file := f } ∧
      f.data.length = b.m_file.data.length ∧
      (f.data.drop b.m_segmentSizePos.toNat).take 8 =
        ebml_write_size_fixed
          (toUInt64 ((b.m_file.data.length : Int) - b.m_segmentStartPos)) 8 ∧
      (f.data.drop b.m_durationValueFilePos.toNat).take 8 =
        (if 0 < b.m_lastTimecodeMs then
          writeBE (env.f64_duration b.m_lastTimecodeMs (b.videoFps env)) 8
         else writeBE 0 8) ∧
      (f.data.drop (b.m_durationValueFilePos.toNat - 3)).take 3 = [0x44, 0x89, 0x88] ∧
      ∀ q n, b.m_durationValueFilePos.toNat + 8 ≤ q →
        (f.data.drop q).take n = (b.m_file.data.drop q).take n := by
  obtain ⟨h1, h2, h3⟩ := close_spec env s h ps
  obtain ⟨f, hf, g⟩ := patches_spec env _ h1
  exact ⟨_, f, h1, h2, h3.trans hf, g⟩

theorem int16OfBits_mod (x : Int) (h1 : -32768 ≤ x) (h2 : x ≤ 32767) :
    int16OfBits ((x % 65536).toNat) = x := by
  unfold int16OfBits
  split_ifs <;> omega

theorem mem_blockLog_of_mem_log (b : MatroskaMuxer) (h : ViewOk b.view) (r : ClusterRecord)
    (hr : r ∈ b.clusterLog) (blk : SimpleBlock) (hb : blk ∈ r.blocks) : blk ∈ b.blockLog := by
  have hbl : b.blockLog = (b.clusterLog.map (fun r => r.blocks)).flatten ++ b.clusterBlocks :=
    h.block_log
  rw [hbl]
  apply List.mem_append_left
  rw [List.mem_flatten]
  exact ⟨r.blocks, List.mem_map.mpr ⟨r, hr, rfl⟩, hb⟩

/-- C13 (amended): every CueEntry `(t, k, off)` of a finished session has a cluster in
the file, written at offset `off` from the segment data start (header `1F 43 B6 75`,
size VINT, Timecode element, SimpleBlocks), that contains a keyframe SimpleBlock
(flags `0x80`) for track `k` with `rel_ms = t`, whose relative time is `t - Timecode`
whenever that difference fits the signed 16-bit field. The cluster's Timecode need not
be `<= t`. -/
theorem cue_entry_spec (env : Env) (s : MatroskaMuxer) (h : SessionStart s)
    (ps : List AVPacket) :
    ∀ cue ∈ (muxSession env s ps).m_cueEntries,
      ∃ r ∈ (muxSession env s ps).clusterLog,
        cue.clusterOffset = (r.filePos : Int) - (muxSession env s ps).m_segmentStartPos ∧
        ((muxSession env s ps).m_file.data.drop r.filePos).take
          (r.header.length + r.content.length) = r.header ++ r.content ∧
        r.header = [0x1F, 0x43, 0xB6, 0x75] ++ ebml_write_size r.content.length ∧
        r.content = ebml_write_uint MATROSKA_ID_CLUSTERTIMECODE (toUInt64 r.timecodeMs) ++
          (r.blocks.map SimpleBlock.bytes).flatten ∧
        ∃ blk ∈ r.blocks, blk.trackNumber = cue.trackNumber ∧ blk.flags = 0x80 ∧
          blk.relMs = cue.timecodeMs ∧
          (-32768 ≤ cue.timecodeMs - r.timecodeMs → cue.timecodeMs - r.timecodeMs ≤ 32767 →
            int16OfBits blk.relTimeMs = cue.timecodeMs - r.timecodeMs) := by
  obtain ⟨b, f, hb, hc, hfin, -, -, -, -, hafter⟩ := session_close env s h ps
  rw [hfin]
  intro cue hcue
  have hcue' : cue ∈ b.view.cues := hcue
  rcases hb.1.cues_ok cue hcue' with ⟨r, hr, hoff, blk, hblk, hk1, hk2, hk3⟩ | ⟨ho, -, -⟩
  · obtain ⟨o1, o2, o3, o4, o5, o6⟩ := hb.1.log_ok r hr
    have hd5 : b.m_durationValueFilePos + 8 ≤ (r.filePos : Int) := o5
    have hd0 : b.m_segmentStartPos + 3 ≤ b.m_durationValueFilePos := hb.1.dur.1
    have hs0 : 0 ≤ b.m_segmentSizePos := hb.1.seg.1
    have hsg : b.m_segmentSizePos + 8 = b.m_segmentStartPos := hb.1.seg.2
    have hrel := hb.1.rel_time blk (mem_blockLog_of_mem_log b hb.1 r hr blk hblk)
    rw [o3 blk hblk, hk2] at hrel
    refine ⟨r, hr, ?_, ?_, o1, o2, blk, hblk, hk1, hk3, hk2, ?_⟩
    · rw [← hoff]
      exact o4
    · show (f.data.drop r.filePos).take _ = _
      rw [hafter _ _ (by omega)]
      exact o6
    · intro l1 l2
      rw [hrel]
      exact int16OfBits_mod _ l1 l2
  · have : b.m_clusterOpen = true := ho
    rw [hc] at this
    exact absurd this Bool.false_ne_true

set_option maxRecDepth 100000 in
theorem earlyKey_session :
    (muxSession sampleEnv sampleMuxer earlyKeyPackets).m_cueEntries =
      [{ timecodeMs := 0, trackNumber := 1, clusterOffset := 144 },
       { timecodeMs := 4990, trackNumber := 1, clusterOffset := 173 }] ∧
    (muxSession sampleEnv sampleMuxer earlyKeyPackets).m_segmentStartPos = 52 ∧
    (muxSession sampleEnv sampleMuxer earlyKeyPackets).clusterLog.map
        (fun r => (r.filePos, r.timecodeMs,
          r.blocks.map (fun b => (b.trackNumber, b.relMs, b.flags)))) =
      [(196, 0, [(1, 0, 0x80), (2, 0, 0)]),
       (225, 5000, [(2, 5000, 0), (1, 4990, 0x80), (1, 5030, 0), (2, 5032, 0)])] ∧
    ((muxSession sampleEnv sampleMuxer earlyKeyPackets).m_file.data.drop (52 + 173)).take 26 =
      [0x1F, 0x43, 0xB6, 0x75, 0xAE, 0xE7, 0x82, 0x13, 0x88,
       0xA3, 0x87, 0x82, 0x00, 0x00, 0x00, 0x0B, 0x77, 0x02,
       0xA3, 0x8A, 0x81, 0xFF, 0xF6, 0x80, 0x00, 0x00] := by
  decide

/-- C13 (counterexample): in the session `earlyKeyPackets` the muxer records the cue
entry `(4990, 1, 173)`; the cluster written at offset 173 from the segment data start
(file position 225) has Timecode 5000, which is greater than 4990: the keyframe at
4990 ms was still pending when the audio frame at 5000 ms began the cluster, and was
appended to it with relative time `-10` (`FF F6`). -/
theorem cue_cluster_timecode_later :
    (muxSession sampleEnv sampleMuxer earlyKeyPackets).m_cueEntries =
      [{ timecodeMs := 0, trackNumber := 1, clusterOffset := 144 },
       { timecodeMs := 4990, trackNumber := 1, clusterOffset := 173 }] ∧
    (muxSession sampleEnv sampleMuxer earlyKeyPackets).m_segmentStartPos = 52 ∧
    (muxSession sampleEnv sampleMuxer earlyKeyPackets).clusterLog.map
        (fun r => (r.filePos, r.timecodeMs,
          r.blocks.map (fun b => (b.trackNumber, b.relMs, b.flags)))) =
      [(196, 0, [(1, 0, 0x80), (2, 0, 0)]),
       (225, 5000, [(2, 5000, 0), (1, 4990, 0x80), (1, 5030, 0), (2, 5032, 0)])] ∧
    ((muxSession sampleEnv sampleMuxer earlyKeyPackets).m_file.data.drop (52 + 173)).take 26 =
      [0x1F, 0x43, 0xB6, 0x75, 0xAE, 0xE7, 0x82, 0x13, 0x88,
       0xA3, 0x87, 0x82, 0x00, 0x00, 0x00, 0x0B, 0x77, 0x02,
       0xA3, 0x8A, 0x81, 0xFF, 0xF6, 0x80, 0x00, 0x00] :=
  earlyKey_session

theorem cue_entry_spec_witness :
    SessionStart sampleMuxer ∧
    (muxSession sampleEnv sampleMuxer earlyKeyPackets).m_cueEntries ≠ [] ∧
    ∀ cue ∈ (muxSession sampleEnv sampleMuxer earlyKeyPackets).m_cueEntries,
      ∃ r ∈ (muxSession sampleEnv sampleMuxer earlyKeyPackets).clusterLog,
        cue.clusterOffset = (r.filePos : Int) -
          (muxSession sampleEnv sampleMuxer earlyKeyPackets).m_segmentStartPos ∧
        ((muxSession sampleEnv sampleMuxer earlyKeyPackets).m_file.data.drop r.filePos).take
          (r.header.length + r.content.length) = r.header ++ r.content ∧
        r.header = [0x1F, 0x43, 0xB6, 0x75] ++ ebml_write_size r.content.length ∧
        r.content = ebml_write_uint MATROSKA_ID_CLUSTERTIMECODE (toUInt64 r.timecodeMs) ++
          (r.blocks.map SimpleBlock.bytes).flatten ∧
        ∃ blk ∈ r.blocks, blk.trackNumber = cue.trackNumber ∧ blk.flags = 0x80 ∧
          blk.relMs = cue.timecodeMs ∧
          (-32768 ≤ cue.timecodeMs - r.timecodeMs → cue.timecodeMs - r.timecodeMs ≤ 32767 →
            int16OfBits blk.relTimeMs = cue.timecodeMs - r.timecodeMs) :=
  ⟨sampleMuxer_start,
    by rw [earlyKey_session.1]; exact List.cons_ne_nil _ _,
    cue_entry_spec sampleEnv sampleMuxer sampleMuxer_start earlyKeyPackets⟩

/-! ### C14: the segment size -/

theorem vintDecode_fixed8 (n : Nat) (h : n < 2 ^ 56) :
    vintDecode (ebml_write_size_fixed n 8) = some (8, n) := by
  have h0 : n / 2 ^ 56 = 0 := Nat.div_eq_of_lt h
  have h' : n < 72057594037927936 := by norm_num at h; exact h
  simp only [ebml_write_size_fixed, writeBE, and_0xFF, Nat.shiftRight_eq_div_pow]
  norm_num
  have hb : n / 72057594037927936 % 256 = 0 := by omega
  rw [hb]
  simp only [vintDecode, vintWidth, beValue]
  norm_num
  omega

theorem toUInt64_sub (len : Nat) (start : Int) (h0 : 0 ≤ start) (h1 : start ≤ (len : Int))
    (h2 : len - start.toNat < 2 ^ 64) :
    toUInt64 ((len : Int) - start) = len - start.toNat := by
  unfold toUInt64
  have h2' : len - start.toNat < 18446744073709551616 := by norm_num at h2; exact h2
  have : ((len : Int) - start) % 2 ^ 64 = (len : Int) - start := by
    apply Int.emod_eq_of_lt <;> omega
  rw [this]
  omega

/-- C14: after `close()`, for every mux session whose segment is smaller than `2^56`
bytes, the 8 bytes at the remembered segment-size offset (`m_segmentSizePos`, eight
bytes before the segment data start) are `ebml_write_size_fixed` of (final file length
minus segment data start) in 8 bytes; that number is the number of bytes that follow
the size field in the file, and reading the 8 bytes back as a VINT gives width 8 and
that number. -/
theorem segment_size_patched (env : Env) (s : MatroskaMuxer) (h : SessionStart s)
    (ps : List AVPacket)
    (hN : (muxSession env s ps).m_file.data.length -
      (muxSession env s ps).m_segmentStartPos.toNat < 2 ^ 56) :
    (0 ≤ (muxSession env s ps).m_segmentSizePos ∧
      (muxSession env s ps).m_segmentSizePos + 8 = (muxSession env s ps).m_segmentStartPos ∧
      (muxSession env s ps).m_segmentStartPos.toNat ≤
        (muxSession env s ps).m_file.data.length) ∧
    ((muxSession env s ps).m_file.data.drop (muxSession env s ps).m_segmentSizePos.toNat).take 8 =
      ebml_write_size_fixed ((muxSession env s ps).m_file.data.length -
        (muxSession env s ps).m_segmentStartPos.toNat) 8 ∧
    ((muxSession env s ps).m_file.data.drop
        ((muxSession env s ps).m_segmentSizePos.toNat + 8)).length =
      (muxSession env s ps).m_file.data.length -
        (muxSession env s ps).m_segmentStartPos.toNat ∧
    vintDecode (((muxSession env s ps).m_file.data.drop
        (muxSession env s ps).m_segmentSizePos.toNat).take 8) =
      some (8, (muxSession env s ps).m_file.data.length -
        (muxSession env s ps).m_segmentStartPos.toNat) := by
  obtain ⟨b, f, hb, hc, hfin, hlen, hsize, -, -, -⟩ := session_close env s h ps
  rw [hfin] at hN ⊢
  have hN' : f.data.length - b.m_segmentStartPos.toNat < 2 ^ 56 := hN
  have hd0 : b.m_segmentStartPos + 3 ≤ b.m_durationValueFilePos := hb.1.dur.1
  have hd8 : b.m_durationValueFilePos + 8 ≤ (b.m_file.pos : Int) := hb.1.dur.2.1
  have hseq : b.m_file.pos = b.m_file.data.length := hb.1.file_seq
  have hs0 : 0 ≤ b.m_segmentSizePos := hb.1.seg.1
  have hsg : b.m_segmentSizePos + 8 = b.m_segmentStartPos := hb.1.seg.2
  have hu : toUInt64 ((b.m_file.data.length : Int) - b.m_segmentStartPos) =
      f.data.length - b.m_segmentStartPos.toNat := by
    rw [hlen]
    apply toUInt64_sub _ _ (by omega) (by omega)
    rw [← hlen]
    exact lt_trans hN' (by norm_num)
  have hbytes : (f.data.drop b.m_segmentSizePos.toNat).take 8 =
      ebml_write_size_fixed (f.data.length - b.m_segmentStartPos.toNat) 8 := by
    rw [hsize, hu]
  refine ⟨⟨hs0, hsg, ?_⟩, hbytes, ?_, ?_⟩
  · show b.m_segmentStartPos.toNat ≤ f.data.length
    omega
  · show (f.data.drop (b.m_segmentSizePos.toNat + 8)).length = _
    rw [List.length_drop]
    show _ = f.data.length - b.m_segmentStartPos.toNat
    omega
  · show vintDecode ((f.data.drop b.m_segmentSizePos.toNat).take 8) = _
    rw [hbytes]
    exact vintDecode_fixed8 _ hN'

set_option maxRecDepth 100000 in
theorem sample_session_file :
    (muxSession sampleEnv sampleMuxer (sampleVideoPackets ++ [sampleAudioPacket])).m_file.data.length
      = 293 ∧
    (muxSession sampleEnv sampleMuxer
      (sampleVideoPackets ++ [sampleAudioPacket])).m_segmentStartPos = 52 ∧
    (muxSession sampleEnv sampleMuxer
      (sampleVideoPackets ++ [sampleAudioPacket])).m_segmentSizePos = 44 := by
  decide

theorem segment_size_patched_witness :
    SessionStart sampleMuxer ∧
    (muxSession sampleEnv sampleMuxer (sampleVideoPackets ++ [sampleAudioPacket])).m_file.data.length -
      (muxSession sampleEnv sampleMuxer
        (sampleVideoPackets ++ [sampleAudioPacket])).m_segmentStartPos.toNat < 2 ^ 56 ∧
    ((0 ≤ (muxSession sampleEnv sampleMuxer
        (sampleVideoPackets ++ [sampleAudioPacket])).m_segmentSizePos ∧
      (muxSession sampleEnv sampleMuxer
        (sampleVideoPackets ++ [sampleAudioPacket])).m_segmentSizePos + 8 =
        (muxSession sampleEnv sampleMuxer
          (sampleVideoPackets ++ [sampleAudioPacket])).m_segmentStartPos ∧
      (muxSession sampleEnv sampleMuxer
        (sampleVideoPackets ++ [sampleAudioPacket])).m_segmentStartPos.toNat ≤
        (muxSession sampleEnv sampleMuxer
          (sampleVideoPackets ++ [sampleAudioPacket])).m_file.data.length) ∧
    ((muxSession sampleEnv sampleMuxer
        (sampleVideoPackets ++ [sampleAudioPacket])).m_file.data.drop
        (muxSession sampleEnv sampleMuxer
          (sampleVideoPackets ++ [sampleAudioPacket])).m_segmentSizePos.toNat).take 8 =
      ebml_write_size_fixed ((muxSession sampleEnv sampleMuxer
        (sampleVideoPackets ++ [sampleAudioPacket])).m_file.data.length -
        (muxSession sampleEnv sampleMuxer
          (sampleVideoPackets ++ [sampleAudioPacket])).m_segmentStartPos.toNat) 8 ∧
    ((muxSession sampleEnv sampleMuxer
        (sampleVideoPackets ++ [sampleAudioPacket])).m_file.data.drop
        ((muxSession sampleEnv sampleMuxer
          (sampleVideoPackets ++ [sampleAudioPacket])).m_segmentSizePos.toNat + 8)).length =
      (muxSession sampleEnv sampleMuxer
        (sampleVideoPackets ++ [sampleAudioPacket])).m_file.data.length -
        (muxSession sampleEnv sampleMuxer
          (sampleVideoPackets ++ [sampleAudioPacket])).m_segmentStartPos.toNat ∧
    vintDecode (((muxSession sampleEnv sampleMuxer
        (sampleVideoPackets ++ [sampleAudioPacket])).m_file.data.drop
        (muxSession sampleEnv sampleMuxer
          (sampleVideoPackets ++ [sampleAudioPacket])).m_segmentSizePos.toNat).take 8) =
      some (8, (muxSession sampleEnv sampleMuxer
        (sampleVideoPackets ++ [sampleAudioPacket])).m_file.data.length -
        (muxSession sampleEnv sampleMuxer
          (sampleVideoPackets ++ [sampleAudioPacket])).m_segmentStartPos.toNat)) :=
  have hN : (muxSession sampleEnv sampleMuxer
      (sampleVideoPackets ++ [sampleAudioPacket])).m_file.data.length -
      (muxSession sampleEnv sampleMuxer
        (sampleVideoPackets ++ [sampleAudioPacket])).m_segmentStartPos.toNat < 2 ^ 56 := by
    rw [sample_session_file.1, sample_session_file.2.1]
    decide
  ⟨sampleMuxer_start, hN,
    segment_size_patched sampleEnv sampleMuxer sampleMuxer_start
      (sampleVideoPackets ++ [sampleAudioPacket]) hN⟩

/-! ### C15: the Duration value -/

/-- C15 (amended): after `close()` the eight bytes at `m_durationValueFilePos`, which
follow the Duration element header `44 89 88`, are the float64 `last_ms +
frame_duration_ms` when `last_ms > 0`, and the placeholder `0.0` written with the header
otherwise; `last_ms` is `m_lastTimecodeMs`, the maximum of `0` and the `rel_ms` of all
flushed frames, and `frame_duration_ms` is `1000 / fps` of the first track with
`trackType == 1 && fps > 0` (`0` if there is none). -/
theorem duration_patch_spec (env : Env) (s : MatroskaMuxer) (h : SessionStart s)
    (ps : List AVPacket) :
    (muxSession env s ps).m_lastTimecodeMs = maxRelMs (muxSession env s ps).blockLog ∧
    0 < (muxSession env s ps).m_durationValueFilePos ∧
    ((muxSession env s ps).m_file.data.drop
      ((muxSession env s ps).m_durationValueFilePos.toNat - 3)).take 3 = [0x44, 0x89, 0x88] ∧
    ((muxSession env s ps).m_file.data.drop
      (muxSession env s ps).m_durationValueFilePos.toNat).take 8 =
      (if 0 < maxRelMs (muxSession env s ps).blockLog then
        writeBE (env.f64_duration (maxRelMs (muxSession env s ps).blockLog)
          ((muxSession env s ps).videoFps env)) 8
       else writeBE 0 8) := by
  obtain ⟨b, f, hb, hc, hfin, -, -, hdur, hid, -⟩ := session_close env s h ps
  rw [hfin]
  have hd0 : b.m_segmentStartPos + 3 ≤ b.m_durationValueFilePos := hb.1.dur.1
  have hs0 : 0 ≤ b.m_segmentSizePos := hb.1.seg.1
  have hsg : b.m_segmentSizePos + 8 = b.m_segmentStartPos := hb.1.seg.2
  have hlast : b.m_lastTimecodeMs = maxRelMs b.blockLog := hb.2
  refine ⟨hlast, ?_, hid, ?_⟩
  · show 0 < b.m_durationValueFilePos
    omega
  · show (f.data.drop b.m_durationValueFilePos.toNat).take 8 =
      (if 0 < maxRelMs b.blockLog then
        writeBE (env.f64_duration (maxRelMs b.blockLog) (b.videoFps env)) 8
       else writeBE 0 8)
    rw [← hlast]
    exact hdur

set_option maxRecDepth 100000 in
theorem instant_session :
    (muxSession sampleEnv sampleMuxer instantPackets).blockLog.map
      (fun b => (b.trackNumber, b.relMs)) = [(1, 0), (2, 0)] ∧
    (muxSession sampleEnv sampleMuxer instantPackets).m_headerWritten = true ∧
    (muxSession sampleEnv sampleMuxer instantPackets).videoFps sampleEnv =
      some 0x4039000000000000 ∧
    writeBE (sampleEnv.f64_duration 0 (some 0x4039000000000000)) 8 =
      [0x40, 0x44, 0, 0, 0, 0, 0, 0] ∧
    (muxSession sampleEnv sampleMuxer instantPackets).m_durationValueFilePos = 67 ∧
    ((muxSession sampleEnv sampleMuxer instantPackets).m_file.data.drop 64).take 11 =
      [0x44, 0x89, 0x88, 0, 0, 0, 0, 0, 0, 0, 0] := by
  decide

/-- C15 (counterexample): in the session `instantPackets` the header is written and
two frames are flushed, both with `rel_ms = 0`, so `last_ms = 0`; the first video
track has 25 fps (`0x4039000000000000`), so `last_ms + frame_duration_ms` is `40.0`
(`40 44 00 00 00 00 00 00`); after `close()` the Duration payload at file position 67
is still `0.0`. -/
theorem duration_left_zero :
    (muxSession sampleEnv sampleMuxer instantPackets).blockLog.map
      (fun b => (b.trackNumber, b.relMs)) = [(1, 0), (2, 0)] ∧
    (muxSession sampleEnv sampleMuxer instantPackets).m_headerWritten = true ∧
    (muxSession sampleEnv sampleMuxer instantPackets).videoFps sampleEnv =
      some 0x4039000000000000 ∧
    writeBE (sampleEnv.f64_duration 0 (some 0x4039000000000000)) 8 =
      [0x40, 0x44, 0, 0, 0, 0, 0, 0] ∧
    (muxSession sampleEnv sampleMuxer instantPackets).m_durationValueFilePos = 67 ∧
    ((muxSession sampleEnv sampleMuxer instantPackets).m_file.data.drop 64).take 11 =
      [0x44, 0x89, 0x88, 0, 0, 0, 0, 0, 0, 0, 0] :=
  instant_session

set_option maxRecDepth 100000 in
theorem sample_session_duration :
    ((muxSession sampleEnv sampleMuxer
      (sampleVideoPackets ++ [sampleAudioPacket])).m_file.data.drop 64).take 11 =
      [0x44, 0x89, 0x88, 0x40, 0x4E, 0, 0, 0, 0, 0, 0] ∧
    (muxSession sampleEnv sampleMuxer
      (sampleVideoPackets ++ [sampleAudioPacket])).blockLog.map (fun b => b.relMs) = [20, 0] := by
  decide

theorem duration_patch_spec_witness :
    SessionStart sampleMuxer ∧
    ((muxSession sampleEnv sampleMuxer
      (sampleVideoPackets ++ [sampleAudioPacket])).m_file.data.drop 64).take 11 =
      [0x44, 0x89, 0x88, 0x40, 0x4E, 0, 0, 0, 0, 0, 0] ∧
    ((muxSession sampleEnv sampleMuxer
        (sampleVideoPackets ++ [sampleAudioPacket])).m_lastTimecodeMs =
      maxRelMs (muxSession sampleEnv sampleMuxer
        (sampleVideoPackets ++ [sampleAudioPacket])).blockLog ∧
    0 < (muxSession sampleEnv sampleMuxer
      (sampleVideoPackets ++ [sampleAudioPacket])).m_durationValueFilePos ∧
    ((muxSession sampleEnv sampleMuxer
      (sampleVideoPackets ++ [sampleAudioPacket])).m_file.data.drop
      ((muxSession sampleEnv sampleMuxer
        (sampleVideoPackets ++ [sampleAudioPacket])).m_durationValueFilePos.toNat - 3)).take 3 =
      [0x44, 0x89, 0x88] ∧
    ((muxSession sampleEnv sampleMuxer
      (sampleVideoPackets ++ [sampleAudioPacket])).m_file.data.drop
      (muxSession sampleEnv sampleMuxer
        (sampleVideoPackets ++ [sampleAudioPacket])).m_durationValueFilePos.toNat).take 8 =
      (if 0 < maxRelMs (muxSession sampleEnv sampleMuxer
          (sampleVideoPackets ++ [sampleAudioPacket])).blockLog then
        writeBE (sampleEnv.f64_duration (maxRelMs (muxSession sampleEnv sampleMuxer
            (sampleVideoPackets ++ [sampleAudioPacket])).blockLog)
          ((muxSession sampleEnv sampleMuxer
            (sampleVideoPackets ++ [sampleAudioPacket])).videoFps sampleEnv)) 8
       else writeBE 0 8)) :=
  ⟨sampleMuxer_start, sample_session_duration.1,
    duration_patch_spec sampleEnv sampleMuxer sampleMuxer_start
      (sampleVideoPackets ++ [sampleAudioPacket])⟩

/-! ### C19: the layout of the clusters -/

theorem simpleBlock_bytes_length (b : SimpleBlock) :
    b.bytes.length = 1 + (ebml_write_size b.declaredSize).length + b.declaredSize := by
  unfold SimpleBlock.bytes SimpleBlock.declaredSize
  simp only [List.length_append, List.length_cons, List.length_nil, writeBE_length]
  omega

theorem blocks_bytes_length (blocks : List SimpleBlock) :
    ((blocks.map SimpleBlock.bytes).flatten).length =
      (blocks.map (fun b =>
        1 + (ebml_write_size b.declaredSize).length + b.declaredSize)).sum := by
  induction blocks with
  | nil => rfl
  | cons b rest ih =>
    rw [List.map_cons, List.flatten_cons, List.length_append, ih, List.map_cons, List.sum_cons,
      simpleBlock_bytes_length]

theorem clusterContent_eq (ts : Int) (blocks : List SimpleBlock) :
    clusterContent ts blocks =
      [0xE7] ++ ebml_write_size (uint_size (toUInt64 ts)) ++
        writeBE (toUInt64 ts) (uint_size (toUInt64 ts)) ++
        (blocks.map SimpleBlock.bytes).flatten := by
  have hid : ebml_write_id MATROSKA_ID_CLUSTERTIMECODE = [0xE7] := by decide
  unfold clusterContent ebml_write_uint
  rw [hid]

theorem clusterContent_length (ts : Int) (blocks : List SimpleBlock) :
    (clusterContent ts blocks).length =
      (1 + (ebml_write_size (uint_size (toUInt64 ts))).length + uint_size (toUInt64 ts)) +
        (blocks.map (fun b =>
          1 + (ebml_write_size b.declaredSize).length + b.declaredSize)).sum := by
  rw [clusterContent_eq, List.length_append, blocks_bytes_length]
  simp only [List.length_append, List.length_cons, List.length_nil, writeBE_length]

/-- C19: every cluster written by `flushCluster` in a session lies in the finished
file at the position where it was written, as the ID bytes `1F 43 B6 75`, the size
VINT of the content length (which reads back as that length), then the content: one
Timecode uint element (ID `E7`) followed by the SimpleBlock elements of the frames
flushed into that cluster, in flush order; each SimpleBlock is ID `A3`, the size VINT
of (track-number VINT length + 2 + 1 + payload length), VINT(track number), the two
bytes of the 16-bit relative time (`rel_ms - Timecode` modulo `2^16`), the flags byte
and the payload; the content length is the sum, over the Timecode element and the
SimpleBlocks, of ID length + size VINT length + declared size; and the blocks of all
clusters, in order, are all the blocks flushed in the session. -/
theorem cluster_layout (env : Env) (s : MatroskaMuxer) (h : SessionStart s)
    (ps : List AVPacket) :
    (muxSession env s ps).blockLog =
      ((muxSession env s ps).clusterLog.map (fun r => r.blocks)).flatten ∧
    ∀ r ∈ (muxSession env s ps).clusterLog,
      ((muxSession env s ps).m_file.data.drop r.filePos).take
        (r.header.length + r.content.length) = r.header ++ r.content ∧
      r.header = [0x1F, 0x43, 0xB6, 0x75] ++ ebml_write_size r.content.length ∧
      (r.content.length < 2 ^ 56 - 1 →
        vintDecode (ebml_write_size r.content.length) =
          some (ebml_size_size r.content.length, r.content.length)) ∧
      r.content =
        [0xE7] ++ ebml_write_size (uint_size (toUInt64 r.timecodeMs)) ++
          writeBE (toUInt64 r.timecodeMs) (uint_size (toUInt64 r.timecodeMs)) ++
          (r.blocks.map SimpleBlock.bytes).flatten ∧
      (∀ blk ∈ r.blocks,
        blk.bytes = [0xA3] ++ ebml_write_size blk.declaredSize ++
          ebml_write_size blk.trackNumber ++ writeBE blk.relTimeMs 2 ++ [blk.flags] ++
          blk.frameData ∧
        blk.declaredSize =
          (ebml_write_size blk.trackNumber).length + 2 + 1 + blk.frameData.length ∧
        blk.relTimeMs = ((blk.relMs - r.timecodeMs) % 65536).toNat) ∧
      r.content.length =
        (1 + (ebml_write_size (uint_size (toUInt64 r.timecodeMs))).length +
          uint_size (toUInt64 r.timecodeMs)) +
        (r.blocks.map (fun blk =>
          1 + (ebml_write_size blk.declaredSize).length + blk.declaredSize)).sum := by
  obtain ⟨b, f, hb, hc, hfin, -, -, -, -, hafter⟩ := session_close env s h ps
  rw [hfin]
  constructor
  · show b.blockLog = (b.clusterLog.map (fun r => r.blocks)).flatten
    have h1 : b.blockLog = (b.clusterLog.map (fun r => r.blocks)).flatten ++ b.clusterBlocks :=
      hb.1.block_log
    have h2 : b.clusterBlocks = [] := hb.1.closed_blocks hc
    rw [h1, h2, List.append_nil]
  · intro r hr
    have hr' : r ∈ b.clusterLog := hr
    obtain ⟨o1, o2, o3, o4, o5, o6⟩ := hb.1.log_ok r hr'
    have hd5 : b.m_durationValueFilePos + 8 ≤ (r.filePos : Int) := o5
    have hd0 : b.m_segmentStartPos + 3 ≤ b.m_durationValueFilePos := hb.1.dur.1
    have hs0 : 0 ≤ b.m_segmentSizePos := hb.1.seg.1
    have hsg : b.m_segmentSizePos + 8 = b.m_segmentStartPos := hb.1.seg.2
    refine ⟨?_, o1, fun hlt => (vintDecode_ebml_write_size _ hlt).1, ?_, ?_, ?_⟩
    · show (f.data.drop r.filePos).take _ = _
      rw [hafter _ _ (by omega)]
      exact o6
    · rw [o2, clusterContent_eq]
    · intro blk hblk
      refine ⟨rfl, rfl, ?_⟩
      have hrel := hb.1.rel_time blk (mem_blockLog_of_mem_log b hb.1 r hr' blk hblk)
      rw [o3 blk hblk] at hrel
      exact hrel
    · rw [o2, clusterContent_length]

theorem cluster_layout_witness :
    SessionStart sampleMuxer ∧
    (muxSession sampleEnv sampleMuxer earlyKeyPackets).clusterLog ≠ [] ∧
    ((muxSession sampleEnv sampleMuxer earlyKeyPackets).blockLog =
      ((muxSession sampleEnv sampleMuxer earlyKeyPackets).clusterLog.map
        (fun r => r.blocks)).flatten ∧
    ∀ r ∈ (muxSession sampleEnv sampleMuxer earlyKeyPackets).clusterLog,
      ((muxSession sampleEnv sampleMuxer earlyKeyPackets).m_file.data.drop r.filePos).take
        (r.header.length + r.content.length) = r.header ++ r.content ∧
      r.header = [0x1F, 0x43, 0xB6, 0x75] ++ ebml_write_size r.content.length ∧
      (r.content.length < 2 ^ 56 - 1 →
        vintDecode (ebml_write_size r.content.length) =
          some (ebml_size_size r.content.length, r.content.length)) ∧
      r.content =
        [0xE7] ++ ebml_write_size (uint_size (toUInt64 r.timecodeMs)) ++
          writeBE (toUInt64 r.timecodeMs) (uint_size (toUInt64 r.timecodeMs)) ++
          (r.blocks.map SimpleBlock.bytes).flatten ∧
      (∀ blk ∈ r.blocks,
        blk.bytes = [0xA3] ++ ebml_write_size blk.declaredSize ++
          ebml_write_size blk.trackNumber ++ writeBE blk.relTimeMs 2 ++ [blk.flags] ++
          blk.frameData ∧
        blk.declaredSize =
          (ebml_write_size blk.trackNumber).length + 2 + 1 + blk.frameData.length ∧
        blk.relTimeMs = ((blk.relMs - r.timecodeMs) % 65536).toNat) ∧
      r.content.length =
        (1 + (ebml_write_size (uint_size (toUInt64 r.timecodeMs))).length +
          uint_size (toUInt64 r.timecodeMs)) +
        (r.blocks.map (fun blk =>
          1 + (ebml_write_size blk.declaredSize).length + blk.declaredSize)).sum) :=
  ⟨sampleMuxer_start,
    fun hnil => by
      have hm := earlyKey_session.2.2.1
      rw [hnil] at hm
      exact absurd hm (by decide),
    cluster_layout sampleEnv sampleMuxer sampleMuxer_start earlyKeyPackets⟩

/-! ### C22: the sentinel of `decodeLeb128` -/

theorem decodeLeb128Loop_spec (buf : List Nat) (rem : Nat) :
    ∀ (i value : Nat), i + rem = 8 → value < 2 ^ (i * 7) →
      ((decodeLeb128Loop rem i value buf).1 = -1 ↔
        ∀ k, i ≤ k → k < min 8 buf.length → buf.getD k 0 &&& 0x80 ≠ 0) ∧
      ((decodeLeb128Loop rem i value buf).1 ≠ -1 →
        0 ≤ (decodeLeb128Loop rem i value buf).1 ∧
        (decodeLeb128Loop rem i value buf).1 < 2 ^ 56 ∧
        i + 1 ≤ (decodeLeb128Loop rem i value buf).2 ∧
        (decodeLeb128Loop rem i value buf).2 ≤ 8 ∧
        (decodeLeb128Loop rem i value buf).2 ≤ buf.length ∧
        buf.getD ((decodeLeb128Loop rem i value buf).2 - 1) 0 &&& 0x80 = 0 ∧
        ∀ j, i ≤ j → j < (decodeLeb128Loop rem i value buf).2 - 1 →
          buf.getD j 0 &&& 0x80 ≠ 0) := by
  induction rem with
  | zero =>
    intro i value hi _
    simp only [decodeLeb128Loop]
    refine ⟨⟨fun _ k hk hk8 => ?_, fun _ => trivial⟩, fun h => absurd rfl h⟩
    have : k < 8 := lt_of_lt_of_le hk8 (min_le_left _ _)
    omega
  | succ r ih =>
    intro i value hi hv
    rw [decodeLeb128Loop]
    cases hget : buf[i]? with
    | none =>
      have hlen : buf.length ≤ i := List.getElem?_eq_none_iff.mp hget
      simp only
      refine ⟨⟨fun _ k hk hk8 => ?_, fun _ => trivial⟩, fun h => absurd rfl h⟩
      have : k < buf.length := lt_of_lt_of_le hk8 (min_le_right _ _)
      omega
    | some byte =>
      obtain ⟨hlt, hbyte⟩ := List.getElem?_eq_some_iff.mp hget
      have hgetD : buf.getD i 0 = byte := by
        rw [List.getD_eq_getElem?_getD, hget]
        rfl
      have hv' : value ||| ((byte &&& 0x7f) <<< (i * 7)) < 2 ^ ((i + 1) * 7) := by
        rw [or_shift_eq_add _ _ _ hv, and_0x7F]
        have hb : byte % 128 < 128 := Nat.mod_lt _ (by decide)
        have hp : 2 ^ ((i + 1) * 7) = 128 * 2 ^ (i * 7) := by
          rw [Nat.add_mul, Nat.pow_add, Nat.mul_comm]
        rw [hp]
        have hpos : 0 < 2 ^ (i * 7) := Nat.two_pow_pos _
        nlinarith
      simp only
      by_cases hterm : byte &&& 0x80 = 0
      · rw [if_pos hterm]
        simp only
        have hnn : (0 : Int) ≤ ((value ||| ((byte &&& 0x7f) <<< (i * 7)) : Nat) : Int) :=
          Int.natCast_nonneg _
        have h56 : ((value ||| ((byte &&& 0x7f) <<< (i * 7)) : Nat) : Int) < 2 ^ 56 := by
          have hle : 2 ^ ((i + 1) * 7) ≤ 2 ^ 56 :=
            Nat.pow_le_pow_right (by decide) (by omega)
          have := lt_of_lt_of_le hv' hle
          exact_mod_cast this
        refine ⟨⟨fun hneg => ?_, fun hall => ?_⟩, fun _ => ⟨hnn, h56, le_refl _, by omega, hlt,
          ?_, fun j hj1 hj2 => ?_⟩⟩
        · omega
        · exfalso
          have := hall i (le_refl _) (lt_min (by omega) hlt)
          rw [hgetD] at this
          exact this hterm
        · rw [Nat.add_sub_cancel, hgetD]
          exact hterm
        · omega
      · rw [if_neg hterm]
        obtain ⟨g1, g2⟩ := ih (i + 1) _ (by omega) hv'
        refine ⟨⟨fun hneg k hk hk8 => ?_, fun hall => ?_⟩, fun hne => ?_⟩
        · rcases Nat.eq_or_lt_of_le hk with rfl | hgt
          · rw [hgetD]
            exact hterm
          · exact g1.mp hneg k hgt hk8
        · exact g1.mpr (fun k hk hk8 => hall k (by omega) hk8)
        · obtain ⟨a1, a2, a3, a4, a5, a6, a7⟩ := g2 hne
          refine ⟨a1, a2, by omega, a4, a5, a6, fun j hj1 hj2 => ?_⟩
          rcases Nat.eq_or_lt_of_le hj1 with rfl | hgt
          · rw [hgetD]
            exact hterm
          · exact a7 j hgt hj2

/-- C22: `decodeLeb128` returns the sentinel `-1` if and only if none of the first
`min(8, available)` source bytes has its continuation bit (`0x80`) clear; otherwise the
value lies in `[0, 2^56)` (so it is not the sentinel), `bytesRead` lies in `1..8`, does
not exceed the available bytes, and is the index of the terminating byte (the first
byte with the continuation bit clear) plus one. -/
theorem decodeLeb128_sentinel_iff (buf : List Nat) :
    ((decodeLeb128 buf).1 = -1 ↔
      ∀ k, k < min 8 buf.length → buf.getD k 0 &&& 0x80 ≠ 0) ∧
    ((decodeLeb128 buf).1 ≠ -1 →
      0 ≤ (decodeLeb128 buf).1 ∧ (decodeLeb128 buf).1 < 2 ^ 56 ∧
      1 ≤ (decodeLeb128 buf).2 ∧ (decodeLeb128 buf).2 ≤ 8 ∧
      (decodeLeb128 buf).2 ≤ buf.length ∧
      buf.getD ((decodeLeb128 buf).2 - 1) 0 &&& 0x80 = 0 ∧
      ∀ j, j < (decodeLeb128 buf).2 - 1 → buf.getD j 0 &&& 0x80 ≠ 0) := by
  obtain ⟨g1, g2⟩ := decodeLeb128Loop_spec buf 8 0 0 (by decide) (by decide)
  unfold decodeLeb128
  refine ⟨⟨fun h k hk => g1.mp h k (Nat.zero_le _) hk,
    fun h => g1.mpr (fun k _ hk => h k hk)⟩, fun hne => ?_⟩
  obtain ⟨a1, a2, a3, a4, a5, a6, a7⟩ := g2 hne
  exact ⟨a1, a2, a3, a4, a5, a6, fun j hj => a7 j (Nat.zero_le _) hj⟩

/-! ### C23: the form of `encodeLeb128` -/

theorem leb_or_0x80 : ∀ b < 128, b ||| 0x80 = b + 128 := by
  decide

theorem encodeLeb128Loop_step (fuel n : Nat) :
    encodeLeb128Loop (fuel + 1) n =
      if 128 ≤ n then (n % 128 + 128) :: encodeLeb128Loop fuel (n / 128) else [n % 128] := by
  rw [encodeLeb128Loop]
  simp only [and_0x7F, Nat.shiftRight_eq_div_pow]
  have h7 : (2 : Nat) ^ 7 = 128 := by norm_num
  rw [h7, leb_or_0x80 _ (Nat.mod_lt _ (by decide))]
  by_cases h : 128 ≤ n
  · rw [if_pos h, if_pos (Nat.div_pos h (by decide))]
  · rw [if_neg h, if_neg (by rw [Nat.div_eq_of_lt (by omega)]; decide)]

theorem encodeLeb128Loop_form (fuel : Nat) :
    ∀ n, n < 128 ^ fuel → 1 ≤ fuel →
      n < 128 ^ (encodeLeb128Loop fuel n).length ∧
      1 ≤ (encodeLeb128Loop fuel n).length ∧
      (encodeLeb128Loop fuel n).length ≤ fuel ∧
      ((encodeLeb128Loop fuel n).length = 1 ∨
        128 ^ ((encodeLeb128Loop fuel n).length - 1) ≤ n) ∧
      ∀ i, i < (encodeLeb128Loop fuel n).length →
        (encodeLeb128Loop fuel n).getD i 0 =
          n / 128 ^ i % 128 + (if i + 1 < (encodeLeb128Loop fuel n).length then 128 else 0) := by
  induction fuel with
  | zero => intro n _ h; omega
  | succ f ih =>
    intro n hn _
    rw [encodeLeb128Loop_step]
    by_cases h : 128 ≤ n
    · rw [if_pos h]
      have hf : 1 ≤ f := by
        rcases Nat.eq_zero_or_pos f with h0 | h0
        · subst h0
          simp at hn
          omega
        · exact h0
      have hdiv : n / 128 < 128 ^ f := by
        rw [Nat.div_lt_iff_lt_mul (by decide)]
        rw [Nat.pow_succ] at hn
        exact hn
      obtain ⟨a1, a2, a3, a4, a5⟩ := ih (n / 128) hdiv hf
      simp only [List.length_cons, Nat.add_sub_cancel]
      refine ⟨?_, by omega, by omega, Or.inr ?_, ?_⟩
      · rw [Nat.pow_succ]
        exact Nat.lt_mul_of_div_lt a1 (show 0 < 128 by decide)
      · rcases a4 with a4 | a4
        · rw [a4]
          simpa using h
        · obtain ⟨m, hm⟩ : ∃ m, (encodeLeb128Loop f (n / 128)).length = m + 1 :=
            ⟨(encodeLeb128Loop f (n / 128)).length - 1, by omega⟩
          rw [hm] at a4 ⊢
          rw [Nat.add_sub_cancel] at a4
          rw [Nat.pow_succ]
          calc 128 ^ m * 128 ≤ n / 128 * 128 := Nat.mul_le_mul_right _ a4
            _ ≤ n := Nat.div_mul_le_self n 128
      · intro i hi
        cases i with
        | zero =>
          simp only [List.getD_cons_zero, pow_zero, Nat.div_one]
          rw [if_pos (by omega)]
        | succ j =>
          simp only [List.getD_cons_succ]
          rw [a5 j (by omega), Nat.div_div_eq_div_mul, ← Nat.pow_succ']
          have hc : (j + 1 + 1 < (encodeLeb128Loop f (n / 128)).length + 1) ↔
              (j + 1 < (encodeLeb128Loop f (n / 128)).length) := by omega
          simp only [hc]
    · rw [if_neg h]
      simp only [List.length_cons, List.length_nil]
      refine ⟨by omega, by omega, by omega, Or.inl trivial, ?_⟩
      intro i hi
      have hi0 : i = 0 := by omega
      subst hi0
      simp

theorem leb_bits (n i : Nat) (c : Bool) :
    n / 128 ^ i % 128 + (if c then 128 else 0) =
      ((n >>> (7 * i)) &&& 0x7F) ||| (if c then 0x80 else 0) := by
  rw [and_0x7F, Nat.shiftRight_eq_div_pow, Nat.pow_mul]
  have h7 : (2 : Nat) ^ 7 = 128 := by norm_num
  rw [h7]
  cases c
  · simp
  · simp only [if_true]
    exact (leb_or_0x80 _ (Nat.mod_lt _ (by decide))).symm

/-- C23: for every `n < 2^56`, `encodeLeb128 n` writes `max(1, ceil(bitlength(n) / 7))`
bytes, at most 8; byte `i` carries bits `7i .. 7i+6` of `n` in its low seven bits, and
its bit `0x80` is set on every byte except the last; `0` gives `00`, `127` gives `7F`,
`128` gives `80 01` and `624485` gives `E5 8E 26`. -/
theorem encodeLeb128_form (n : Nat) (h : n < 2 ^ 56) :
    (encodeLeb128 n).length = max 1 ((Nat.size n + 6) / 7) ∧
    (encodeLeb128 n).length ≤ 8 ∧
    (∀ i, i < (encodeLeb128 n).length →
      (encodeLeb128 n).getD i 0 =
        ((n >>> (7 * i)) &&& 0x7F) |||
          (if i + 1 < (encodeLeb128 n).length then 0x80 else 0)) ∧
    encodeLeb128 0 = [0x00] ∧ encodeLeb128 127 = [0x7F] ∧ encodeLeb128 128 = [0x80, 0x01] ∧
    encodeLeb128 624485 = [0xE5, 0x8E, 0x26] := by
  have h8 : n < 128 ^ 8 := by norm_num at h ⊢; exact h
  have heq : encodeLeb128 n = encodeLeb128Loop 8 n :=
    encodeLeb128Loop_fuel 8 10 n h8 (by decide) (by decide)
  obtain ⟨a1, a2, a3, a4, a5⟩ := encodeLeb128Loop_form 8 n h8 (by decide)
  rw [heq]
  refine ⟨?_, a3, ?_, by decide, by decide, by decide, by decide⟩
  · have hpow : ∀ k, 128 ^ k = 2 ^ (7 * k) := by
      intro k
      rw [Nat.pow_mul]
    have hs1 : Nat.size n ≤ 7 * (encodeLeb128Loop 8 n).length := by
      rw [Nat.size_le, ← hpow]
      exact a1
    rcases a4 with a4 | a4
    · rw [a4] at hs1 ⊢
      omega
    · have hs2 : 7 * ((encodeLeb128Loop 8 n).length - 1) < Nat.size n := by
        rw [Nat.lt_size, ← hpow]
        exact a4
      omega
  · intro i hi
    rw [a5 i hi]
    have := leb_bits n i (decide (i + 1 < (encodeLeb128Loop 8 n).length))
    simpa using this

theorem encodeLeb128_form_witness :
    (624485 : Nat) < 2 ^ 56 ∧
    ((encodeLeb128 624485).length = max 1 ((Nat.size 624485 + 6) / 7) ∧
    (encodeLeb128 624485).length ≤ 8 ∧
    (∀ i, i < (encodeLeb128 624485).length →
      (encodeLeb128 624485).getD i 0 =
        ((624485 >>> (7 * i)) &&& 0x7F) |||
          (if i + 1 < (encodeLeb128 624485).length then 0x80 else 0)) ∧
    encodeLeb128 0 = [0x00] ∧ encodeLeb128 127 = [0x7F] ∧ encodeLeb128 128 = [0x80, 0x01] ∧
    encodeLeb128 624485 = [0xE5, 0x8E, 0x26]) :=
  ⟨by norm_num, encodeLeb128_form 624485 (by norm_num)⟩

/-! ### C24: `ebml_write_id` -/

theorem foldl_writeBE (v k : Nat) : ∀ acc : Nat,
    (writeBE v k).foldl (fun a b => a * 256 + b) acc = acc * 256 ^ k + v % 256 ^ k := by
  induction k with
  | zero =>
    intro acc
    simp [writeBE, Nat.mod_one]
  | succ j ih =>
    intro acc
    rw [writeBE, List.foldl_cons, ih, and_0xFF, Nat.shiftRight_eq_div_pow]
    have hp : 2 ^ (j * 8) = 256 ^ j := by
      rw [Nat.mul_comm, Nat.pow_mul]
    rw [hp, Nat.mod_pow_succ, Nat.pow_succ]
    ring

theorem beValue_writeBE (v k : Nat) (h : v < 256 ^ k) : beValue (writeBE v k) = v := by
  unfold beValue
  rw [foldl_writeBE, Nat.zero_mul, Nat.zero_add, Nat.mod_eq_of_lt h]

theorem writeBE_head (v j : Nat) (h : v < 256 ^ (j + 1)) :
    writeBE v (j + 1) = (v / 256 ^ j) :: writeBE v j := by
  rw [writeBE, and_0xFF, Nat.shiftRight_eq_div_pow]
  have hp : 2 ^ (j * 8) = 256 ^ j := by
    rw [Nat.mul_comm, Nat.pow_mul]
  rw [hp]
  have hdiv : v / 256 ^ j < 256 := by
    rw [Nat.div_lt_iff_lt_mul (Nat.pow_pos (by decide))]
    rw [Nat.pow_succ, Nat.mul_comm] at h
    exact h
  rw [Nat.mod_eq_of_lt hdiv]

theorem validEbmlId_size (id k : Nat) (h : ValidEbmlId id k) :
    ebml_id_size id = k ∧ id < 256 ^ k ∧ vintWidth (id / 256 ^ (k - 1)) = k := by
  obtain ⟨h1, h4, hlo, hhi⟩ := h
  have hk : k = 1 ∨ k = 2 ∨ k = 3 ∨ k = 4 := by omega
  rcases hk with rfl | rfl | rfl | rfl
  · have a : 128 ≤ id := hlo
    have b : id < 256 := hhi
    refine ⟨?_, by omega, ?_⟩
    · unfold ebml_id_size
      rw [if_neg (by omega), if_pos (by omega)]
    · show vintWidth (id / 1) = 1
      unfold vintWidth
      rw [if_pos (by omega)]
  · have a : 16384 ≤ id := hlo
    have b : id < 32768 := hhi
    refine ⟨?_, by show id < 65536; omega, ?_⟩
    · unfold ebml_id_size
      rw [if_neg (by omega), if_neg (by omega), if_pos (by omega)]
    · show vintWidth (id / 256) = 2
      unfold vintWidth
      rw [if_neg (by omega), if_pos (by omega)]
  · have a : 2097152 ≤ id := hlo
    have b : id < 4194304 := hhi
    refine ⟨?_, by show id < 16777216; omega, ?_⟩
    · unfold ebml_id_size
      rw [if_neg (by omega), if_neg (by omega), if_neg (by omega), if_pos (by omega)]
    · show vintWidth (id / 65536) = 3
      unfold vintWidth
      rw [if_neg (by omega), if_neg (by omega), if_pos (by omega)]
  · have a : 268435456 ≤ id := hlo
    have b : id < 536870912 := hhi
    refine ⟨?_, by show id < 4294967296; omega, ?_⟩
    · unfold ebml_id_size
      rw [if_neg (by omega), if_neg (by omega), if_neg (by omega), if_neg (by omega)]
    · show vintWidth (id / 16777216) = 4
      unfold vintWidth
      rw [if_neg (by omega), if_neg (by omega), if_neg (by omega), if_pos (by omega)]

theorem wireFormatIds_valid :
    ∀ x ∈ wireFormatIds, x < 2 ^ 32 ∧ ValidEbmlId x (ebml_id_size x) := by
  unfold ValidEbmlId
  decide

/-- C24: for every 32-bit `id >= 0x80`, `ebml_write_id` writes the `k` big-endian bytes
of `id`, with `k = 1` if `id <= 0xFF`, `2` if `id <= 0xFFFF`, `3` if `id <= 0xFFFFFF`,
else `4`, and returns `k` (`ebml_id_size`); read big-endian the bytes give back `id`.
For `id < 0x80` it writes nothing and returns `0`. For every valid EBML ID of `k` bytes
the width implied by the leading zeros of the first written byte is the number `k` of
bytes written; every ID of the wire-format table is valid. -/
theorem ebml_write_id_spec (id : Nat) (h32 : id < 2 ^ 32) :
    (id < 0x80 → ebml_id_size id = 0 ∧ ebml_write_id id = []) ∧
    (0x80 ≤ id →
      ebml_id_size id =
        (if id ≤ 0xFF then 1 else if id ≤ 0xFFFF then 2 else if id ≤ 0xFFFFFF then 3 else 4) ∧
      ebml_write_id id = writeBE id (ebml_id_size id) ∧
      (ebml_write_id id).length = ebml_id_size id ∧
      id < 256 ^ ebml_id_size id ∧
      beValue (ebml_write_id id) = id) ∧
    (∀ k, ValidEbmlId id k →
      ebml_id_size id = k ∧
      ∃ b0 rest, ebml_write_id id = b0 :: rest ∧ rest.length = k - 1 ∧
        vintWidth b0 = k ∧ beValue (b0 :: rest) = id) ∧
    ∀ x ∈ wireFormatIds, x < 2 ^ 32 ∧ ValidEbmlId x (ebml_id_size x) := by
  have h32' : id < 4294967296 := by norm_num at h32; exact h32
  refine ⟨fun hlt => ?_, fun hge => ?_, fun k hk => ?_, ?_⟩
  · have hs : ebml_id_size id = 0 := by
      unfold ebml_id_size
      rw [if_pos hlt]
    exact ⟨hs, by unfold ebml_write_id; rw [hs]; rfl⟩
  · have hs : ebml_id_size id =
        (if id ≤ 0xFF then 1 else if id ≤ 0xFFFF then 2 else if id ≤ 0xFFFFFF then 3 else 4) := by
      unfold ebml_id_size
      rw [if_neg (by omega)]
    have hlt : id < 256 ^ ebml_id_size id := by
      rw [hs]
      split_ifs <;> norm_num <;> omega
    exact ⟨hs, rfl, writeBE_length _ _, hlt, beValue_writeBE _ _ hlt⟩
  · obtain ⟨g1, g2, g3⟩ := validEbmlId_size id k hk
    refine ⟨g1, ?_⟩
    obtain ⟨j, rfl⟩ : ∃ j, k = j + 1 := ⟨k - 1, by have := hk.1; omega⟩
    refine ⟨id / 256 ^ j, writeBE id j, ?_, writeBE_length _ _, g3, ?_⟩
    · unfold ebml_write_id
      rw [g1]
      exact writeBE_head id j g2
    · rw [← writeBE_head id j g2]
      exact beValue_writeBE _ _ g2
  · exact wireFormatIds_valid

theorem ebml_write_id_spec_witness :
    MATROSKA_ID_CLUSTER < 2 ^ 32 ∧
    ((MATROSKA_ID_CLUSTER < 0x80 →
      ebml_id_size MATROSKA_ID_CLUSTER = 0 ∧ ebml_write_id MATROSKA_ID_CLUSTER = []) ∧
    (0x80 ≤ MATROSKA_ID_CLUSTER →
      ebml_id_size MATROSKA_ID_CLUSTER =
        (if MATROSKA_ID_CLUSTER ≤ 0xFF then 1 else if MATROSKA_ID_CLUSTER ≤ 0xFFFF then 2
          else if MATROSKA_ID_CLUSTER ≤ 0xFFFFFF then 3 else 4) ∧
      ebml_write_id MATROSKA_ID_CLUSTER =
        writeBE MATROSKA_ID_CLUSTER (ebml_id_size MATROSKA_ID_CLUSTER) ∧
      (ebml_write_id MATROSKA_ID_CLUSTER).length = ebml_id_size MATROSKA_ID_CLUSTER ∧
      MATROSKA_ID_CLUSTER < 256 ^ ebml_id_size MATROSKA_ID_CLUSTER ∧
      beValue (ebml_write_id MATROSKA_ID_CLUSTER) = MATROSKA_ID_CLUSTER) ∧
    (∀ k, ValidEbmlId MATROSKA_ID_CLUSTER k →
      ebml_id_size MATROSKA_ID_CLUSTER = k ∧
      ∃ b0 rest, ebml_write_id MATROSKA_ID_CLUSTER = b0 :: rest ∧ rest.length = k - 1 ∧
        vintWidth b0 = k ∧ beValue (b0 :: rest) = MATROSKA_ID_CLUSTER) ∧
    ∀ x ∈ wireFormatIds, x < 2 ^ 32 ∧ ValidEbmlId x (ebml_id_size x)) :=
  ⟨by decide, ebml_write_id_spec MATROSKA_ID_CLUSTER (by decide)⟩

/-! ### C25: `ebml_write_uint` -/

theorem uint_size_loop_spec (fuel : Nat) : ∀ (value bytes : Nat), value < 256 ^ fuel →
    bytes ≤ uint_size_loop fuel value bytes ∧
    uint_size_loop fuel value bytes ≤ bytes + fuel ∧
    value < 256 ^ (uint_size_loop fuel value bytes - bytes) ∧
    (value = 0 → uint_size_loop fuel value bytes = bytes) ∧
    (0 < value → 256 ^ (uint_size_loop fuel value bytes - bytes - 1) ≤ value ∧
      bytes < uint_size_loop fuel value bytes) := by
  induction fuel with
  | zero =>
    intro value bytes hv
    simp at hv
    subst hv
    simp [uint_size_loop]
  | succ f ih =>
    intro value bytes hv
    rw [uint_size_loop]
    by_cases h0 : value > 0
    · rw [if_pos h0, Nat.shiftRight_eq_div_pow]
      have h8 : (2 : Nat) ^ 8 = 256 := by norm_num
      rw [h8]
      have hdiv : value / 256 < 256 ^ f := by
        rw [Nat.div_lt_iff_lt_mul (by decide)]
        rw [Nat.pow_succ] at hv
        exact hv
      obtain ⟨a1, a2, a3, a4, a5⟩ := ih (value / 256) (bytes + 1) hdiv
      obtain ⟨m, hm⟩ : ∃ m, uint_size_loop f (value / 256) (bytes + 1) = bytes + 1 + m :=
        ⟨uint_size_loop f (value / 256) (bytes + 1) - (bytes + 1), by omega⟩
      rw [hm] at a3 a4 a5 ⊢
      have e1 : bytes + 1 + m - (bytes + 1) = m := by omega
      have e2 : bytes + 1 + m - bytes = m + 1 := by omega
      rw [e1] at a3 a5
      rw [e2, Nat.add_sub_cancel]
      refine ⟨by omega, by omega, ?_, fun hz => by omega, fun _ => ⟨?_, by omega⟩⟩
      · rw [Nat.pow_succ]
        exact Nat.lt_mul_of_div_lt a3 (by decide)
      · rcases Nat.eq_zero_or_pos (value / 256) with hz | hp
        · have hm0 : m = 0 := by
            have := a4 hz
            omega
          subst hm0
          simpa using h0
        · obtain ⟨b1, b2⟩ := a5 hp
          obtain ⟨m', rfl⟩ : ∃ m', m = m' + 1 := ⟨m - 1, by omega⟩
          rw [Nat.add_sub_cancel] at b1
          rw [Nat.pow_succ]
          calc 256 ^ m' * 256 ≤ value / 256 * 256 := Nat.mul_le_mul_right _ b1
            _ ≤ value := Nat.div_mul_le_self value 256
    · rw [if_neg h0]
      have hz : value = 0 := by omega
      subst hz
      refine ⟨le_refl _, by omega, ?_, fun _ => rfl, fun h => absurd h (by decide)⟩
      rw [Nat.sub_self]
      decide

theorem uint_size_spec (v : Nat) (hv : v < 2 ^ 64) :
    1 ≤ uint_size v ∧ uint_size v ≤ 8 ∧ v < 256 ^ uint_size v ∧
    (v = 0 → uint_size v = 1) ∧
    ∀ j, 1 ≤ j → v < 256 ^ j → uint_size v ≤ j := by
  have h8 : v < 256 ^ 8 := by norm_num at hv ⊢; exact hv
  unfold uint_size
  by_cases h0 : v = 0
  · rw [if_pos h0]
    subst h0
    exact ⟨le_refl _, by decide, by decide, fun _ => rfl, fun j hj _ => hj⟩
  · rw [if_neg h0]
    obtain ⟨a1, a2, a3, a4, a5⟩ := uint_size_loop_spec 8 v 0 h8
    obtain ⟨b1, b2⟩ := a5 (by omega)
    simp only [Nat.sub_zero, Nat.zero_add] at a2 a3 b1
    refine ⟨by omega, a2, a3, fun h => absurd h h0, fun j hj hlt => ?_⟩
    by_contra hcon
    have hle : j ≤ uint_size_loop 8 v 0 - 1 := by omega
    have : 256 ^ j ≤ 256 ^ (uint_size_loop 8 v 0 - 1) :=
      Nat.pow_le_pow_right (by decide) hle
    omega

theorem ebml_write_size_small : ∀ k < 127, ebml_write_size k = [0x80 ||| k] := by
  decide

/-- C25: for every 64-bit unsigned `v` and every `id`, `ebml_write_uint` writes the ID
bytes, the one-byte size VINT `0x80 | k` and the `k` big-endian bytes of `v`, where `k`
(`uint_size v`) is the least number in `1..8` with `v < 256^k` (`1` for `v = 0`); the
number of bytes written is ID width + 1 + `k`. -/
theorem ebml_write_uint_spec (id v : Nat) (hv : v < 2 ^ 64) :
    (1 ≤ uint_size v ∧ uint_size v ≤ 8 ∧ v < 256 ^ uint_size v ∧
      (v = 0 → uint_size v = 1) ∧
      ∀ j, 1 ≤ j → v < 256 ^ j → uint_size v ≤ j) ∧
    ebml_write_uint id v =
      ebml_write_id id ++ [0x80 ||| uint_size v] ++ writeBE v (uint_size v) ∧
    (writeBE v (uint_size v)).length = uint_size v ∧
    beValue (writeBE v (uint_size v)) = v ∧
    (ebml_write_uint id v).length = ebml_id_size id + 1 + uint_size v := by
  have hs := uint_size_spec v hv
  have hw : ebml_write_uint id v =
      ebml_write_id id ++ [0x80 ||| uint_size v] ++ writeBE v (uint_size v) := by
    unfold ebml_write_uint
    rw [ebml_write_size_small _ (by omega)]
  refine ⟨hs, hw, writeBE_length _ _, beValue_writeBE _ _ hs.2.2.1, ?_⟩
  rw [hw]
  simp only [List.length_append, List.length_cons, List.length_nil, writeBE_length]
  unfold ebml_write_id
  rw [writeBE_length]

theorem ebml_write_uint_spec_witness :
    (1000000 : Nat) < 2 ^ 64 ∧
    ((1 ≤ uint_size 1000000 ∧ uint_size 1000000 ≤ 8 ∧ 1000000 < 256 ^ uint_size 1000000 ∧
      ((1000000 : Nat) = 0 → uint_size 1000000 = 1) ∧
      ∀ j, 1 ≤ j → 1000000 < 256 ^ j → uint_size 1000000 ≤ j) ∧
    ebml_write_uint MATROSKA_ID_TIMECODESCALE 1000000 =
      ebml_write_id MATROSKA_ID_TIMECODESCALE ++ [0x80 ||| uint_size 1000000] ++
        writeBE 1000000 (uint_size 1000000) ∧
    (writeBE 1000000 (uint_size 1000000)).length = uint_size 1000000 ∧
    beValue (writeBE 1000000 (uint_size 1000000)) = 1000000 ∧
    (ebml_write_uint MATROSKA_ID_TIMECODESCALE 1000000).length =
      ebml_id_size MATROSKA_ID_TIMECODESCALE + 1 + uint_size 1000000) :=
  ⟨by norm_num, ebml_write_uint_spec MATROSKA_ID_TIMECODESCALE 1000000 (by norm_num)⟩

/-! ### C26: `ebml_write_sint` -/

theorem sint_byte (v : Int) (i : Nat) :
    ((v >>> (i * 8)) % 256).toNat = ((v / 2 ^ (i * 8)) % 256).toNat := by
  rw [Int.shiftRight_eq_div_pow]
  norm_cast

theorem int_emod_pow_succ (v : Int) (j : Nat) :
    v % 256 ^ (j + 1) = (v / 256 ^ j % 256) * 256 ^ j + v % 256 ^ j := by
  have hP : (0 : Int) < 256 ^ j := by positivity
  have h1 := Int.emod_add_ediv v (256 ^ j)
  have h2 := Int.emod_add_ediv (v / 256 ^ j) 256
  have hr0 : 0 ≤ v % 256 ^ j := Int.emod_nonneg _ (ne_of_gt hP)
  have hr1 : v % 256 ^ j < 256 ^ j := Int.emod_lt_of_pos _ hP
  have hb0 : 0 ≤ v / 256 ^ j % 256 := Int.emod_nonneg _ (by decide)
  have hb1 : v / 256 ^ j % 256 < 256 := Int.emod_lt_of_pos _ (by decide)
  have hv : v = ((v / 256 ^ j % 256) * 256 ^ j + v % 256 ^ j) +
      256 ^ (j + 1) * (v / 256 ^ j / 256) := by
    rw [pow_succ]
    linear_combination (-1 : Int) * h1 - (256 ^ j : Int) * h2
  have hlt : (v / 256 ^ j % 256) * 256 ^ j + v % 256 ^ j < 256 ^ (j + 1) := by
    rw [pow_succ]
    nlinarith
  have hge : 0 ≤ (v / 256 ^ j % 256) * 256 ^ j + v % 256 ^ j := by positivity
  conv_lhs => rw [hv]
  rw [Int.add_mul_emod_self_left, Int.emod_eq_of_lt hge hlt]

theorem foldl_writeBESigned (v : Int) (k : Nat) : ∀ acc : Nat,
    (writeBESigned v k).foldl (fun a b => a * 256 + b) acc =
      acc * 256 ^ k + (v % 256 ^ k).toNat := by
  induction k with
  | zero =>
    intro acc
    simp [writeBESigned, Int.emod_one]
  | succ j ih =>
    intro acc
    rw [writeBESigned, List.foldl_cons, ih, sint_byte]
    have hp : (2 : Int) ^ (j * 8) = 256 ^ j := by
      rw [Nat.mul_comm, pow_mul]
      norm_num
    rw [hp]
    have hP : (0 : Int) < 256 ^ j := by positivity
    have hP1 : (0 : Int) < 256 ^ (j + 1) := by positivity
    have hr0 : 0 ≤ v % 256 ^ j := Int.emod_nonneg _ (ne_of_gt hP)
    have hs0 : 0 ≤ v % 256 ^ (j + 1) := Int.emod_nonneg _ (ne_of_gt hP1)
    have hb0 : 0 ≤ v / 256 ^ j % 256 := Int.emod_nonneg _ (by decide)
    have key := int_emod_pow_succ v j
    have : ((v / 256 ^ j % 256).toNat * 256 ^ j + (v % 256 ^ j).toNat : Nat) =
        (v % 256 ^ (j + 1)).toNat := by
      apply Int.ofNat_inj.mp
      push_cast
      rw [Int.toNat_of_nonneg hr0, Int.toNat_of_nonneg hs0, Int.toNat_of_nonneg hb0, key]
    rw [← this, Nat.pow_succ]
    ring

theorem writeBESigned_length (v : Int) (k : Nat) : (writeBESigned v k).length = k := by
  induction k with
  | zero => rfl
  | succ i ih => simp [writeBESigned, ih]

theorem sintValue_writeBESigned (v : Int) (k : Nat) (hk : 1 ≤ k)
    (h1 : -2 ^ (8 * k - 1) ≤ v) (h2 : v < 2 ^ (8 * k - 1)) :
    sintValue (writeBESigned v k) = v := by
  unfold sintValue beValue
  rw [foldl_writeBESigned, writeBESigned_length, Nat.zero_mul, Nat.zero_add]
  have hpow : (256 : Int) ^ k = 2 * 2 ^ (8 * k - 1) := by
    have : (256 : Int) = 2 ^ 8 := by norm_num
    rw [this, ← pow_mul, ← pow_succ']
    congr 1
    omega
  have hH : (0 : Int) < 2 ^ (8 * k - 1) := by positivity
  have hcast : (2 : Int) ^ (8 * k) = 256 ^ k := by
    rw [pow_mul]
    norm_num
  by_cases hv : 0 ≤ v
  · have hm : v % 256 ^ k = v := Int.emod_eq_of_lt hv (by rw [hpow]; linarith)
    rw [hm]
    have hlt : v.toNat < 2 ^ (8 * k - 1) := by
      apply Int.ofNat_lt.mp
      rw [Int.toNat_of_nonneg hv]
      push_cast
      exact h2
    rw [if_pos hlt, Int.toNat_of_nonneg hv]
  · have hm : v % 256 ^ k = v + 256 ^ k := by
      have h0 : 0 ≤ v + 256 ^ k := by rw [hpow]; linarith
      have h3 : v + 256 ^ k < 256 ^ k := by linarith
      have := Int.emod_eq_of_lt h0 h3
      rw [Int.add_emod_self] at this
      exact this
    rw [hm]
    have h0 : 0 ≤ v + 256 ^ k := by rw [hpow]; linarith
    have hge : ¬ (v + 256 ^ k).toNat < 2 ^ (8 * k - 1) := by
      intro hc
      have hc' : ((v + 256 ^ k).toNat : Int) < 2 ^ (8 * k - 1) := by exact_mod_cast hc
      rw [Int.toNat_of_nonneg h0, hpow] at hc'
      linarith
    rw [if_neg hge, Int.toNat_of_nonneg h0, hcast]
    ring

/-- C26 (amended): for every 64-bit signed `v`, `ebml_write_sint` writes the ID bytes,
the one-byte size VINT `0x80 | k` and `k` payload bytes holding `v` in big-endian
two's complement (sign-extending them gives back `v`), where `k` (`sint_size v`) is the
least width in `1..4` with `-2^(8k-1) <= v < 2^(8k-1)` when `v` fits 32 bits, and `8`
otherwise; widths 5, 6 and 7 are never written. -/
theorem ebml_write_sint_spec (id : Nat) (v : Int) (hlo : -2 ^ 63 ≤ v) (hhi : v < 2 ^ 63) :
    (sint_size v = 1 ∨ sint_size v = 2 ∨ sint_size v = 3 ∨ sint_size v = 4 ∨
      sint_size v = 8) ∧
    (-2 ^ (8 * sint_size v - 1) ≤ v ∧ v < 2 ^ (8 * sint_size v - 1)) ∧
    (∀ j, 1 ≤ j → j ≤ 4 → -2 ^ (8 * j - 1) ≤ v → v < 2 ^ (8 * j - 1) → sint_size v ≤ j) ∧
    (sint_size v = 8 ↔ ¬ (-2 ^ 31 ≤ v ∧ v < 2 ^ 31)) ∧
    ebml_write_sint id v =
      ebml_write_id id ++ [0x80 ||| sint_size v] ++ writeBESigned v (sint_size v) ∧
    (writeBESigned v (sint_size v)).length = sint_size v ∧
    sintValue (writeBESigned v (sint_size v)) = v := by
  have hlo' : -9223372036854775808 ≤ v := by norm_num at hlo; exact hlo
  have hhi' : v < 9223372036854775808 := by norm_num at hhi; exact hhi
  have hmin : ∀ j, 1 ≤ j → j ≤ 4 → -2 ^ (8 * j - 1) ≤ v → v < 2 ^ (8 * j - 1) →
      (j = 1 ∧ -128 ≤ v ∧ v ≤ 127) ∨ (j = 2 ∧ -32768 ≤ v ∧ v ≤ 32767) ∨
      (j = 3 ∧ -8388608 ≤ v ∧ v ≤ 8388607) ∨ (j = 4 ∧ -2147483648 ≤ v ∧ v ≤ 2147483647) := by
    intro j h1 h4 a b
    have hj : j = 1 ∨ j = 2 ∨ j = 3 ∨ j = 4 := by omega
    rcases hj with rfl | rfl | rfl | rfl <;> norm_num at a b <;> omega
  have hlen : ∀ k, (writeBESigned v k).length = k := writeBESigned_length v
  have hw : ∀ k, k < 127 → ebml_write_id id ++ ebml_write_size k ++ writeBESigned v k =
      ebml_write_id id ++ [0x80 ||| k] ++ writeBESigned v k := by
    intro k hk
    rw [ebml_write_size_small k hk]
  unfold ebml_write_sint
  by_cases c1 : v ≥ -128 ∧ v ≤ 127
  · have hs : sint_size v = 1 := by unfold sint_size; rw [if_pos c1]
    rw [hs]
    refine ⟨Or.inl rfl, by norm_num; omega, fun j hj _ _ _ => hj, by norm_num; omega,
      hw 1 (by decide), hlen 1, sintValue_writeBESigned v 1 (by decide) (by norm_num; omega) (by norm_num; omega)⟩
  by_cases c2 : v ≥ -32768 ∧ v ≤ 32767
  · have hs : sint_size v = 2 := by unfold sint_size; rw [if_neg c1, if_pos c2]
    rw [hs]
    refine ⟨Or.inr (Or.inl rfl), by norm_num; omega, fun j h1 h4 a b => ?_, by norm_num; omega,
      hw 2 (by decide), hlen 2, sintValue_writeBESigned v 2 (by decide) (by norm_num; omega) (by norm_num; omega)⟩
    rcases hmin j h1 h4 a b with h | h | h | h <;> omega
  by_cases c3 : v ≥ -8388608 ∧ v ≤ 8388607
  · have hs : sint_size v = 3 := by unfold sint_size; rw [if_neg c1, if_neg c2, if_pos c3]
    rw [hs]
    refine ⟨Or.inr (Or.inr (Or.inl rfl)), by norm_num; omega, fun j h1 h4 a b => ?_,
      by norm_num; omega, hw 3 (by decide), hlen 3, sintValue_writeBESigned v 3 (by decide) (by norm_num; omega) (by norm_num; omega)⟩
    rcases hmin j h1 h4 a b with h | h | h | h <;> omega
  by_cases c4 : v ≥ -2147483648 ∧ v ≤ 2147483647
  · have hs : sint_size v = 4 := by
      unfold sint_size
      rw [if_neg c1, if_neg c2, if_neg c3, if_pos c4]
    rw [hs]
    refine ⟨Or.inr (Or.inr (Or.inr (Or.inl rfl))), by norm_num; omega, fun j h1 h4 a b => ?_,
      by norm_num; omega, hw 4 (by decide), hlen 4, sintValue_writeBESigned v 4 (by decide) (by norm_num; omega) (by norm_num; omega)⟩
    rcases hmin j h1 h4 a b with h | h | h | h <;> omega
  · have hs : sint_size v = 8 := by
      unfold sint_size
      rw [if_neg c1, if_neg c2, if_neg c3, if_neg c4]
    rw [hs]
    refine ⟨Or.inr (Or.inr (Or.inr (Or.inr rfl))), by norm_num; omega, fun j h1 h4 a b => ?_,
      by norm_num; omega, hw 8 (by decide), hlen 8,
      sintValue_writeBESigned v 8 (by decide) (by norm_num; omega) (by norm_num; omega)⟩
    rcases hmin j h1 h4 a b with h | h | h | h <;> omega

/-- C26 (counterexample): `v = 2^31` fits the width 5 (`-2^39 <= v < 2^39`), yet
`ebml_write_sint` writes it with the width 8 (size VINT `88`, payload
`00 00 00 00 80 00 00 00`): the width is not the minimum one. -/
theorem ebml_write_sint_not_minimal :
    (-2 ^ (8 * 5 - 1) ≤ (2147483648 : Int) ∧ (2147483648 : Int) < 2 ^ (8 * 5 - 1)) ∧
    sint_size 2147483648 = 8 ∧
    ebml_write_sint 0xFB 2147483648 = [0xFB, 0x88, 0, 0, 0, 0, 0x80, 0, 0, 0] := by
  decide

theorem ebml_write_sint_spec_witness :
    (-2 ^ 63 ≤ (-129 : Int)) ∧ ((-129 : Int) < 2 ^ 63) ∧
    ((sint_size (-129) = 1 ∨ sint_size (-129) = 2 ∨ sint_size (-129) = 3 ∨
      sint_size (-129) = 4 ∨ sint_size (-129) = 8) ∧
    (-2 ^ (8 * sint_size (-129) - 1) ≤ (-129 : Int) ∧
      (-129 : Int) < 2 ^ (8 * sint_size (-129) - 1)) ∧
    (∀ j, 1 ≤ j → j ≤ 4 → -2 ^ (8 * j - 1) ≤ (-129 : Int) → (-129 : Int) < 2 ^ (8 * j - 1) →
      sint_size (-129) ≤ j) ∧
    (sint_size (-129) = 8 ↔ ¬ (-2 ^ 31 ≤ (-129 : Int) ∧ (-129 : Int) < 2 ^ 31)) ∧
    ebml_write_sint 0xFB (-129) =
      ebml_write_id 0xFB ++ [0x80 ||| sint_size (-129)] ++
        writeBESigned (-129) (sint_size (-129)) ∧
    (writeBESigned (-129) (sint_size (-129))).length = sint_size (-129) ∧
    sintValue (writeBESigned (-129) (sint_size (-129))) = -129) :=
  ⟨by norm_num, by norm_num, ebml_write_sint_spec 0xFB (-129) (by norm_num) (by norm_num)⟩

/-! ### C27: `Av1ObuHeader::parse` -/

set_option maxRecDepth 100000 in
theorem obu_flag_bits : ∀ b < 256,
    ((b >>> 2) &&& 1 ≠ 0 ↔ b &&& 0x04 ≠ 0) ∧ ((b >>> 1) &&& 1 ≠ 0 ↔ b &&& 0x02 ≠ 0) ∧
    (b >>> 3) &&& 0x0f = b / 8 % 16 := by
  decide

/-- C27: on a buffer of bytes, `Av1ObuHeader::parse` returns `-1` (`none`) if and only
if the buffer is empty, or the forbidden bit (`0x80`) or the reserved bit (`0x01`) of
the first byte is set, or the extension flag (`0x04`) is set and no second byte is
available; otherwise it returns `2` when the extension flag is set and `1` when it is
not, with `obu_type` equal to bits 6..3 of the first byte, `obu_has_size_field` equal
to bit 1 and `obu_extension_flag` equal to bit 2. -/
theorem av1ObuHeader_parse_spec (buf : List Nat) (hbytes : ∀ b ∈ buf, b < 256) :
    (Av1ObuHeader.parse buf = none ↔
      buf = [] ∨ buf.getD 0 0 &&& 0x80 ≠ 0 ∨ buf.getD 0 0 &&& 0x01 ≠ 0 ∨
        (buf.getD 0 0 &&& 0x04 ≠ 0 ∧ buf.length < 2)) ∧
    ∀ hdr n, Av1ObuHeader.parse buf = some (hdr, n) →
      n = (if buf.getD 0 0 &&& 0x04 ≠ 0 then 2 else 1) ∧
      hdr.obu_type = buf.getD 0 0 / 8 % 16 ∧
      hdr.obu_has_size_field = decide (buf.getD 0 0 &&& 0x02 ≠ 0) ∧
      hdr.obu_extension_flag = decide (buf.getD 0 0 &&& 0x04 ≠ 0) := by
  cases buf with
  | nil =>
    refine ⟨⟨fun _ => Or.inl rfl, fun _ => rfl⟩, fun hdr n h => ?_⟩
    simp [Av1ObuHeader.parse] at h
  | cons b0 rest =>
    obtain ⟨f1, f2, f3⟩ := obu_flag_bits b0 (hbytes b0 (List.mem_cons_self _ _))
    simp only [List.getD_cons_zero, List.length_cons]
    by_cases h80 : b0 &&& 0x80 ≠ 0
    · have hp : Av1ObuHeader.parse (b0 :: rest) = none := parse_invalid b0 (Or.inl h80) rest
      rw [hp]
      exact ⟨⟨fun _ => Or.inr (Or.inl h80), fun _ => rfl⟩,
        fun hdr n h => Option.noConfusion h⟩
    by_cases h01 : b0 &&& 0x01 ≠ 0
    · have hp : Av1ObuHeader.parse (b0 :: rest) = none := parse_invalid b0 (Or.inr h01) rest
      rw [hp]
      exact ⟨⟨fun _ => Or.inr (Or.inr (Or.inl h01)), fun _ => rfl⟩,
        fun hdr n h => Option.noConfusion h⟩
    by_cases hext : (b0 >>> 2) &&& 1 ≠ 0
    · have h04 : b0 &&& 0x04 ≠ 0 := f1.mp hext
      have hd : decide ((b0 >>> 2) &&& 1 ≠ 0) = true := decide_eq_true hext
      cases rest with
      | nil =>
        have hp : Av1ObuHeader.parse [b0] = none := by
          simp only [Av1ObuHeader.parse]
          rw [if_neg h80, if_neg h01, hd, if_pos rfl]
        rw [hp]
        exact ⟨⟨fun _ => Or.inr (Or.inr (Or.inr ⟨h04, by decide⟩)), fun _ => rfl⟩,
          fun hdr n h => Option.noConfusion h⟩
      | cons b1 tl =>
        have hp : Av1ObuHeader.parse (b0 :: b1 :: tl) =
            some ({ obu_type := (b0 >>> 3) &&& 0x0f, obu_extension_flag := true,
                    obu_has_size_field := decide ((b0 >>> 1) &&& 1 ≠ 0),
                    temporal_id := (b1 >>> 5) &&& 0x07, spatial_id := (b1 >>> 3) &&& 0x03 },
              2) := by
          simp only [Av1ObuHeader.parse]
          rw [if_neg h80, if_neg h01, hd, if_pos rfl]
        rw [hp]
        refine ⟨⟨fun h => Option.noConfusion h, fun h => ?_⟩, fun hdr n h => ?_⟩
        · rcases h with h | h | h | ⟨-, h⟩
          · exact List.noConfusion h
          · exact absurd h h80
          · exact absurd h h01
          · exact absurd h (by simp)
        · simp only [Option.some.injEq, Prod.mk.injEq] at h
          obtain ⟨rfl, rfl⟩ := h
          refine ⟨by rw [if_pos h04], f3, ?_, ?_⟩
          · exact decide_eq_decide.mpr f2
          · exact (decide_eq_true h04).symm
    · have h04 : ¬ b0 &&& 0x04 ≠ 0 := fun h => hext (f1.mpr h)
      have hd : decide ((b0 >>> 2) &&& 1 ≠ 0) = false := decide_eq_false hext
      have hp : Av1ObuHeader.parse (b0 :: rest) =
          some ({ obu_type := (b0 >>> 3) &&& 0x0f, obu_extension_flag := false,
                  obu_has_size_field := decide ((b0 >>> 1) &&& 1 ≠ 0),
                  temporal_id := 0, spatial_id := 0 }, 1) := by
        simp only [Av1ObuHeader.parse]
        rw [if_neg h80, if_neg h01, hd, if_neg Bool.false_ne_true]
      rw [hp]
      refine ⟨⟨fun h => Option.noConfusion h, fun h => ?_⟩, fun hdr n h => ?_⟩
      · rcases h with h | h | h | ⟨h, -⟩
        · exact List.noConfusion h
        · exact absurd h h80
        · exact absurd h h01
        · exact absurd h h04
      · simp only [Option.some.injEq, Prod.mk.injEq] at h
        obtain ⟨rfl, rfl⟩ := h
        refine ⟨by rw [if_neg h04], f3, ?_, ?_⟩
        · exact decide_eq_decide.mpr f2
        · exact (decide_eq_false h04).symm

theorem av1ObuHeader_parse_spec_witness :
    (∀ b ∈ [0x36, 0x40, 0x99], b < 256) ∧
    ((Av1ObuHeader.parse [0x36, 0x40, 0x99] = none ↔
      [0x36, 0x40, 0x99] = [] ∨ ([0x36, 0x40, 0x99] : List Nat).getD 0 0 &&& 0x80 ≠ 0 ∨
        ([0x36, 0x40, 0x99] : List Nat).getD 0 0 &&& 0x01 ≠ 0 ∨
        (([0x36, 0x40, 0x99] : List Nat).getD 0 0 &&& 0x04 ≠ 0 ∧
          ([0x36, 0x40, 0x99] : List Nat).length < 2)) ∧
    ∀ hdr n, Av1ObuHeader.parse [0x36, 0x40, 0x99] = some (hdr, n) →
      n = (if ([0x36, 0x40, 0x99] : List Nat).getD 0 0 &&& 0x04 ≠ 0 then 2 else 1) ∧
      hdr.obu_type = ([0x36, 0x40, 0x99] : List Nat).getD 0 0 / 8 % 16 ∧
      hdr.obu_has_size_field =
        decide (([0x36, 0x40, 0x99] : List Nat).getD 0 0 &&& 0x02 ≠ 0) ∧
      hdr.obu_extension_flag =
        decide (([0x36, 0x40, 0x99] : List Nat).getD 0 0 &&& 0x04 ≠ 0)) :=
  ⟨by decide, av1ObuHeader_parse_spec [0x36, 0x40, 0x99] (by decide)⟩

/-! ### C21: emulation prevention round trip -/

theorem remove_add (b : List Nat) : ∀ z : Nat,
    removeEmulationPrevention z (addEmulationPrevention z b) = b := by
  induction b with
  | nil => intro z; rfl
  | cons x r ih =>
    intro z
    rw [addEmulationPrevention]
    by_cases hc : 2 ≤ z ∧ x ≤ 3
    · rw [if_pos hc, removeEmulationPrevention, if_pos ⟨hc.1, rfl⟩, removeEmulationPrevention,
        if_neg (by omega)]
      have hst : (if x = 0 then 0 + 1 else 0) = (if x = 0 then 1 else 0) := by simp
      rw [hst, ih]
    · rw [if_neg hc, removeEmulationPrevention, if_neg (by omega), ih]

theorem addEmulationPrevention_length (b : List Nat) : ∀ z : Nat,
    b.length ≤ (addEmulationPrevention z b).length ∧
    (addEmulationPrevention z b).length ≤ 2 * b.length := by
  induction b with
  | nil => intro z; exact ⟨le_refl _, le_refl _⟩
  | cons x r ih =>
    intro z
    rw [addEmulationPrevention]
    split
    · have := ih (if x = 0 then 1 else 0)
      simp only [List.length_cons]
      omega
    · have := ih (if x = 0 then z + 1 else 0)
      simp only [List.length_cons]
      omega

theorem emulation_prevention_examples :
    av1_add_emulation_prevention [0, 0, 3] 16 = some [0, 0, 3, 3] ∧
    av1_remove_emulation_prevention [0, 0, 3, 3] 16 = some [0, 0, 3] ∧
    av1_add_emulation_prevention [0, 0, 0, 0, 1, 7, 0, 0, 2] 12 =
      some [0, 0, 3, 0, 0, 3, 1, 7, 0, 0, 3, 2] ∧
    av1_add_emulation_prevention [0, 0, 1] 3 = none := by
  decide

/-- C21: for every byte sequence `b` and destination buffers large enough for both
steps (as many bytes as the encoded form has for the first, which is at most twice the
length of `b`, and as many as `b` has for the second), `av1_add_emulation_prevention`
succeeds on `b` and `av1_remove_emulation_prevention` applied to its result returns
exactly `b`. -/
theorem emulation_prevention_roundtrip (b : List Nat) (d1 d2 : Nat)
    (h1 : (addEmulationPrevention 0 b).length ≤ d1) (h2 : b.length ≤ d2) :
    ∃ enc, av1_add_emulation_prevention b d1 = some enc ∧
      av1_remove_emulation_prevention enc d2 = some b ∧
      b.length ≤ enc.length ∧ enc.length ≤ 2 * b.length := by
  refine ⟨addEmulationPrevention 0 b, ?_, ?_, addEmulationPrevention_length b 0⟩
  · unfold av1_add_emulation_prevention NALUnit_encodeNAL
    simp only
    rw [if_pos h1]
  · unfold av1_remove_emulation_prevention NALUnit_decodeNAL
    simp only
    rw [remove_add b 0, if_pos h2]

theorem emulation_prevention_roundtrip_witness :
    ((addEmulationPrevention 0 [0, 0, 3, 0, 0, 1, 7, 0, 0, 0]).length ≤ 13 ∧
      ([0, 0, 3, 0, 0, 1, 7, 0, 0, 0] : List Nat).length ≤ 10) ∧
    ∃ enc, av1_add_emulation_prevention [0, 0, 3, 0, 0, 1, 7, 0, 0, 0] 13 = some enc ∧
      av1_remove_emulation_prevention enc 10 = some [0, 0, 3, 0, 0, 1, 7, 0, 0, 0] ∧
      ([0, 0, 3, 0, 0, 1, 7, 0, 0, 0] : List Nat).length ≤ enc.length ∧
      enc.length ≤ 2 * ([0, 0, 3, 0, 0, 1, 7, 0, 0, 0] : List Nat).length :=
  ⟨by decide, emulation_prevention_roundtrip [0, 0, 3, 0, 0, 1, 7, 0, 0, 0] 13 10
    (by decide) (by decide)⟩

/-! ### The bit reader -/

theorem getBits_eq_some {data : List Nat} (r r' : BitStreamReader data) (n v : Nat) :
    r.getBits n = some (v, r') ↔
      r.pos + n ≤ 8 * data.length ∧ v = bitsValue data r.pos n ∧ r'.pos = r.pos + n := by
  unfold BitStreamReader.getBits
  by_cases h : r.pos + n ≤ 8 * data.length
  · rw [if_pos h]
    simp only [Option.some.injEq, Prod.mk.injEq]
    constructor
    · rintro ⟨rfl, rfl⟩
      exact ⟨h, rfl, rfl⟩
    · rintro ⟨-, rfl, hp⟩
      refine ⟨rfl, ?_⟩
      cases r'
      simp only at hp
      rw [hp]
  · rw [if_neg h]
    constructor
    · intro hc
      exact Option.noConfusion hc
    · rintro ⟨hc, -⟩
      exact absurd hc h

theorem bitsValue_one (data : List Nat) (p : Nat) : bitsValue data p 1 = bitAt data p := by
  simp [bitsValue]

theorem getBit_eq_some {data : List Nat} (r r' : BitStreamReader data) (v : Nat) :
    r.getBit = some (v, r') ↔
      r.pos + 1 ≤ 8 * data.length ∧ v = bitAt data r.pos ∧ r'.pos = r.pos + 1 := by
  unfold BitStreamReader.getBit
  rw [getBits_eq_some, bitsValue_one]

theorem getFlag_eq_some {data : List Nat} (r r' : BitStreamReader data) (b : Bool) :
    r.getFlag = some (b, r') ↔
      r.pos + 1 ≤ 8 * data.length ∧ b = decide (bitAt data r.pos ≠ 0) ∧
        r'.pos = r.pos + 1 := by
  unfold BitStreamReader.getFlag
  cases hg : r.getBit with
  | none =>
    simp only
    constructor
    · intro hc
      exact Option.noConfusion hc
    · rintro ⟨hc, -⟩
      have : r.getBit = some (bitAt data r.pos, { pos := r.pos + 1 }) :=
        (getBit_eq_some _ _ _).mpr ⟨hc, rfl, rfl⟩
      rw [hg] at this
      exact Option.noConfusion this
  | some x =>
    obtain ⟨v, r1⟩ := x
    obtain ⟨h1, rfl, hp⟩ := (getBit_eq_some _ _ _).mp hg
    simp only [Option.some.injEq, Prod.mk.injEq]
    constructor
    · rintro ⟨rfl, rfl⟩
      exact ⟨h1, rfl, hp⟩
    · rintro ⟨-, rfl, hp'⟩
      refine ⟨rfl, ?_⟩
      cases r1
      cases r'
      simp only at hp hp'
      rw [hp, hp']

theorem skipBits_eq_some {data : List Nat} (r r' : BitStreamReader data) (n : Nat) :
    r.skipBits n = some r' ↔ r.pos + n ≤ 8 * data.length ∧ r'.pos = r.pos + n := by
  unfold BitStreamReader.skipBits
  by_cases h : r.pos + n ≤ 8 * data.length
  · rw [if_pos h]
    simp only [Option.some.injEq]
    constructor
    · rintro rfl
      exact ⟨h, rfl⟩
    · rintro ⟨-, hp⟩
      cases r'
      simp only at hp
      rw [hp]
  · rw [if_neg h]
    constructor
    · intro hc
      exact Option.noConfusion hc
    · rintro ⟨hc, -⟩
      exact absurd hc h

theorem bitAt_le_one (data : List Nat) (p : Nat) : bitAt data p ≤ 1 := by
  unfold bitAt
  exact Nat.and_le_right

/-! ### What the parts of `deserialize` leave unchanged -/

theorem readIf_eq_some {α β : Type} (c : Bool) (read : Option (α × β)) (o x : α × β)
    (h : readIf c read o = some x) : (c = true ∧ read = some x) ∨ (c = false ∧ x = o) := by
  unfold readIf at h
  cases c with
  | true => exact Or.inl ⟨rfl, h⟩
  | false =>
    simp only [Bool.false_eq_true, if_false, Option.some.injEq] at h
    exact Or.inr ⟨rfl, h.symm⟩

theorem parseTools_frame {data : List Nat} (h h' : Av1SequenceHeader)
    (r r' : BitStreamReader data) (heq : h.parseTools r = some (h', r')) :
    h'.seq_profile = h.seq_profile ∧ h'.max_frame_width = h.max_frame_width ∧
    h'.max_frame_height = h.max_frame_height := by
  unfold Av1SequenceHeader.parseTools at heq
  split at heq
  · exact Option.noConfusion heq
  · dsimp only at heq
    split at heq
    · exact Option.noConfusion heq
    · split at heq
      · exact Option.noConfusion heq
      · simp only [Option.some.injEq, Prod.mk.injEq] at heq
        obtain ⟨rfl, -⟩ := heq
        exact ⟨rfl, rfl, rfl⟩

theorem parseFrameSize_frame {data : List Nat} (h h' : Av1SequenceHeader)
    (r r' : BitStreamReader data) (heq : h.parseFrameSize r = some (h', r')) :
    h'.seq_profile = h.seq_profile := by
  unfold Av1SequenceHeader.parseFrameSize at heq
  repeat' (split at heq)
  all_goals first
    | exact Option.noConfusion heq
    | (simp only [Option.some.injEq, Prod.mk.injEq] at heq
       obtain ⟨rfl, -⟩ := heq
       rfl)

theorem parseTimingInfo_frame {data : List Nat} (h h' : Av1SequenceHeader)
    (r r' : BitStreamReader data) (heq : h.parseTimingInfo r = some (h', r')) :
    h'.seq_profile = h.seq_profile := by
  unfold Av1SequenceHeader.parseTimingInfo at heq
  repeat' (split at heq)
  all_goals first
    | exact Option.noConfusion heq
    | (simp only [Option.some.injEq, Prod.mk.injEq] at heq
       obtain ⟨rfl, -⟩ := heq
       rfl)

theorem parseTimingAndDecoderModel_frame {data : List Nat} (h h' : Av1SequenceHeader)
    (r r' : BitStreamReader data) (dm : Bool)
    (heq : h.parseTimingAndDecoderModel r = some (h', dm, r')) :
    h'.seq_profile = h.seq_profile := by
  unfold Av1SequenceHeader.parseTimingAndDecoderModel at heq
  split at heq
  · exact Option.noConfusion heq
  · rename_i h1 r1 ht
    have hf := parseTimingInfo_frame _ _ _ _ ht
    repeat' (split at heq)
    all_goals first
      | exact Option.noConfusion heq
      | (simp only [Option.some.injEq, Prod.mk.injEq] at heq
         obtain ⟨rfl, -⟩ := heq
         exact hf)

theorem parseOperatingPoints_frame {data : List Nat} (dm idd : Bool) (count : Nat) :
    ∀ (i : Nat) (h h' : Av1SequenceHeader) (r r' : BitStreamReader data),
      Av1SequenceHeader.parseOperatingPoints dm idd count i h r = some (h', r') →
      h'.seq_profile = h.seq_profile := by
  induction count with
  | zero =>
    intro i h h' r r' heq
    simp only [Av1SequenceHeader.parseOperatingPoints, Option.some.injEq, Prod.mk.injEq] at heq
    obtain ⟨rfl, -⟩ := heq
    rfl
  | succ c ih =>
    intro i h h' r r' heq
    rw [Av1SequenceHeader.parseOperatingPoints] at heq
    split at heq
    · exact Option.noConfusion heq
    · split at heq
      · exact Option.noConfusion heq
      · split at heq
        · exact Option.noConfusion heq
        · simp only at heq
          split at heq
          · exact Option.noConfusion heq
          · split at heq
            · exact Option.noConfusion heq
            · have := ih _ _ _ _ _ heq
              rw [this]
              split_ifs <;> rfl

theorem parseOperatingInfo_frame {data : List Nat} (h h' : Av1SequenceHeader)
    (r r' : BitStreamReader data) (heq : h.parseOperatingInfo r = some (h', r')) :
    h'.seq_profile = h.seq_profile := by
  unfold Av1SequenceHeader.parseOperatingInfo at heq
  split at heq
  · split at heq
    · exact Option.noConfusion heq
    · simp only [Option.some.injEq, Prod.mk.injEq] at heq
      obtain ⟨rfl, -⟩ := heq
      rfl
  · split at heq
    · exact Option.noConfusion heq
    · rename_i tip r1 e1
      dsimp only at heq
      split at heq
      · exact Option.noConfusion heq
      · rename_i h2 dm r2 e2
        have h2p : h2.seq_profile = h.seq_profile := by
          rcases readIf_eq_some _ _ _ _ e2 with ⟨-, e⟩ | ⟨-, e⟩
          · have hf := parseTimingAndDecoderModel_frame _ _ _ _ _ e
            exact hf
          · simp only [Prod.mk.injEq] at e
            obtain ⟨rfl, -⟩ := e
            rfl
        split at heq
        · exact Option.noConfusion heq
        · split at heq
          · exact Option.noConfusion heq
          · rw [parseOperatingPoints_frame _ _ _ _ _ _ _ _ heq, h2p]

theorem parseChromaSubsampling_frame {data : List Nat} (h h' : Av1SequenceHeader)
    (r r' : BitStreamReader data) (heq : h.parseChromaSubsampling r = some (h', r')) :
    h'.seq_profile = h.seq_profile ∧ h'.max_frame_width = h.max_frame_width ∧
    h'.max_frame_height = h.max_frame_height ∧ h'.high_bitdepth = h.high_bitdepth ∧
    h'.twelve_bit = h.twelve_bit ∧ h'.mono_chrome = h.mono_chrome ∧
    h'.color_primaries = h.color_primaries ∧
    h'.transfer_characteristics = h.transfer_characteristics ∧
    h'.matrix_coefficients = h.matrix_coefficients := by
  unfold Av1SequenceHeader.parseChromaSubsampling at heq
  split at heq
  · exact Option.noConfusion heq
  · dsimp only at heq
    split at heq
    · exact Option.noConfusion heq
    · split at heq
      · split at heq
        · exact Option.noConfusion heq
        · simp only [Option.some.injEq, Prod.mk.injEq] at heq
          obtain ⟨rfl, -⟩ := heq
          exact ⟨rfl, rfl, rfl, rfl, rfl, rfl, rfl, rfl, rfl⟩
      · simp only [Option.some.injEq, Prod.mk.injEq] at heq
        obtain ⟨rfl, -⟩ := heq
        exact ⟨rfl, rfl, rfl, rfl, rfl, rfl, rfl, rfl, rfl⟩

theorem parseColorRange_frame {data : List Nat} (h h' : Av1SequenceHeader)
    (r r' : BitStreamReader data) (heq : h.parseColorRange r = some (h', r')) :
    h'.seq_profile = h.seq_profile ∧ h'.max_frame_width = h.max_frame_width ∧
    h'.max_frame_height = h.max_frame_height ∧ h'.high_bitdepth = h.high_bitdepth ∧
    h'.twelve_bit = h.twelve_bit ∧ h'.mono_chrome = h.mono_chrome ∧
    h'.color_primaries = h.color_primaries ∧
    h'.transfer_characteristics = h.transfer_characteristics ∧
    h'.matrix_coefficients = h.matrix_coefficients := by
  unfold Av1SequenceHeader.parseColorRange at heq
  split at heq
  · simp only [Option.some.injEq, Prod.mk.injEq] at heq
    obtain ⟨rfl, -⟩ := heq
    exact ⟨rfl, rfl, rfl, rfl, rfl, rfl, rfl, rfl, rfl⟩
  · exact parseChromaSubsampling_frame _ _ _ _ heq

/-- The two ways in which `parseColorConfig` returns `true`: through the monochrome
branch (lines 202-210), or through lines 212-255. In both, `h4` is the header when line
202 is reached. -/
theorem parseColorConfig_eq_some {data : List Nat} (h h' : Av1SequenceHeader)
    (r r' : BitStreamReader data) (heq : h.parseColorConfig r = some (h', r')) :
    ∃ (h4 : Av1SequenceHeader) (r4 : BitStreamReader data),
      h4.seq_profile = h.seq_profile ∧ h4.max_frame_width = h.max_frame_width ∧
      h4.max_frame_height = h.max_frame_height ∧
      h4.chroma_sample_position = h.chroma_sample_position ∧
      r.pos + 2 ≤ r4.pos ∧
      ((h4.mono_chrome = true ∧ ∃ color_range,
          r4.getFlag = some (color_range, r') ∧
          h' = { h4 with
            color_range := color_range, chroma_subsampling_x := 1,
            chroma_subsampling_y := 1, chroma_sample_position := 0,
            separate_uv_delta_q := false }) ∨
       (h4.mono_chrome = false ∧ ∃ (h5 : Av1SequenceHeader) (r5 : BitStreamReader data)
          (separate_uv_delta_q : Bool),
          h4.parseColorRange r4 = some (h5, r5) ∧
          r5.getFlag = some (separate_uv_delta_q, r') ∧
          h' = { h5 with separate_uv_delta_q := separate_uv_delta_q })) := by
  unfold Av1SequenceHeader.parseColorConfig at heq
  split at heq
  · exact Option.noConfusion heq
  · rename_i hb r1 e1
    dsimp only at heq
    split at heq
    · exact Option.noConfusion heq
    · rename_i tb r2 e2
      split at heq
      · exact Option.noConfusion heq
      · rename_i mono r3 e3
        split at heq
        · exact Option.noConfusion heq
        · rename_i cd r4 e4
          split at heq
          · exact Option.noConfusion heq
          · rename_i desc r5 e5
            have p1 := ((getFlag_eq_some _ _ _).mp e1).2.2
            have p2 : r1.pos ≤ r2.pos := by
              rcases readIf_eq_some _ _ _ _ e2 with ⟨-, e⟩ | ⟨-, e⟩
              · exact le_of_lt (by rw [((getFlag_eq_some _ _ _).mp e).2.2]; exact Nat.lt_succ_self _)
              · simp only [Prod.mk.injEq] at e
                rw [e.2]
            have p3 : r2.pos ≤ r3.pos := by
              rcases readIf_eq_some _ _ _ _ e3 with ⟨-, e⟩ | ⟨-, e⟩
              · exact le_of_lt (by rw [((getFlag_eq_some _ _ _).mp e).2.2]; exact Nat.lt_succ_self _)
              · simp only [Prod.mk.injEq] at e
                rw [e.2]
            have p4 := ((getFlag_eq_some _ _ _).mp e4).2.2
            have p5 : r4.pos ≤ r5.pos := by
              rcases readIf_eq_some _ _ _ _ e5 with ⟨-, e⟩ | ⟨-, e⟩
              · unfold readColorDescription at e
                split at e
                · exact Option.noConfusion e
                · rename_i _ ra ea
                  split at e
                  · exact Option.noConfusion e
                  · rename_i _ rb eb
                    split at e
                    · exact Option.noConfusion e
                    · rename_i _ rc ec
                      simp only [Option.some.injEq, Prod.mk.injEq] at e
                      obtain ⟨-, rfl⟩ := e
                      have := ((getBits_eq_some _ _ _ _).mp ea).2.2
                      have := ((getBits_eq_some _ _ _ _).mp eb).2.2
                      have := ((getBits_eq_some _ _ _ _).mp ec).2.2
                      omega
              · simp only [Prod.mk.injEq] at e
                rw [e.2]
            refine ⟨{ h with
              high_bitdepth := hb, twelve_bit := tb, mono_chrome := mono,
              color_primaries := desc.1, transfer_characteristics := desc.2.1,
              matrix_coefficients := desc.2.2 }, r5, rfl, rfl, rfl, rfl, by omega, ?_⟩
            split at heq
            · rename_i hm
              split at heq
              · exact Option.noConfusion heq
              · rename_i cr r6 e6
                simp only [Option.some.injEq, Prod.mk.injEq] at heq
                obtain ⟨rfl, rfl⟩ := heq
                exact Or.inl ⟨hm, cr, e6, rfl⟩
            · rename_i hm
              split at heq
              · exact Option.noConfusion heq
              · rename_i h5 r6 e6
                split at heq
                · exact Option.noConfusion heq
                · rename_i suv r7 e7
                  simp only [Option.some.injEq, Prod.mk.injEq] at heq
                  obtain ⟨rfl, rfl⟩ := heq
                  exact Or.inr ⟨by simpa using hm, h5, r6, suv, e6, e7, rfl⟩

theorem parseColorConfig_frame {data : List Nat} (h h' : Av1SequenceHeader)
    (r r' : BitStreamReader data) (heq : h.parseColorConfig r = some (h', r')) :
    h'.seq_profile = h.seq_profile ∧ h'.max_frame_width = h.max_frame_width ∧
    h'.max_frame_height = h.max_frame_height := by
  obtain ⟨h4, r4, hp, hw, hh, -, -, hc⟩ := parseColorConfig_eq_some _ _ _ _ heq
  rcases hc with ⟨-, cr, -, rfl⟩ | ⟨-, h5, r5, suv, e, -, rfl⟩
  · exact ⟨hp, hw, hh⟩
  · obtain ⟨f1, f2, f3, -⟩ := parseColorRange_frame _ _ _ _ e
    exact ⟨f1.trans hp, f2.trans hw, f3.trans hh⟩

/-! ### Chroma subsampling -/

theorem getBitDepth_congr (a b : Av1SequenceHeader) (h1 : a.seq_profile = b.seq_profile)
    (h2 : a.high_bitdepth = b.high_bitdepth) (h3 : a.twelve_bit = b.twelve_bit) :
    a.getBitDepth = b.getBitDepth := by
  unfold Av1SequenceHeader.getBitDepth
  rw [h1, h2, h3]

theorem readExplicitSubsampling_eq_some {data : List Nat} (r r' : BitStreamReader data)
    (xy : Nat × Nat) (heq : readExplicitSubsampling r = some (xy, r')) :
    xy.1 = bitAt data r.pos ∧
    (xy.1 = 0 → xy.2 = 0 ∧ r'.pos = r.pos + 1) ∧
    (xy.1 ≠ 0 → xy.2 = bitAt data (r.pos + 1) ∧ r'.pos = r.pos + 2) := by
  unfold readExplicitSubsampling at heq
  split at heq
  · exact Option.noConfusion heq
  · rename_i x r1 e1
    obtain ⟨-, rfl, p1⟩ := (getBit_eq_some _ _ _).mp e1
    split at heq
    · exact Option.noConfusion heq
    · rename_i y r2 e2
      simp only [Option.some.injEq, Prod.mk.injEq] at heq
      obtain ⟨rfl, rfl⟩ := heq
      refine ⟨rfl, ?_, ?_⟩
      · intro hx
        rcases readIf_eq_some _ _ _ _ e2 with ⟨c, -⟩ | ⟨-, e⟩
        · simp only [decide_eq_true_eq] at c
          exact absurd hx c
        · simp only [Prod.mk.injEq] at e
          obtain ⟨rfl, rfl⟩ := e
          exact ⟨rfl, p1⟩
      · intro hx
        rcases readIf_eq_some _ _ _ _ e2 with ⟨-, e⟩ | ⟨c, -⟩
        · obtain ⟨-, rfl, p2⟩ := (getBit_eq_some _ _ _).mp e
          rw [p1] at p2
          rw [p1]
          exact ⟨rfl, p2⟩
        · simp only [decide_eq_false_iff_not] at c
          exact absurd hx c

theorem readSubsampling_spec {data : List Nat} (h : Av1SequenceHeader)
    (r r' : BitStreamReader data) (xy : Nat × Nat)
    (heq : h.readSubsampling r = some (xy, r')) :
    (h.seq_profile = 0 → xy = (1, 1) ∧ r' = r) ∧
    (h.seq_profile = 1 → xy = (0, 0) ∧ r' = r) ∧
    (2 ≤ h.seq_profile → h.getBitDepth ≠ 12 → xy = (1, 0) ∧ r' = r) ∧
    (2 ≤ h.seq_profile → h.getBitDepth = 12 → readExplicitSubsampling r = some (xy, r')) := by
  unfold Av1SequenceHeader.readSubsampling at heq
  split_ifs at heq with h0 h1 h12
  · simp only [Option.some.injEq, Prod.mk.injEq] at heq
    refine ⟨fun _ => ⟨heq.1.symm, heq.2.symm⟩, ?_, ?_, ?_⟩ <;> intros <;> omega
  · simp only [Option.some.injEq, Prod.mk.injEq] at heq
    refine ⟨?_, fun _ => ⟨heq.1.symm, heq.2.symm⟩, ?_, ?_⟩ <;> intros <;> omega
  · refine ⟨?_, ?_, ?_, fun _ _ => heq⟩
    · intro hc
      exact absurd hc h0
    · intro hc
      exact absurd hc h1
    · intro _ hc
      exact absurd h12 hc
  · simp only [Option.some.injEq, Prod.mk.injEq] at heq
    refine ⟨?_, ?_, fun _ _ => ⟨heq.1.symm, heq.2.symm⟩, ?_⟩
    · intro hc
      exact absurd hc h0
    · intro hc
      exact absurd hc h1
    · intro _ hc
      exact absurd hc h12

/-- Lines 220-252 of `parseColorConfig` field by field: which bits of the data are
read, from the position `r.pos` of `color_range` on. -/
theorem parseChromaSubsampling_spec {data : List Nat} (h h' : Av1SequenceHeader)
    (r r' : BitStreamReader data) (heq : h.parseChromaSubsampling r = some (h', r')) :
    h'.color_range = decide (bitAt data r.pos ≠ 0) ∧
    (h.seq_profile = 0 →
      h'.chroma_subsampling_x = 1 ∧ h'.chroma_subsampling_y = 1 ∧
      h'.chroma_sample_position = bitsValue data (r.pos + 1) 2 ∧ r'.pos = r.pos + 3) ∧
    (h.seq_profile = 1 →
      h'.chroma_subsampling_x = 0 ∧ h'.chroma_subsampling_y = 0 ∧
      h'.chroma_sample_position = h.chroma_sample_position ∧ r'.pos = r.pos + 1) ∧
    (2 ≤ h.seq_profile → h.getBitDepth ≠ 12 →
      h'.chroma_subsampling_x = 1 ∧ h'.chroma_subsampling_y = 0 ∧
      h'.chroma_sample_position = h.chroma_sample_position ∧ r'.pos = r.pos + 1) ∧
    (2 ≤ h.seq_profile → h.getBitDepth = 12 →
      h'.chroma_subsampling_x = bitAt data (r.pos + 1) ∧
      (h'.chroma_subsampling_x = 0 →
        h'.chroma_subsampling_y = 0 ∧
        h'.chroma_sample_position = h.chroma_sample_position ∧ r'.pos = r.pos + 2) ∧
      (h'.chroma_subsampling_x ≠ 0 →
        h'.chroma_subsampling_y = bitAt data (r.pos + 2) ∧
        (h'.chroma_subsampling_y = 0 →
          h'.chroma_sample_position = h.chroma_sample_position ∧ r'.pos = r.pos + 3) ∧
        (h'.chroma_subsampling_y ≠ 0 →
          h'.chroma_sample_position = bitsValue data (r.pos + 3) 2 ∧
          r'.pos = r.pos + 5))) := by
  unfold Av1SequenceHeader.parseChromaSubsampling at heq
  split at heq
  · exact Option.noConfusion heq
  · rename_i cr r1 e1
    obtain ⟨-, rfl, p1⟩ := (getFlag_eq_some _ _ _).mp e1
    dsimp only at heq
    split at heq
    · exact Option.noConfusion heq
    · rename_i xy r2 e2
      obtain ⟨s0, s1, s2, s3⟩ := readSubsampling_spec _ _ _ _ e2
      have key : h'.color_range = decide (bitAt data r.pos ≠ 0) ∧
          h'.chroma_subsampling_x = xy.1 ∧ h'.chroma_subsampling_y = xy.2 ∧
          ((xy.1 ≠ 0 ∧ xy.2 ≠ 0 ∧ h'.chroma_sample_position = bitsValue data r2.pos 2 ∧
              r'.pos = r2.pos + 2) ∨
           (¬ (xy.1 ≠ 0 ∧ xy.2 ≠ 0) ∧
              h'.chroma_sample_position = h.chroma_sample_position ∧ r' = r2)) := by
        split at heq
        · rename_i hc
          split at heq
          · exact Option.noConfusion heq
          · rename_i csp r3 e3
            obtain ⟨-, rfl, p3⟩ := (getBits_eq_some _ _ _ _).mp e3
            simp only [Option.some.injEq, Prod.mk.injEq] at heq
            obtain ⟨rfl, rfl⟩ := heq
            exact ⟨rfl, rfl, rfl, Or.inl ⟨hc.1, hc.2, rfl, p3⟩⟩
        · rename_i hc
          simp only [Option.some.injEq, Prod.mk.injEq] at heq
          obtain ⟨rfl, rfl⟩ := heq
          exact ⟨rfl, rfl, rfl, Or.inr ⟨hc, rfl, rfl⟩⟩
      obtain ⟨k0, kx, ky, kc⟩ := key
      refine ⟨k0, ?_, ?_, ?_, ?_⟩
      · intro hp
        obtain ⟨e, rfl⟩ := s0 hp
        rw [e] at kx ky kc
        rcases kc with ⟨-, -, c, p⟩ | ⟨c, -⟩
        · rw [p1] at c p
          exact ⟨kx, ky, c, by omega⟩
        · exact absurd ⟨by decide, by decide⟩ c
      · intro hp
        obtain ⟨e, rfl⟩ := s1 hp
        rw [e] at kx ky kc
        rcases kc with ⟨c, -⟩ | ⟨-, c, p⟩
        · exact absurd rfl c
        · rw [p, p1]
          exact ⟨kx, ky, c, rfl⟩
      · intro hp hd
        obtain ⟨e, rfl⟩ := s2 hp hd
        rw [e] at kx ky kc
        rcases kc with ⟨-, c, -⟩ | ⟨-, c, p⟩
        · exact absurd rfl c
        · rw [p, p1]
          exact ⟨kx, ky, c, rfl⟩
      · intro hp hd
        obtain ⟨ex, e0, e1⟩ := readExplicitSubsampling_eq_some _ _ _ (s3 hp hd)
        rw [p1] at ex e0 e1
        rw [kx, ky]
        refine ⟨ex, ?_, ?_⟩
        · intro hx
          obtain ⟨ey, p2⟩ := e0 hx
          rcases kc with ⟨c, -⟩ | ⟨-, c, p⟩
          · exact absurd hx c
          · rw [p, p2]
            exact ⟨ey, c, rfl⟩
        · intro hx
          obtain ⟨ey, p2⟩ := e1 hx
          refine ⟨ey, ?_, ?_⟩
          · intro hy
            rcases kc with ⟨-, c, -⟩ | ⟨-, c, p⟩
            · exact absurd hy c
            · rw [p, p2]
              exact ⟨c, rfl⟩
          · intro hy
            rcases kc with ⟨-, -, c, p⟩ | ⟨c, -⟩
            · rw [p2] at c p
              exact ⟨c, by omega⟩
            · exact absurd ⟨hx, hy⟩ c

/-! ### `Av1SequenceHeader::deserialize` -/

theorem deserialize_eq_some (h h' : Av1SequenceHeader) (buf : List Nat)
    (r : BitStreamReader (sequenceHeaderData buf)) (heq : h.deserialize buf = some (h', r)) :
    3 ≤ buf.length ∧
    h'.seq_profile = bitsValue (sequenceHeaderData buf) 0 3 ∧ h'.seq_profile ≤ 2 ∧
    16 ≤ h'.max_frame_width ∧ h'.max_frame_width ≤ 65536 ∧
    16 ≤ h'.max_frame_height ∧ h'.max_frame_height ≤ 65536 ∧
    r.pos ≤ 8 * (sequenceHeaderData buf).length ∧
    ∃ (h0 : Av1SequenceHeader) (r0 r1 : BitStreamReader (sequenceHeaderData buf)),
      h0.seq_profile = h'.seq_profile ∧ h0.parseColorConfig r0 = some (h', r1) := by
  unfold Av1SequenceHeader.deserialize at heq
  split at heq
  · exact Option.noConfusion heq
  · rename_i hlen
    split at heq
    · exact Option.noConfusion heq
    · rename_i sp r1 e1
      obtain ⟨-, rfl, -⟩ := (getBits_eq_some _ _ _ _).mp e1
      dsimp only at heq
      split at heq
      · exact Option.noConfusion heq
      · rename_i hsp
        split at heq
        · exact Option.noConfusion heq
        · rename_i still r2 e2
          split at heq
          · exact Option.noConfusion heq
          · rename_i red r3 e3
            split at heq
            · exact Option.noConfusion heq
            · rename_i h4 r4 e4
              have f4 := parseOperatingInfo_frame _ _ _ _ e4
              split at heq
              · exact Option.noConfusion heq
              · rename_i h5 r5 e5
                have f5 := parseFrameSize_frame _ _ _ _ e5
                split at heq
                · exact Option.noConfusion heq
                · rename_i hdim
                  split at heq
                  · exact Option.noConfusion heq
                  · rename_i h6 r6 e6
                    obtain ⟨f6, w6, g6⟩ := parseTools_frame _ _ _ _ e6
                    split at heq
                    · exact Option.noConfusion heq
                    · rename_i h7 r7 e7
                      obtain ⟨f7, w7, g7⟩ := parseColorConfig_frame _ _ _ _ e7
                      split at heq
                      · exact Option.noConfusion heq
                      · rename_i r8 e8
                        simp only [Option.some.injEq, Prod.mk.injEq] at heq
                        obtain ⟨rfl, rfl⟩ := heq
                        obtain ⟨b8, p8⟩ := (skipBits_eq_some _ _ _).mp e8
                        have hprof : h7.seq_profile =
                            bitsValue (sequenceHeaderData buf) 0 3 := by
                          rw [f7, f6, f5, f4]
                          rfl
                        have hsp2 : bitsValue (sequenceHeaderData buf) 0 3 ≤ 2 :=
                          Nat.le_of_not_lt hsp
                        rw [w7, g7, w6, g6]
                        refine ⟨by omega, hprof, by omega, by omega, by omega, by omega,
                          by omega, by omega, h6, r6, r7, f7.symm, e7⟩

theorem deserialize_short (h : Av1SequenceHeader) (buf : List Nat) (hlen : buf.length < 3) :
    h.deserialize buf = none := by
  unfold Av1SequenceHeader.deserialize
  rw [if_pos hlen]

theorem deserialize_examples :
    (Av1SequenceHeader.deserialize {} monochromeSrgbHeader).map
        (fun x => (x.1.seq_profile, x.1.max_frame_width, x.1.max_frame_height, x.2.pos)) =
      some (0, 16, 16, 61) ∧
    Av1SequenceHeader.deserialize {} narrowHeader = none ∧
    Av1SequenceHeader.deserialize {} (monochromeSrgbHeader.take 7) = none ∧
    Av1SequenceHeader.deserialize {} [0x78, 0x0C, 0xFF, 0xC0, 0x60, 0x21, 0xA0, 0x00] = none ∧
    Av1SequenceHeader.deserialize {} [0x18, 0x0C] = none := by
  decide

/-- C28: `Av1SequenceHeader::deserialize` returns `0` (here `some`) only with a parsed
`seq_profile` (the first three bits of the data) in 0..2 and with `max_frame_width` and
`max_frame_height` in 16..65536, and then every bit it consumed lies inside the data.
An input shorter than 3 bytes and an input whose first three bits exceed 2 give `-1`
(`none`); the function is total, so no exception leaves it. On the sample payloads, a
16x16 header is accepted after 61 bits, and the same with width 15, cut to 7 bytes,
with profile 3, or two bytes long is rejected. -/
theorem av1SequenceHeader_deserialize_spec (h : Av1SequenceHeader) (buf : List Nat) :
    (buf.length < 3 → h.deserialize buf = none) ∧
    (2 < bitsValue (sequenceHeaderData buf) 0 3 → h.deserialize buf = none) ∧
    (∀ (h' : Av1SequenceHeader) (r : BitStreamReader (sequenceHeaderData buf)),
      h.deserialize buf = some (h', r) →
        3 ≤ buf.length ∧
        h'.seq_profile = bitsValue (sequenceHeaderData buf) 0 3 ∧ h'.seq_profile ≤ 2 ∧
        16 ≤ h'.max_frame_width ∧ h'.max_frame_width ≤ 65536 ∧
        16 ≤ h'.max_frame_height ∧ h'.max_frame_height ≤ 65536 ∧
        r.pos ≤ 8 * (sequenceHeaderData buf).length) ∧
    ((Av1SequenceHeader.deserialize {} monochromeSrgbHeader).map
        (fun x => (x.1.seq_profile, x.1.max_frame_width, x.1.max_frame_height, x.2.pos)) =
      some (0, 16, 16, 61) ∧
    Av1SequenceHeader.deserialize {} narrowHeader = none ∧
    Av1SequenceHeader.deserialize {} (monochromeSrgbHeader.take 7) = none ∧
    Av1SequenceHeader.deserialize {} [0x78, 0x0C, 0xFF, 0xC0, 0x60, 0x21, 0xA0, 0x00] = none ∧
    Av1SequenceHeader.deserialize {} [0x18, 0x0C] = none) := by
  refine ⟨deserialize_short h buf, ?_, ?_, deserialize_examples⟩
  · intro hp
    cases hd : h.deserialize buf with
    | none => rfl
    | some x =>
      obtain ⟨h', r⟩ := x
      obtain ⟨-, e, le, -⟩ := deserialize_eq_some _ _ _ _ hd
      omega
  · intro h' r hd
    obtain ⟨a, b, c, d, e, f, g, i, -⟩ := deserialize_eq_some _ _ _ _ hd
    exact ⟨a, b, c, d, e, f, g, i⟩

/-! ### `color_config` -/

/-- C29 (counterexample): with `mono_chrome = 1` the colour description BT.709 / sRGB /
identity does not force full range and 4:4:4: `parseColorConfig` takes the monochrome
branch first, `color_range` is the bit of the stream (here `0`) and the subsampling is
`(1, 1)`; the same through `deserialize` on a whole sequence header. -/
theorem parseColorConfig_srgb_monochrome :
    colorSummary (Av1SequenceHeader.parseColorConfig {}
        (BitStreamReader.setBuffer [0x60, 0x21, 0xA0, 0x00])) =
      some (true, (AV1_CP_BT_709, AV1_TC_SRGB, AV1_MC_IDENTITY), false, 1, 1) ∧
    colorSummary (Av1SequenceHeader.deserialize {} monochromeSrgbHeader) =
      some (true, (AV1_CP_BT_709, AV1_TC_SRGB, AV1_MC_IDENTITY), false, 1, 1) := by
  decide

/-- C29 (amended): when `parseColorConfig` returns `true` with the colour description
BT.709 (1) / sRGB (13) / identity (0) and the stream is not monochrome, the header has
`color_range = true` and `chroma_subsampling_x = chroma_subsampling_y = 0`; when the
stream is monochrome, `color_range` is the bit read last and the subsampling is
`(1, 1)`. -/
theorem parseColorConfig_srgb {data : List Nat} (h h' : Av1SequenceHeader)
    (r r' : BitStreamReader data) (heq : h.parseColorConfig r = some (h', r'))
    (hcp : h'.color_primaries = AV1_CP_BT_709)
    (htc : h'.transfer_characteristics = AV1_TC_SRGB)
    (hmc : h'.matrix_coefficients = AV1_MC_IDENTITY) :
    (h'.mono_chrome = false →
      h'.color_range = true ∧ h'.chroma_subsampling_x = 0 ∧ h'.chroma_subsampling_y = 0) ∧
    (h'.mono_chrome = true →
      h'.color_range = decide (bitAt data (r'.pos - 1) ≠ 0) ∧
      h'.chroma_subsampling_x = 1 ∧ h'.chroma_subsampling_y = 1) := by
  obtain ⟨h4, r4, -, -, -, -, -, hc⟩ := parseColorConfig_eq_some _ _ _ _ heq
  rcases hc with ⟨hm, cr, ef, rfl⟩ | ⟨hm, h5, r5, suv, e, -, rfl⟩
  · refine ⟨fun hc => Bool.noConfusion (hm.symm.trans hc), fun _ => ⟨?_, rfl, rfl⟩⟩
    obtain ⟨-, rfl, p⟩ := (getFlag_eq_some _ _ _).mp ef
    rw [p, Nat.add_sub_cancel]
  · refine ⟨fun _ => ?_, fun hc => ?_⟩
    · obtain ⟨-, -, -, -, -, -, f1, f2, f3⟩ := parseColorRange_frame _ _ _ _ e
      unfold Av1SequenceHeader.parseColorRange at e
      rw [if_pos ⟨f1.symm.trans hcp, f2.symm.trans htc, f3.symm.trans hmc⟩] at e
      simp only [Option.some.injEq, Prod.mk.injEq] at e
      obtain ⟨rfl, -⟩ := e
      exact ⟨rfl, rfl, rfl⟩
    · obtain ⟨-, -, -, -, -, f, -⟩ := parseColorRange_frame _ _ _ _ e
      exact Bool.noConfusion ((f.trans hm).symm.trans hc)

theorem parseColorConfig_srgb_witness :
    (Av1SequenceHeader.parseColorConfig {} (BitStreamReader.setBuffer srgbConfig) =
        some (srgbConfigHeader, { pos := 28 }) ∧
      srgbConfigHeader.color_primaries = AV1_CP_BT_709 ∧
      srgbConfigHeader.transfer_characteristics = AV1_TC_SRGB ∧
      srgbConfigHeader.matrix_coefficients = AV1_MC_IDENTITY) ∧
    ((srgbConfigHeader.mono_chrome = false →
      srgbConfigHeader.color_range = true ∧ srgbConfigHeader.chroma_subsampling_x = 0 ∧
        srgbConfigHeader.chroma_subsampling_y = 0) ∧
    (srgbConfigHeader.mono_chrome = true →
      srgbConfigHeader.color_range = decide (bitAt srgbConfig (28 - 1) ≠ 0) ∧
      srgbConfigHeader.chroma_subsampling_x = 1 ∧
        srgbConfigHeader.chroma_subsampling_y = 1)) :=
  ⟨by decide, parseColorConfig_srgb {} srgbConfigHeader (BitStreamReader.setBuffer srgbConfig)
    { pos := 28 } (by decide) (by decide) (by decide) (by decide)⟩

/-- C30: when `parseColorConfig` returns `true` for a stream that is not monochrome
and whose colour description is not BT.709 / sRGB / identity, then, with `q` the bit
position of `color_range`: profile 0 gives subsampling `(1, 1)`; profile 1 gives
`(0, 0)`; a higher profile (profile 2) at a bit depth other than 12 gives `(1, 0)` and
reads no bit for it; at bit depth 12 `chroma_subsampling_x` is the bit at `q + 1`, and
`chroma_subsampling_y` is the bit at `q + 2` when `chroma_subsampling_x` is set and `0`,
with no bit read, when it is not. `chroma_sample_position` is the next two bits when
both flags are set and is left as it was otherwise; the positions of the reader show
that no other bit is read before the final `separate_uv_delta_q`. -/
theorem parseColorConfig_chroma_subsampling {data : List Nat} (h h' : Av1SequenceHeader)
    (r r' : BitStreamReader data) (heq : h.parseColorConfig r = some (h', r'))
    (hmono : h'.mono_chrome = false)
    (hsp : ¬ (h'.color_primaries = AV1_CP_BT_709 ∧
      h'.transfer_characteristics = AV1_TC_SRGB ∧ h'.matrix_coefficients = AV1_MC_IDENTITY)) :
    h'.seq_profile = h.seq_profile ∧
    ∃ q, r.pos + 2 ≤ q ∧ h'.color_range = decide (bitAt data q ≠ 0) ∧
      (h'.seq_profile = 0 →
        h'.chroma_subsampling_x = 1 ∧ h'.chroma_subsampling_y = 1 ∧
        h'.chroma_sample_position = bitsValue data (q + 1) 2 ∧ r'.pos = q + 4) ∧
      (h'.seq_profile = 1 →
        h'.chroma_subsampling_x = 0 ∧ h'.chroma_subsampling_y = 0 ∧
        h'.chroma_sample_position = h.chroma_sample_position ∧ r'.pos = q + 2) ∧
      (2 ≤ h'.seq_profile → h'.getBitDepth ≠ 12 →
        h'.chroma_subsampling_x = 1 ∧ h'.chroma_subsampling_y = 0 ∧
        h'.chroma_sample_position = h.chroma_sample_position ∧ r'.pos = q + 2) ∧
      (2 ≤ h'.seq_profile → h'.getBitDepth = 12 →
        h'.chroma_subsampling_x = bitAt data (q + 1) ∧
        (h'.chroma_subsampling_x = 0 →
          h'.chroma_subsampling_y = 0 ∧
          h'.chroma_sample_position = h.chroma_sample_position ∧ r'.pos = q + 3) ∧
        (h'.chroma_subsampling_x ≠ 0 →
          h'.chroma_subsampling_y = bitAt data (q + 2) ∧
          (h'.chroma_subsampling_y = 0 →
            h'.chroma_sample_position = h.chroma_sample_position ∧ r'.pos = q + 4) ∧
          (h'.chroma_subsampling_y ≠ 0 →
            h'.chroma_sample_position = bitsValue data (q + 3) 2 ∧
            r'.pos = q + 6))) := by
  obtain ⟨h4, r4, hp, -, -, hcsp, hq, hc⟩ := parseColorConfig_eq_some _ _ _ _ heq
  rcases hc with ⟨hm, cr, -, rfl⟩ | ⟨hm, h5, r5, suv, e, ef, rfl⟩
  · exact Bool.noConfusion (hm.symm.trans hmono)
  · obtain ⟨f0, -, -, fh, ft, -, f1, f2, f3⟩ := parseColorRange_frame _ _ _ _ e
    have hns : ¬ (h4.color_primaries = AV1_CP_BT_709 ∧
        h4.transfer_characteristics = AV1_TC_SRGB ∧
        h4.matrix_coefficients = AV1_MC_IDENTITY) := by
      rintro ⟨a, b, c⟩
      exact hsp ⟨f1.trans a, f2.trans b, f3.trans c⟩
    unfold Av1SequenceHeader.parseColorRange at e
    rw [if_neg hns] at e
    obtain ⟨c0, c1, c2, c3, c4⟩ := parseChromaSubsampling_spec _ _ _ _ e
    obtain ⟨-, -, pf⟩ := (getFlag_eq_some _ _ _).mp ef
    have hd : Av1SequenceHeader.getBitDepth
        { h5 with separate_uv_delta_q := suv } = h4.getBitDepth :=
      getBitDepth_congr _ _ f0 fh ft
    rw [hd]
    show h5.seq_profile = h.seq_profile ∧
      ∃ q, r.pos + 2 ≤ q ∧ h5.color_range = decide (bitAt data q ≠ 0) ∧
      (h5.seq_profile = 0 →
        h5.chroma_subsampling_x = 1 ∧ h5.chroma_subsampling_y = 1 ∧
        h5.chroma_sample_position = bitsValue data (q + 1) 2 ∧ r'.pos = q + 4) ∧
      (h5.seq_profile = 1 →
        h5.chroma_subsampling_x = 0 ∧ h5.chroma_subsampling_y = 0 ∧
        h5.chroma_sample_position = h.chroma_sample_position ∧ r'.pos = q + 2) ∧
      (2 ≤ h5.seq_profile → h4.getBitDepth ≠ 12 →
        h5.chroma_subsampling_x = 1 ∧ h5.chroma_subsampling_y = 0 ∧
        h5.chroma_sample_position = h.chroma_sample_position ∧ r'.pos = q + 2) ∧
      (2 ≤ h5.seq_profile → h4.getBitDepth = 12 →
        h5.chroma_subsampling_x = bitAt data (q + 1) ∧
        (h5.chroma_subsampling_x = 0 →
          h5.chroma_subsampling_y = 0 ∧
          h5.chroma_sample_position = h.chroma_sample_position ∧ r'.pos = q + 3) ∧
        (h5.chroma_subsampling_x ≠ 0 →
          h5.chroma_subsampling_y = bitAt data (q + 2) ∧
          (h5.chroma_subsampling_y = 0 →
            h5.chroma_sample_position = h.chroma_sample_position ∧ r'.pos = q + 4) ∧
          (h5.chroma_subsampling_y ≠ 0 →
            h5.chroma_sample_position = bitsValue data (q + 3) 2 ∧
            r'.pos = q + 6)))
    rw [f0, ← hcsp, pf]
    refine ⟨hp, r4.pos, hq, c0, ?_, ?_, ?_, ?_⟩
    · intro a
      obtain ⟨x, y, z, p⟩ := c1 a
      exact ⟨x, y, z, by omega⟩
    · intro a
      obtain ⟨x, y, z, p⟩ := c2 a
      exact ⟨x, y, z, by omega⟩
    · intro a b
      obtain ⟨x, y, z, p⟩ := c3 a b
      exact ⟨x, y, z, by omega⟩
    · intro a b
      obtain ⟨x, y0, y1⟩ := c4 a b
      refine ⟨x, ?_, ?_⟩
      · intro c
        obtain ⟨y, z, p⟩ := y0 c
        exact ⟨y, z, by omega⟩
      · intro c
        obtain ⟨y, z0, z1⟩ := y1 c
        refine ⟨y, ?_, ?_⟩
        · intro d
          obtain ⟨z, p⟩ := z0 d
          exact ⟨z, by omega⟩
        · intro d
          obtain ⟨z, p⟩ := z1 d
          exact ⟨z, by omega⟩

theorem parseColorConfig_chroma_subsampling_witness :
    (profile2Header.parseColorConfig (BitStreamReader.setBuffer explicitConfig) =
        some (explicitHeader, { pos := 10 }) ∧
      explicitHeader.mono_chrome = false ∧
      ¬ (explicitHeader.color_primaries = AV1_CP_BT_709 ∧
        explicitHeader.transfer_characteristics = AV1_TC_SRGB ∧
        explicitHeader.matrix_coefficients = AV1_MC_IDENTITY)) ∧
    (explicitHeader.seq_profile = profile2Header.seq_profile ∧
    ∃ q, 0 + 2 ≤ q ∧ explicitHeader.color_range = decide (bitAt explicitConfig q ≠ 0) ∧
      (explicitHeader.seq_profile = 0 →
        explicitHeader.chroma_subsampling_x = 1 ∧ explicitHeader.chroma_subsampling_y = 1 ∧
        explicitHeader.chroma_sample_position = bitsValue explicitConfig (q + 1) 2 ∧ 10 = q + 4) ∧
      (explicitHeader.seq_profile = 1 →
        explicitHeader.chroma_subsampling_x = 0 ∧ explicitHeader.chroma_subsampling_y = 0 ∧
        explicitHeader.chroma_sample_position = profile2Header.chroma_sample_position ∧ 10 = q + 2) ∧
      (2 ≤ explicitHeader.seq_profile → explicitHeader.getBitDepth ≠ 12 →
        explicitHeader.chroma_subsampling_x = 1 ∧ explicitHeader.chroma_subsampling_y = 0 ∧
        explicitHeader.chroma_sample_position = profile2Header.chroma_sample_position ∧ 10 = q + 2) ∧
      (2 ≤ explicitHeader.seq_profile → explicitHeader.getBitDepth = 12 →
        explicitHeader.chroma_subsampling_x = bitAt explicitConfig (q + 1) ∧
        (explicitHeader.chroma_subsampling_x = 0 →
          explicitHeader.chroma_subsampling_y = 0 ∧
          explicitHeader.chroma_sample_position = profile2Header.chroma_sample_position ∧ 10 = q + 3) ∧
        (explicitHeader.chroma_subsampling_x ≠ 0 →
          explicitHeader.chroma_subsampling_y = bitAt explicitConfig (q + 2) ∧
          (explicitHeader.chroma_subsampling_y = 0 →
            explicitHeader.chroma_sample_position = profile2Header.chroma_sample_position ∧ 10 = q + 4) ∧
          (explicitHeader.chroma_subsampling_y ≠ 0 →
            explicitHeader.chroma_sample_position = bitsValue explicitConfig (q + 3) 2 ∧
            10 = q + 6)))) :=
  ⟨by decide, parseColorConfig_chroma_subsampling profile2Header explicitHeader
    (BitStreamReader.setBuffer explicitConfig) { pos := 10 }
    (by decide) (by decide) (by decide)⟩

/-! ### The AV1 configuration record -/

set_option maxRecDepth 1000000 in
theorem highTierReader_eq :
    highTierReader =
      some { m_seqHdr :=
               { seq_profile := 0, seq_level_idx_0 := 8, seq_tier_0 := 1,
                 max_frame_width := 1920, max_frame_height := 1080,
                 chroma_subsampling_x := 1, chroma_subsampling_y := 1 },
             m_seqHdrFound := true } := by
  decide

set_option maxRecDepth 1000000 in
theorem highTier_records :
    highTierReader.map (fun r => buildAV1ConfigRecord (some r)) = some [0x81, 0x08, 0x0C, 0x00] ∧
    highTierReader.map (fun r => specAV1ConfigRecord r.m_seqHdr) =
      some [0x81, 0x08, 0x8C, 0x00] ∧
    highTierReader.map (fun r => r.videoDescriptor.take 3) = some [0x81, 0x08, 0x8C] := by
  rw [highTierReader_eq]
  decide

set_option maxRecDepth 1000000 in
theorem configByte1_fin : ∀ (p : Fin 3) (l : Fin 32),
    (((p.val &&& 0x07) <<< 5) ||| (l.val &&& 0x1F)) % 256 = (p.val <<< 5) ||| l.val ∧
    ((p.val <<< 5) ||| (l.val &&& 0x1F)) % 256 = (p.val <<< 5) ||| l.val := by
  decide

set_option maxRecDepth 1000000 in
theorem configByte2_fin : ∀ (a b c x y : Fin 2) (csp : Fin 4),
    ((0 <<< 7) ||| (a.val <<< 6) ||| (b.val <<< 5) ||| (c.val <<< 4) ||| (x.val <<< 3) |||
      (y.val <<< 2) ||| (csp.val &&& 0x03)) % 256 =
      ((0 <<< 7) ||| (a.val <<< 6) ||| (b.val <<< 5) ||| (c.val <<< 4) ||| (x.val <<< 3) |||
        (y.val <<< 2) ||| csp.val) ∧
    ((1 <<< 7) ||| (a.val <<< 6) ||| (b.val <<< 5) ||| (c.val <<< 4) ||| (x.val <<< 3) |||
      (y.val <<< 2) ||| (csp.val &&& 0x03)) % 256 =
      ((1 <<< 7) ||| (a.val <<< 6) ||| (b.val <<< 5) ||| (c.val <<< 4) ||| (x.val <<< 3) |||
        (y.val <<< 2) ||| csp.val) ∧
    ((1 <<< 7) ||| (a.val <<< 6) ||| (b.val <<< 5) ||| (c.val <<< 4) ||| (x.val <<< 3) |||
      (y.val <<< 2) ||| csp.val) =
      ((0 <<< 7) ||| (a.val <<< 6) ||| (b.val <<< 5) ||| (c.val <<< 4) ||| (x.val <<< 3) |||
        (y.val <<< 2) ||| csp.val) + 128 := by
  decide

theorem toNat_lt_two (b : Bool) : b.toNat < 2 := by
  cases b <;> decide

/-- The two flags `buildAV1ConfigRecord` derives from `getBitDepth` are the header's
`high_bitdepth` and `twelve_bit` when `twelve_bit` is set only with profile 2 and
`high_bitdepth`, as `parseColorConfig` leaves them. -/
theorem bitDepth_flags (h : Av1SequenceHeader)
    (ht : h.twelve_bit = true → h.seq_profile = 2 ∧ h.high_bitdepth = true) :
    (if h.getBitDepth % 256 > 8 then 1 else 0) = h.high_bitdepth.toNat ∧
    (if h.getBitDepth % 256 = 12 then 1 else 0) = h.twelve_bit.toNat := by
  unfold Av1SequenceHeader.getBitDepth
  cases hb : h.high_bitdepth with
  | false =>
    cases htb : h.twelve_bit with
    | false => simp
    | true =>
      have := (ht htb).2
      rw [hb] at this
      exact absurd this Bool.false_ne_true
  | true =>
    cases htb : h.twelve_bit with
    | false =>
      by_cases hp : h.seq_profile = 2
      · simp [hp]
      · simp [hp]
    | true =>
      have hp := (ht htb).1
      simp [hp]

/-- What `buildAV1ConfigRecord` returns for a header with the value ranges of a parsed
one: the four bytes of the specification with the `seq_tier_0` bit always `0`. -/
theorem buildAV1ConfigRecord_found (r : AV1StreamReader) (hf : r.m_seqHdrFound = true)
    (hr : r.m_seqHdr.ConfigRanges) :
    buildAV1ConfigRecord (some r) =
      [0x81, (r.m_seqHdr.seq_profile <<< 5) ||| r.m_seqHdr.seq_level_idx_0,
       (0 <<< 7) ||| (r.m_seqHdr.high_bitdepth.toNat <<< 6) |||
         (r.m_seqHdr.twelve_bit.toNat <<< 5) ||| (r.m_seqHdr.mono_chrome.toNat <<< 4) |||
         (r.m_seqHdr.chroma_subsampling_x <<< 3) ||| (r.m_seqHdr.chroma_subsampling_y <<< 2) |||
         r.m_seqHdr.chroma_sample_position,
       0x00] ∧
    buildAV1ConfigRecord (some r) = specAV1ConfigRecord { r.m_seqHdr with seq_tier_0 := 0 } ∧
    r.videoDescriptor.take 3 = (specAV1ConfigRecord r.m_seqHdr).take 3 ∧
    (buildAV1ConfigRecord (some r) = specAV1ConfigRecord r.m_seqHdr ↔
      r.m_seqHdr.seq_tier_0 = 0) := by
  obtain ⟨h1, h2, h3, h4, h5, h6, h7⟩ := hr
  obtain ⟨d1, d2⟩ := bitDepth_flags r.m_seqHdr h7
  have b1 := configByte1_fin ⟨r.m_seqHdr.seq_profile, by omega⟩ ⟨r.m_seqHdr.seq_level_idx_0, h2⟩
  have b2 := configByte2_fin ⟨r.m_seqHdr.high_bitdepth.toNat, toNat_lt_two _⟩
    ⟨r.m_seqHdr.twelve_bit.toNat, toNat_lt_two _⟩ ⟨r.m_seqHdr.mono_chrome.toNat, toNat_lt_two _⟩
    ⟨r.m_seqHdr.chroma_subsampling_x, by omega⟩ ⟨r.m_seqHdr.chroma_subsampling_y, by omega⟩
    ⟨r.m_seqHdr.chroma_sample_position, by omega⟩
  dsimp only at b1 b2
  have hrec : buildAV1ConfigRecord (some r) =
      [0x81, (r.m_seqHdr.seq_profile <<< 5) ||| r.m_seqHdr.seq_level_idx_0,
       (0 <<< 7) ||| (r.m_seqHdr.high_bitdepth.toNat <<< 6) |||
         (r.m_seqHdr.twelve_bit.toNat <<< 5) ||| (r.m_seqHdr.mono_chrome.toNat <<< 4) |||
         (r.m_seqHdr.chroma_subsampling_x <<< 3) ||| (r.m_seqHdr.chroma_subsampling_y <<< 2) |||
         r.m_seqHdr.chroma_sample_position,
       0x00] := by
    unfold buildAV1ConfigRecord
    dsimp only
    rw [if_neg (by rw [hf]; decide), d1, d2, b1.1, b2.1]
  refine ⟨hrec, hrec, ?_, ?_⟩
  · unfold AV1StreamReader.videoDescriptor specAV1ConfigRecord
    rcases Nat.le_one_iff_eq_zero_or_eq_one.mp h3 with ht | ht
    · rw [ht, b1.2, b2.1]
      rfl
    · rw [ht, b1.2, b2.2.1]
      rfl
  · rw [hrec]
    unfold specAV1ConfigRecord
    constructor
    · intro heq
      rcases Nat.le_one_iff_eq_zero_or_eq_one.mp h3 with ht | ht
      · exact ht
      · exfalso
        rw [ht] at heq
        simp only [List.cons.injEq, and_true, true_and] at heq
        have h128 := b2.2.2
        rw [← heq] at h128
        omega
    · intro ht
      rw [ht]

/-! ### The value ranges of a parsed sequence header -/

theorem bitsValue_lt (data : List Nat) (p n : Nat) : bitsValue data p n < 2 ^ n := by
  induction n with
  | zero => simp [bitsValue]
  | succ k ih =>
    have hb := bitAt_le_one data (p + k)
    rw [bitsValue, pow_succ]
    omega

theorem parseFrameSize_level {data : List Nat} (h h' : Av1SequenceHeader)
    (r r' : BitStreamReader data) (heq : h.parseFrameSize r = some (h', r')) :
    h'.seq_level_idx_0 = h.seq_level_idx_0 ∧ h'.seq_tier_0 = h.seq_tier_0 ∧
    h'.chroma_sample_position = h.chroma_sample_position := by
  unfold Av1SequenceHeader.parseFrameSize at heq
  repeat' (split at heq)
  all_goals first
    | exact Option.noConfusion heq
    | (simp only [Option.some.injEq, Prod.mk.injEq] at heq
       obtain ⟨rfl, -⟩ := heq
       exact ⟨rfl, rfl, rfl⟩)

theorem parseTools_level {data : List Nat} (h h' : Av1SequenceHeader)
    (r r' : BitStreamReader data) (heq : h.parseTools r = some (h', r')) :
    h'.seq_level_idx_0 = h.seq_level_idx_0 ∧ h'.seq_tier_0 = h.seq_tier_0 ∧
    h'.chroma_sample_position = h.chroma_sample_position := by
  unfold Av1SequenceHeader.parseTools at heq
  split at heq
  · exact Option.noConfusion heq
  · dsimp only at heq
    split at heq
    · exact Option.noConfusion heq
    · split at heq
      · exact Option.noConfusion heq
      · simp only [Option.some.injEq, Prod.mk.injEq] at heq
        obtain ⟨rfl, -⟩ := heq
        exact ⟨rfl, rfl, rfl⟩

theorem parseTimingInfo_level {data : List Nat} (h h' : Av1SequenceHeader)
    (r r' : BitStreamReader data) (heq : h.parseTimingInfo r = some (h', r')) :
    h'.chroma_sample_position = h.chroma_sample_position := by
  unfold Av1SequenceHeader.parseTimingInfo at heq
  repeat' (split at heq)
  all_goals first
    | exact Option.noConfusion heq
    | (simp only [Option.some.injEq, Prod.mk.injEq] at heq
       obtain ⟨rfl, -⟩ := heq
       rfl)

theorem parseTimingAndDecoderModel_level {data : List Nat} (h h' : Av1SequenceHeader)
    (r r' : BitStreamReader data) (dm : Bool)
    (heq : h.parseTimingAndDecoderModel r = some (h', dm, r')) :
    h'.chroma_sample_position = h.chroma_sample_position := by
  unfold Av1SequenceHeader.parseTimingAndDecoderModel at heq
  split at heq
  · exact Option.noConfusion heq
  · rename_i h1 r1 ht
    have hf := parseTimingInfo_level _ _ _ _ ht
    repeat' (split at heq)
    all_goals first
      | exact Option.noConfusion heq
      | (simp only [Option.some.injEq, Prod.mk.injEq] at heq
         obtain ⟨rfl, -⟩ := heq
         exact hf)

/-- The loop over the operating points: the level and tier are those of the first
operating point, five bits and one bit. -/
theorem parseOperatingPoints_level {data : List Nat} (dm idd : Bool) (count : Nat) :
    ∀ (i : Nat) (h h' : Av1SequenceHeader) (r r' : BitStreamReader data),
      Av1SequenceHeader.parseOperatingPoints dm idd count i h r = some (h', r') →
      h'.chroma_sample_position = h.chroma_sample_position ∧
      (i ≠ 0 → h'.seq_level_idx_0 = h.seq_level_idx_0 ∧ h'.seq_tier_0 = h.seq_tier_0) ∧
      (i = 0 → count ≠ 0 → h'.seq_level_idx_0 < 32 ∧ h'.seq_tier_0 ≤ 1) := by
  induction count with
  | zero =>
    intro i h h' r r' heq
    simp only [Av1SequenceHeader.parseOperatingPoints, Option.some.injEq, Prod.mk.injEq] at heq
    obtain ⟨rfl, -⟩ := heq
    exact ⟨rfl, fun _ => ⟨rfl, rfl⟩, fun _ hc => absurd rfl hc⟩
  | succ c ih =>
    intro i h h' r r' heq
    rw [Av1SequenceHeader.parseOperatingPoints] at heq
    split at heq
    · exact Option.noConfusion heq
    · split at heq
      · exact Option.noConfusion heq
      · rename_i level r2 e2
        split at heq
        · exact Option.noConfusion heq
        · rename_i tier r3 e3
          simp only at heq
          split at heq
          · exact Option.noConfusion heq
          · split at heq
            · exact Option.noConfusion heq
            · obtain ⟨k1, k2, -⟩ := ih _ _ _ _ _ heq
              obtain ⟨k2a, k2b⟩ := k2 (Nat.succ_ne_zero i)
              have hl : level < 32 := by
                obtain ⟨-, rfl, -⟩ := (getBits_eq_some _ _ _ _).mp e2
                exact bitsValue_lt _ _ 5
              have ht : tier ≤ 1 := by
                rcases readIf_eq_some _ _ _ _ e3 with ⟨-, e⟩ | ⟨-, e⟩
                · obtain ⟨-, rfl, -⟩ := (getBit_eq_some _ _ _).mp e
                  exact bitAt_le_one _ _
                · simp only [Prod.mk.injEq] at e
                  rw [e.1]
                  exact Nat.zero_le _
              by_cases hi : i = 0
              · rw [if_pos hi] at k1 k2a k2b
                refine ⟨k1, fun hc => absurd hi hc, fun _ _ => ?_⟩
                rw [k2a, k2b]
                exact ⟨hl, ht⟩
              · rw [if_neg hi] at k1 k2a k2b
                exact ⟨k1, fun _ => ⟨k2a, k2b⟩, fun hc => absurd hc hi⟩

theorem parseOperatingInfo_level {data : List Nat} (h h' : Av1SequenceHeader)
    (r r' : BitStreamReader data) (heq : h.parseOperatingInfo r = some (h', r')) :
    h'.seq_level_idx_0 < 32 ∧ h'.seq_tier_0 ≤ 1 ∧
    h'.chroma_sample_position = h.chroma_sample_position := by
  unfold Av1SequenceHeader.parseOperatingInfo at heq
  split at heq
  · split at heq
    · exact Option.noConfusion heq
    · rename_i level r1 e1
      obtain ⟨-, rfl, -⟩ := (getBits_eq_some _ _ _ _).mp e1
      simp only [Option.some.injEq, Prod.mk.injEq] at heq
      obtain ⟨rfl, -⟩ := heq
      exact ⟨bitsValue_lt _ _ 5, Nat.zero_le _, rfl⟩
  · split at heq
    · exact Option.noConfusion heq
    · rename_i tip r1 e1
      dsimp only at heq
      split at heq
      · exact Option.noConfusion heq
      · rename_i h2 dm r2 e2
        have h2p : h2.chroma_sample_position = h.chroma_sample_position := by
          rcases readIf_eq_some _ _ _ _ e2 with ⟨-, e⟩ | ⟨-, e⟩
          · have hf := parseTimingAndDecoderModel_level _ _ _ _ _ e
            exact hf
          · simp only [Prod.mk.injEq] at e
            obtain ⟨rfl, -⟩ := e
            rfl
        split at heq
        · exact Option.noConfusion heq
        · split at heq
          · exact Option.noConfusion heq
          · obtain ⟨k1, -, k3⟩ := parseOperatingPoints_level _ _ _ _ _ _ _ _ heq
            obtain ⟨k3a, k3b⟩ := k3 rfl (Nat.succ_ne_zero _)
            exact ⟨k3a, k3b, k1.trans h2p⟩

theorem readSubsampling_le {data : List Nat} (h : Av1SequenceHeader)
    (r r' : BitStreamReader data) (xy : Nat × Nat)
    (heq : h.readSubsampling r = some (xy, r')) : xy.1 ≤ 1 ∧ xy.2 ≤ 1 := by
  unfold Av1SequenceHeader.readSubsampling at heq
  split_ifs at heq with h0 h1 h12
  · simp only [Option.some.injEq, Prod.mk.injEq] at heq
    rw [← heq.1]
    exact ⟨le_refl _, le_refl _⟩
  · simp only [Option.some.injEq, Prod.mk.injEq] at heq
    rw [← heq.1]
    exact ⟨Nat.zero_le _, Nat.zero_le _⟩
  · obtain ⟨ex, e0, e1⟩ := readExplicitSubsampling_eq_some _ _ _ heq
    refine ⟨by rw [ex]; exact bitAt_le_one _ _, ?_⟩
    by_cases hx : xy.1 = 0
    · rw [(e0 hx).1]
      exact Nat.zero_le _
    · rw [(e1 hx).1]
      exact bitAt_le_one _ _
  · simp only [Option.some.injEq, Prod.mk.injEq] at heq
    rw [← heq.1]
    exact ⟨le_refl _, Nat.zero_le _⟩

theorem parseChromaSubsampling_ranges {data : List Nat} (h h' : Av1SequenceHeader)
    (r r' : BitStreamReader data) (heq : h.parseChromaSubsampling r = some (h', r')) :
    h'.seq_level_idx_0 = h.seq_level_idx_0 ∧ h'.seq_tier_0 = h.seq_tier_0 ∧
    h'.chroma_subsampling_x ≤ 1 ∧ h'.chroma_subsampling_y ≤ 1 ∧
    (h.chroma_sample_position ≤ 3 → h'.chroma_sample_position ≤ 3) := by
  unfold Av1SequenceHeader.parseChromaSubsampling at heq
  split at heq
  · exact Option.noConfusion heq
  · dsimp only at heq
    split at heq
    · exact Option.noConfusion heq
    · rename_i xy r2 e2
      obtain ⟨hx, hy⟩ := readSubsampling_le _ _ _ _ e2
      split at heq
      · split at heq
        · exact Option.noConfusion heq
        · rename_i csp r3 e3
          obtain ⟨-, rfl, -⟩ := (getBits_eq_some _ _ _ _).mp e3
          simp only [Option.some.injEq, Prod.mk.injEq] at heq
          obtain ⟨rfl, -⟩ := heq
          exact ⟨rfl, rfl, hx, hy, fun _ => Nat.le_of_lt_succ (bitsValue_lt _ _ 2)⟩
      · simp only [Option.some.injEq, Prod.mk.injEq] at heq
        obtain ⟨rfl, -⟩ := heq
        exact ⟨rfl, rfl, hx, hy, fun hc => hc⟩

theorem parseColorRange_ranges {data : List Nat} (h h' : Av1SequenceHeader)
    (r r' : BitStreamReader data) (heq : h.parseColorRange r = some (h', r')) :
    h'.seq_level_idx_0 = h.seq_level_idx_0 ∧ h'.seq_tier_0 = h.seq_tier_0 ∧
    h'.chroma_subsampling_x ≤ 1 ∧ h'.chroma_subsampling_y ≤ 1 ∧
    (h.chroma_sample_position ≤ 3 → h'.chroma_sample_position ≤ 3) := by
  unfold Av1SequenceHeader.parseColorRange at heq
  split at heq
  · simp only [Option.some.injEq, Prod.mk.injEq] at heq
    obtain ⟨rfl, -⟩ := heq
    exact ⟨rfl, rfl, Nat.zero_le _, Nat.zero_le _, fun hc => hc⟩
  · exact parseChromaSubsampling_ranges _ _ _ _ heq

/-- The fields of the config record as `parseColorConfig` leaves them. -/
theorem parseColorConfig_ranges {data : List Nat} (h h' : Av1SequenceHeader)
    (r r' : BitStreamReader data) (heq : h.parseColorConfig r = some (h', r'))
    (hc : h.chroma_sample_position ≤ 3) :
    h'.seq_level_idx_0 = h.seq_level_idx_0 ∧ h'.seq_tier_0 = h.seq_tier_0 ∧
    h'.chroma_subsampling_x ≤ 1 ∧ h'.chroma_subsampling_y ≤ 1 ∧
    h'.chroma_sample_position ≤ 3 ∧
    (h'.twelve_bit = true → h'.seq_profile = 2 ∧ h'.high_bitdepth = true) := by
  unfold Av1SequenceHeader.parseColorConfig at heq
  split at heq
  · exact Option.noConfusion heq
  · rename_i hb r1 e1
    dsimp only at heq
    split at heq
    · exact Option.noConfusion heq
    · rename_i tb r2 e2
      have htb : tb = true → h.seq_profile = 2 ∧ hb = true := by
        intro ht
        rcases readIf_eq_some _ _ _ _ e2 with ⟨c, -⟩ | ⟨-, e⟩
        · simpa using c
        · simp only [Prod.mk.injEq] at e
          rw [e.1] at ht
          exact absurd ht Bool.false_ne_true
      split at heq
      · exact Option.noConfusion heq
      · rename_i mono r3 e3
        split at heq
        · exact Option.noConfusion heq
        · rename_i cd r4 e4
          split at heq
          · exact Option.noConfusion heq
          · rename_i desc r5 e5
            split at heq
            · split at heq
              · exact Option.noConfusion heq
              · simp only [Option.some.injEq, Prod.mk.injEq] at heq
                obtain ⟨rfl, -⟩ := heq
                exact ⟨rfl, rfl, le_refl _, le_refl _, Nat.zero_le _, htb⟩
            · split at heq
              · exact Option.noConfusion heq
              · rename_i h5 r6 e6
                split at heq
                · exact Option.noConfusion heq
                · simp only [Option.some.injEq, Prod.mk.injEq] at heq
                  obtain ⟨rfl, -⟩ := heq
                  obtain ⟨g1, g2, g3, g4, g5⟩ := parseColorRange_ranges _ _ _ _ e6
                  obtain ⟨f1, -, -, f4, f5, -⟩ := parseColorRange_frame _ _ _ _ e6
                  refine ⟨g1, g2, g3, g4, g5 hc, ?_⟩
                  intro ht
                  have ht5 : h5.twelve_bit = true := ht
                  rw [f5] at ht5
                  obtain ⟨t1, t2⟩ := htb ht5
                  exact ⟨f1.trans t1, f4.trans t2⟩

/-- Every header that `deserialize` returns with `0` has the value ranges the config
record relies on, when the object held a two-bit `chroma_sample_position` before (as a
fresh or a previously parsed header does). -/
theorem deserialize_ranges (h h' : Av1SequenceHeader) (buf : List Nat)
    (r : BitStreamReader (sequenceHeaderData buf)) (heq : h.deserialize buf = some (h', r))
    (hc : h.chroma_sample_position ≤ 3) : h'.ConfigRanges := by
  obtain ⟨-, -, hprof, -, -, -, -, -, -⟩ := deserialize_eq_some h h' buf r heq
  unfold Av1SequenceHeader.deserialize at heq
  split at heq
  · exact Option.noConfusion heq
  · split at heq
    · exact Option.noConfusion heq
    · rename_i sp r1 e1
      dsimp only at heq
      split at heq
      · exact Option.noConfusion heq
      · split at heq
        · exact Option.noConfusion heq
        · rename_i still r2 e2
          split at heq
          · exact Option.noConfusion heq
          · rename_i red r3 e3
            split at heq
            · exact Option.noConfusion heq
            · rename_i h4 r4 e4
              have f4 := parseOperatingInfo_level _ _ _ _ e4
              split at heq
              · exact Option.noConfusion heq
              · rename_i h5 r5 e5
                have f5 := parseFrameSize_level _ _ _ _ e5
                split at heq
                · exact Option.noConfusion heq
                · split at heq
                  · exact Option.noConfusion heq
                  · rename_i h6 r6 e6
                    have f6 := parseTools_level _ _ _ _ e6
                    split at heq
                    · exact Option.noConfusion heq
                    · rename_i h7 r7 e7
                      have hc6 : h6.chroma_sample_position ≤ 3 := by
                        rw [f6.2.2, f5.2.2, f4.2.2]
                        exact hc
                      obtain ⟨g1, g2, g3, g4, g5, g6⟩ :=
                        parseColorConfig_ranges _ _ _ _ e7 hc6
                      split at heq
                      · exact Option.noConfusion heq
                      · simp only [Option.some.injEq, Prod.mk.injEq] at heq
                        obtain ⟨rfl, -⟩ := heq
                        refine ⟨hprof, ?_, ?_, g3, g4, g5, g6⟩
                        · rw [g1, f6.1, f5.1]
                          exact f4.1
                        · rw [g2, f6.2.1, f5.2.1]
                          exact f4.2.1

/-- For every sequence header parsed into a fresh object, `buildAV1ConfigRecord` returns
the four bytes of the specification with the `seq_tier_0` bit cleared, which is the
record of the specification exactly when the stream is in the Main tier. -/
theorem buildAV1ConfigRecord_parsed (buf : List Nat) (hdr : Av1SequenceHeader)
    (r : BitStreamReader (sequenceHeaderData buf))
    (heq : ({} : Av1SequenceHeader).deserialize buf = some (hdr, r)) (wcg : Nat) :
    buildAV1ConfigRecord (some { m_seqHdr := hdr, m_seqHdrFound := true, m_hdrWcgIdc := wcg }) =
      specAV1ConfigRecord { hdr with seq_tier_0 := 0 } ∧
    (buildAV1ConfigRecord (some { m_seqHdr := hdr, m_seqHdrFound := true, m_hdrWcgIdc := wcg }) =
      specAV1ConfigRecord hdr ↔ hdr.seq_tier_0 = 0) ∧
    (AV1StreamReader.videoDescriptor
      { m_seqHdr := hdr, m_seqHdrFound := true, m_hdrWcgIdc := wcg }).take 3 =
      (specAV1ConfigRecord hdr).take 3 := by
  have hr := deserialize_ranges {} hdr buf r heq (by decide)
  obtain ⟨-, k2, k3, k4⟩ := buildAV1ConfigRecord_found
    { m_seqHdr := hdr, m_seqHdrFound := true, m_hdrWcgIdc := wcg } rfl hr
  exact ⟨k2, k4, k3⟩

theorem buildAV1ConfigRecord_empty (r : AV1StreamReader) (h : r.m_seqHdrFound = false) :
    buildAV1ConfigRecord none = [] ∧ buildAV1ConfigRecord (some r) = [] := by
  refine ⟨rfl, ?_⟩
  unfold buildAV1ConfigRecord
  dsimp only
  rw [if_pos (by rw [h]; rfl)]

/-- C31: `buildAV1ConfigRecord` returns the empty record without a reader or before a
sequence header was found, and four bytes otherwise; but its third byte never carries
`seq_tier_0`: for the sequence header `highTierHeader` (level 4.0, High tier) parsed by
`deserialize` it returns `81 08 0C 00` where the record of the specification is
`81 08 8C 00`, the byte that the AV1 video descriptor of `getTSDescriptor` writes for
the same header. -/
theorem buildAV1ConfigRecord_tier_bit :
    buildAV1ConfigRecord none = [] ∧
    buildAV1ConfigRecord (some { m_seqHdrFound := false }) = [] ∧
    highTierReader.map (fun r => (r.m_seqHdrFound, r.m_seqHdr.seq_level_idx_0,
      r.m_seqHdr.seq_tier_0)) = some (true, 8, 1) ∧
    highTierReader.map (fun r => buildAV1ConfigRecord (some r)) =
      some [0x81, 0x08, 0x0C, 0x00] ∧
    highTierReader.map (fun r => specAV1ConfigRecord r.m_seqHdr) =
      some [0x81, 0x08, 0x8C, 0x00] ∧
    highTierReader.map (fun r => r.videoDescriptor.take 3) = some [0x81, 0x08, 0x8C] :=
  ⟨rfl, rfl, by rw [highTierReader_eq]; rfl, highTier_records.1, highTier_records.2.1,
    highTier_records.2.2⟩

set_option maxRecDepth 1000000 in
theorem aac_config_bits :
    ∀ profile, profile < 31 → ∀ idx, idx < 16 → ∀ ch, ch < 16 →
      ((((profile + 1) <<< 3) ||| (idx >>> 1)) % 256) >>> 3 = profile + 1 ∧
      ((((((profile + 1) <<< 3) ||| (idx >>> 1)) % 256) &&& 7) <<< 1) |||
        (((((idx &&& 1) <<< 7) ||| (ch <<< 3)) % 256) >>> 7) = idx ∧
      (((((idx &&& 1) <<< 7) ||| (ch <<< 3)) % 256) >>> 3) &&& 15 = ch ∧
      ((((idx &&& 1) <<< 7) ||| (ch <<< 3)) % 256) &&& 7 = 0 := by
  decide

/-- C32: for every AAC profile in 0..30, sample-rate index in 0..15 and channel
configuration in 0..15, `buildAACConfig` returns exactly two bytes `b0`, `b1`: the top
five bits of `b0` are `profile + 1`, the low three bits of `b0` followed by the top bit
of `b1` are the sample-rate index, bits 6..3 of `b1` are the channel configuration, and
the low three bits of `b1` are zero. A reader that is not an `AACStreamReader` gives
the empty record. -/
theorem buildAACConfig_spec (aac : AACStreamReader) (hp : aac.m_profile ≤ 30)
    (hi : aac.m_sample_rates_index ≤ 15) (hc : aac.m_channels_index ≤ 15) :
    ∃ b0 b1, buildAACConfig (some aac) = [b0, b1] ∧ b0 < 256 ∧ b1 < 256 ∧
      b0 >>> 3 = aac.m_profile + 1 ∧
      ((b0 &&& 7) <<< 1) ||| (b1 >>> 7) = aac.m_sample_rates_index ∧
      (b1 >>> 3) &&& 15 = aac.m_channels_index ∧
      b1 &&& 7 = 0 ∧
      buildAACConfig none = [] := by
  obtain ⟨h1, h2, h3, h4⟩ := aac_config_bits aac.m_profile (by omega)
    aac.m_sample_rates_index (by omega) aac.m_channels_index (by omega)
  have e1 : (aac.m_profile + 1) % 256 = aac.m_profile + 1 := Nat.mod_eq_of_lt (by omega)
  have e2 : aac.m_sample_rates_index % 256 = aac.m_sample_rates_index :=
    Nat.mod_eq_of_lt (by omega)
  have e3 : aac.m_channels_index % 256 = aac.m_channels_index := Nat.mod_eq_of_lt (by omega)
  refine ⟨_, _, rfl, Nat.mod_lt _ (by decide), Nat.mod_lt _ (by decide), ?_, ?_, ?_, ?_, rfl⟩
  · rw [e1, e2]
    exact h1
  · rw [e1, e2, e3]
    exact h2
  · rw [e2, e3]
    exact h3
  · rw [e2, e3]
    exact h4

theorem buildAACConfig_spec_witness :
    ((2 : Nat) ≤ 30 ∧ (4 : Nat) ≤ 15 ∧ (2 : Nat) ≤ 15) ∧
    ∃ b0 b1, buildAACConfig
        (some { m_profile := 1, m_sample_rates_index := 4, m_channels_index := 2 }) =
          [b0, b1] ∧ b0 < 256 ∧ b1 < 256 ∧
      b0 >>> 3 = 1 + 1 ∧ ((b0 &&& 7) <<< 1) ||| (b1 >>> 7) = 4 ∧
      (b1 >>> 3) &&& 15 = 2 ∧ b1 &&& 7 = 0 ∧ buildAACConfig none = [] :=
  ⟨by decide, buildAACConfig_spec
    { m_profile := 1, m_sample_rates_index := 4, m_channels_index := 2 }
    (by decide) (by decide) (by decide)⟩

/-! ### The EBML header -/

/-- C33: `writeEBMLHeader` writes the ID `1A 45 DF A3`, a size VINT (`A3`) that decodes
to the length 35 of the content, and the content EBMLVersion 1, EBMLReadVersion 1,
EBMLMaxIDLength 4, EBMLMaxSizeLength 8, DocType "matroska", DocTypeVersion 4,
DocTypeReadVersion 2, in this order: 40 bytes, appended at the end of the file, which on
the empty file that `openDstFile` creates are the whole file. -/
theorem writeEBMLHeader_spec (s : MatroskaMuxer) :
    s.writeEBMLHeader =
      (s.writeToFile [0x1A, 0x45, 0xDF, 0xA3, 0xA3]).writeToFile ebmlHeaderContent ∧
    vintDecode [0xA3] = some (1, ebmlHeaderContent.length) ∧
    ebmlHeaderContent.length = 35 ∧
    ebmlHeaderContent =
      ebml_write_uint EBML_ID_EBMLVERSION 1 ++ ebml_write_uint EBML_ID_EBMLREADVERSION 1 ++
      ebml_write_uint EBML_ID_EBMLMAXIDLENGTH 4 ++
      ebml_write_uint EBML_ID_EBMLMAXSIZELENGTH 8 ++
      ebml_write_string EBML_ID_DOCTYPE (strBytes "matroska") ++
      ebml_write_uint EBML_ID_DOCTYPEVERSION 4 ++
      ebml_write_uint EBML_ID_DOCTYPEREADVERSION 2 ∧
    (s.m_file.pos = s.m_file.data.length →
      s.writeEBMLHeader.m_file.data =
        s.m_file.data ++ ([0x1A, 0x45, 0xDF, 0xA3, 0xA3] ++ ebmlHeaderContent) ∧
      s.writeEBMLHeader.m_file.data.length = s.m_file.data.length + 40) ∧
    ({ s with m_file := {} } : MatroskaMuxer).writeEBMLHeader.m_file.data =
      [0x1A, 0x45, 0xDF, 0xA3, 0xA3] ++ ebmlHeaderContent := by
  have hc : ebmlHeaderContent =
      ebml_write_uint EBML_ID_EBMLVERSION 1 ++ ebml_write_uint EBML_ID_EBMLREADVERSION 1 ++
      ebml_write_uint EBML_ID_EBMLMAXIDLENGTH 4 ++
      ebml_write_uint EBML_ID_EBMLMAXSIZELENGTH 8 ++
      ebml_write_string EBML_ID_DOCTYPE (strBytes "matroska") ++
      ebml_write_uint EBML_ID_DOCTYPEVERSION 4 ++
      ebml_write_uint EBML_ID_DOCTYPEREADVERSION 2 := by decide
  have hh : ebml_write_id EBML_ID_HEADER ++ ebml_write_size ebmlHeaderContent.length =
      [0x1A, 0x45, 0xDF, 0xA3, 0xA3] := by decide
  have he : s.writeEBMLHeader =
      (s.writeToFile [0x1A, 0x45, 0xDF, 0xA3, 0xA3]).writeToFile ebmlHeaderContent := by
    unfold MatroskaMuxer.writeEBMLHeader
    simp only
    rw [← hc, hh]
  have hat : ∀ t : MatroskaMuxer, t.m_file.pos = t.m_file.data.length →
      t.writeEBMLHeader.m_file.data =
        t.m_file.data ++ ([0x1A, 0x45, 0xDF, 0xA3, 0xA3] ++ ebmlHeaderContent) := by
    intro t ht
    have het : t.writeEBMLHeader =
        (t.writeToFile [0x1A, 0x45, 0xDF, 0xA3, 0xA3]).writeToFile ebmlHeaderContent := by
      unfold MatroskaMuxer.writeEBMLHeader
      simp only
      rw [← hc, hh]
    obtain ⟨f, e, hd, -⟩ := writeToFile_twice t [0x1A, 0x45, 0xDF, 0xA3, 0xA3]
      ebmlHeaderContent ht
    rw [het, e]
    exact hd
  refine ⟨he, by decide, by decide, hc, ?_, ?_⟩
  · intro hp
    have hd := hat s hp
    refine ⟨hd, ?_⟩
    rw [hd, List.length_append]
    rfl
  · have := hat ({ s with m_file := {} } : MatroskaMuxer) rfl
    rw [this]
    rfl

theorem intAddStream_spec (env : Env) (s : MatroskaMuxer) (codecName : String)
    (streamIndex : Int) (codecReader : StreamReader) (trackUID : Nat) :
    (s.intAddStream env codecName streamIndex codecReader trackUID).m_nextTrackNumber =
      s.m_nextTrackNumber + 1 ∧
    ∃ t : MkvTrackInfo, t.streamIndex = streamIndex ∧ t.trackNumber = s.m_nextTrackNumber ∧
      (s.intAddStream env codecName streamIndex codecReader trackUID).m_tracks =
        insertTrack s.m_tracks t := by
  unfold MatroskaMuxer.intAddStream
  refine ⟨rfl, _, ?_, ?_, rfl⟩
  · dsimp only
    split
    · split <;> rfl
    · split <;> split <;> rfl
    · rfl
    · rfl
  · dsimp only
    split
    · split <;> rfl
    · split <;> split <;> rfl
    · rfl
    · rfl

theorem findTrack_insertTrack (t : MkvTrackInfo) :
    ∀ l : List MkvTrackInfo, findTrack (insertTrack l t) t.streamIndex = some t := by
  intro l
  induction l with
  | nil => simp [insertTrack, findTrack]
  | cons a rest ih =>
    unfold insertTrack
    by_cases h1 : t.streamIndex < a.streamIndex
    · rw [if_pos h1]
      simp [findTrack]
    · rw [if_neg h1]
      by_cases h2 : t.streamIndex = a.streamIndex
      · rw [if_pos h2]
        simp [findTrack]
      · rw [if_neg h2]
        unfold findTrack at ih ⊢
        rw [List.find?_cons_of_neg]
        · exact ih
        · simp only [beq_iff_eq]
          exact fun h => h2 h.symm

theorem mem_insertTrack (t x : MkvTrackInfo) :
    ∀ l : List MkvTrackInfo, x ∈ insertTrack l t → x = t ∨ x ∈ l := by
  intro l
  induction l with
  | nil =>
    intro h
    simp only [insertTrack, List.mem_singleton] at h
    exact Or.inl h
  | cons a rest ih =>
    intro h
    unfold insertTrack at h
    split_ifs at h with h1 h2
    · simp only [List.mem_cons] at h ⊢
      exact h
    · simp only [List.mem_cons] at h ⊢
      rcases h with h | h
      · exact Or.inl h
      · exact Or.inr (Or.inr h)
    · simp only [List.mem_cons] at h ⊢
      rcases h with h | h
      · exact Or.inr (Or.inl h)
      · rcases ih h with h | h
        · exact Or.inl h
        · exact Or.inr (Or.inr h)

theorem insertTrack_nodup (t : MkvTrackInfo) :
    ∀ l : List MkvTrackInfo, (l.map (fun x => x.trackNumber)).Nodup →
      (∀ x ∈ l, x.trackNumber ≠ t.trackNumber) →
      ((insertTrack l t).map (fun x => x.trackNumber)).Nodup := by
  intro l
  induction l with
  | nil =>
    intro _ _
    simp [insertTrack]
  | cons a rest ih =>
    intro hnd hne
    simp only [List.map_cons, List.nodup_cons, List.mem_map, not_exists, not_and] at hnd
    unfold insertTrack
    split_ifs with h1 h2
    · simp only [List.map_cons, List.nodup_cons, List.mem_cons, List.mem_map, not_or,
        not_exists, not_and]
      refine ⟨⟨fun e => hne a (List.mem_cons_self _ _) e.symm, ?_⟩, hnd.1, hnd.2⟩
      intro x hx e
      exact hne x (List.mem_cons_of_mem _ hx) e
    · simp only [List.map_cons, List.nodup_cons, List.mem_map, not_exists, not_and]
      refine ⟨?_, hnd.2⟩
      intro x hx e
      exact hne x (List.mem_cons_of_mem _ hx) e
    · simp only [List.map_cons, List.nodup_cons, List.mem_map, not_exists, not_and]
      refine ⟨?_, ih hnd.2 (fun x hx => hne x (List.mem_cons_of_mem _ hx))⟩
      intro x hx e
      rcases mem_insertTrack t x rest hx with rfl | hx'
      · exact hne a (List.mem_cons_self _ _) e.symm
      · exact hnd.1 x hx' e

theorem addStreams_snoc (env : Env) (s : MatroskaMuxer) (calls : List AddStreamCall)
    (c : AddStreamCall) :
    addStreams env s (calls ++ [c]) =
      (addStreams env s calls).intAddStream env c.codecName c.streamIndex c.codecReader
        c.trackUID := by
  unfold addStreams
  rw [List.foldl_append]
  rfl

theorem addStreams_inv (env : Env) (calls : List AddStreamCall) :
    (addStreams env {} calls).m_nextTrackNumber = calls.length + 1 ∧
    ((addStreams env {} calls).m_tracks.map (fun t => t.trackNumber)).Nodup ∧
    ∀ t ∈ (addStreams env {} calls).m_tracks,
      1 ≤ t.trackNumber ∧ t.trackNumber ≤ calls.length := by
  induction calls using List.reverseRecOn with
  | nil =>
    refine ⟨rfl, List.nodup_nil, ?_⟩
    intro t ht
    exact absurd ht (List.not_mem_nil _)
  | append_singleton calls c ih =>
    obtain ⟨hn, hnd, hr⟩ := ih
    obtain ⟨e1, t, -, htn, e2⟩ := intAddStream_spec env (addStreams env {} calls)
      c.codecName c.streamIndex c.codecReader c.trackUID
    rw [addStreams_snoc, e1, e2, List.length_append, List.length_singleton, hn]
    refine ⟨rfl, insertTrack_nodup t _ hnd ?_, ?_⟩
    · intro x hx e
      have := (hr x hx).2
      omega
    · intro x hx
      rcases mem_insertTrack t x _ hx with rfl | hx'
      · omega
      · have := hr x hx'
        omega

/-- C34: for every sequence of `intAddStream` calls on a freshly constructed muxer
(fewer than `2^31 - 1` calls, so that the `int` counter does not overflow), the call
number `i + 1` registers its stream with track number `i + 1`; the track numbers in the
registry are pairwise distinct, lie in `1 .. number of calls`, and the next number to
assign is one more than the number of calls, so that no number is assigned twice. -/
theorem intAddStream_track_numbers (env : Env) (calls : List AddStreamCall)
    (hn : calls.length < 2 ^ 31 - 1) :
    (∀ (i : Nat) (c : AddStreamCall), calls[i]? = some c →
      ∃ t, findTrack (addStreams env {} (calls.take (i + 1))).m_tracks c.streamIndex =
          some t ∧ t.trackNumber = i + 1) ∧
    ((addStreams env {} calls).m_tracks.map (fun t => t.trackNumber)).Nodup ∧
    (∀ t ∈ (addStreams env {} calls).m_tracks,
      1 ≤ t.trackNumber ∧ t.trackNumber ≤ calls.length) ∧
    (addStreams env {} calls).m_nextTrackNumber = calls.length + 1 ∧
    (addStreams env {} calls).m_nextTrackNumber < 2 ^ 31 := by
  obtain ⟨h1, h2, h3⟩ := addStreams_inv env calls
  refine ⟨?_, h2, h3, h1, by omega⟩
  intro i c hc
  have hi : i < calls.length := by
    by_contra hcon
    rw [List.getElem?_eq_none (Nat.le_of_not_lt hcon)] at hc
    exact Option.noConfusion hc
  have ht : calls.take (i + 1) = calls.take i ++ [c] := by
    rw [List.take_succ, hc]
    rfl
  obtain ⟨-, t, hs, htn, e2⟩ := intAddStream_spec env (addStreams env {} (calls.take i))
    c.codecName c.streamIndex c.codecReader c.trackUID
  refine ⟨t, ?_, ?_⟩
  · rw [ht, addStreams_snoc, e2, ← hs]
    exact findTrack_insertTrack t _
  · rw [htn, (addStreams_inv env (calls.take i)).1, List.length_take, Nat.min_eq_left (le_of_lt hi)]

theorem intAddStream_track_numbers_witness :
    (sampleCalls.length < 2 ^ 31 - 1) ∧
    ((∀ (i : Nat) (c : AddStreamCall), sampleCalls[i]? = some c →
      ∃ t, findTrack (addStreams sampleEnv {} (sampleCalls.take (i + 1))).m_tracks
          c.streamIndex = some t ∧ t.trackNumber = i + 1) ∧
    ((addStreams sampleEnv {} sampleCalls).m_tracks.map (fun t => t.trackNumber)).Nodup ∧
    (∀ t ∈ (addStreams sampleEnv {} sampleCalls).m_tracks,
      1 ≤ t.trackNumber ∧ t.trackNumber ≤ sampleCalls.length) ∧
    (addStreams sampleEnv {} sampleCalls).m_nextTrackNumber = sampleCalls.length + 1 ∧
    (addStreams sampleEnv {} sampleCalls).m_nextTrackNumber < 2 ^ 31) :=
  ⟨by decide, intAddStream_track_numbers sampleEnv sampleCalls (by decide)⟩

theorem buildTrackEntry_video (env : Env) (track : MkvTrackInfo) (ht : track.trackType = 1)
    (hw : 0 < track.width) (hh : 0 < track.height) (dw : Nat)
    (har : (track.streamAR = VideoAspectRatio.AR_3_4 ∧
        dw = ((track.height * 4 + 1) % 2 ^ 32) / 3) ∨
      (track.streamAR = VideoAspectRatio.AR_16_9 ∧
        dw = ((track.height * 16 + 4) % 2 ^ 32) / 9) ∨
      (track.streamAR = VideoAspectRatio.AR_221_100 ∧
        dw = ((track.height * 221 + 50) % 2 ^ 32) / 100)) :
    ∃ pre, buildTrackEntry env track = pre ++ videoElement track dw := by
  have haud : ¬ (track.trackType = 2 ∧ track.sampleRate > 0) := by
    rintro ⟨h, -⟩
    rw [ht] at h
    exact absurd h (by decide)
  unfold buildTrackEntry videoElement
  dsimp only
  rw [if_pos (⟨ht, hw, hh⟩ : track.trackType = 1 ∧ track.width > 0 ∧ track.height > 0),
    if_neg haud, List.append_nil]
  rcases har with ⟨ha, rfl⟩ | ⟨ha, rfl⟩ | ⟨ha, rfl⟩
  all_goals
    rw [ha]
    simp only [ne_eq, reduceCtorEq, not_false_eq_true, true_and, not_true_eq_false, or_false]
    exact ⟨_, rfl⟩

theorem displayWidth_nearest (h : Nat) (hh : h ≤ 65536) :
    (2 * 3 * (((h * 4 + 1) % 2 ^ 32) / 3) ≤ 2 * 4 * h + 3 ∧
      2 * 4 * h < 2 * 3 * (((h * 4 + 1) % 2 ^ 32) / 3) + 3) ∧
    (2 * 9 * (((h * 16 + 4) % 2 ^ 32) / 9) ≤ 2 * 16 * h + 9 ∧
      2 * 16 * h < 2 * 9 * (((h * 16 + 4) % 2 ^ 32) / 9) + 9) ∧
    (2 * 100 * (((h * 221 + 50) % 2 ^ 32) / 100) ≤ 2 * 221 * h + 100 ∧
      2 * 221 * h < 2 * 100 * (((h * 221 + 50) % 2 ^ 32) / 100) + 100) := by
  have e1 : (h * 4 + 1) % 2 ^ 32 = h * 4 + 1 := Nat.mod_eq_of_lt (by norm_num; omega)
  have e2 : (h * 16 + 4) % 2 ^ 32 = h * 16 + 4 := Nat.mod_eq_of_lt (by norm_num; omega)
  have e3 : (h * 221 + 50) % 2 ^ 32 = h * 221 + 50 := Nat.mod_eq_of_lt (by norm_num; omega)
  rw [e1, e2, e3]
  omega

/-- C35: for a video track with pixel height `h`, `0 < h <= 65536`, and aspect-ratio
tag 3:4, 16:9 or 221:100 (ratio `num / den` = 4/3, 16/9, 221/100), `buildTrackEntry`
ends with the Video element built with the display width `dw` that is `h * num / den`
rounded to the nearest integer (`dw - 1/2 <= h * num / den < dw + 1/2`): when `dw`
differs from the pixel width, DisplayWidth `dw` and DisplayHeight `h` are written after
the pixel size, and otherwise neither is written. -/
theorem buildTrackEntry_display_width (env : Env) (track : MkvTrackInfo)
    (ht : track.trackType = 1) (hw : 0 < track.width) (hh : 0 < track.height)
    (hmax : track.height ≤ 65536) (num den : Nat)
    (har : (track.streamAR = VideoAspectRatio.AR_3_4 ∧ num = 4 ∧ den = 3) ∨
      (track.streamAR = VideoAspectRatio.AR_16_9 ∧ num = 16 ∧ den = 9) ∨
      (track.streamAR = VideoAspectRatio.AR_221_100 ∧ num = 221 ∧ den = 100)) :
    ∃ dw pre,
      (2 * den * dw ≤ 2 * num * track.height + den ∧
        2 * num * track.height < 2 * den * dw + den) ∧
      buildTrackEntry env track = pre ++ videoElement track dw ∧
      videoElement track dw =
        ebml_write_master_open MATROSKA_ID_TRACKVIDEO
          (ebml_write_uint MATROSKA_ID_VIDEOPIXELWIDTH track.width ++
            ebml_write_uint MATROSKA_ID_VIDEOPIXELHEIGHT track.height ++
            (if track.interlaced then ebml_write_uint MATROSKA_ID_VIDEOFLAGINTERLACED 1
              else []) ++
            (if dw ≠ track.width then
              ebml_write_uint MATROSKA_ID_VIDEODISPLAYWIDTH dw ++
              ebml_write_uint MATROSKA_ID_VIDEODISPLAYHEIGHT track.height
            else [])).length ++
        (ebml_write_uint MATROSKA_ID_VIDEOPIXELWIDTH track.width ++
          ebml_write_uint MATROSKA_ID_VIDEOPIXELHEIGHT track.height ++
          (if track.interlaced then ebml_write_uint MATROSKA_ID_VIDEOFLAGINTERLACED 1
            else []) ++
          (if dw ≠ track.width then
            ebml_write_uint MATROSKA_ID_VIDEODISPLAYWIDTH dw ++
            ebml_write_uint MATROSKA_ID_VIDEODISPLAYHEIGHT track.height
          else [])) := by
  obtain ⟨n3, n9, n100⟩ := displayWidth_nearest track.height hmax
  rcases har with ⟨ha, rfl, rfl⟩ | ⟨ha, rfl, rfl⟩ | ⟨ha, rfl, rfl⟩
  · obtain ⟨pre, e⟩ := buildTrackEntry_video env track ht hw hh _ (Or.inl ⟨ha, rfl⟩)
    exact ⟨_, pre, n3, e, rfl⟩
  · obtain ⟨pre, e⟩ := buildTrackEntry_video env track ht hw hh _ (Or.inr (Or.inl ⟨ha, rfl⟩))
    exact ⟨_, pre, n9, e, rfl⟩
  · obtain ⟨pre, e⟩ := buildTrackEntry_video env track ht hw hh _ (Or.inr (Or.inr ⟨ha, rfl⟩))
    exact ⟨_, pre, n100, e, rfl⟩

theorem buildTrackEntry_display_width_witness :
    (anamorphicTrack.trackType = 1 ∧ 0 < anamorphicTrack.width ∧ 0 < anamorphicTrack.height ∧
      anamorphicTrack.height ≤ 65536 ∧
      ((anamorphicTrack.streamAR = VideoAspectRatio.AR_3_4 ∧ 16 = 4 ∧ 9 = 3) ∨
        (anamorphicTrack.streamAR = VideoAspectRatio.AR_16_9 ∧ 16 = 16 ∧ 9 = 9) ∨
        (anamorphicTrack.streamAR = VideoAspectRatio.AR_221_100 ∧ 16 = 221 ∧ 9 = 100))) ∧
    (∃ dw pre,
      (2 * 9 * dw ≤ 2 * 16 * anamorphicTrack.height + 9 ∧
        2 * 16 * anamorphicTrack.height < 2 * 9 * dw + 9) ∧
      buildTrackEntry sampleEnv anamorphicTrack = pre ++ videoElement anamorphicTrack dw ∧
      videoElement anamorphicTrack dw =
        ebml_write_master_open MATROSKA_ID_TRACKVIDEO
          (ebml_write_uint MATROSKA_ID_VIDEOPIXELWIDTH anamorphicTrack.width ++
            ebml_write_uint MATROSKA_ID_VIDEOPIXELHEIGHT anamorphicTrack.height ++
            (if anamorphicTrack.interlaced then ebml_write_uint MATROSKA_ID_VIDEOFLAGINTERLACED 1
              else []) ++
            (if dw ≠ anamorphicTrack.width then
              ebml_write_uint MATROSKA_ID_VIDEODISPLAYWIDTH dw ++
              ebml_write_uint MATROSKA_ID_VIDEODISPLAYHEIGHT anamorphicTrack.height
            else [])).length ++
        (ebml_write_uint MATROSKA_ID_VIDEOPIXELWIDTH anamorphicTrack.width ++
          ebml_write_uint MATROSKA_ID_VIDEOPIXELHEIGHT anamorphicTrack.height ++
          (if anamorphicTrack.interlaced then ebml_write_uint MATROSKA_ID_VIDEOFLAGINTERLACED 1
            else []) ++
          (if dw ≠ anamorphicTrack.width then
            ebml_write_uint MATROSKA_ID_VIDEODISPLAYWIDTH dw ++
            ebml_write_uint MATROSKA_ID_VIDEODISPLAYHEIGHT anamorphicTrack.height
          else []))) :=
  ⟨by decide, buildTrackEntry_display_width sampleEnv anamorphicTrack (by decide) (by decide)
    (by decide) (by decide) 16 9 (by decide)⟩

theorem commit_step (env : Env) (s : MatroskaMuxer) (h : AwaitingTrackData s)
    (l : List AVPacket) (p : AVPacket)
    (hw : (l.foldl (fun acc p => acc.muxPacket env p) s).m_headerWritten = false)
    (hall : AllTracksSeen s.m_tracks (l ++ [p])) :
    p.accepted s.m_tracks = true ∧
    l.foldl (fun acc p => acc.muxPacket env p) s =
      { s with
        m_seenStreams := seenOf (l.filter (fun p => p.accepted s.m_tracks)),
        m_preHeaderPackets := (l.filter (fun p => p.accepted s.m_tracks)).map AVPacket.toBuffered } ∧
    (l ++ [p]).foldl (fun acc p => acc.muxPacket env p) s =
      (((l.foldl (fun acc p => acc.muxPacket env p) s).bufferPacket p).writeDeferredHeader
        env).replayBufferedPackets env ∧
    (((l.foldl (fun acc p => acc.muxPacket env p) s).bufferPacket p).writeDeferredHeader
        env).m_preHeaderPackets =
      ((l ++ [p]).filter (fun p => p.accepted s.m_tracks)).map AVPacket.toBuffered := by
  obtain ⟨-, h2, -⟩ := awaiting_phase env s h l
  obtain ⟨heq, hlt⟩ := h2 hw
  have hnd := h.2.2.2.2.2.1
  have hge := (allTracksSeen_iff s.m_tracks hnd (l ++ [p])).mp hall
  have hacc : p.accepted s.m_tracks = true := by
    cases hv : p.accepted s.m_tracks
    · exfalso
      rw [List.filter_append, List.filter_cons, if_neg (by rw [hv]; decide), List.filter_nil,
        List.append_nil] at hge
      exact absurd hge (not_le.mpr hlt)
    · rfl
  have hge2 := hge
  rw [List.filter_append, List.filter_cons, if_pos hacc, List.filter_nil, seenOf_snoc] at hge2
  have htr : (l.foldl (fun acc p => acc.muxPacket env p) s).m_tracks = s.m_tracks := by
    rw [heq]
  have hseen : ((l.foldl (fun acc p => acc.muxPacket env p) s).bufferPacket p).m_seenStreams =
      insertSeen (seenOf (l.filter (fun p => p.accepted s.m_tracks))) p.stream_index := by
    rw [heq]
    rfl
  refine ⟨hacc, heq, ?_, ?_⟩
  · rw [List.foldl_append, List.foldl_cons, List.foldl_nil,
      muxPacket_buffer env _ p (by rw [htr]; exact hacc) hw, if_pos]
    rw [htr, hseen]
    exact hge2
  · rw [(writeDeferredHeader_fields env _).2.2.2.2.2.1]
    rw [List.filter_append, List.filter_cons, if_pos hacc, List.filter_nil, List.map_append]
    have hb : ((l.foldl (fun acc p => acc.muxPacket env p) s).bufferPacket p).m_preHeaderPackets =
        (l.foldl (fun acc p => acc.muxPacket env p) s).m_preHeaderPackets ++ [p.toBuffered] := rfl
    rw [hb, heq]
    rfl


theorem commit_origin (env : Env) (s : MatroskaMuxer) (h : AwaitingTrackData s)
    (l : List AVPacket) (p : AVPacket)
    (hw : (l.foldl (fun acc p => acc.muxPacket env p) s).m_headerWritten = false)
    (hall : AllTracksSeen s.m_tracks (l ++ [p])) :
    ((l ++ [p]).foldl (fun acc p => acc.muxPacket env p) s).m_firstTimecodeSet = true ∧
    (∃ q ∈ l ++ [p], q.accepted s.m_tracks = true ∧
      q.pts = ((l ++ [p]).foldl (fun acc p => acc.muxPacket env p) s).m_firstTimecode) ∧
    (∀ q ∈ l ++ [p], q.accepted s.m_tracks = true →
      ((l ++ [p]).foldl (fun acc p => acc.muxPacket env p) s).m_firstTimecode ≤ q.pts) := by
  obtain ⟨c1, -, c3, c4⟩ := commit_step env s h l p hw hall
  rw [c3]
  generalize ((l.foldl (fun acc p => acc.muxPacket env p) s).bufferPacket p).writeDeferredHeader
    env = H at c4
  have hne : H.m_preHeaderPackets ≠ [] := by
    rw [c4, List.filter_append, List.filter_cons, if_pos c1, List.map_append]
    exact List.append_ne_nil_of_right_ne_nil _ (List.cons_ne_nil _ _)
  obtain ⟨k1, ⟨pkt, hpkt, hpts⟩, k3, -, -⟩ := replayBufferedPackets_core env H hne
  refine ⟨k1, ?_, ?_⟩
  · rw [c4] at hpkt
    obtain ⟨q, hq, rfl⟩ := List.mem_map.mp hpkt
    obtain ⟨hq1, hq2⟩ := List.mem_filter.mp hq
    exact ⟨q, hq1, hq2, hpts⟩
  · intro q hq hacc
    apply k3 q.toBuffered
    rw [c4]
    exact List.mem_map_of_mem _ (List.mem_filter.mpr ⟨hq, hacc⟩)

theorem origin_step (env : Env) (s : MatroskaMuxer) (h : AwaitingTrackData s)
    (l : List AVPacket) (p : AVPacket)
    (hw : (l.foldl (fun acc p => acc.muxPacket env p) s).m_headerWritten = true) :
    ((l ++ [p]).foldl (fun acc p => acc.muxPacket env p) s).m_headerWritten = true ∧
    ((l ++ [p]).foldl (fun acc p => acc.muxPacket env p) s).m_firstTimecode =
      (l.foldl (fun acc p => acc.muxPacket env p) s).m_firstTimecode := by
  obtain ⟨-, -, p3⟩ := awaiting_phase env s h l
  obtain ⟨hset, -⟩ := p3 hw
  rw [List.foldl_append, List.foldl_cons, List.foldl_nil]
  generalize l.foldl (fun acc p => acc.muxPacket env p) s = S at hw hset
  cases hacc : p.accepted S.m_tracks with
  | true =>
    rw [muxPacket_written env S p hacc hw hset]
    obtain ⟨-, f2, f3, -, -, -⟩ := muxPacketInternal_fields env S p
    exact ⟨f2.trans hw, f3⟩
  | false =>
    rw [muxPacket_not_accepted env S p hacc]
    exact ⟨hw, rfl⟩

theorem origin_stable (env : Env) (s : MatroskaMuxer) (h : AwaitingTrackData s)
    (l post : List AVPacket)
    (hw : (l.foldl (fun acc p => acc.muxPacket env p) s).m_headerWritten = true) :
    ((l ++ post).foldl (fun acc p => acc.muxPacket env p) s).m_headerWritten = true ∧
    ((l ++ post).foldl (fun acc p => acc.muxPacket env p) s).m_firstTimecode =
      (l.foldl (fun acc p => acc.muxPacket env p) s).m_firstTimecode := by
  induction post using List.reverseRecOn with
  | nil => rw [List.append_nil]; exact ⟨hw, rfl⟩
  | append_singleton post p ih =>
    rw [← List.append_assoc]
    obtain ⟨g1, g2⟩ := origin_step env s h (l ++ post) p ih.1
    exact ⟨g1, g2.trans ih.2⟩

theorem commit_point (env : Env) (s : MatroskaMuxer) (h : AwaitingTrackData s)
    (ps : List AVPacket)
    (hw : (ps.foldl (fun acc p => acc.muxPacket env p) s).m_headerWritten = true) :
    ∃ (pre : List AVPacket) (p : AVPacket) (post : List AVPacket),
      ps = pre ++ p :: post ∧
      (pre.foldl (fun acc p => acc.muxPacket env p) s).m_headerWritten = false ∧
      ((pre ++ [p]).foldl (fun acc p => acc.muxPacket env p) s).m_headerWritten = true := by
  induction ps using List.reverseRecOn with
  | nil =>
    simp only [List.foldl_nil] at hw
    rw [h.1] at hw
    exact absurd hw (by decide)
  | append_singleton l p ih =>
    cases hl : (l.foldl (fun acc p => acc.muxPacket env p) s).m_headerWritten with
    | true =>
      obtain ⟨pre, p0, post, e, g1, g2⟩ := ih hl
      exact ⟨pre, p0, post ++ [p], by rw [e, List.append_assoc, List.cons_append], g1, g2⟩
    | false => exact ⟨l, p, [], rfl, hl, hw⟩

theorem origin_spec (env : Env) (s : MatroskaMuxer) (h : AwaitingTrackData s)
    (ps : List AVPacket) (hall : AllTracksSeen s.m_tracks ps) :
    ∃ (pre : List AVPacket) (p : AVPacket) (post : List AVPacket),
      ps = pre ++ p :: post ∧
      ¬ AllTracksSeen s.m_tracks pre ∧ AllTracksSeen s.m_tracks (pre ++ [p]) ∧
      (ps.foldl (fun acc p => acc.muxPacket env p) s).m_firstTimecodeSet = true ∧
      (ps.foldl (fun acc p => acc.muxPacket env p) s).m_firstTimecode =
        ((pre ++ [p]).foldl (fun acc p => acc.muxPacket env p) s).m_firstTimecode ∧
      (∃ q ∈ pre ++ [p], q.accepted s.m_tracks = true ∧
        q.pts = (ps.foldl (fun acc p => acc.muxPacket env p) s).m_firstTimecode) ∧
      (∀ q ∈ pre ++ [p], q.accepted s.m_tracks = true →
        (ps.foldl (fun acc p => acc.muxPacket env p) s).m_firstTimecode ≤ q.pts) := by
  have hw := (headerWritten_iff env s h ps).mpr hall
  obtain ⟨pre, p, post, e, g1, g2⟩ := commit_point env s h ps hw
  have a1 : ¬ AllTracksSeen s.m_tracks pre := by
    intro hc
    rw [(headerWritten_iff env s h pre).mpr hc] at g1
    exact absurd g1 (by decide)
  have a2 := (headerWritten_iff env s h (pre ++ [p])).mp g2
  obtain ⟨c1, c2, c3⟩ := commit_origin env s h pre p g1 a2
  have e2 : ps = (pre ++ [p]) ++ post := by
    rw [e, List.append_assoc]
    rfl
  obtain ⟨-, s2⟩ := origin_stable env s h (pre ++ [p]) post g2
  rw [← e2] at s2
  obtain ⟨-, -, p3⟩ := awaiting_phase env s h ps
  refine ⟨pre, p, post, e, a1, a2, (p3 hw).1, s2, ?_, ?_⟩
  · rw [s2]
    exact c2
  · rw [s2]
    exact c3

theorem forced_origin (env : Env) (s : MatroskaMuxer) (h : AwaitingTrackData s)
    (ps : List AVPacket) (hall : ¬ AllTracksSeen s.m_tracks ps)
    (hne : ps.filter (fun p => p.accepted s.m_tracks) ≠ []) :
    ((ps.foldl (fun acc p => acc.muxPacket env p) s).headerForced env).m_firstTimecodeSet =
      true ∧
    (∃ q ∈ ps, q.accepted s.m_tracks = true ∧
      q.pts = ((ps.foldl (fun acc p => acc.muxPacket env p) s).headerForced
        env).m_firstTimecode) ∧
    (∀ q ∈ ps, q.accepted s.m_tracks = true →
      ((ps.foldl (fun acc p => acc.muxPacket env p) s).headerForced env).m_firstTimecode ≤
        q.pts) := by
  have hw : (ps.foldl (fun acc p => acc.muxPacket env p) s).m_headerWritten = false := by
    cases hv : (ps.foldl (fun acc p => acc.muxPacket env p) s).m_headerWritten
    · rfl
    · exact absurd ((headerWritten_iff env s h ps).mp hv) hall
  obtain ⟨-, h2, -⟩ := awaiting_phase env s h ps
  obtain ⟨heq, -⟩ := h2 hw
  have htr : (ps.foldl (fun acc p => acc.muxPacket env p) s).m_tracks = s.m_tracks := by
    rw [heq]
  have hpre : (ps.foldl (fun acc p => acc.muxPacket env p) s).m_preHeaderPackets =
      (ps.filter (fun p => p.accepted s.m_tracks)).map AVPacket.toBuffered := by
    rw [heq]
  have hte : (ps.foldl (fun acc p => acc.muxPacket env p) s).m_tracks.isEmpty = false := by
    rw [htr]
    cases hx : s.m_tracks with
    | nil => exact absurd hx h.2.2.2.2.1
    | cons a rest => rfl
  have hf : (ps.foldl (fun acc p => acc.muxPacket env p) s).headerForced env =
      ((ps.foldl (fun acc p => acc.muxPacket env p) s).writeDeferredHeader
        env).replayBufferedPackets env := by
    unfold MatroskaMuxer.headerForced
    rw [hw, hte]
    rfl
  rw [hf]
  have c4 : ((ps.foldl (fun acc p => acc.muxPacket env p) s).writeDeferredHeader
      env).m_preHeaderPackets =
      (ps.filter (fun p => p.accepted s.m_tracks)).map AVPacket.toBuffered := by
    rw [(writeDeferredHeader_fields env _).2.2.2.2.2.1, hpre]
  generalize (ps.foldl (fun acc p => acc.muxPacket env p) s).writeDeferredHeader env = H at c4
  have hne2 : H.m_preHeaderPackets ≠ [] := by
    rw [c4]
    intro hc
    exact hne (List.map_eq_nil_iff.mp hc)
  obtain ⟨k1, ⟨pkt, hpkt, hpts⟩, k3, -, -⟩ := replayBufferedPackets_core env H hne2
  refine ⟨k1, ?_, ?_⟩
  · rw [c4] at hpkt
    obtain ⟨q, hq, rfl⟩ := List.mem_map.mp hpkt
    obtain ⟨hq1, hq2⟩ := List.mem_filter.mp hq
    exact ⟨q, hq1, hq2, hpts⟩
  · intro q hq hacc
    apply k3 q.toBuffered
    rw [c4]
    exact List.mem_map_of_mem _ (List.mem_filter.mpr ⟨hq, hacc⟩)

theorem head_filter_append (f : AVPacket → Bool) (a b : List AVPacket) (x : AVPacket)
    (hne : a.filter f ≠ []) (hx : ((a ++ b).filter f).head? = some x) :
    x ∈ a ∧ f x = true := by
  rw [List.filter_append] at hx
  cases hfa : a.filter f with
  | nil => exact absurd hfa hne
  | cons y rest =>
    rw [hfa] at hx
    simp only [List.cons_append, List.head?_cons, Option.some.injEq] at hx
    subst hx
    have hm : y ∈ a.filter f := by
      rw [hfa]
      exact List.mem_cons_self _ _
    exact List.mem_filter.mp hm

set_option maxRecDepth 1000000 in
theorem sample_origin_facts :
    (sampleVideoPackets ++ [sampleAudioPacket]).head?.map (fun p => p.pts) =
      some 211680000 ∧
    ((sampleVideoPackets ++ [sampleAudioPacket]).filter
      (fun p => p.accepted sampleMuxer.m_tracks)).head?.map (fun p => p.pts) =
      some 211680000 ∧
    ((sampleVideoPackets ++ [sampleAudioPacket]).foldl
      (fun acc p => acc.muxPacket sampleEnv p) sampleMuxer).m_headerWritten = true ∧
    ((sampleVideoPackets ++ [sampleAudioPacket]).foldl
      (fun acc p => acc.muxPacket sampleEnv p) sampleMuxer).m_firstTimecodeSet = true ∧
    ((sampleVideoPackets ++ [sampleAudioPacket]).foldl
      (fun acc p => acc.muxPacket sampleEnv p) sampleMuxer).m_firstTimecode = 105840000 ∧
    (muxSession sampleEnv sampleMuxer (sampleVideoPackets ++ [sampleAudioPacket])).blockLog.map
      (fun b => (b.streamIndex, b.relMs)) = [(0, 20), (1, 0)] := by
  decide

/-- C36 (counterexample): in the sample session the first packet the muxer observes is a
video packet with PTS 211680000 (40 ms), the audio packet that completes the set of seen
tracks has PTS 105840000 (20 ms), and the time origin after the commit is 105840000, not
the PTS of the first packet; the video frame is then written at 20 ms. -/
theorem time_origin_not_first_pts :
    (sampleVideoPackets ++ [sampleAudioPacket]).head?.map (fun p => p.pts) =
      some 211680000 ∧
    ((sampleVideoPackets ++ [sampleAudioPacket]).filter
      (fun p => p.accepted sampleMuxer.m_tracks)).head?.map (fun p => p.pts) =
      some 211680000 ∧
    ((sampleVideoPackets ++ [sampleAudioPacket]).foldl
      (fun acc p => acc.muxPacket sampleEnv p) sampleMuxer).m_headerWritten = true ∧
    ((sampleVideoPackets ++ [sampleAudioPacket]).foldl
      (fun acc p => acc.muxPacket sampleEnv p) sampleMuxer).m_firstTimecodeSet = true ∧
    ((sampleVideoPackets ++ [sampleAudioPacket]).foldl
      (fun acc p => acc.muxPacket sampleEnv p) sampleMuxer).m_firstTimecode = 105840000 ∧
    (muxSession sampleEnv sampleMuxer (sampleVideoPackets ++ [sampleAudioPacket])).blockLog.map
      (fun b => (b.streamIndex, b.relMs)) = [(0, 20), (1, 0)] :=
  sample_origin_facts

/-- C36 (amended): from the start of a session, the time origin is the minimum PTS over
the accepted packets that were buffered before the header was written, not the PTS of
the first of them. When the packets `ps` complete the set of seen tracks, these are the
accepted packets of the shortest prefix `pre ++ [p]` of `ps` in which every track is
seen: the origin is set, is the PTS of one of them and is at most the PTS of each, it
equals the PTS of the first accepted packet exactly when no packet of that prefix has a
smaller PTS, and later packets leave it unchanged. When `close` has to force the header,
the origin is in the same way the minimum PTS over all accepted packets. -/
theorem time_origin_min_pts (env : Env) (s : MatroskaMuxer) (h : AwaitingTrackData s)
    (ps : List AVPacket) :
    (AllTracksSeen s.m_tracks ps →
      ∃ (pre : List AVPacket) (p : AVPacket) (post : List AVPacket),
        ps = pre ++ p :: post ∧
        ¬ AllTracksSeen s.m_tracks pre ∧ AllTracksSeen s.m_tracks (pre ++ [p]) ∧
        (ps.foldl (fun acc p => acc.muxPacket env p) s).m_firstTimecodeSet = true ∧
        (∃ q ∈ pre ++ [p], q.accepted s.m_tracks = true ∧
          q.pts = (ps.foldl (fun acc p => acc.muxPacket env p) s).m_firstTimecode) ∧
        (∀ q ∈ pre ++ [p], q.accepted s.m_tracks = true →
          (ps.foldl (fun acc p => acc.muxPacket env p) s).m_firstTimecode ≤ q.pts) ∧
        (∀ first : AVPacket,
          (ps.filter (fun p => p.accepted s.m_tracks)).head? = some first →
          ((ps.foldl (fun acc p => acc.muxPacket env p) s).m_firstTimecode = first.pts ↔
            ∀ q ∈ pre ++ [p], q.accepted s.m_tracks = true → first.pts ≤ q.pts)) ∧
        (∀ more : List AVPacket,
          ((ps ++ more).foldl (fun acc p => acc.muxPacket env p) s).m_firstTimecode =
            (ps.foldl (fun acc p => acc.muxPacket env p) s).m_firstTimecode) ∧
        ((ps.foldl (fun acc p => acc.muxPacket env p) s).headerForced env).m_firstTimecode =
          (ps.foldl (fun acc p => acc.muxPacket env p) s).m_firstTimecode) ∧
    (¬ AllTracksSeen s.m_tracks ps → ps.filter (fun p => p.accepted s.m_tracks) ≠ [] →
      ((ps.foldl (fun acc p => acc.muxPacket env p) s).headerForced env).m_firstTimecodeSet =
        true ∧
      (∃ q ∈ ps, q.accepted s.m_tracks = true ∧
        q.pts = ((ps.foldl (fun acc p => acc.muxPacket env p) s).headerForced
          env).m_firstTimecode) ∧
      (∀ q ∈ ps, q.accepted s.m_tracks = true →
        ((ps.foldl (fun acc p => acc.muxPacket env p) s).headerForced env).m_firstTimecode ≤
          q.pts)) := by
  refine ⟨fun hall => ?_, fun hall hne => forced_origin env s h ps hall hne⟩
  obtain ⟨pre, p, post, e, a1, a2, a3, -, ⟨q, hq, hqa, hqp⟩, a6⟩ := origin_spec env s h ps hall
  have hw := (headerWritten_iff env s h ps).mpr hall
  refine ⟨pre, p, post, e, a1, a2, a3, ⟨q, hq, hqa, hqp⟩, a6, ?_, ?_, ?_⟩
  · intro first hfirst
    have e2 : ps = (pre ++ [p]) ++ post := by
      rw [e, List.append_assoc]
      rfl
    have hne : (pre ++ [p]).filter (fun p => p.accepted s.m_tracks) ≠ [] :=
      List.ne_nil_of_mem (List.mem_filter.mpr ⟨hq, hqa⟩)
    rw [e2] at hfirst
    obtain ⟨hf1, hf2⟩ := head_filter_append _ _ _ _ hne hfirst
    constructor
    · intro heq r hr hra
      rw [← heq]
      exact a6 r hr hra
    · intro hmin
      exact le_antisymm (a6 first hf1 hf2) (by rw [← hqp]; exact hmin q hq hqa)
  · intro more
    exact (origin_stable env s h ps more hw).2
  · unfold MatroskaMuxer.headerForced
    rw [hw]
    rfl

theorem time_origin_min_pts_witness :
    AwaitingTrackData sampleMuxer ∧
    AllTracksSeen sampleMuxer.m_tracks (sampleVideoPackets ++ [sampleAudioPacket]) ∧
      ∃ (pre : List AVPacket) (p : AVPacket) (post : List AVPacket),
        (sampleVideoPackets ++ [sampleAudioPacket]) = pre ++ p :: post ∧
        ¬ AllTracksSeen sampleMuxer.m_tracks pre ∧ AllTracksSeen sampleMuxer.m_tracks (pre ++ [p]) ∧
        ((sampleVideoPackets ++ [sampleAudioPacket]).foldl (fun acc p => acc.muxPacket sampleEnv p) sampleMuxer).m_firstTimecodeSet = true ∧
        (∃ q ∈ pre ++ [p], q.accepted sampleMuxer.m_tracks = true ∧
          q.pts = ((sampleVideoPackets ++ [sampleAudioPacket]).foldl (fun acc p => acc.muxPacket sampleEnv p) sampleMuxer).m_firstTimecode) ∧
        (∀ q ∈ pre ++ [p], q.accepted sampleMuxer.m_tracks = true →
          ((sampleVideoPackets ++ [sampleAudioPacket]).foldl (fun acc p => acc.muxPacket sampleEnv p) sampleMuxer).m_firstTimecode ≤ q.pts) ∧
        (∀ first : AVPacket,
          ((sampleVideoPackets ++ [sampleAudioPacket]).filter (fun p => p.accepted sampleMuxer.m_tracks)).head? = some first →
          (((sampleVideoPackets ++ [sampleAudioPacket]).foldl (fun acc p => acc.muxPacket sampleEnv p) sampleMuxer).m_firstTimecode = first.pts ↔
            ∀ q ∈ pre ++ [p], q.accepted sampleMuxer.m_tracks = true → first.pts ≤ q.pts)) ∧
        (∀ more : List AVPacket,
          (((sampleVideoPackets ++ [sampleAudioPacket]) ++ more).foldl (fun acc p => acc.muxPacket sampleEnv p) sampleMuxer).m_firstTimecode =
            ((sampleVideoPackets ++ [sampleAudioPacket]).foldl (fun acc p => acc.muxPacket sampleEnv p) sampleMuxer).m_firstTimecode) ∧
        (((sampleVideoPackets ++ [sampleAudioPacket]).foldl (fun acc p => acc.muxPacket sampleEnv p) sampleMuxer).headerForced sampleEnv).m_firstTimecode =
          ((sampleVideoPackets ++ [sampleAudioPacket]).foldl (fun acc p => acc.muxPacket sampleEnv p) sampleMuxer).m_firstTimecode :=
  ⟨sampleMuxer_awaiting, sampleMuxer_all_seen,
    (time_origin_min_pts sampleEnv sampleMuxer sampleMuxer_awaiting
      (sampleVideoPackets ++ [sampleAudioPacket])).1 sampleMuxer_all_seen⟩

/-! ### The cluster buffer -/

theorem toUInt64_lt (v : Int) : toUInt64 v < 2 ^ 64 := by
  unfold toUInt64
  have h1 : 0 ≤ v % 2 ^ 64 := Int.emod_nonneg _ (by norm_num)
  have h2 : v % 2 ^ 64 < 2 ^ 64 := Int.emod_lt_of_pos _ (by norm_num)
  omega

theorem clusterTimecode_length (ts : Int) :
    (ebml_write_uint MATROSKA_ID_CLUSTERTIMECODE (toUInt64 ts)).length ≤ 10 := by
  obtain ⟨h1, h8, -⟩ := uint_size_spec (toUInt64 ts) (toUInt64_lt ts)
  unfold ebml_write_uint
  rw [List.length_append, List.length_append, writeBE_length,
    ebml_write_size_small _ (by omega)]
  have : (ebml_write_id MATROSKA_ID_CLUSTERTIMECODE).length = 1 := by decide
  rw [this, List.length_singleton]
  omega

theorem clusterSizeOk_startCluster (s : MatroskaMuxer) (ts : Int) :
    ClusterSizeOk (s.startCluster ts) ∧
    ((s.startCluster ts).m_clusterBuf.length : Int) < CLUSTER_MAX_SIZE := by
  have hl := clusterTimecode_length ts
  have hb : (((s.startCluster ts).m_clusterBuf.length : Nat) : Int) < CLUSTER_MAX_SIZE := by
    unfold MatroskaMuxer.startCluster CLUSTER_MAX_SIZE
    dsimp only
    omega
  exact ⟨rfl, hb⟩

theorem clusterSizeOk_flushCluster (s : MatroskaMuxer) (h : ClusterSizeOk s) :
    ClusterSizeOk s.flushCluster := by
  unfold MatroskaMuxer.flushCluster
  split
  · exact h
  · rfl

theorem clusterSizeOk_scheduleFrame (env : Env) (s : MatroskaMuxer) (track : MkvTrackInfo)
    (relMs : Int) (h : ClusterSizeOk s) :
    ClusterSizeOk (s.scheduleFrame env track relMs) ∧
    ((s.scheduleFrame env track relMs).m_clusterBuf.length : Int) < CLUSTER_MAX_SIZE := by
  rw [scheduleFrame_eq env s track relMs _ rfl]
  by_cases hc : NewClusterCondition env s track relMs
  · rw [if_pos hc]
    exact clusterSizeOk_startCluster
      ({ s with m_lastTimecodeMs := max s.m_lastTimecodeMs relMs } : MatroskaMuxer) relMs
  · rw [if_neg hc]
    unfold NewClusterCondition at hc
    have hs : s.m_clusterDataSize < CLUSTER_MAX_SIZE := by
      unfold CLUSTER_MAX_SIZE
      omega
    have h1 : s.m_clusterDataSize = (s.m_clusterBuf.length : Int) := h
    refine ⟨h1, ?_⟩
    show (s.m_clusterBuf.length : Int) < CLUSTER_MAX_SIZE
    rw [← h1]
    exact hs

theorem flushPendingFrame_idle (env : Env) (s : MatroskaMuxer) (track : MkvTrackInfo)
    (hp : ¬ (track.hasPendingFrame = true ∧ track.pendingFrameData ≠ [])) :
    (s.flushPendingFrame env track).1 = s := by
  unfold MatroskaMuxer.flushPendingFrame
  rw [if_pos]
  rw [Bool.or_eq_true, Bool.not_eq_true']
  by_cases hh : track.hasPendingFrame = true
  · right
    have hd : track.pendingFrameData = [] := by
      by_contra hne
      exact hp ⟨hh, hne⟩
    rw [hd]
    rfl
  · left
    simpa using hh

theorem clusterSizeOk_flushPendingFrame (env : Env) (s : MatroskaMuxer) (track : MkvTrackInfo)
    (h : ClusterSizeOk s) : ClusterSizeOk (s.flushPendingFrame env track).1 := by
  by_cases hp : track.hasPendingFrame = true ∧ track.pendingFrameData ≠ []
  · obtain ⟨h1, -⟩ := clusterSizeOk_scheduleFrame env s track (s.frameRelMs track) h
    rw [flushPendingFrame_pending env s track hp.1 hp.2 _ rfl]
    unfold ClusterSizeOk at h1 ⊢
    dsimp only
    rw [h1, List.length_append]
    push_cast
    rfl
  · rw [flushPendingFrame_idle env s track hp]
    exact h

theorem clusterBufOk_flushCluster (s : MatroskaMuxer) (h : ClusterBufOk s) :
    ClusterBufOk s.flushCluster := by
  unfold MatroskaMuxer.flushCluster
  split
  · exact h
  · exact ⟨rfl, Or.inl (by unfold CLUSTER_MAX_SIZE; dsimp only; decide)⟩

theorem clusterBufOk_flushPendingFrame (env : Env) (s : MatroskaMuxer) (track : MkvTrackInfo)
    (h : ClusterBufOk s) : ClusterBufOk (s.flushPendingFrame env track).1 := by
  refine ⟨clusterSizeOk_flushPendingFrame env s track h.1, ?_⟩
  by_cases hp : track.hasPendingFrame = true ∧ track.pendingFrameData ≠ []
  · obtain ⟨-, h2⟩ := clusterSizeOk_scheduleFrame env s track (s.frameRelMs track) h.1
    rw [flushPendingFrame_pending env s track hp.1 hp.2 _ rfl]
    refine Or.inr ⟨_, pendingBlock env s track, ?_, rfl, h2⟩
    dsimp only
    rw [List.getLast?_append]
    rfl
  · rw [flushPendingFrame_idle env s track hp]
    exact h.2

theorem clusterSizeOk_congr (a b : MatroskaMuxer) (h : a.clusterBuffer = b.clusterBuffer)
    (hb : ClusterSizeOk b) : ClusterSizeOk a := by
  unfold MatroskaMuxer.clusterBuffer at h
  simp only [Prod.mk.injEq] at h
  obtain ⟨h1, h2, -⟩ := h
  unfold ClusterSizeOk at hb ⊢
  rw [h1, h2]
  exact hb

theorem clusterBufOk_congr (a b : MatroskaMuxer) (h : a.clusterBuffer = b.clusterBuffer)
    (hb : ClusterBufOk b) : ClusterBufOk a := by
  unfold MatroskaMuxer.clusterBuffer at h
  simp only [Prod.mk.injEq] at h
  obtain ⟨h1, h2, h3⟩ := h
  unfold ClusterBufOk ClusterSizeOk ClusterBufBounded at hb ⊢
  rw [h1, h2, h3]
  exact hb

theorem writeToFile_clusterBuffer (s : MatroskaMuxer) (data : List Nat) :
    (s.writeToFile data).clusterBuffer = s.clusterBuffer := by
  unfold MatroskaMuxer.writeToFile
  split_ifs <;> rfl

theorem writeDeferredHeader_clusterBuffer (env : Env) (s : MatroskaMuxer) :
    (s.writeDeferredHeader env).clusterBuffer = s.clusterBuffer := by
  unfold MatroskaMuxer.writeDeferredHeader MatroskaMuxer.writeTracks
    MatroskaMuxer.writeSegmentInfo
  dsimp only
  unfold MatroskaMuxer.clusterBuffer
  simp only [writeToFile_eq]

theorem writeCues_clusterBuffer (s : MatroskaMuxer) :
    s.writeCues.clusterBuffer = s.clusterBuffer := by
  unfold MatroskaMuxer.writeCues
  split
  · rfl
  · dsimp only
    rw [writeToFile_clusterBuffer, writeToFile_clusterBuffer]
    rfl

theorem writeSeekHead_clusterBuffer (s : MatroskaMuxer) :
    s.writeSeekHead.clusterBuffer = s.clusterBuffer := by
  unfold MatroskaMuxer.writeSeekHead
  dsimp only
  rw [writeToFile_clusterBuffer, writeToFile_clusterBuffer]

theorem patchDuration_clusterBuffer (env : Env) (s : MatroskaMuxer) :
    (s.patchDuration env).clusterBuffer = s.clusterBuffer := by
  unfold MatroskaMuxer.patchDuration
  split <;> rfl

theorem patchSegmentSize_clusterBuffer (s : MatroskaMuxer) :
    s.patchSegmentSize.clusterBuffer = s.clusterBuffer := rfl

theorem clusterInv_finish (env : Env) (P : MatroskaMuxer → Prop)
    (hcongr : ∀ a b : MatroskaMuxer, a.clusterBuffer = b.clusterBuffer → P b → P a)
    (hfc : ∀ s : MatroskaMuxer, P s → P s.flushCluster) (f : MatroskaMuxer) (h : P f) :
    P (((((f.flushCluster).writeCues).writeSeekHead).patchSegmentSize).patchDuration env) := by
  have h4 : P f.flushCluster := hfc f h
  generalize f.flushCluster = g at h4
  have h5 : P g.writeCues := hcongr g.writeCues g (writeCues_clusterBuffer g) h4
  generalize g.writeCues = w at h5
  have h6 : P w.writeSeekHead := hcongr w.writeSeekHead w (writeSeekHead_clusterBuffer w) h5
  generalize w.writeSeekHead = k at h6
  have h7 : P k.patchSegmentSize :=
    hcongr k.patchSegmentSize k (patchSegmentSize_clusterBuffer k) h6
  generalize k.patchSegmentSize = q at h7
  exact hcongr (q.patchDuration env) q (patchDuration_clusterBuffer env q) h7

/-- An invariant of the cluster buffer that `flushPendingFrame` and `flushCluster`
preserve holds at every point of a session: after every `muxPacket`, and in `close`
after the header is forced, after the pending frames are flushed, and at the end. -/
theorem clusterInv_session (env : Env) (P : MatroskaMuxer → Prop)
    (hcongr : ∀ a b : MatroskaMuxer, a.clusterBuffer = b.clusterBuffer → P b → P a)
    (hflush : ∀ (s : MatroskaMuxer) (track : MkvTrackInfo),
      P s → P (s.flushPendingFrame env track).1)
    (hfc : ∀ s : MatroskaMuxer, P s → P s.flushCluster)
    (s : MatroskaMuxer) (h : P s) (ps : List AVPacket) :
    P (ps.foldl (fun acc p => acc.muxPacket env p) s) ∧
    P ((ps.foldl (fun acc p => acc.muxPacket env p) s).headerForced env) ∧
    P (((ps.foldl (fun acc p => acc.muxPacket env p) s).headerForced
      env).flushAllPendingFrames env) ∧
    P (muxSession env s ps) := by
  have hint : ∀ (t : MatroskaMuxer) (p : AVPacket), P t → P (t.muxPacketInternal env p) := by
    intro t p ht
    unfold MatroskaMuxer.muxPacketInternal
    split
    · exact ht
    · rename_i track _
      dsimp only
      split
      · exact hcongr _ (t.flushPendingFrame env track).1 (by rfl) (hflush t track ht)
      · exact hcongr _ t (by rfl) ht
  have hfold : ∀ (qs : List AVPacket) (t : MatroskaMuxer), P t →
      P (qs.foldl (fun acc p => acc.muxPacketInternal env p) t) := by
    intro qs
    induction qs with
    | nil => intro t ht; exact ht
    | cons p rest ih => intro t ht; exact ih _ (hint t p ht)
  have hreplay : ∀ t : MatroskaMuxer, P t → P (t.replayBufferedPackets env) := by
    intro t ht
    by_cases hn : t.m_preHeaderPackets = []
    · rw [replayBufferedPackets_nil env t hn]
      exact ht
    · rw [replayBufferedPackets_eq env t hn, ← List.foldl_map]
      exact hcongr _ _ (by rfl) (hfold _ _ (hcongr _ t (by rfl) ht))
  have hhdr : ∀ t : MatroskaMuxer, P t → P (t.writeDeferredHeader env) :=
    fun t ht => hcongr _ t (writeDeferredHeader_clusterBuffer env t) ht
  have hmux : ∀ (t : MatroskaMuxer) (p : AVPacket), P t → P (t.muxPacket env p) := by
    intro t p ht
    unfold MatroskaMuxer.muxPacket
    split
    · exact ht
    · split
      · exact ht
      · split
        · exact ht
        · split
          · dsimp only
            have hb : P (t.bufferPacket p) := hcongr _ t (by rfl) ht
            split
            · exact hreplay _ (hhdr _ hb)
            · exact hb
          · dsimp only
            apply hint
            split
            · exact hcongr _ t (by rfl) ht
            · exact ht
  have hmuxs : ∀ (qs : List AVPacket) (t : MatroskaMuxer), P t →
      P (qs.foldl (fun acc p => acc.muxPacket env p) t) := by
    intro qs
    induction qs with
    | nil => intro t ht; exact ht
    | cons p rest ih => intro t ht; exact ih _ (hmux t p ht)
  have htracks : ∀ (ts : List MkvTrackInfo) (t : MatroskaMuxer), P t →
      P (flushTracks env t ts).1 := by
    intro ts
    induction ts with
    | nil => intro t ht; exact ht
    | cons x rest ih => intro t ht; exact ih _ (hflush t x ht)
  have h1 := hmuxs ps s h
  have h2 : P ((ps.foldl (fun acc p => acc.muxPacket env p) s).headerForced env) := by
    unfold MatroskaMuxer.headerForced
    split
    · exact hreplay _ (hhdr _ h1)
    · exact h1
  have h3 : P (((ps.foldl (fun acc p => acc.muxPacket env p) s).headerForced
      env).flushAllPendingFrames env) :=
    hcongr _ _ (by rfl) (htracks _ _ h2)
  refine ⟨h1, h2, h3, ?_⟩
  have e : muxSession env s ps =
      ((((((ps.foldl (fun acc p => acc.muxPacket env p) s).headerForced
        env).flushAllPendingFrames env).flushCluster).writeCues).writeSeekHead).patchSegmentSize.patchDuration
        env := by
    unfold muxSession
    rw [close_eq]
    rfl
  rw [e]
  exact clusterInv_finish env P hcongr hfc _ h3

/-- C40: the invariant "`m_clusterDataSize` equals the byte length of `m_clusterBuf`"
holds of a freshly constructed muxer, is established by `startCluster`, and is preserved
by `flushCluster` and by `flushPendingFrame`, hence holds at every point of a session
that begins in a state with the invariant; under it the size test of the new-cluster
condition is a test on the true length of the buffered cluster content. -/
theorem cluster_data_size_invariant (env : Env) (s : MatroskaMuxer) (h : ClusterSizeOk s) :
    ClusterSizeOk ({} : MatroskaMuxer) ∧
    (∀ ts : Int, ClusterSizeOk (s.startCluster ts)) ∧
    ClusterSizeOk s.flushCluster ∧
    (∀ track : MkvTrackInfo, ClusterSizeOk (s.flushPendingFrame env track).1) ∧
    (∀ ps : List AVPacket,
      ClusterSizeOk (ps.foldl (fun acc p => acc.muxPacket env p) s) ∧
      ClusterSizeOk ((ps.foldl (fun acc p => acc.muxPacket env p) s).headerForced env) ∧
      ClusterSizeOk (((ps.foldl (fun acc p => acc.muxPacket env p) s).headerForced
        env).flushAllPendingFrames env) ∧
      ClusterSizeOk (muxSession env s ps)) ∧
    (s.m_clusterDataSize ≥ CLUSTER_MAX_SIZE ↔
      (s.m_clusterBuf.length : Int) ≥ 5 * 1024 * 1024) := by
  refine ⟨rfl, fun ts => (clusterSizeOk_startCluster s ts).1, clusterSizeOk_flushCluster s h,
    fun track => clusterSizeOk_flushPendingFrame env s track h,
    fun ps => clusterInv_session env ClusterSizeOk clusterSizeOk_congr
      (clusterSizeOk_flushPendingFrame env) clusterSizeOk_flushCluster s h ps, ?_⟩
  have h1 : s.m_clusterDataSize = (s.m_clusterBuf.length : Int) := h
  rw [h1]
  rfl

theorem cluster_data_size_invariant_witness :
    ClusterSizeOk sampleMuxer ∧
    (ClusterSizeOk ({} : MatroskaMuxer) ∧
    (∀ ts : Int, ClusterSizeOk (sampleMuxer.startCluster ts)) ∧
    ClusterSizeOk sampleMuxer.flushCluster ∧
    (∀ track : MkvTrackInfo, ClusterSizeOk (sampleMuxer.flushPendingFrame sampleEnv track).1) ∧
    (∀ ps : List AVPacket,
      ClusterSizeOk (ps.foldl (fun acc p => acc.muxPacket sampleEnv p) sampleMuxer) ∧
      ClusterSizeOk ((ps.foldl (fun acc p => acc.muxPacket sampleEnv p)
        sampleMuxer).headerForced sampleEnv) ∧
      ClusterSizeOk (((ps.foldl (fun acc p => acc.muxPacket sampleEnv p)
        sampleMuxer).headerForced sampleEnv).flushAllPendingFrames sampleEnv) ∧
      ClusterSizeOk (muxSession sampleEnv sampleMuxer ps)) ∧
    (sampleMuxer.m_clusterDataSize ≥ CLUSTER_MAX_SIZE ↔
      (sampleMuxer.m_clusterBuf.length : Int) ≥ 5 * 1024 * 1024)) :=
  ⟨by unfold ClusterSizeOk; decide,
    cluster_data_size_invariant sampleEnv sampleMuxer (by unfold ClusterSizeOk; decide)⟩

theorem audioMuxer_facts :
    audioMuxer.m_headerWritten = false ∧ audioMuxer.m_seenStreams = [] ∧
    audioMuxer.m_preHeaderPackets = [] ∧ audioMuxer.m_tracks = [audioTrack] ∧
    (audioMuxer.m_tracks.map (refreshTrack sampleEnv)).map (buildCodecPrivate sampleEnv) =
      [audioTrack] ∧
    audioMuxer.m_clusterBuf = [] ∧ audioMuxer.m_clusterDataSize = 0 := by
  decide

theorem muxPacketInternal_flush_buf (env : Env) (s : MatroskaMuxer) (p : AVPacket)
    (t : MkvTrackInfo) (h : findTrack s.m_tracks p.stream_index = some t)
    (hp : t.hasPendingFrame = true) (hpts : p.pts ≠ t.pendingPts) :
    (s.muxPacketInternal env p).clusterBuffer = (s.flushPendingFrame env t).1.clusterBuffer := by
  unfold MatroskaMuxer.muxPacketInternal
  rw [h]
  dsimp only
  rw [if_pos (by rw [hp]; simpa using hpts)]
  rfl

theorem replayBufferedPackets_single (env : Env) (s : MatroskaMuxer) (pkt : BufferedPacket)
    (h : s.m_preHeaderPackets = [pkt]) :
    s.replayBufferedPackets env =
      { (({ s with m_firstTimecode := pkt.pts, m_firstTimecodeSet := true } :
          MatroskaMuxer).muxPacketInternal env pkt.toPacket) with
        m_preHeaderPackets := [] } := by
  unfold MatroskaMuxer.replayBufferedPackets
  rw [h]
  simp only [List.foldl_cons, List.foldl_nil, min_self]

theorem pendingBlock_bytes_length (env : Env) (s : MatroskaMuxer) (track : MkvTrackInfo) :
    (convertFrameData env track.codecID track.pendingFrameData).length ≤
      (pendingBlock env s track).bytes.length := by
  rw [pendingBlock_bytes]
  simp only [List.length_append]
  omega

/-- The cluster buffer after the two packets `largeFramePackets data` holds the whole
payload `data`. -/
theorem largeFrame_buffered (data : List Nat) (hd : data ≠ []) :
    data.length ≤ ((largeFramePackets data).foldl
      (fun acc p => acc.muxPacket sampleEnv p) audioMuxer).m_clusterBuf.length := by
  obtain ⟨f1, f2, f3, f4, f5, -, -⟩ := audioMuxer_facts
  show data.length ≤ ((audioMuxer.muxPacket sampleEnv
    { stream_index := 1, pts := 0, flags := 0, data := some data }).muxPacket sampleEnv
    { stream_index := 1, pts := 5292000, flags := 0, data := some [0x0B, 0x77, 0x02] }
    ).m_clusterBuf.length
  have hfind : findTrack audioMuxer.m_tracks 1 = some audioTrack := by
    rw [f4]
    decide
  -- the first packet commits the header and becomes the pending frame
  have hacc : ({ stream_index := 1, pts := 0, flags := 0, data := some data } :
      AVPacket).accepted audioMuxer.m_tracks = true :=
    (accepted_iff _ _).mpr ⟨⟨data, rfl, hd⟩, audioTrack, hfind⟩
  have h1 := muxPacket_buffer sampleEnv audioMuxer _ hacc f1
  have hseen : (audioMuxer.bufferPacket
      { stream_index := 1, pts := 0, flags := 0, data := some data }).m_seenStreams.length ≥
      audioMuxer.m_tracks.length := by
    unfold MatroskaMuxer.bufferPacket
    dsimp only
    rw [f2, f4]
    decide
  rw [if_pos hseen] at h1
  obtain ⟨w1, -, w3, -, -, w6, -⟩ := writeDeferredHeader_fields sampleEnv
    (audioMuxer.bufferPacket { stream_index := 1, pts := 0, flags := 0, data := some data })
  have hpre : ((audioMuxer.bufferPacket
      { stream_index := 1, pts := 0, flags := 0, data := some data }).writeDeferredHeader
        sampleEnv).m_preHeaderPackets =
      [{ stream_index := 1, pts := 0, flags := 0, data := data }] := by
    rw [w6]
    unfold MatroskaMuxer.bufferPacket
    dsimp only
    rw [f3]
    rfl
  have htr : ((audioMuxer.bufferPacket
      { stream_index := 1, pts := 0, flags := 0, data := some data }).writeDeferredHeader
        sampleEnv).m_tracks = [audioTrack] := by
    rw [w1]
    exact f5
  generalize (audioMuxer.bufferPacket
      { stream_index := 1, pts := 0, flags := 0, data := some data }).writeDeferredHeader
        sampleEnv = H at h1 w3 hpre htr
  rw [replayBufferedPackets_single sampleEnv H _ hpre] at h1
  have hfind2 : findTrack
      ({ H with m_firstTimecode := 0, m_firstTimecodeSet := true } : MatroskaMuxer).m_tracks
      (BufferedPacket.toPacket
        { stream_index := 1, pts := 0, flags := 0, data := data }).stream_index =
      some audioTrack := by
    show findTrack H.m_tracks 1 = some audioTrack
    rw [htr]
    decide
  obtain ⟨m1, -, m3, -, m5, -, -⟩ := muxPacketInternal_some sampleEnv
    ({ H with m_firstTimecode := 0, m_firstTimecodeSet := true } : MatroskaMuxer)
    (BufferedPacket.toPacket { stream_index := 1, pts := 0, flags := 0, data := data })
    audioTrack hfind2
  rw [if_neg (fun hc => Bool.noConfusion hc.1), accumulatePacket_fresh sampleEnv audioTrack _ rfl]
    at m1
  -- the state after the first packet
  have t1 : (audioMuxer.muxPacket sampleEnv
      { stream_index := 1, pts := 0, flags := 0, data := some data }).m_tracks =
      [{ audioTrack with pendingPts := 0, pendingFlags := 0, hasPendingFrame := true,
                         pendingFrameData := data }] := by
    rw [h1]
    show (MatroskaMuxer.muxPacketInternal sampleEnv _ _).m_tracks = _
    rw [m1]
    show setTrack H.m_tracks _ = _
    rw [htr]
    rfl
  have t2 : (audioMuxer.muxPacket sampleEnv
      { stream_index := 1, pts := 0, flags := 0, data := some data }).m_headerWritten = true := by
    rw [h1]
    show (MatroskaMuxer.muxPacketInternal sampleEnv _ _).m_headerWritten = _
    rw [m3]
    exact w3
  have t3 : (audioMuxer.muxPacket sampleEnv
      { stream_index := 1, pts := 0, flags := 0, data := some data }).m_firstTimecodeSet =
      true := by
    rw [h1]
    show (MatroskaMuxer.muxPacketInternal sampleEnv _ _).m_firstTimecodeSet = _
    rw [m5]
  generalize audioMuxer.muxPacket sampleEnv
      { stream_index := 1, pts := 0, flags := 0, data := some data } = S1 at t1 t2 t3 ⊢
  have t1p : S1.m_tracks = [pendingAudioTrack data] := t1
  have hfind3 : findTrack S1.m_tracks
      ({ stream_index := 1, pts := 5292000, flags := 0, data := some [0x0B, 0x77, 0x02] } :
        AVPacket).stream_index = some (pendingAudioTrack data) := by
    rw [t1p]
    rfl
  have hacc2 : AVPacket.accepted S1.m_tracks
      { stream_index := 1, pts := 5292000, flags := 0, data := some [0x0B, 0x77, 0x02] } = true :=
    (accepted_iff _ _).mpr ⟨⟨_, rfl, List.cons_ne_nil _ _⟩, _, hfind3⟩
  rw [muxPacket_written sampleEnv S1 _ hacc2 t2 t3]
  have hb := muxPacketInternal_flush_buf sampleEnv S1 _ _ hfind3 rfl
    (show (5292000 : Int) ≠ 0 by decide)
  have hb1 : (MatroskaMuxer.muxPacketInternal sampleEnv S1
      { stream_index := 1, pts := 5292000, flags := 0, data := some [0x0B, 0x77, 0x02] }).m_clusterBuf =
      (S1.flushPendingFrame sampleEnv (pendingAudioTrack data)).1.m_clusterBuf :=
    congrArg (fun x => x.1) hb
  rw [hb1, flushPendingFrame_pending sampleEnv S1 (pendingAudioTrack data) rfl hd _ rfl]
  have hl := pendingBlock_bytes_length sampleEnv S1 (pendingAudioTrack data)
  have hconv : convertFrameData sampleEnv (pendingAudioTrack data).codecID
      (pendingAudioTrack data).pendingFrameData = data := by
    show convertFrameData sampleEnv 8 data = data
    have c1 : ¬ ((8 : Int) = sampleEnv.CODEC_V_AV1) := by decide
    have c2 : ¬ ((8 : Int) = sampleEnv.CODEC_V_MPEG4_H264 ∨
        (8 : Int) = sampleEnv.CODEC_V_MPEG4_H265 ∨ (8 : Int) = sampleEnv.CODEC_V_MPEG4_H266) := by
      decide
    unfold convertFrameData
    dsimp only
    rw [if_neg c1, if_neg c2]
    rfl
  rw [hconv] at hl
  show data.length ≤ List.length (_ ++ _)
  rw [List.length_append]
  omega

theorem clusterBufOk_fresh : ClusterBufOk ({} : MatroskaMuxer) :=
  ⟨rfl, Or.inl (by decide)⟩

theorem clusterBufOk_sampleMuxer : ClusterBufOk sampleMuxer :=
  ⟨by unfold ClusterSizeOk; decide, Or.inl (by decide)⟩

/-- C37 (counterexample): in the session of one AC-3 stream whose first packet carries a
frame of 5 MiB + 1 bytes at PTS 0 and whose second packet arrives at PTS 1 ms, the
cluster buffer holds more than `CLUSTER_MAX_SIZE` bytes after the second `muxPacket`:
the size test of `flushPendingFrame` is made before the block is appended. -/
theorem cluster_buffer_exceeds_max :
    CLUSTER_MAX_SIZE = 5 * 1024 * 1024 ∧
    CLUSTER_MAX_SIZE <
      ((((largeFramePackets (List.replicate (5 * 1024 * 1024 + 1) 0)).foldl
        (fun acc p => acc.muxPacket sampleEnv p) audioMuxer).m_clusterBuf.length : Nat) : Int) := by
  have hne : List.replicate (5 * 1024 * 1024 + 1) 0 ≠ ([] : List Nat) := by
    intro hc
    have hl := congrArg List.length hc
    rw [List.length_replicate] at hl
    exact absurd hl (by decide)
  have h := largeFrame_buffered (List.replicate (5 * 1024 * 1024 + 1) 0) hne
  rw [List.length_replicate] at h
  refine ⟨rfl, ?_⟩
  unfold CLUSTER_MAX_SIZE
  omega

/-- C37 (amended): at every point of a mux session that begins with a consistent cluster
buffer (as a fresh muxer has), the cluster buffer holds fewer than `CLUSTER_MAX_SIZE`
bytes, or it ends with the SimpleBlock appended last and holds fewer than
`CLUSTER_MAX_SIZE` bytes before that block: the limit is tested before a block is
appended, so the buffer exceeds it by less than the size of its last block. -/
theorem cluster_buffer_bounded (env : Env) (s : MatroskaMuxer) (h : ClusterBufOk s)
    (ps : List AVPacket) :
    ClusterBufOk ({} : MatroskaMuxer) ∧
    ClusterBufBounded (ps.foldl (fun acc p => acc.muxPacket env p) s) ∧
    ClusterBufBounded ((ps.foldl (fun acc p => acc.muxPacket env p) s).headerForced env) ∧
    ClusterBufBounded (((ps.foldl (fun acc p => acc.muxPacket env p) s).headerForced
      env).flushAllPendingFrames env) ∧
    ClusterBufBounded (muxSession env s ps) := by
  obtain ⟨h1, h2, h3, h4⟩ := clusterInv_session env ClusterBufOk clusterBufOk_congr
    (clusterBufOk_flushPendingFrame env) clusterBufOk_flushCluster s h ps
  exact ⟨clusterBufOk_fresh, h1.2, h2.2, h3.2, h4.2⟩

theorem cluster_buffer_bounded_witness :
    ClusterBufOk sampleMuxer ∧
    (ClusterBufOk ({} : MatroskaMuxer) ∧
    ClusterBufBounded ((sampleVideoPackets ++ [sampleAudioPacket]).foldl
      (fun acc p => acc.muxPacket sampleEnv p) sampleMuxer) ∧
    ClusterBufBounded (((sampleVideoPackets ++ [sampleAudioPacket]).foldl
      (fun acc p => acc.muxPacket sampleEnv p) sampleMuxer).headerForced sampleEnv) ∧
    ClusterBufBounded ((((sampleVideoPackets ++ [sampleAudioPacket]).foldl
      (fun acc p => acc.muxPacket sampleEnv p) sampleMuxer).headerForced
      sampleEnv).flushAllPendingFrames sampleEnv) ∧
    ClusterBufBounded (muxSession sampleEnv sampleMuxer
      (sampleVideoPackets ++ [sampleAudioPacket]))) :=
  ⟨clusterBufOk_sampleMuxer,
    cluster_buffer_bounded sampleEnv sampleMuxer clusterBufOk_sampleMuxer
      (sampleVideoPackets ++ [sampleAudioPacket])⟩

/-! ### The position of the Duration value -/

theorem segmentInfo_duration :
    segmentInfoContent =
      ebml_write_uint MATROSKA_ID_TIMECODESCALE 1000000 ++
        ([0x44, 0x89, 0x88] ++ writeBE 0 8) ++
        (ebml_write_string MATROSKA_ID_MUXINGAPP (strBytes "tsMuxeR") ++
          ebml_write_string MATROSKA_ID_WRITINGAPP (strBytes "tsMuxeR")) ∧
    ebml_write_float MATROSKA_ID_DURATION 0 = [0x44, 0x89, 0x88] ++ writeBE 0 8 ∧
    (writeBE 0 8).length = 8 := by
  decide

/-- What `writeSegmentInfo` records: the position right after the ID and size bytes of
the Duration element it has written. -/
theorem writeSegmentInfo_duration (t : MatroskaMuxer)
    (h : t.m_file.pos = t.m_file.data.length) :
    t.writeSegmentInfo.m_file.data =
      (t.m_file.data ++ segmentInfoHeader ++ ebml_write_uint MATROSKA_ID_TIMECODESCALE 1000000 ++
        [0x44, 0x89, 0x88]) ++ writeBE 0 8 ++
        (ebml_write_string MATROSKA_ID_MUXINGAPP (strBytes "tsMuxeR") ++
          ebml_write_string MATROSKA_ID_WRITINGAPP (strBytes "tsMuxeR")) ∧
    t.writeSegmentInfo.m_durationValueFilePos =
      (((t.m_file.data ++ segmentInfoHeader ++
        ebml_write_uint MATROSKA_ID_TIMECODESCALE 1000000 ++ [0x44, 0x89, 0x88]).length : Nat) :
        Int) ∧
    (t.writeSegmentInfo.m_file.data.drop t.writeSegmentInfo.m_durationValueFilePos.toNat).take 8 =
      writeBE 0 8 := by
  obtain ⟨l1, -, l3, -, -⟩ := segmentInfo_layout
  obtain ⟨c1, -, c3⟩ := segmentInfo_duration
  obtain ⟨f, e, hd, -⟩ := writeSegmentInfo_eq t h
  have e1 : t.writeSegmentInfo.m_file.data = f.data := by rw [e]
  have e2 : t.writeSegmentInfo.m_durationValueFilePos = (t.m_file.data.length : Int) + 15 := by
    rw [e]
  have hlen : (t.m_file.data ++ segmentInfoHeader ++
      ebml_write_uint MATROSKA_ID_TIMECODESCALE 1000000 ++ [0x44, 0x89, 0x88]).length =
      t.m_file.data.length + 15 := by
    simp only [List.length_append, l1, l3, List.length_cons, List.length_nil]
  have hdata : t.writeSegmentInfo.m_file.data =
      (t.m_file.data ++ segmentInfoHeader ++ ebml_write_uint MATROSKA_ID_TIMECODESCALE 1000000 ++
        [0x44, 0x89, 0x88]) ++ writeBE 0 8 ++
        (ebml_write_string MATROSKA_ID_MUXINGAPP (strBytes "tsMuxeR") ++
          ebml_write_string MATROSKA_ID_WRITINGAPP (strBytes "tsMuxeR")) := by
    rw [e1, hd, c1]
    simp only [List.append_assoc]
  refine ⟨hdata, ?_, ?_⟩
  · rw [e2, hlen]
    push_cast
    rfl
  · rw [e2, hdata]
    have hn : ((t.m_file.data.length : Int) + 15).toNat = t.m_file.data.length + 15 := by omega
    rw [hn, List.append_assoc _ (writeBE 0 8), List.drop_left' hlen, List.take_left' c3]

/-- The Duration patch of `close` replaces the eight bytes at the recorded position and
nothing else. -/
theorem patchDuration_spec (env : Env) (b : MatroskaMuxer)
    (hd : b.m_durationValueFilePos.toNat + 8 ≤ b.m_file.data.length) :
    (b.patchDuration env).m_durationValueFilePos = b.m_durationValueFilePos ∧
    (b.patchDuration env).m_file.data.length = b.m_file.data.length ∧
    (∃ payload : List Nat, payload.length = 8 ∧
      (b.patchDuration env).m_file.data =
        b.m_file.data.take b.m_durationValueFilePos.toNat ++ payload ++
          b.m_file.data.drop (b.m_durationValueFilePos.toNat + 8)) ∧
    (∀ q n, q + n ≤ b.m_durationValueFilePos.toNat →
      ((b.patchDuration env).m_file.data.drop q).take n = (b.m_file.data.drop q).take n) ∧
    (∀ q n, b.m_durationValueFilePos.toNat + 8 ≤ q →
      ((b.patchDuration env).m_file.data.drop q).take n = (b.m_file.data.drop q).take n) := by
  unfold MatroskaMuxer.patchDuration
  split
  · dsimp only
    have hb := writeBE_length (env.f64_duration b.m_lastTimecodeMs
      ((b.m_tracks.find? (fun track => track.trackType == 1 && env.f64_pos track.fps)).map
        (fun track => track.fps))) 8
    generalize writeBE (env.f64_duration b.m_lastTimecodeMs
      ((b.m_tracks.find? (fun track => track.trackType == 1 && env.f64_pos track.fps)).map
        (fun track => track.fps))) 8 = buf at hb ⊢
    have hpb : b.m_durationValueFilePos.toNat + buf.length ≤ b.m_file.data.length := by
      rw [hb]
      exact hd
    obtain ⟨e1, e2⟩ := File.patch b.m_file b.m_durationValueFilePos.toNat buf hpb
    refine ⟨rfl, e2, ⟨buf, hb, ?_⟩, ?_, ?_⟩
    · rw [e1, hb]
    · intro q n hq
      rw [e1]
      exact read_patch_before _ _ _ _ _ hpb hq
    · intro q n hq
      rw [e1]
      exact read_patch_after _ _ _ _ _ hpb (by rw [hb]; exact hq)
  · refine ⟨rfl, rfl, ⟨(b.m_file.data.drop b.m_durationValueFilePos.toNat).take 8, ?_, ?_⟩,
      fun _ _ _ => rfl, fun _ _ _ => rfl⟩
    · rw [List.length_take, List.length_drop]
      omega
    · rw [List.append_assoc, ← List.drop_drop, List.take_append_drop, List.take_append_drop]

/-- The state of `close` before the Duration patch: the file is sequential up to the
segment-size patch, the recorded position lies inside the file, and the three bytes
before it are the ID and size of the Duration element. -/
theorem before_duration_patch (env : Env) (s : MatroskaMuxer) (h : SessionStart s)
    (ps : List AVPacket) :
    ∃ B : MatroskaMuxer, muxSession env s ps = B.patchDuration env ∧
      3 ≤ B.m_durationValueFilePos ∧
      B.m_durationValueFilePos.toNat + 8 ≤ B.m_file.data.length ∧
      (B.m_file.data.drop (B.m_durationValueFilePos.toNat - 3)).take 3 = [0x44, 0x89, 0x88] ∧
      (B.m_file.data.drop B.m_durationValueFilePos.toNat).take 8 = writeBE 0 8 := by
  obtain ⟨⟨hv, -⟩, -, h3⟩ := close_spec env s h ps
  refine ⟨_, h3, ?_⟩
  generalize ((ps.foldl (fun acc p => acc.muxPacket env p) s).headerForced env).beforePatch
    env = b at hv
  have hseq : b.m_file.pos = b.m_file.data.length := hv.file_seq
  have hs0 : 0 ≤ b.m_segmentSizePos := hv.seg.1
  have hsg : b.m_segmentSizePos + 8 = b.m_segmentStartPos := hv.seg.2
  have hd0 : b.m_segmentStartPos + 3 ≤ b.m_durationValueFilePos := hv.dur.1
  have hd8 : b.m_durationValueFilePos + 8 ≤ (b.m_file.pos : Int) := hv.dur.2.1
  have hz : (b.m_file.data.drop b.m_durationValueFilePos.toNat).take 8 = writeBE 0 8 :=
    hv.dur.2.2.1
  have hid : (b.m_file.data.drop (b.m_durationValueFilePos.toNat - 3)).take 3 =
      [0x44, 0x89, 0x88] := hv.dur.2.2.2
  obtain ⟨g1, -, g3⟩ := patched_once b.m_file b.m_segmentSizePos.toNat
    (ebml_write_size_fixed (toUInt64 ((b.m_file.pos : Int) - b.m_segmentStartPos)) 8)
    (ebml_write_size_fixed_length _ _) (by omega)
  have hfile : b.patchSegmentSize.m_file =
      (b.m_file.seek b.m_segmentSizePos.toNat).write
        (ebml_write_size_fixed (toUInt64 ((b.m_file.pos : Int) - b.m_segmentStartPos)) 8) := rfl
  have hdur : b.patchSegmentSize.m_durationValueFilePos = b.m_durationValueFilePos := rfl
  rw [hdur, hfile, g1, g3 _ _ (by omega), g3 _ _ (by omega)]
  exact ⟨by omega, by omega, hid, hz⟩

/-- C38: `writeSegmentInfo` records in `m_durationValueFilePos` the file position right
after the bytes `44 89 88` (ID and size byte) of the Duration element inside the
SegmentInfo element it writes, which is the position of the first of the eight payload
bytes; and in every session the state on which `close` issues the Duration patch has
these three bytes before the recorded position and at least eight bytes after it, and
the patch leaves the file length and every byte outside these eight unchanged. -/
theorem duration_value_position (env : Env) (s : MatroskaMuxer) (h : SessionStart s)
    (ps : List AVPacket) :
    (∀ t : MatroskaMuxer, t.m_file.pos = t.m_file.data.length →
      t.writeSegmentInfo.m_file.data =
        (t.m_file.data ++ segmentInfoHeader ++
          ebml_write_uint MATROSKA_ID_TIMECODESCALE 1000000 ++ [0x44, 0x89, 0x88]) ++
          writeBE 0 8 ++
          (ebml_write_string MATROSKA_ID_MUXINGAPP (strBytes "tsMuxeR") ++
            ebml_write_string MATROSKA_ID_WRITINGAPP (strBytes "tsMuxeR")) ∧
      t.writeSegmentInfo.m_durationValueFilePos =
        (((t.m_file.data ++ segmentInfoHeader ++
          ebml_write_uint MATROSKA_ID_TIMECODESCALE 1000000 ++ [0x44, 0x89, 0x88]).length : Nat) :
          Int) ∧
      (t.writeSegmentInfo.m_file.data.drop
        t.writeSegmentInfo.m_durationValueFilePos.toNat).take 8 = writeBE 0 8) ∧
    ebml_write_float MATROSKA_ID_DURATION 0 = [0x44, 0x89, 0x88] ++ writeBE 0 8 ∧
    ∃ B : MatroskaMuxer, muxSession env s ps = B.patchDuration env ∧
      (muxSession env s ps).m_durationValueFilePos = B.m_durationValueFilePos ∧
      3 ≤ B.m_durationValueFilePos ∧
      B.m_durationValueFilePos.toNat + 8 ≤ B.m_file.data.length ∧
      (B.m_file.data.drop (B.m_durationValueFilePos.toNat - 3)).take 3 = [0x44, 0x89, 0x88] ∧
      (muxSession env s ps).m_file.data.length = B.m_file.data.length ∧
      (∃ payload : List Nat, payload.length = 8 ∧
        (muxSession env s ps).m_file.data =
          B.m_file.data.take B.m_durationValueFilePos.toNat ++ payload ++
            B.m_file.data.drop (B.m_durationValueFilePos.toNat + 8)) ∧
      (∀ q n, q + n ≤ B.m_durationValueFilePos.toNat →
        ((muxSession env s ps).m_file.data.drop q).take n = (B.m_file.data.drop q).take n) ∧
      (∀ q n, B.m_durationValueFilePos.toNat + 8 ≤ q →
        ((muxSession env s ps).m_file.data.drop q).take n = (B.m_file.data.drop q).take n) := by
  refine ⟨fun t ht => writeSegmentInfo_duration t ht, segmentInfo_duration.2.1, ?_⟩
  obtain ⟨B, e, b1, b2, b3, -⟩ := before_duration_patch env s h ps
  obtain ⟨p1, p2, p3, p4, p5⟩ := patchDuration_spec env B b2
  rw [e]
  exact ⟨B, rfl, p1, b1, b2, b3, p2, p3, p4, p5⟩

theorem duration_value_position_witness :
    SessionStart sampleMuxer ∧
    ∃ B : MatroskaMuxer, muxSession sampleEnv sampleMuxer (sampleVideoPackets ++ [sampleAudioPacket]) = B.patchDuration sampleEnv ∧
      (muxSession sampleEnv sampleMuxer (sampleVideoPackets ++ [sampleAudioPacket])).m_durationValueFilePos = B.m_durationValueFilePos ∧
      3 ≤ B.m_durationValueFilePos ∧
      B.m_durationValueFilePos.toNat + 8 ≤ B.m_file.data.length ∧
      (B.m_file.data.drop (B.m_durationValueFilePos.toNat - 3)).take 3 = [0x44, 0x89, 0x88] ∧
      (muxSession sampleEnv sampleMuxer (sampleVideoPackets ++ [sampleAudioPacket])).m_file.data.length = B.m_file.data.length ∧
      (∃ payload : List Nat, payload.length = 8 ∧
        (muxSession sampleEnv sampleMuxer (sampleVideoPackets ++ [sampleAudioPacket])).m_file.data =
          B.m_file.data.take B.m_durationValueFilePos.toNat ++ payload ++
            B.m_file.data.drop (B.m_durationValueFilePos.toNat + 8)) ∧
      (∀ q n, q + n ≤ B.m_durationValueFilePos.toNat →
        ((muxSession sampleEnv sampleMuxer (sampleVideoPackets ++ [sampleAudioPacket])).m_file.data.drop q).take n = (B.m_file.data.drop q).take n) ∧
      (∀ q n, B.m_durationValueFilePos.toNat + 8 ≤ q →
        ((muxSession sampleEnv sampleMuxer (sampleVideoPackets ++ [sampleAudioPacket])).m_file.data.drop q).take n = (B.m_file.data.drop q).take n) :=
  ⟨sampleMuxer_start,
    (duration_value_position sampleEnv sampleMuxer sampleMuxer_start
      (sampleVideoPackets ++ [sampleAudioPacket])).2.2⟩

/-! ### Relative timestamps are not negative -/

theorem toUInt64_of_ok (v : Int) (h : UInt64Ok v) : ((toUInt64 v : Nat) : Int) = v := by
  unfold toUInt64
  rw [Int.emod_eq_of_lt h.1 h.2, Int.toNat_of_nonneg h.1]

theorem uInt64Ok_relMs (first pts : Int) (h1 : first ≤ pts) (h2 : pts - first < 2 ^ 63) :
    UInt64Ok (Int.tdiv (pts - first) INTERNAL_PTS_PER_MS) := by
  have hd : 0 ≤ pts - first := by omega
  unfold INTERNAL_PTS_PER_MS UInt64Ok
  rw [Int.tdiv_eq_ediv hd (by decide)]
  refine ⟨Int.ediv_nonneg hd (by decide), ?_⟩
  have hle := Int.ediv_le_self 5292000 hd
  omega

theorem timecodesOk_congr (a b : MatroskaMuxer) (h : a.timeView = b.timeView)
    (hb : TimecodesOk b) : TimecodesOk a := by
  unfold MatroskaMuxer.timeView at h
  simp only [Prod.mk.injEq] at h
  obtain ⟨h1, h2, h3, h4, h5⟩ := h
  unfold TimecodesOk at hb ⊢
  rw [h1, h2, h3, h4, h5]
  exact hb

theorem writeToFile_timeView (s : MatroskaMuxer) (data : List Nat) :
    (s.writeToFile data).timeView = s.timeView := by
  unfold MatroskaMuxer.writeToFile
  split_ifs <;> rfl

theorem writeDeferredHeader_timeView (env : Env) (s : MatroskaMuxer) :
    (s.writeDeferredHeader env).timeView = s.timeView := by
  unfold MatroskaMuxer.writeDeferredHeader MatroskaMuxer.writeTracks
    MatroskaMuxer.writeSegmentInfo
  dsimp only
  unfold MatroskaMuxer.timeView
  simp only [writeToFile_eq]

theorem writeCues_timeView (s : MatroskaMuxer) : s.writeCues.timeView = s.timeView := by
  unfold MatroskaMuxer.writeCues
  split
  · rfl
  · dsimp only
    rw [writeToFile_timeView, writeToFile_timeView]
    rfl

theorem writeSeekHead_timeView (s : MatroskaMuxer) :
    s.writeSeekHead.timeView = s.timeView := by
  unfold MatroskaMuxer.writeSeekHead
  dsimp only
  rw [writeToFile_timeView, writeToFile_timeView]

theorem patchDuration_timeView (env : Env) (s : MatroskaMuxer) :
    (s.patchDuration env).timeView = s.timeView := by
  unfold MatroskaMuxer.patchDuration
  split <;> rfl

theorem patchSegmentSize_timeView (s : MatroskaMuxer) :
    s.patchSegmentSize.timeView = s.timeView := rfl

theorem timecodesOk_flushCluster (s : MatroskaMuxer) (h : TimecodesOk s) :
    TimecodesOk s.flushCluster := by
  unfold MatroskaMuxer.flushCluster
  split
  · exact h
  · rename_i hc
    have ho : s.m_clusterOpen = true := by
      cases hv : s.m_clusterOpen
      · rw [hv] at hc
        exact absurd rfl hc
      · rfl
    obtain ⟨h1, h2, h3, h4⟩ := h
    have hv : ((s.writeToFile (ebml_write_id MATROSKA_ID_CLUSTER ++
        ebml_write_size s.m_clusterBuf.length)).writeToFile s.m_clusterBuf).timeView =
        s.timeView := by
      rw [writeToFile_timeView, writeToFile_timeView]
    unfold MatroskaMuxer.timeView at hv
    simp only [Prod.mk.injEq] at hv
    obtain ⟨v1, v2, v3, v4, v5⟩ := hv
    refine ⟨?_, ?_, ?_, ?_⟩
    · intro b hb
      exact h1 b (by rw [← v1]; exact hb)
    · intro c hcu
      exact h2 c (by rw [← v2]; exact hcu)
    · intro r hr
      rcases List.mem_append.mp hr with hr | hr
      · exact h3 r hr
      · rw [List.mem_singleton.mp hr]
        exact h4 ho
    · intro hopen
      exact absurd hopen Bool.false_ne_true

theorem timecodesOk_startCluster (s : MatroskaMuxer) (ts : Int) (h : TimecodesOk s)
    (hts : UInt64Ok ts) : TimecodesOk (s.startCluster ts) := by
  have h1 : TimecodesOk (if s.m_clusterOpen = true then s.flushCluster else s) := by
    split
    · exact timecodesOk_flushCluster s h
    · exact h
  unfold MatroskaMuxer.startCluster
  dsimp only
  generalize (if s.m_clusterOpen = true then s.flushCluster else s) = s1 at h1
  exact ⟨h1.1, h1.2.1, h1.2.2.1, fun _ => hts⟩

theorem timecodesOk_scheduleFrame (env : Env) (s : MatroskaMuxer) (track : MkvTrackInfo)
    (relMs : Int) (h : TimecodesOk s) (hr : UInt64Ok relMs) :
    TimecodesOk (s.scheduleFrame env track relMs) := by
  have h0 : TimecodesOk ({ s with m_lastTimecodeMs := max s.m_lastTimecodeMs relMs } :
      MatroskaMuxer) := h
  rw [scheduleFrame_eq env s track relMs _ rfl]
  have h2 : TimecodesOk (if NewClusterCondition env s track relMs then
      ({ s with m_lastTimecodeMs := max s.m_lastTimecodeMs relMs } :
        MatroskaMuxer).startCluster relMs
      else { s with m_lastTimecodeMs := max s.m_lastTimecodeMs relMs }) := by
    split
    · exact timecodesOk_startCluster _ relMs h0 hr
    · exact h0
  generalize (if NewClusterCondition env s track relMs then
      ({ s with m_lastTimecodeMs := max s.m_lastTimecodeMs relMs } :
        MatroskaMuxer).startCluster relMs
      else { s with m_lastTimecodeMs := max s.m_lastTimecodeMs relMs }) = s2 at h2
  refine ⟨h2.1, ?_, h2.2.2.1, h2.2.2.2⟩
  intro c hc
  rcases List.mem_append.mp hc with hc | hc
  · exact h2.2.1 c hc
  · unfold cueOf at hc
    split at hc
    · rw [List.mem_singleton.mp hc]
      exact hr
    · exact absurd hc (List.not_mem_nil _)

theorem timecodesOk_flushPendingFrame (env : Env) (s : MatroskaMuxer) (track : MkvTrackInfo)
    (h : TimecodesOk s)
    (hp : track.hasPendingFrame = true →
      s.m_firstTimecode ≤ track.pendingPts ∧ track.pendingPts - s.m_firstTimecode < 2 ^ 63) :
    TimecodesOk (s.flushPendingFrame env track).1 := by
  by_cases hc : track.hasPendingFrame = true ∧ track.pendingFrameData ≠ []
  · obtain ⟨hp1, hp2⟩ := hp hc.1
    have hr := uInt64Ok_relMs _ _ hp1 hp2
    rw [flushPendingFrame_pending env s track hc.1 hc.2 _ rfl]
    have h3 := timecodesOk_scheduleFrame env s track (s.frameRelMs track) h hr
    generalize s.scheduleFrame env track (s.frameRelMs track) = s3 at h3
    refine ⟨?_, h3.2.1, h3.2.2.1, h3.2.2.2⟩
    intro b hb
    rcases List.mem_append.mp hb with hb | hb
    · exact h3.1 b hb
    · rw [List.mem_singleton.mp hb]
      exact hr
  · rw [flushPendingFrame_idle env s track hc]
    exact h

theorem mem_setTrack (tracks : List MkvTrackInfo) (t' x : MkvTrackInfo)
    (h : x ∈ setTrack tracks t') : x ∈ tracks ∨ x = t' := by
  unfold setTrack at h
  obtain ⟨a, ha, hax⟩ := List.mem_map.mp h
  split at hax
  · exact Or.inr hax.symm
  · exact Or.inl (hax ▸ ha)

theorem timesOk_muxPacketInternal (env : Env) (s : MatroskaMuxer) (p : AVPacket)
    (h1 : TimecodesOk s) (h2 : PendingOk s)
    (hp : s.m_firstTimecode ≤ p.pts ∧ p.pts - s.m_firstTimecode < 2 ^ 63) :
    TimecodesOk (s.muxPacketInternal env p) ∧ PendingOk (s.muxPacketInternal env p) := by
  cases hf : findTrack s.m_tracks p.stream_index with
  | none =>
    rw [muxPacketInternal_none env s p hf]
    exact ⟨h1, h2⟩
  | some t =>
    obtain ⟨htm, -⟩ := findTrack_some _ _ _ hf
    obtain ⟨m1, -, -, m4, -, -, -⟩ := muxPacketInternal_some env s p t hf
    constructor
    · unfold MatroskaMuxer.muxPacketInternal
      rw [hf]
      dsimp only
      split
      · exact timecodesOk_congr _ (s.flushPendingFrame env t).1 (by rfl)
          (timecodesOk_flushPendingFrame env s t h1 (h2 t htm))
      · exact timecodesOk_congr _ s (by rfl) h1
    · intro x hx hxp
      rw [m1] at hx
      rw [m4]
      rcases mem_setTrack _ _ _ hx with hx | hx
      · exact h2 x hx hxp
      · rw [hx]
        by_cases hc : t.hasPendingFrame = true ∧ p.pts ≠ t.pendingPts
        · rw [if_pos hc, accumulatePacket_fresh _ _ _ rfl]
          exact hp
        · rw [if_neg hc]
          by_cases hpend : t.hasPendingFrame = true
          · rw [accumulatePacket_pending env t p hpend]
            exact h2 t htm hpend
          · rw [accumulatePacket_fresh env t p (by simpa using hpend)]
            exact hp

theorem timesOk_replayFold (env : Env) (pkts : List BufferedPacket) :
    ∀ s : MatroskaMuxer, TimecodesOk s → PendingOk s →
      (∀ pkt ∈ pkts, s.m_firstTimecode ≤ pkt.pts ∧ pkt.pts - s.m_firstTimecode < 2 ^ 63) →
      TimecodesOk (pkts.foldl (fun (acc : MatroskaMuxer) (pkt : BufferedPacket) =>
        acc.muxPacketInternal env pkt.toPacket) s) ∧
      PendingOk (pkts.foldl (fun (acc : MatroskaMuxer) (pkt : BufferedPacket) =>
        acc.muxPacketInternal env pkt.toPacket) s) := by
  induction pkts with
  | nil => intro s h1 h2 _; exact ⟨h1, h2⟩
  | cons a rest ih =>
    intro s h1 h2 hp
    rw [List.foldl_cons]
    obtain ⟨g1, g2⟩ := timesOk_muxPacketInternal env s a.toPacket h1 h2
      (hp a (List.mem_cons_self _ _))
    have hfirst := (muxPacketInternal_fields env s a.toPacket).2.2.1
    apply ih _ g1 g2
    intro pkt hpkt
    rw [hfirst]
    exact hp pkt (List.mem_cons_of_mem _ hpkt)

/-- The replay sets the origin to a buffered PTS that is at most every buffered PTS, so
every frame it flushes has a relative time that is not negative (the buffered PTS
values being less than `2^63` apart). -/
theorem timesOk_replay (env : Env) (s : MatroskaMuxer) (h1 : TimecodesOk s)
    (h2 : ∀ t ∈ s.m_tracks, t.hasPendingFrame = false)
    (hne : s.m_preHeaderPackets ≠ [])
    (hr : ∀ a ∈ s.m_preHeaderPackets, ∀ b ∈ s.m_preHeaderPackets, b.pts - a.pts < 2 ^ 63) :
    TimecodesOk (s.replayBufferedPackets env) ∧ PendingOk (s.replayBufferedPackets env) ∧
    ∃ q ∈ s.m_preHeaderPackets, q.pts = (s.replayBufferedPackets env).m_firstTimecode := by
  obtain ⟨-, ⟨q, hq, hqp⟩, k3, k4, -⟩ := replayBufferedPackets_core env s hne
  have hrange : ∃ q ∈ s.m_preHeaderPackets,
      q.pts = (s.replayBufferedPackets env).m_firstTimecode := ⟨q, hq, hqp⟩
  generalize (s.replayBufferedPackets env).m_firstTimecode = first at k3 k4 hrange hqp
  have hfold := timesOk_replayFold env s.m_preHeaderPackets
    ({ s with m_firstTimecode := first, m_firstTimecodeSet := true } : MatroskaMuxer) h1
    (fun t ht hp => absurd hp (by rw [h2 t ht]; exact Bool.false_ne_true))
    (fun pkt hpkt => by
      have h3 := k3 pkt hpkt
      have h4 := hr q hq pkt hpkt
      rw [hqp] at h4
      exact ⟨h3, h4⟩)
  rw [k4]
  exact ⟨timecodesOk_congr _ _ (by rfl) hfold.1, hfold.2, hrange⟩

theorem timecodesOk_start (s : MatroskaMuxer) (h : SessionStart s) : TimecodesOk s := by
  obtain ⟨⟨-, -, -, hb, -, -, -⟩, ho, -, hl, hc, -⟩ := h
  refine ⟨?_, ?_, ?_, ?_⟩
  · intro b hb'
    rw [hb] at hb'
    exact absurd hb' (List.not_mem_nil _)
  · intro c hc'
    rw [hc] at hc'
    exact absurd hc' (List.not_mem_nil _)
  · intro r hr
    rw [hl] at hr
    exact absurd hr (List.not_mem_nil _)
  · intro hopen
    rw [ho] at hopen
    exact absurd hopen Bool.false_ne_true

theorem header_state_ok (env : Env) (s0 : MatroskaMuxer) (hT : TimecodesOk s0)
    (hp : ∀ t ∈ s0.m_tracks, t.hasPendingFrame = false) :
    TimecodesOk (s0.writeDeferredHeader env) ∧
    ∀ t ∈ (s0.writeDeferredHeader env).m_tracks, t.hasPendingFrame = false := by
  refine ⟨timecodesOk_congr _ _ (writeDeferredHeader_timeView env s0) hT, ?_⟩
  intro t ht
  rw [header_tracks] at ht
  obtain ⟨a, ha, hat⟩ := List.mem_map.mp ht
  rw [← hat, (headerTrack_static env a).2.2.1]
  exact hp a ha

/-- The invariant of a session whose packets arrive in per-stream PTS order, once the
header is written: all recorded times are unchanged by the conversion to `uint64_t`, no
pending frame lies before the origin, the origin is the PTS of one of the packets, and
every registered stream has had a packet at or after the origin. -/
theorem session_times (env : Env) (s : MatroskaMuxer) (h : SessionStart s)
    (ps : List AVPacket) (hm : PtsMonotone ps) (hr : PtsSpanOk ps) :
    (ps.foldl (fun acc p => acc.muxPacket env p) s).m_headerWritten = true →
      TimecodesOk (ps.foldl (fun acc p => acc.muxPacket env p) s) ∧
      PendingOk (ps.foldl (fun acc p => acc.muxPacket env p) s) ∧
      (∃ q0 ∈ ps, q0.pts = (ps.foldl (fun acc p => acc.muxPacket env p) s).m_firstTimecode) ∧
      ∀ k ∈ s.m_tracks.map (fun t => t.streamIndex), ∃ q ∈ ps, q.stream_index = k ∧
        (ps.foldl (fun acc p => acc.muxPacket env p) s).m_firstTimecode ≤ q.pts := by
  induction ps using List.reverseRecOn with
  | nil =>
    intro hw
    simp only [List.foldl_nil] at hw
    rw [h.1.1] at hw
    exact absurd hw (by decide)
  | append_singleton l p ih =>
    intro hw'
    unfold PtsMonotone at hm
    obtain ⟨hm1, -, hm3⟩ := List.pairwise_append.mp hm
    have hrl : PtsSpanOk l := fun a ha b hb =>
      hr a (List.mem_append_left _ ha) b (List.mem_append_left _ hb)
    have hpm : p ∈ l ++ [p] := List.mem_append_right _ (List.mem_singleton_self p)
    obtain ⟨p1, p2, p3⟩ := awaiting_phase env s h.1 l
    cases hw : (l.foldl (fun acc p => acc.muxPacket env p) s).m_headerWritten with
    | true =>
      obtain ⟨i1, i2, i3, i4⟩ := ih hm1 hrl hw
      obtain ⟨hset, -⟩ := p3 hw
      rw [List.foldl_append, List.foldl_cons, List.foldl_nil]
      generalize l.foldl (fun acc p => acc.muxPacket env p) s = S at hw hset i1 i2 i3 i4 p1
      cases hacc : p.accepted S.m_tracks with
      | true =>
        rw [muxPacket_written env S p hacc hw hset]
        obtain ⟨-, t, hf⟩ := (accepted_iff _ _).mp hacc
        have hk : p.stream_index ∈ s.m_tracks.map (fun t => t.streamIndex) := by
          rw [← p1]
          exact (findTrack_isSome_iff _ _).mp ⟨t, hf⟩
        obtain ⟨q, hq, hqk, hqp⟩ := i4 _ hk
        have hle : q.pts ≤ p.pts := hm3 q hq p (List.mem_singleton_self p) hqk
        obtain ⟨q0, hq0, hq0p⟩ := i3
        have hsp := hr q0 (List.mem_append_left _ hq0) p hpm
        have hpp : S.m_firstTimecode ≤ p.pts ∧ p.pts - S.m_firstTimecode < 2 ^ 63 := by
          rw [← hq0p]
          exact ⟨by rw [hq0p]; exact le_trans hqp hle, hsp⟩
        obtain ⟨g1, g2⟩ := timesOk_muxPacketInternal env S p i1 i2 hpp
        have hfirst := (muxPacketInternal_fields env S p).2.2.1
        refine ⟨g1, g2, ⟨q0, List.mem_append_left _ hq0, by rw [hfirst]; exact hq0p⟩, ?_⟩
        intro k hk'
        obtain ⟨q', hq', hqk', hqp'⟩ := i4 k hk'
        exact ⟨q', List.mem_append_left _ hq', hqk', by rw [hfirst]; exact hqp'⟩
      | false =>
        rw [muxPacket_not_accepted env S p hacc]
        obtain ⟨q0, hq0, hq0p⟩ := i3
        refine ⟨i1, i2, ⟨q0, List.mem_append_left _ hq0, hq0p⟩, ?_⟩
        intro k hk'
        obtain ⟨q', hq', hqk', hqp'⟩ := i4 k hk'
        exact ⟨q', List.mem_append_left _ hq', hqk', hqp'⟩
    | false =>
      have hall := (headerWritten_iff env s h.1 (l ++ [p])).mp hw'
      obtain ⟨c1, heq, c3, c4⟩ := commit_step env s h.1 l p hw hall
      obtain ⟨-, -, o3⟩ := commit_origin env s h.1 l p hw hall
      have hT0 : TimecodesOk ((l.foldl (fun acc p => acc.muxPacket env p) s).bufferPacket p) := by
        rw [heq]
        exact timecodesOk_start s h
      have hP0 : ∀ t ∈ ((l.foldl (fun acc p => acc.muxPacket env p) s).bufferPacket p).m_tracks,
          t.hasPendingFrame = false := by
        rw [heq]
        intro t ht
        exact (h.1.2.2.2.2.2.2 t ht).1
      obtain ⟨hT, hP⟩ := header_state_ok env _ hT0 hP0
      rw [c3] at o3 ⊢
      generalize ((l.foldl (fun acc p => acc.muxPacket env p) s).bufferPacket p).writeDeferredHeader
        env = H at c4 hT hP o3
      have hne : H.m_preHeaderPackets ≠ [] := by
        rw [c4, List.filter_append, List.filter_cons, if_pos c1, List.map_append]
        exact List.append_ne_nil_of_right_ne_nil _ (List.cons_ne_nil _ _)
      have hrange : ∀ a ∈ H.m_preHeaderPackets, ∀ b ∈ H.m_preHeaderPackets,
          b.pts - a.pts < 2 ^ 63 := by
        intro a ha b hb
        rw [c4] at ha hb
        obtain ⟨qa, hqa, rfl⟩ := List.mem_map.mp ha
        obtain ⟨qb, hqb, rfl⟩ := List.mem_map.mp hb
        exact hr qa (List.mem_filter.mp hqa).1 qb (List.mem_filter.mp hqb).1
      obtain ⟨r1, r2, q0, hq0, hq0p⟩ := timesOk_replay env H hT hP hne hrange
      have hq0m : ∃ q1 ∈ l ++ [p], q1.pts = q0.pts := by
        rw [c4] at hq0
        obtain ⟨q1, hq1, rfl⟩ := List.mem_map.mp hq0
        exact ⟨q1, (List.mem_filter.mp hq1).1, rfl⟩
      obtain ⟨q1, hq1, hq1p⟩ := hq0m
      refine ⟨r1, r2, ⟨q1, hq1, hq1p.trans hq0p⟩, ?_⟩
      intro k hk
      obtain ⟨t, ht, htk⟩ := List.mem_map.mp hk
      obtain ⟨q, hq, hqa, hqk⟩ := hall t ht
      exact ⟨q, hq, hqk.trans htk, o3 q hq hqa⟩

theorem forced_times (env : Env) (s : MatroskaMuxer) (h : SessionStart s)
    (ps : List AVPacket) (hm : PtsMonotone ps) (hr : PtsSpanOk ps) :
    TimecodesOk ((ps.foldl (fun acc p => acc.muxPacket env p) s).headerForced env) ∧
    PendingOk ((ps.foldl (fun acc p => acc.muxPacket env p) s).headerForced env) := by
  cases hw : (ps.foldl (fun acc p => acc.muxPacket env p) s).m_headerWritten with
  | true =>
    obtain ⟨i1, i2, -, -⟩ := session_times env s h ps hm hr hw
    have hf : (ps.foldl (fun acc p => acc.muxPacket env p) s).headerForced env =
        ps.foldl (fun acc p => acc.muxPacket env p) s := by
      unfold MatroskaMuxer.headerForced
      rw [hw]
      rfl
    rw [hf]
    exact ⟨i1, i2⟩
  | false =>
    obtain ⟨-, h2, -⟩ := awaiting_phase env s h.1 ps
    obtain ⟨heq, -⟩ := h2 hw
    have hte : (ps.foldl (fun acc p => acc.muxPacket env p) s).m_tracks.isEmpty = false := by
      rw [heq]
      show s.m_tracks.isEmpty = false
      cases hx : s.m_tracks with
      | nil => exact absurd hx h.1.2.2.2.2.1
      | cons a rest => rfl
    have hf : (ps.foldl (fun acc p => acc.muxPacket env p) s).headerForced env =
        ((ps.foldl (fun acc p => acc.muxPacket env p) s).writeDeferredHeader
          env).replayBufferedPackets env := by
      unfold MatroskaMuxer.headerForced
      rw [hw, hte]
      rfl
    have hT0 : TimecodesOk (ps.foldl (fun acc p => acc.muxPacket env p) s) := by
      rw [heq]
      exact timecodesOk_start s h
    have hP0 : ∀ t ∈ (ps.foldl (fun acc p => acc.muxPacket env p) s).m_tracks,
        t.hasPendingFrame = false := by
      rw [heq]
      intro t ht
      exact (h.1.2.2.2.2.2.2 t ht).1
    have c4 : ((ps.foldl (fun acc p => acc.muxPacket env p) s).writeDeferredHeader
        env).m_preHeaderPackets =
        (ps.filter (fun p => p.accepted s.m_tracks)).map AVPacket.toBuffered := by
      rw [(writeDeferredHeader_fields env _).2.2.2.2.2.1, heq]
    obtain ⟨hT, hP⟩ := header_state_ok env _ hT0 hP0
    rw [hf]
    generalize (ps.foldl (fun acc p => acc.muxPacket env p) s).writeDeferredHeader env = H
      at c4 hT hP
    by_cases hne : H.m_preHeaderPackets = []
    · rw [replayBufferedPackets_nil env H hne]
      exact ⟨hT, fun t ht hp => absurd hp (by rw [hP t ht]; exact Bool.false_ne_true)⟩
    · have hrange : ∀ a ∈ H.m_preHeaderPackets, ∀ b ∈ H.m_preHeaderPackets,
          b.pts - a.pts < 2 ^ 63 := by
        intro a ha b hb
        rw [c4] at ha hb
        obtain ⟨qa, hqa, rfl⟩ := List.mem_map.mp ha
        obtain ⟨qb, hqb, rfl⟩ := List.mem_map.mp hb
        exact hr qa (List.mem_filter.mp hqa).1 qb (List.mem_filter.mp hqb).1
      obtain ⟨r1, r2, -⟩ := timesOk_replay env H hT hP hne hrange
      exact ⟨r1, r2⟩

theorem timecodesOk_flushTracks (env : Env) (ts : List MkvTrackInfo) :
    ∀ s : MatroskaMuxer, TimecodesOk s →
      (∀ t ∈ ts, t.hasPendingFrame = true →
        s.m_firstTimecode ≤ t.pendingPts ∧ t.pendingPts - s.m_firstTimecode < 2 ^ 63) →
      TimecodesOk (flushTracks env s ts).1 := by
  induction ts with
  | nil => intro s h _; exact h
  | cons t rest ih =>
    intro s h hp
    show TimecodesOk (flushTracks env (s.flushPendingFrame env t).1 rest).1
    have hfirst := (flushPendingFrame_spec env s t).2.2.2.1
    apply ih _ (timecodesOk_flushPendingFrame env s t h (hp t (List.mem_cons_self _ _)))
    intro x hx
    rw [hfirst]
    exact hp x (List.mem_cons_of_mem _ hx)

theorem timecodesOk_finish (env : Env) (f : MatroskaMuxer) (h : TimecodesOk f) :
    TimecodesOk (((((f.flushCluster).writeCues).writeSeekHead).patchSegmentSize).patchDuration
      env) := by
  have h4 : TimecodesOk f.flushCluster := timecodesOk_flushCluster f h
  generalize f.flushCluster = g at h4
  have h5 : TimecodesOk g.writeCues := timecodesOk_congr g.writeCues g (writeCues_timeView g) h4
  generalize g.writeCues = w at h5
  have h6 : TimecodesOk w.writeSeekHead :=
    timecodesOk_congr w.writeSeekHead w (writeSeekHead_timeView w) h5
  generalize w.writeSeekHead = k at h6
  have h7 : TimecodesOk k.patchSegmentSize :=
    timecodesOk_congr k.patchSegmentSize k (patchSegmentSize_timeView k) h6
  generalize k.patchSegmentSize = q at h7
  exact timecodesOk_congr (q.patchDuration env) q (patchDuration_timeView env q) h7

theorem session_times_close (env : Env) (s : MatroskaMuxer) (h : SessionStart s)
    (ps : List AVPacket) (hm : PtsMonotone ps) (hr : PtsSpanOk ps) :
    TimecodesOk (muxSession env s ps) := by
  obtain ⟨f1, f2⟩ := forced_times env s h ps hm hr
  have h3 : TimecodesOk (((ps.foldl (fun acc p => acc.muxPacket env p) s).headerForced
      env).flushAllPendingFrames env) :=
    timecodesOk_congr _ _ (by rfl) (timecodesOk_flushTracks env _ _ f1 f2)
  have e : muxSession env s ps =
      ((((((ps.foldl (fun acc p => acc.muxPacket env p) s).headerForced
        env).flushAllPendingFrames env).flushCluster).writeCues).writeSeekHead).patchSegmentSize.patchDuration
        env := by
    unfold muxSession
    rw [close_eq]
    rfl
  rw [e]
  exact timecodesOk_finish env _ h3

/-- C39: when the packets of each stream arrive in non-decreasing PTS order (whatever
the interleaving of the streams) and any two PTS values are less than `2^63` ticks
apart, then at every point after the deferred header commit every pending frame has
`0 <= pending_pts - first_timecode < 2^63` (the `int64_t` subtraction of line 1128 does
not overflow) and `rel_ms = (pending_pts - first_timecode) / 5292000 >= 0`, so every
block flushed in the session has `rel_ms >= 0`, and the timecode of every cluster (open
or written) and the time of every cue entry is not negative and is unchanged by the
conversion to `uint64_t`. -/
theorem relative_times_nonneg (env : Env) (s : MatroskaMuxer) (h : SessionStart s)
    (ps : List AVPacket) (hm : PtsMonotone ps) (hr : PtsSpanOk ps) :
    ((ps.foldl (fun acc p => acc.muxPacket env p) s).m_headerWritten = true →
      (∀ t ∈ (ps.foldl (fun acc p => acc.muxPacket env p) s).m_tracks,
        t.hasPendingFrame = true →
        (0 ≤ t.pendingPts - (ps.foldl (fun acc p => acc.muxPacket env p) s).m_firstTimecode ∧
          t.pendingPts - (ps.foldl (fun acc p => acc.muxPacket env p) s).m_firstTimecode <
            2 ^ 63) ∧
        (pendingBlock env (ps.foldl (fun acc p => acc.muxPacket env p) s) t).relMs =
          Int.tdiv (t.pendingPts -
            (ps.foldl (fun acc p => acc.muxPacket env p) s).m_firstTimecode) 5292000 ∧
        0 ≤ (pendingBlock env (ps.foldl (fun acc p => acc.muxPacket env p) s) t).relMs) ∧
      ((ps.foldl (fun acc p => acc.muxPacket env p) s).m_clusterOpen = true →
        0 ≤ (ps.foldl (fun acc p => acc.muxPacket env p) s).m_clusterTimecodeMs ∧
        ((toUInt64 (ps.foldl (fun acc p => acc.muxPacket env p) s).m_clusterTimecodeMs : Nat) :
          Int) = (ps.foldl (fun acc p => acc.muxPacket env p) s).m_clusterTimecodeMs)) ∧
    (∀ b ∈ (muxSession env s ps).blockLog, 0 ≤ b.relMs) ∧
    (∀ r ∈ (muxSession env s ps).clusterLog,
      0 ≤ r.timecodeMs ∧ ((toUInt64 r.timecodeMs : Nat) : Int) = r.timecodeMs) ∧
    (∀ c ∈ (muxSession env s ps).m_cueEntries,
      0 ≤ c.timecodeMs ∧ ((toUInt64 c.timecodeMs : Nat) : Int) = c.timecodeMs) := by
  obtain ⟨k1, k2, k3, -⟩ := session_times_close env s h ps hm hr
  refine ⟨fun hw => ?_, fun b hb => (k1 b hb).1, fun r hr' => ⟨(k3 r hr').1,
    toUInt64_of_ok _ (k3 r hr')⟩, fun c hc => ⟨(k2 c hc).1, toUInt64_of_ok _ (k2 c hc)⟩⟩
  obtain ⟨i1, i2, -, -⟩ := session_times env s h ps hm hr hw
  refine ⟨fun t ht hp => ?_, fun ho => ⟨(i1.2.2.2 ho).1, toUInt64_of_ok _ (i1.2.2.2 ho)⟩⟩
  obtain ⟨a1, a2⟩ := i2 t ht hp
  exact ⟨⟨Int.sub_nonneg_of_le a1, a2⟩, rfl, (uInt64Ok_relMs _ _ a1 a2).1⟩

set_option maxRecDepth 100000 in
theorem samplePackets_ordered :
    PtsMonotone (sampleVideoPackets ++ [sampleAudioPacket]) ∧
    PtsSpanOk (sampleVideoPackets ++ [sampleAudioPacket]) := by
  decide

set_option maxRecDepth 100000 in
theorem sample_pending_after_commit :
    (((sampleVideoPackets ++ [sampleAudioPacket]).foldl
      (fun acc p => acc.muxPacket sampleEnv p) sampleMuxer).m_headerWritten = true) ∧
    ((sampleVideoPackets ++ [sampleAudioPacket]).foldl
      (fun acc p => acc.muxPacket sampleEnv p) sampleMuxer).m_firstTimecode = 105840000 ∧
    (((sampleVideoPackets ++ [sampleAudioPacket]).foldl
      (fun acc p => acc.muxPacket sampleEnv p) sampleMuxer).m_tracks.map
        (fun t => (t.hasPendingFrame, t.pendingPts))) = [(true, 211680000), (true, 105840000)] := by
  decide

theorem relative_times_nonneg_witness :
    SessionStart sampleMuxer ∧ PtsMonotone (sampleVideoPackets ++ [sampleAudioPacket]) ∧
    PtsSpanOk (sampleVideoPackets ++ [sampleAudioPacket]) ∧
    (∀ b ∈ (muxSession sampleEnv sampleMuxer
      (sampleVideoPackets ++ [sampleAudioPacket])).blockLog, 0 ≤ b.relMs) ∧
    (∀ r ∈ (muxSession sampleEnv sampleMuxer
      (sampleVideoPackets ++ [sampleAudioPacket])).clusterLog,
      0 ≤ r.timecodeMs ∧ ((toUInt64 r.timecodeMs : Nat) : Int) = r.timecodeMs) ∧
    (∀ c ∈ (muxSession sampleEnv sampleMuxer
      (sampleVideoPackets ++ [sampleAudioPacket])).m_cueEntries,
      0 ≤ c.timecodeMs ∧ ((toUInt64 c.timecodeMs : Nat) : Int) = c.timecodeMs) :=
  ⟨sampleMuxer_start, samplePackets_ordered.1, samplePackets_ordered.2,
    (relative_times_nonneg sampleEnv sampleMuxer sampleMuxer_start
      (sampleVideoPackets ++ [sampleAudioPacket]) samplePackets_ordered.1
      samplePackets_ordered.2).2⟩

end TsMuxer
